import Mathlib

/-!
The text buffer of the LITE editor: line store, cursor and file bridge, and
the buffer set and command line of the editor.

A shallow embedding of `src/core/buffer.c`, `src/fs/file.c` and of the
buffer-set, key-handling and command functions of `src/core/editor.c` and
`src/core/command.c`.

* `Line` nodes live in a heap addressed by natural numbers; `prev`/`next` are
  optional addresses (a `NULL` pointer is `none`).  A freed node reads as
  `none`.
* The character block `data` of a line is a list of cells.  A cell is
  `some v` for an initialised byte `v` and `none` for a byte whose value is
  indeterminate (fresh from `malloc`/`realloc`).
* `int` fields are integers.  Sums that involve a caller supplied operand
  (`cursor_x += dx`), the id counter (`next_buffer_id++`) and the sums on
  line lengths of `buffer_insert_char` and of the merge path of
  `buffer_delete_char` are reduced to 32 bits with `wrap32`; the counters of
  `Line` nodes (`line_count`, `cursor_y`), which only 2^31 live nodes could
  overflow, are left unreduced.
* Every operation returns an `Option`: `none` means that the C program has
  no defined behaviour on that input (a `NULL` or dangling dereference, an
  access outside a block, a read of an indeterminate byte by a string
  function, a loop that does not terminate).
* Allocation outcomes are explicit boolean arguments of each operation.
* The arrays `buffers` and `command_buffer` of the editor state are lists;
  a store or a read outside the declared size of the array is `none`.
-/

namespace Lite

/-! ## Constants of `lite.h` -/

def LITE_OK : Int := 0
def LITE_ERROR : Int := -1
def LITE_ERROR_FILE_NOT_FOUND : Int := -2
def LITE_ERROR_BUFFER_FULL : Int := -3
def LITE_MAX_BUFFERS : Nat := 10
def LITE_MAX_LINE_LENGTH : Nat := 1024

/-! ## Memory model -/

/-- One byte of an allocated block: `some v` initialised, `none` indeterminate. -/
abbrev Cell := Option Nat

/-- The struct `Line` of `buffer.h`; `data` is the block `data` points to. -/
structure Line where
  data : List Cell
  length : Int
  prev : Option Nat
  next : Option Nat
deriving DecidableEq

/-- The store of `Line` nodes: address `a` holds `h[a]`, `none` once freed. -/
abbrev Heap := List (Option Line)

/-- Dereference a `Line*`; `none` for an address that is not a live node. -/
def rd (h : Heap) (a : Nat) : Option Line := (h[a]?).getD none

/-- Store a node at a live address. -/
def wr (h : Heap) (a : Nat) (l : Line) : Heap := h.set a (some l)

/-- Release the node at address `a`. -/
def free_line (h : Heap) (a : Nat) : Heap := h.set a none

/-- The struct `Buffer` of `buffer.h`. -/
structure Buffer where
  filename : Option (List Nat)
  first_line : Option Nat
  current_line : Option Nat
  line_count : Int
  cursor_x : Int
  cursor_y : Int
  scroll_x : Int
  scroll_y : Int
  modified : Bool
  id : Int
deriving DecidableEq

/-- A buffer together with the heap its lines live in. -/
structure State where
  heap : Heap
  buf : Buffer
deriving DecidableEq

/-- Two's complement reduction of an integer to the range of a 32-bit `int`. -/
def wrap32 (x : Int) : Int := (x + 2147483648) % 4294967296 - 2147483648

/-- The conversion `(char)ch`, as the value of the stored byte. -/
def to_char (ch : Int) : Nat := (ch % 256).toNat

/-- Result of `realloc(p, n)` on success: the first `n` cells are kept, new
cells are indeterminate. -/
def realloc (d : List Cell) (n : Int) : List Cell :=
  d.take n.toNat ++ List.replicate (n.toNat - d.length) none

/-- The call `memmove(d + dst, d + src, n)` inside one block. -/
def memmove (d : List Cell) (dst src n : Int) : Option (List Cell) :=
  if 0 ≤ dst ∧ 0 ≤ src ∧ 0 ≤ n ∧ dst + n ≤ d.length ∧ src + n ≤ d.length then
    some (d.take dst.toNat ++ (d.drop src.toNat).take n.toNat ++ d.drop (dst.toNat + n.toNat))
  else none

/-- The call `memcpy(d + off, src, n)` between two distinct blocks. -/
def memcpy (d : List Cell) (off : Int) (src : List Cell) (n : Int) : Option (List Cell) :=
  if 0 ≤ off ∧ 0 ≤ n ∧ off + n ≤ d.length ∧ n ≤ src.length then
    some (d.take off.toNat ++ src.take n.toNat ++ d.drop (off.toNat + n.toNat))
  else none

/-- The cells of the C string that starts at the head of the list, terminator
included; `none` when an indeterminate cell or the end of the block comes
before any terminator. -/
def cstr : List Cell → Option (List Cell)
  | [] => none
  | none :: _ => none
  | some 0 :: _ => some [some 0]
  | some (v + 1) :: t => (cstr t).map (fun w => some (v + 1) :: w)

/-- The call `strcpy(d, src + off)`. -/
def strcpy (d : List Cell) (src : List Cell) (off : Int) : Option (List Cell) :=
  if 0 ≤ off ∧ off ≤ src.length then
    match cstr (src.drop off.toNat) with
    | none => none
    | some w => if w.length ≤ d.length then some (w ++ d.drop w.length) else none
  else none

/-- The store `d[i] = v`. -/
def poke (d : List Cell) (i : Int) (v : Nat) : Option (List Cell) :=
  if 0 ≤ i ∧ i < d.length then some (d.set i.toNat (some v)) else none

/-! ## `buffer.c` -/

/-- The function `create_line`: `none` is the `NULL` result of a failed
allocation, otherwise the address of the new empty line and the new heap. -/
def create_line (h : Heap) (ok_line ok_data : Bool) : Option (Nat × Heap) :=
  if ok_line && ok_data then
    some (h.length, h ++ [some { data := [some 0], length := 0, prev := none, next := none }])
  else none

/-- The function `buffer_create`, given the value of the static counter
`next_buffer_id`; returns the buffer (`none` for `NULL`) and the new counter.
The statement `buffer->id = next_buffer_id++` comes before `create_line`, so
a call whose `create_line` fails has used an id. The increment is reduced to
32 bits (it overflows `int` when the counter is `INT_MAX`). -/
def buffer_create (next_buffer_id : Int) (ok_buffer ok_line ok_data : Bool) :
    Option State × Int :=
  if ok_buffer then
    match create_line [] ok_line ok_data with
    | none => (none, wrap32 (next_buffer_id + 1))
    | some (a, h) =>
      (some { heap := h,
              buf := { filename := none, first_line := some a, current_line := some a,
                       line_count := 1, cursor_x := 0, cursor_y := 0, scroll_x := 0,
                       scroll_y := 0, modified := false, id := next_buffer_id } },
       wrap32 (next_buffer_id + 1))
  else (none, next_buffer_id)

/-- The function `buffer_insert_char`; `ok` is the outcome of its `realloc`.
The `int` sums `line->length + 2`, `line->length++` and `cursor_x++` are
reduced to 32 bits. A failed `realloc` returns `LITE_ERROR` whatever size was
asked for; a `realloc` that succeeds with a size which, as an `int`, is not
positive (the sum has overflowed) is left undefined (`none`). -/
def buffer_insert_char (s : State) (ch : Int) (ok : Bool) : Option (Int × State) :=
  match s.buf.current_line with
  | none => some (LITE_ERROR, s)
  | some a =>
    match rd s.heap a with
    | none => none
    | some line =>
      let pos := s.buf.cursor_x
      if !ok then some (LITE_ERROR, s)
      else if wrap32 (line.length + 2) ≤ 0 then none
      else
        let new_data := realloc line.data (wrap32 (line.length + 2))
        match memmove new_data (pos + 1) pos (line.length - pos + 1) with
        | none => none
        | some d1 =>
          match poke d1 pos (to_char ch) with
          | none => none
          | some d2 =>
            some (LITE_OK,
              { heap := wr s.heap a
                  { line with data := d2, length := wrap32 (line.length + 1) },
                buf := { s.buf with
                  cursor_x := wrap32 (s.buf.cursor_x + 1), modified := true } })

/-- The statement `if (line->next) line->next->prev = p` on heap `h`. -/
def relink_next (h : Heap) (next : Option Nat) (p : Nat) : Option Heap :=
  match next with
  | none => some h
  | some n =>
    match rd h n with
    | none => none
    | some nl => some (wr h n { nl with prev := some p })

/-- The function `buffer_delete_char`; `ok` is the outcome of the `realloc`
of the merge path. The `int` sums `prev_length + line->length + 1` and
`prev_line->length += line->length` are reduced to 32 bits. A failed
`realloc` returns `LITE_ERROR` whatever size was asked for; a `realloc` that
succeeds with a size which, as an `int`, is not positive (the sum has
overflowed) is left undefined (`none`). -/
def buffer_delete_char (s : State) (ok : Bool) : Option (Int × State) :=
  match s.buf.current_line with
  | none => some (LITE_ERROR, s)
  | some a =>
    match rd s.heap a with
    | none => none
    | some line =>
      let pos := s.buf.cursor_x
      if pos = 0 then
        match line.prev with
        | some p =>
          match rd s.heap p with
          | none => none
          | some prev_line =>
            let prev_length := prev_line.length
            if !ok then some (LITE_ERROR, s)
            else if wrap32 (prev_length + line.length + 1) ≤ 0 then none
            else
              let new_data :=
                realloc prev_line.data (wrap32 (prev_length + line.length + 1))
              match memcpy new_data prev_length line.data (line.length + 1) with
              | none => none
              | some d =>
                let h1 := wr s.heap p { prev_line with
                  data := d, length := wrap32 (prev_length + line.length),
                  next := line.next }
                match relink_next h1 line.next p with
                | none => none
                | some h2 =>
                  some (LITE_OK,
                    { heap := free_line h2 a,
                      buf := { s.buf with
                        current_line := some p, cursor_x := prev_length,
                        cursor_y := s.buf.cursor_y - 1,
                        line_count := s.buf.line_count - 1, modified := true } })
        | none => some (LITE_OK, s)
      else
        match memmove line.data (pos - 1) pos (line.length - pos + 1) with
        | none => none
        | some d =>
          some (LITE_OK,
            { heap := wr s.heap a { line with data := d, length := line.length - 1 },
              buf := { s.buf with cursor_x := s.buf.cursor_x - 1, modified := true } })

/-- The block `if (pos < current->length) { ... }` of `buffer_new_line`, applied
to the freshly created line and the current line: `some (some (new_line, current))`
are the two records after the block, `some none` is the failure of its
`realloc`. -/
def split_line (current : Line) (pos : Int) (ok_re : Bool) : Option (Option (Line × Line)) :=
  let fresh : Line := { data := [some 0], length := 0, prev := none, next := none }
  if pos < current.length then
    if current.length - pos + 1 ≤ 0 then none
    else if !ok_re then some none
    else
      match strcpy (realloc fresh.data (current.length - pos + 1)) current.data pos with
      | none => none
      | some nd =>
        match poke current.data pos 0 with
        | none => none
        | some cd =>
          some (some ({ fresh with data := nd, length := current.length - pos },
                      { current with data := cd, length := pos }))
  else some (some (fresh, current))

/-- The function `buffer_new_line`; `ok_line`, `ok_data` are the outcomes of
the two `malloc` calls of `create_line`, `ok_re` of the `realloc`. -/
def buffer_new_line (s : State) (ok_line ok_data ok_re : Bool) : Option (Int × State) :=
  match s.buf.current_line with
  | none => some (LITE_ERROR, s)
  | some c =>
    match rd s.heap c with
    | none => none
    | some current =>
      let pos := s.buf.cursor_x
      match create_line s.heap ok_line ok_data with
      | none => some (LITE_ERROR, s)
      | some (n, h0) =>
        match split_line current pos ok_re with
        | none => none
        | some none => some (LITE_ERROR, { s with heap := free_line h0 n })
        | some (some (new_line, current1)) =>
          let h1 := wr (wr h0 n { new_line with next := current1.next, prev := some c })
                      c current1
          match relink_next h1 current1.next n with
          | none => none
          | some h2 =>
            match rd h2 c with
            | none => none
            | some current2 =>
              some (LITE_OK,
                { heap := wr h2 c { current2 with next := some n },
                  buf := { s.buf with
                    current_line := some n, cursor_x := 0,
                    cursor_y := s.buf.cursor_y + 1,
                    line_count := s.buf.line_count + 1, modified := true } })

/-- The first loop of `buffer_move_cursor`:
`while (dy < 0 && current_line->prev) { current_line = prev; cursor_y--; dy++; }`.
Each iteration increments `dy`, so `(-dy).toNat` iterations are enough; the
first argument is that bound. -/
def move_up : Nat → State → Int → Option (State × Int)
  | 0, s, dy => some (s, dy)
  | k + 1, s, dy =>
    if dy < 0 then
      match s.buf.current_line with
      | none => none
      | some a =>
        match rd s.heap a with
        | none => none
        | some ln =>
          match ln.prev with
          | none => some (s, dy)
          | some p =>
            move_up k { s with buf := { s.buf with
              current_line := some p, cursor_y := s.buf.cursor_y - 1 } } (dy + 1)
    else some (s, dy)

/-- The second loop of `buffer_move_cursor`:
`while (dy > 0 && current_line->next) { current_line = next; cursor_y++; dy--; }`. -/
def move_down : Nat → State → Int → Option (State × Int)
  | 0, s, dy => some (s, dy)
  | k + 1, s, dy =>
    if dy > 0 then
      match s.buf.current_line with
      | none => none
      | some a =>
        match rd s.heap a with
        | none => none
        | some ln =>
          match ln.next with
          | none => some (s, dy)
          | some n =>
            move_down k { s with buf := { s.buf with
              current_line := some n, cursor_y := s.buf.cursor_y + 1 } } (dy - 1)
    else some (s, dy)

/-- The two clamping statements that end `buffer_move_cursor` and
`buffer_set_cursor`, applied to the already updated `cursor_x`. -/
def clamp_cursor (s : State) : Option State :=
  let s1 : State :=
    if s.buf.cursor_x < 0 then { s with buf := { s.buf with cursor_x := 0 } } else s
  match s1.buf.current_line with
  | none => none
  | some a =>
    match rd s1.heap a with
    | none => none
    | some ln =>
      if s1.buf.cursor_x > ln.length then
        some { s1 with buf := { s1.buf with cursor_x := ln.length } }
      else some s1

/-- The function `buffer_move_cursor`. -/
def buffer_move_cursor (s : State) (dx dy : Int) : Option State :=
  match move_up (-dy).toNat s dy with
  | none => none
  | some (s1, dy1) =>
    match move_down dy1.toNat s1 dy1 with
    | none => none
    | some (s2, _) =>
      clamp_cursor { s2 with buf := { s2.buf with cursor_x := wrap32 (s2.buf.cursor_x + dx) } }

/-- The loop of `buffer_set_cursor`:
`while (cursor_y < y && current_line->next) { current_line = next; cursor_y++; }`;
the first argument bounds the number of iterations by `y - cursor_y`. -/
def seek_down : Nat → State → Int → Option State
  | 0, s, _ => some s
  | k + 1, s, y =>
    if s.buf.cursor_y < y then
      match s.buf.current_line with
      | none => none
      | some a =>
        match rd s.heap a with
        | none => none
        | some ln =>
          match ln.next with
          | none => some s
          | some n =>
            seek_down k { s with buf := { s.buf with
              current_line := some n, cursor_y := s.buf.cursor_y + 1 } } y
    else some s

/-- The function `buffer_set_cursor`. -/
def buffer_set_cursor (s : State) (x y : Int) : Option State :=
  let s0 : State := { s with buf := { s.buf with
    current_line := s.buf.first_line, cursor_y := 0 } }
  match seek_down y.toNat s0 y with
  | none => none
  | some s1 => clamp_cursor { s1 with buf := { s1.buf with cursor_x := x } }

/-! ## Observations on a state -/

/-- Addresses of the nodes reached from `p` by following `next` links, at
most `fuel` of them. -/
def reach (h : Heap) : Nat → Option Nat → List Nat
  | 0, _ => []
  | _ + 1, none => []
  | k + 1, some a =>
    a :: (match rd h a with
          | some ln => reach h k ln.next
          | none => [])

/-- Addresses of the `Line` nodes reachable from `first_line`, in order. -/
def line_addrs (s : State) : List Nat := reach s.heap s.heap.length s.buf.first_line

/-- The number of `Line` nodes reachable from `first_line`. -/
def node_count (s : State) : Nat := (line_addrs s).length

/-- The characters of a line: the first `length` cells of its block. -/
def content (ln : Line) : List Cell := ln.data.take ln.length.toNat

/-- The content of the node at an address (empty for a dead address). -/
def content_at (h : Heap) (a : Nat) : List Cell :=
  match rd h a with
  | some ln => content ln
  | none => []

/-- The line sequence of a buffer: the contents of its lines from the head. -/
def lines (s : State) : List (List Cell) := (line_addrs s).map (content_at s.heap)

/-- The `length` field of the node at an address. -/
def length_at (h : Heap) (a : Nat) : Int :=
  match rd h a with
  | some ln => ln.length
  | none => 0

/-- The `length` fields of the lines of a buffer, from the head. -/
def lengths (s : State) : List Int := (line_addrs s).map (length_at s.heap)

/-- The `length` field of `current_line`. -/
def current_length (s : State) : Option Int :=
  match s.buf.current_line with
  | none => none
  | some a => (rd s.heap a).map (fun ln => ln.length)

/-- The content of `current_line`. -/
def current_content (s : State) : Option (List Cell) :=
  match s.buf.current_line with
  | none => none
  | some a => (rd s.heap a).map content

/-- A list of byte values as initialised cells. -/
def cells (S : List Nat) : List Cell := S.map some

/-! ## Sequences of calls -/

/-- One call of the buffer API, with the outcomes of its allocations. -/
inductive Op where
  | insert (ch : Int) (ok : Bool)
  | delete (ok : Bool)
  | newline (ok_line ok_data ok_re : Bool)
  | move (dx dy : Int)
  | set (x y : Int)
deriving DecidableEq

/-- Perform one call; the return code of the mutators is dropped. -/
def step (s : State) : Op → Option State
  | .insert ch ok => (buffer_insert_char s ch ok).map (fun r => r.2)
  | .delete ok => (buffer_delete_char s ok).map (fun r => r.2)
  | .newline a b c => (buffer_new_line s a b c).map (fun r => r.2)
  | .move dx dy => buffer_move_cursor s dx dy
  | .set x y => buffer_set_cursor s x y

/-- Perform a sequence of calls from left to right. -/
def run : List Op → State → Option State
  | [], s => some s
  | op :: ops, s =>
    match step s op with
    | none => none
    | some s1 => run ops s1

/-- The buffer returned by a successful `buffer_create` when the static
counter holds `next_id`. -/
def fresh_buffer (next_id : Int) : State :=
  { heap := [some { data := [some 0], length := 0, prev := none, next := none }],
    buf := { filename := none, first_line := some 0, current_line := some 0,
             line_count := 1, cursor_x := 0, cursor_y := 0, scroll_x := 0,
             scroll_y := 0, modified := false, id := next_id } }

/-! ## Well-formedness -/

/-- Check that `l` lists, in order, the nodes of a doubly linked segment that
starts at pointer `p`, whose first node has `prev = pv`, and whose last
node has `next = q` (for the empty list, `p = q`). -/
def seg_ok (h : Heap) : Option Nat → Option Nat → List Nat → Option Nat → Bool
  | _, p, [], q => decide (p = q)
  | pv, p, a :: l, q =>
    decide (p = some a) &&
      (match rd h a with
       | some ln => decide (ln.prev = pv) && seg_ok h (some a) ln.next l q
       | none => false)

/-- The list `l` is a doubly linked segment of the heap from `p` to `q`. -/
def Seg (h : Heap) (pv p : Option Nat) (l : List Nat) (q : Option Nat) : Prop :=
  seg_ok h pv p l q = true

instance (h : Heap) (pv p : Option Nat) (l : List Nat) (q : Option Nat) :
    Decidable (Seg h pv p l q) :=
  inferInstanceAs (Decidable (seg_ok h pv p l q = true))

/-- The node at `a` is live, `length` is not negative, the block has room
for `length` characters and a terminator, and the size `length + 1` of that
room is representable as an `int` (every block size is computed as one). -/
def line_ok_at (h : Heap) (a : Nat) : Bool :=
  match rd h a with
  | some ln =>
    decide (0 ≤ ln.length ∧ ln.length < ln.data.length ∧ ln.length < 2147483647)
  | none => false

/-- The node at `a` is live and its block is a C string of exactly `length`
characters: initialised non-NUL bytes followed by a NUL. -/
def is_cstr_at (h : Heap) (a : Nat) : Bool :=
  match rd h a with
  | some ln => decide (cstr ln.data = some (content ln ++ [some 0]))
  | none => false

/-- The `length` field of `current_line` (0 when there is none). -/
def current_len (s : State) : Int :=
  match s.buf.current_line with
  | some a => length_at s.heap a
  | none => 0

/-- The buffer invariant: the nodes reachable from `first_line` form a doubly
linked list that ends in `NULL`, every block has room for its line and a
size that fits an `int`,
`line_count` is the number of nodes, `current_line` is the node at row
`cursor_y`, and `0 ≤ cursor_x ≤ current_line->length`. -/
def Inv (s : State) : Prop :=
  Seg s.heap none s.buf.first_line (line_addrs s) none ∧
  (∀ a ∈ line_addrs s, line_ok_at s.heap a = true) ∧
  s.buf.line_count = node_count s ∧
  0 ≤ s.buf.cursor_y ∧
  s.buf.current_line ≠ none ∧
  (line_addrs s)[s.buf.cursor_y.toNat]? = s.buf.current_line ∧
  0 ≤ s.buf.cursor_x ∧
  s.buf.cursor_x ≤ current_len s

instance (s : State) : Decidable (Inv s) := by
  unfold Inv; infer_instance

/-- Every line of the buffer is a C string of exactly `length` characters. -/
def AllStrings (s : State) : Prop :=
  ∀ a ∈ line_addrs s, is_cstr_at s.heap a = true

instance (s : State) : Decidable (AllStrings s) := by
  unfold AllStrings; infer_instance

/-- The calls of a sequence never insert a NUL byte. -/
def no_nul : List Op → Bool
  | [] => true
  | .insert ch _ :: ops => decide (to_char ch ≠ 0) && no_nul ops
  | _ :: ops => no_nul ops

/-- The invariant with the list of line addresses made explicit. -/
def Good (s : State) (l : List Nat) : Prop :=
  Seg s.heap none s.buf.first_line l none ∧
  (∀ a ∈ l, line_ok_at s.heap a = true) ∧
  s.buf.line_count = l.length ∧
  0 ≤ s.buf.cursor_y ∧
  s.buf.current_line ≠ none ∧
  l[s.buf.cursor_y.toNat]? = s.buf.current_line ∧
  0 ≤ s.buf.cursor_x ∧
  s.buf.cursor_x ≤ current_len s

/-- The `prev` pointer expected of the node that follows the list `l`, when
the node before `l` is `pv`. -/
def last_or (pv : Option Nat) : List Nat → Option Nat
  | [] => pv
  | a :: l => last_or (some a) l

/-- The pointer to the first node of `l`, or `q` when `l` is empty. -/
def head_or (q : Option Nat) : List Nat → Option Nat
  | [] => q
  | a :: _ => some a

/-- The cursor of `s` is on the node `a` (record `ln`), which splits the list
of line addresses as `l1 ++ a :: l2`; the block of the line is
`A ++ B ++ t :: R` with `A` the characters before the cursor, `B` the
characters from the cursor on, `t` the cell at index `length`. -/
def At (s : State) (l : List Nat) (a : Nat) (ln : Line) (l1 l2 : List Nat)
    (A B : List Cell) (t : Cell) (R : List Cell) : Prop :=
  s.buf.current_line = some a ∧ rd s.heap a = some ln ∧ l = l1 ++ a :: l2 ∧
  s.buf.cursor_y = ↑l1.length ∧ ln.data = A ++ B ++ t :: R ∧
  s.buf.cursor_x = ↑A.length ∧ ln.length = ((A.length + B.length : Nat) : Int) ∧
  ln.prev = last_or none l1 ∧ ln.next = head_or none l2

/-- The block and the `length` field of the node at an address. -/
def payload (h : Heap) (a : Nat) : Option (List Cell × Int) :=
  (rd h a).map (fun ln => (ln.data, ln.length))

/-- The invariant without the bounds on `cursor_x`; it holds between the
vertical and the horizontal part of a cursor motion. -/
def Pos (s : State) (l : List Nat) : Prop :=
  Seg s.heap none s.buf.first_line l none ∧
  (∀ a ∈ l, line_ok_at s.heap a = true) ∧
  s.buf.line_count = l.length ∧
  0 ≤ s.buf.cursor_y ∧
  s.buf.current_line ≠ none ∧
  l[s.buf.cursor_y.toNat]? = s.buf.current_line

/-- The state `s` with the cursor moved to node `b` at row `k`. -/
def at_row (s : State) (b : Option Nat) (k : Int) : State :=
  { s with buf := { s.buf with current_line := b, cursor_y := k } }

/-- The state `s` with `cursor_x` replaced. -/
def at_col (s : State) (x : Int) : State :=
  { s with buf := { s.buf with cursor_x := x } }

/-- The node at address `i` of a buffer of `n` lines laid out at the
addresses `0 .. n-1`, holding the C string `S`. -/
def node_of (n i : Nat) (S : List Nat) : Option Line :=
  some { data := cells S ++ [some 0], length := S.length,
         prev := if i = 0 then none else some (i - 1),
         next := if i + 1 < n then some (i + 1) else none }

/-- A buffer whose lines are the C strings `L`, node `i` at address `i`, with
the cursor at column `x` of row `y`; used for concrete examples. -/
def buffer_of (L : List (List Nat)) (x : Int) (y : Nat) : State :=
  { heap := List.zipWith (node_of L.length) (List.range L.length) L,
    buf := { filename := none, first_line := some 0, current_line := some y,
             line_count := L.length, cursor_x := x, cursor_y := y, scroll_x := 0,
             scroll_y := 0, modified := false, id := 1 } }

/-- From the cursor column on, the block of the current line is a C string
that holds exactly the rest of the line: the cells at the columns
`cursor_x .. length - 1` are initialised non-NUL bytes and the cell at index
`length` is a NUL. -/
def tail_is_string (s : State) : Bool :=
  match s.buf.current_line with
  | some a =>
    match rd s.heap a with
    | some ln =>
      decide (cstr (ln.data.drop s.buf.cursor_x.toNat)
        = some ((content ln).drop s.buf.cursor_x.toNat ++ [some 0]))
    | none => false
  | none => false

/-- A one-line buffer whose line is the three characters `'a'`, NUL, `'b'`,
with the cursor at the origin: the state after `buffer_insert_char` of
97, 0, 98 into a new buffer followed by `buffer_set_cursor(0, 0)`. -/
def nul_buffer : State :=
  { heap := [some { data := [some 97, some 0, some 98, some 0], length := 3,
                    prev := none, next := none }],
    buf := { filename := none, first_line := some 0, current_line := some 0,
             line_count := 1, cursor_x := 0, cursor_y := 0, scroll_x := 0,
             scroll_y := 0, modified := true, id := 1 } }

/-! ## `file.c` -/

/-- The bytes of the C string that starts at the head of the list, without
the terminator; `none` when an indeterminate cell or the end of the block
comes before any terminator. -/
def cstr_bytes : List Cell → Option (List Nat)
  | [] => none
  | none :: _ => none
  | some 0 :: _ => some []
  | some (v + 1) :: t => (cstr_bytes t).map (fun w => (v + 1) :: w)

/-- The characters `fgets` stores when it may read at most `n` of them from
the stream `f`, and the rest of the stream: it stops after a newline, after
`n` characters, or at the end of the stream. -/
def fgets_chunk : Nat → List Nat → List Nat × List Nat
  | 0, f => ([], f)
  | _ + 1, [] => ([], [])
  | n + 1, c :: f =>
    if c = 10 then ([c], f)
    else ((c :: (fgets_chunk n f).1), (fgets_chunk n f).2)

/-- The call `fgets(line_buf, sizeof(line_buf), fp)` with
`sizeof(line_buf) = LITE_MAX_LINE_LENGTH`: `none` is the `NULL` result at the
end of the stream. -/
def fgets (f : List Nat) : Option (List Nat × List Nat) :=
  match f with
  | [] => none
  | _ :: _ => some (fgets_chunk (LITE_MAX_LINE_LENGTH - 1) f)

/-- The C string in `line_buf` after `fgets` stored `chunk` and a NUL: the
characters before the first NUL byte. -/
def c_string (chunk : List Nat) : List Nat := chunk.takeWhile (fun c => c ≠ 0)

/-- The statement `if (len > 0 && p(line_buf[len - 1])) { line_buf[len - 1] = 0;
len--; }` on the string in `line_buf`. -/
def strip_last (p : Nat → Bool) (str : List Nat) : List Nat :=
  match str.getLast? with
  | some c => if p c then str.dropLast else str
  | none => str

/-- The two `if` statements of `file_load` that remove the line ending from
the string in `line_buf`: the first removes a final `'\n'` or `'\r'`, the
second a `'\r'` that is final after that. -/
def strip_eol (str : List Nat) : List Nat :=
  strip_last (fun c => c == 13) (strip_last (fun c => c == 10 || c == 13) str)

/-- The loop `while (line->next) { ... free(line->data); free(line); ... }` of
`file_load`, followed by `free(line->data)` for the last node, whose struct
is not released; a released block is the empty block. -/
def clear_lines : Nat → Heap → Option Nat → Option Heap
  | 0, _, _ => none
  | _ + 1, _, none => none
  | k + 1, h, some a =>
    match rd h a with
    | none => none
    | some ln =>
      match ln.next with
      | some n => clear_lines k (free_line h a) (some n)
      | none => some (wr h a { ln with data := [] })

/-- The statement `if (prev_line) prev_line->next = new_line; else
buffer->first_line = new_line;` of `file_load`. -/
def append_link (h : Heap) (b : Buffer) (prev_line : Option Nat) (n : Nat) :
    Option (Heap × Buffer) :=
  match prev_line with
  | some p =>
    match rd h p with
    | some pl => some (wr h p { pl with next := some n }, b)
    | none => none
  | none => some (h, { b with first_line := some n })

/-- The reading loop of `file_load` on the rest `f` of the stream. `alloc i`
is the outcome of the `i`-th allocation of the call, `i` counts the
allocations made so far. The result is `(some code, ..)` when the loop
returns `code` from `file_load`, `(none, ..)` when the loop ends. Each
iteration consumes at least one byte, so `f.length` iterations are enough;
the first argument is that bound. -/
def load_loop : Nat → List Nat → (Nat → Bool) → Nat → Heap → Buffer → Option Nat →
    Option (Option Int × Heap × Buffer)
  | 0, _, _, _, h, b, _ => some (none, h, b)
  | k + 1, f, alloc, i, h, b, prev_line =>
    match fgets f with
    | none => some (none, h, b)
    | some (chunk, rest) =>
      let str := strip_eol (c_string chunk)
      if !alloc i then some (some LITE_ERROR, h, b)
      else if !alloc (i + 1) then some (some LITE_ERROR, h, b)
      else
        let n := h.length
        let h1 := h ++ [some { data := cells str ++ [some 0], length := str.length,
                               prev := prev_line, next := none }]
        match append_link h1 b prev_line n with
        | none => none
        | some (h2, b2) =>
          load_loop k rest alloc (i + 2) h2 { b2 with line_count := b2.line_count + 1 }
            (some n)

/-- The function `file_load`; `file` is the content of the file (`none` when
`fopen` fails), `alloc i` the outcome of the `i`-th allocation. -/
def file_load (s : State) (file : Option (List Nat)) (alloc : Nat → Bool) :
    Option (Int × State) :=
  match file with
  | none => some (LITE_ERROR_FILE_NOT_FOUND, s)
  | some f =>
    match clear_lines (s.heap.length + 1) s.heap s.buf.first_line with
    | none => none
    | some h0 =>
      let b0 : Buffer := { s.buf with
        first_line := none, current_line := none, line_count := 0,
        cursor_x := 0, cursor_y := 0 }
      match load_loop f.length f alloc 0 h0 b0 none with
      | none => none
      | some (some code, h1, b1) => some (code, { heap := h1, buf := b1 })
      | some (none, h1, b1) =>
        if b1.line_count = 0 then
          if !alloc 0 then some (LITE_ERROR, { heap := h1, buf := b1 })
          else if !alloc 1 then some (LITE_ERROR, { heap := h1, buf := b1 })
          else
            some (LITE_OK,
              { heap := h1 ++ [some { data := [some 0], length := 0,
                                      prev := none, next := none }],
                buf := { b1 with
                  first_line := some h1.length, line_count := 1,
                  current_line := some h1.length, modified := false } })
        else
          some (LITE_OK,
            { heap := h1, buf := { b1 with current_line := b1.first_line, modified := false } })

/-- The writing loop of `file_save`: `fputs(line->data, fp); fputc('\n', fp)`
for every node from `line` on; the result is the bytes written. -/
def save_loop : Nat → Heap → Option Nat → Option (List Nat)
  | 0, _, _ => none
  | _ + 1, _, none => some []
  | k + 1, h, some a =>
    match rd h a with
    | none => none
    | some ln =>
      match cstr_bytes ln.data with
      | none => none
      | some bs => (save_loop k h ln.next).map (fun r => bs ++ 10 :: r)

/-- The function `file_save`; `fopen_ok` is the outcome of `fopen`. The third
component is the new content of the file, `none` when it is not written. -/
def file_save (s : State) (fopen_ok : Bool) : Option (Int × State × Option (List Nat)) :=
  match s.buf.filename with
  | none => some (LITE_ERROR, s, none)
  | some _ =>
    if !fopen_ok then some (LITE_ERROR, s, none)
    else
      match save_loop (s.heap.length + 1) s.heap s.buf.first_line with
      | none => none
      | some bytes =>
        some (LITE_OK, { s with buf := { s.buf with modified := false } }, some bytes)

/-- The function `buffer_load_file`; `ok_name` is the outcome of the `strdup`
of the file name. -/
def buffer_load_file (s : State) (filename : List Nat) (file : Option (List Nat))
    (alloc : Nat → Bool) (ok_name : Bool) : Option (Int × State) :=
  match file_load s file alloc with
  | none => none
  | some (result, s1) =>
    if result = LITE_OK then
      some (result, { s1 with buf := { s1.buf with
        filename := if ok_name then some filename else none, modified := false } })
    else some (result, s1)

/-- The function `buffer_save_file`. -/
def buffer_save_file (s : State) (fopen_ok : Bool) :
    Option (Int × State × Option (List Nat)) :=
  match s.buf.filename with
  | none => some (LITE_ERROR, s, none)
  | some _ =>
    match file_save s fopen_ok with
    | none => none
    | some (result, s1, out) =>
      if result = LITE_OK then
        some (result, { s1 with buf := { s1.buf with modified := false } }, out)
      else some (result, s1, out)

/-- A line that `file_save` followed by `file_load` gives back: no newline
character, no trailing carriage return, at most `LITE_MAX_LINE_LENGTH - 2`
characters. -/
def line_safe (S : List Cell) : Bool :=
  decide (some 10 ∉ S) && decide (S.getLast? ≠ some (some 13)) &&
    decide (S.length + 2 ≤ LITE_MAX_LINE_LENGTH)

/-- The bytes of a file that holds the lines `Ts`, each followed by `'\n'`. -/
def file_of : List (List Nat) → List Nat
  | [] => []
  | T :: Ts => T ++ 10 :: file_of Ts

/-- The bytes `fputs` writes for the node at an address. -/
def bytes_at (h : Heap) (a : Nat) : List Nat :=
  match rd h a with
  | some ln => (cstr_bytes ln.data).getD []
  | none => []

/-- The statement `buffer->filename = strdup(name)` (of `command_write` and
`editor_open_file`), the allocation succeeding. -/
def set_filename (s : State) (name : List Nat) : State :=
  { s with buf := { s.buf with filename := some name } }

/-- The line sequence read back by `file_load` into the buffer `t` from the
bytes that `file_save` writes for the buffer `s`. -/
def save_then_load (s t : State) : Option (List (List Cell)) :=
  match file_save s true with
  | some (_, _, some bytes) =>
    (file_load t (some bytes) (fun _ => true)).map (fun r => lines r.2)
  | _ => none

/-- A line of bytes that `file_load` reads back unchanged from its
`'\n'`-terminated record: no newline, no NUL, no final carriage return, at
most `LITE_MAX_LINE_LENGTH - 2` bytes. -/
def bytes_safe (T : List Nat) : Prop :=
  10 ∉ T ∧ (∀ v ∈ T, v ≠ 0) ∧ T.getLast? ≠ some 13 ∧ T.length + 2 ≤ LITE_MAX_LINE_LENGTH

/-- The payload of the node that `file_load` creates for the line `T`. -/
def loaded (T : List Nat) : Option (List Cell × Int) :=
  some (cells T ++ [some 0], (T.length : Int))

/-- The buffer invariant but for the cursor: the lines form a well-linked
list of at least one node, every block has room for its line and
`line_count` is the number of nodes. It is the invariant of the buffer with
the cursor put at the origin, so `current_line`, `cursor_x` and `cursor_y`
of `s` are arbitrary. -/
def Linked (s : State) : Prop := Inv (at_col (at_row s s.buf.first_line 0) 0)

instance (s : State) : Decidable (Linked s) := by
  unfold Linked; infer_instance

/-- The strings that the successive calls of `fgets` in the reading loop of
`file_load` store in `line_buf`, for the stream `f`; the first argument
bounds the number of calls, as in `load_loop`. -/
def chunks : Nat → List Nat → List (List Nat)
  | 0, _ => []
  | k + 1, f =>
    match fgets f with
    | none => []
    | some (chunk, rest) => chunk :: chunks k rest

/-- The line sequence that `file_load` builds for the file content `f`: one
line per string read by `fgets`, cut at its first NUL and stripped by the
two `if` statements; one empty line when nothing is read. -/
def loaded_lines (f : List Nat) : List (List Nat) :=
  match chunks f.length f with
  | [] => [[]]
  | c :: cs => (c :: cs).map (fun chunk => strip_eol (c_string chunk))

/-- The bytes of a record of a text file: the content string followed by
`"\r\n"` (flag set) or by `"\n"`. -/
def record_bytes (r : List Nat × Bool) : List Nat :=
  r.1 ++ (if r.2 then [13, 10] else [10])

/-- The bytes of a file that is the concatenation of the records `rs`. -/
def file_of_records : List (List Nat × Bool) → List Nat
  | [] => []
  | r :: rs => record_bytes r ++ file_of_records rs

/-- A content string of a record: no `'\n'`, no `'\r'`, no NUL, and at most
`LITE_MAX_LINE_LENGTH - 3` = 1021 bytes. -/
def content_ok (T : List Nat) : Prop :=
  10 ∉ T ∧ 13 ∉ T ∧ 0 ∉ T ∧ T.length + 3 ≤ LITE_MAX_LINE_LENGTH

instance (T : List Nat) : Decidable (content_ok T) := by
  unfold content_ok; infer_instance

/-- The string `X` without its final `'\r'`, when it ends in one. -/
def drop_cr (X : List Nat) : List Nat :=
  if X.getLast? = some 13 then X.dropLast else X

/-- The relation "`modified` afterwards equals (`modified` before OR the line
sequence changed)" between the state before and the state after a call. -/
def tracks_mutation (s s' : State) : Prop :=
  s'.buf.modified = (s.buf.modified || decide (lines s' ≠ lines s))

instance (s s' : State) : Decidable (tracks_mutation s s') := by
  unfold tracks_mutation; infer_instance

/-- A sequence of `buffer_create` calls, each with the outcomes of its three
allocations, starting with the static counter at `c`: the results in call
order (`none` for `NULL`) and the final value of the counter. -/
def create_all : Int → List (Bool × Bool × Bool) → List (Option State) × Int
  | c, [] => ([], c)
  | c, o :: os =>
    ((buffer_create c o.1 o.2.1 o.2.2).1 :: (create_all (buffer_create c o.1 o.2.1 o.2.2).2 os).1,
     (create_all (buffer_create c o.1 o.2.1 o.2.2).2 os).2)

/-- The ids of the buffers created successfully by a sequence of
`buffer_create` calls, in order of creation. -/
def created_ids (c : Int) (os : List (Bool × Bool × Bool)) : List Int :=
  (create_all c os).1.filterMap (fun r => r.map (fun s => s.buf.id))

/-- The flat text of a buffer: its lines joined by `'\n'`. -/
def text (s : State) : List Cell := List.intercalate [some 10] (lines s)

/-- The offset of the cursor in the flat text: the sum over the lines before
row `cursor_y` of `length + 1`, plus `cursor_x`. -/
def off (s : State) : Int :=
  (((lengths s).take s.buf.cursor_y.toNat).map (fun n => n + 1)).sum + s.buf.cursor_x

/-- The text `T` with the character `c` inserted at offset `k`. -/
def text_insert (T : List Cell) (k : Int) (c : Cell) : List Cell :=
  T.take k.toNat ++ c :: T.drop k.toNat

/-- The text `T` with the character at offset `k` removed. -/
def text_delete (T : List Cell) (k : Int) : List Cell :=
  T.take k.toNat ++ T.drop (k.toNat + 1)

/-! ## `editor.c` and `command.c` -/

/-- The enum `EditorMode` of `lite.h`. -/
inductive EditorMode where
  | MODE_NORMAL
  | MODE_INSERT
  | MODE_COMMAND
  | MODE_VISUAL
deriving DecidableEq

/-- The struct `EditorState` of `editor.h`. A `Buffer*` is modelled by the
buffer it points to, with the heap of its lines (`none` is `NULL`); `buffers`
is the array of `LITE_MAX_BUFFERS` pointers, a list shorter than that standing
for an array whose remaining slots are `NULL`; `command_buffer` is the array
of `LITE_MAX_LINE_LENGTH` bytes. A slot at or after `buffer_count` may hold a
stale pointer; the model keeps the value that was stored there. The fields
`config`, `ui`, `status_message` and `status_message_time` are left out: the
functions modelled here never read them, and `editor_set_status_message`
writes nothing else. -/
structure EditorState where
  buffers : List (Option State)
  buffer_count : Int
  current_buffer : Int
  mode : EditorMode
  command_buffer : List Nat
  command_pos : Int
  running : Bool
deriving DecidableEq

/-- The value of `state->buffers[i]`; the outer `none` is an index outside
the array. -/
def buffer_at (st : EditorState) (i : Int) : Option (Option State) :=
  if 0 ≤ i ∧ i < LITE_MAX_BUFFERS then some ((st.buffers[i.toNat]?).getD none) else none

/-- The store `state->buffers[i] = b`; `none` for an index outside the array. -/
def set_buffer (st : EditorState) (i : Int) (b : Option State) : Option EditorState :=
  if 0 ≤ i ∧ i < LITE_MAX_BUFFERS then
    some { st with buffers :=
      (st.buffers ++ List.replicate (LITE_MAX_BUFFERS - st.buffers.length) none).set i.toNat b }
  else none

/-- The function `buffer_is_modified`. -/
def buffer_is_modified (b : Option State) : Bool :=
  match b with
  | none => false
  | some s => s.buf.modified

/-- The loop `while (line) { next = line->next; free_line(line); line = next; }`
of `buffer_free`. -/
def free_lines : Nat → Heap → Option Nat → Option Heap
  | _, h, none => some h
  | 0, _, some _ => none
  | k + 1, h, some a =>
    match rd h a with
    | none => none
    | some ln => free_lines k (free_line h a) ln.next

/-- The function `buffer_free` on a buffer that is not `NULL`: `some ()` when
its behaviour is defined (every pointer it follows is a live node). The
buffer does not exist afterwards. -/
def buffer_free (s : State) : Option Unit :=
  (free_lines (s.heap.length + 1) s.heap s.buf.first_line).map (fun _ => ())

/-- The function `editor_quit`. -/
def editor_quit (st : EditorState) : EditorState := { st with running := false }

/-- The loop `for (i = current_buffer; i < buffer_count - 1; i++)
buffers[i] = buffers[i + 1];` of `editor_close_current_buffer`, from index
`i`; the first argument is the number of iterations left. -/
def shift_buffers : Nat → EditorState → Int → Option EditorState
  | 0, st, _ => some st
  | k + 1, st, i =>
    if i < st.buffer_count - 1 then
      match buffer_at st (i + 1) with
      | none => none
      | some b =>
        match set_buffer st i b with
        | none => none
        | some st1 => shift_buffers k st1 (i + 1)
    else some st

/-- The function `editor_close_current_buffer`. -/
def editor_close_current_buffer (st : EditorState) : Option (Int × EditorState) :=
  if st.buffer_count = 0 then some (LITE_ERROR, st)
  else
    match buffer_at st st.current_buffer with
    | none => none
    | some none => some (LITE_ERROR, st)
    | some (some buffer) =>
      if buffer.buf.modified then some (LITE_ERROR, st)
      else
        match buffer_free buffer with
        | none => none
        | some _ =>
          match shift_buffers (st.buffer_count - 1 - st.current_buffer).toNat st
              st.current_buffer with
          | none => none
          | some st1 =>
            let st2 : EditorState := { st1 with buffer_count := st1.buffer_count - 1 }
            let st3 : EditorState :=
              if st2.current_buffer ≥ st2.buffer_count then
                { st2 with current_buffer := st2.buffer_count - 1 }
              else st2
            if st3.buffer_count = 0 then some (LITE_OK, { st3 with running := false })
            else some (LITE_OK, st3)

/-- The statements `buffers[buffer_count] = buffer; current_buffer =
buffer_count; buffer_count++;` that add a buffer to the set. -/
def add_buffer (st : EditorState) (b : State) : Option EditorState :=
  match set_buffer st st.buffer_count (some b) with
  | none => none
  | some st1 =>
    some { st1 with current_buffer := st1.buffer_count, buffer_count := st1.buffer_count + 1 }

/-- The loop of `editor_switch_buffer`, from index `i`. -/
def switch_loop : Nat → EditorState → Int → Int → Option (Int × EditorState)
  | 0, st, _, _ => some (LITE_ERROR, st)
  | k + 1, st, i, buffer_id =>
    if i < st.buffer_count then
      match buffer_at st i with
      | none => none
      | some none => switch_loop k st (i + 1) buffer_id
      | some (some b) =>
        if b.buf.id = buffer_id then some (LITE_OK, { st with current_buffer := i })
        else switch_loop k st (i + 1) buffer_id
    else some (LITE_ERROR, st)

/-- The function `editor_switch_buffer`. -/
def editor_switch_buffer (st : EditorState) (buffer_id : Int) : Option (Int × EditorState) :=
  switch_loop st.buffer_count.toNat st 0 buffer_id

/-- What the editor functions receive from their environment: the outcomes
of the three allocations of `buffer_create`, the content of the file at a
path (`none` when `fopen(path, "r")` fails), the outcomes of the allocations
of `file_load`, of the `strdup` of a file name, and of `fopen(path, "w")`. -/
structure Env where
  ok_buffer : Bool
  ok_line : Bool
  ok_data : Bool
  fs : List Nat → Option (List Nat)
  alloc : Nat → Bool
  ok_name : Bool
  fopen_ok : Bool

/-- The function `editor_save_current_buffer`. The bytes written to the file
are those of `buffer_save_file`; they are not part of the result. -/
def editor_save_current_buffer (st : EditorState) (env : Env) : Option (Int × EditorState) :=
  if st.buffer_count = 0 then some (LITE_ERROR, st)
  else
    match buffer_at st st.current_buffer with
    | none => none
    | some none => some (LITE_ERROR, st)
    | some (some buffer) =>
      match buffer.buf.filename with
      | none => some (LITE_ERROR, st)
      | some _ =>
        match buffer_save_file buffer env.fopen_ok with
        | none => none
        | some (result, b1, _) =>
          match set_buffer st st.current_buffer (some b1) with
          | none => none
          | some st1 => some (result, st1)

/-- The type `CommandFunc`: the built-in command functions. -/
inductive CommandFunc where
  | command_open
  | command_write
  | command_quit
  | command_tab
  | command_theme
  | command_help
deriving DecidableEq

/-- The struct `Command` of `command.h`; names are C strings given by their
bytes. The `help` text, used only in status messages, is left out. -/
structure Command where
  name : List Nat
  func : CommandFunc
deriving DecidableEq

def MAX_COMMANDS : Nat := 32
def MAX_ARGS : Nat := 16

/-- The editor state together with the static variables of `buffer.c`
(`next_buffer_id`) and `command.c` (the registry `commands`, whose length is
`command_count`). -/
structure World where
  st : EditorState
  next_buffer_id : Int
  commands : List Command
deriving DecidableEq

/-- The first loop of `command_register`: replace the function of the first
command with the given name; `none` when there is none. -/
def replace_command : List Command → List Nat → CommandFunc → Option (List Command)
  | [], _, _ => none
  | c :: cs, name, func =>
    if c.name = name then some ({ c with func := func } :: cs)
    else (replace_command cs name func).map (fun r => c :: r)

/-- The function `command_register`. -/
def command_register (cmds : List Command) (name : List Nat) (func : CommandFunc) :
    Int × List Command :=
  match replace_command cmds name func with
  | some cmds1 => (LITE_OK, cmds1)
  | none =>
    if cmds.length ≥ MAX_COMMANDS then (LITE_ERROR, cmds)
    else (LITE_OK, cmds ++ [{ name := name, func := func }])

/-- The function `command_init`: it registers `"open"`, `"write"`, `"quit"`,
`"tab"`, `"theme"` and `"help"`, in that order. -/
def command_init (cmds : List Command) : Int × List Command :=
  let c1 := (command_register cmds [111, 112, 101, 110] .command_open).2
  let c2 := (command_register c1 [119, 114, 105, 116, 101] .command_write).2
  let c3 := (command_register c2 [113, 117, 105, 116] .command_quit).2
  let c4 := (command_register c3 [116, 97, 98] .command_tab).2
  let c5 := (command_register c4 [116, 104, 101, 109, 101] .command_theme).2
  let c6 := (command_register c5 [104, 101, 108, 112] .command_help).2
  (LITE_OK, c6)

/-- The registry after `command_init` in a new process. -/
def builtin_commands : List Command := (command_init []).2

/-- The function `isspace` in the "C" locale: space, `\t`, `\n`, `\v`, `\f`,
`\r`. A byte above 127 is not a space. -/
def isspace (c : Nat) : Bool := c == 32 || (decide (9 ≤ c) && decide (c ≤ 13))

/-- The loop `while (isspace(*p)) p++;` on the rest of the string. -/
def skip_spaces (p : List Nat) : List Nat := p.dropWhile isspace

/-- The main loop of `parse_args` on the rest `p` of the string, with the
number of free slots of `argv` as first argument: the strings `argv` points
to once the terminators are written. -/
def parse_loop : Nat → List Nat → List (List Nat)
  | 0, _ => []
  | _ + 1, [] => []
  | n + 1, c :: p =>
    match (c :: p).dropWhile (fun x => !isspace x) with
    | [] => [(c :: p).takeWhile (fun x => !isspace x)]
    | _ :: rest =>
      (c :: p).takeWhile (fun x => !isspace x) :: parse_loop n (skip_spaces rest)

/-- The function `parse_args` on a C string given by its bytes: the list
`argv[0], ..., argv[argc - 1]`. -/
def parse_args (cmd : List Nat) : List (List Nat) := parse_loop MAX_ARGS (skip_spaces cmd)

/-- The function `editor_open_file`. -/
def editor_open_file (w : World) (env : Env) (filename : List Nat) : Option (Int × World) :=
  if w.st.buffer_count ≥ LITE_MAX_BUFFERS then some (LITE_ERROR_BUFFER_FULL, w)
  else
    match buffer_create w.next_buffer_id env.ok_buffer env.ok_line env.ok_data with
    | (none, next_id) => some (LITE_ERROR, { w with next_buffer_id := next_id })
    | (some buffer, next_id) =>
      match buffer_load_file buffer filename (env.fs filename) env.alloc env.ok_name with
      | none => none
      | some (result, b1) =>
        if result ≠ LITE_OK then
          if result = LITE_ERROR_FILE_NOT_FOUND then
            match add_buffer w.st { b1 with buf := { b1.buf with
                filename := if env.ok_name then some filename else none } } with
            | none => none
            | some st1 => some (LITE_OK, { w with st := st1, next_buffer_id := next_id })
          else
            match buffer_free b1 with
            | none => none
            | some _ => some (result, { w with next_buffer_id := next_id })
        else
          match add_buffer w.st b1 with
          | none => none
          | some st1 => some (LITE_OK, { w with st := st1, next_buffer_id := next_id })

/-- The function `command_open`. -/
def command_open (w : World) (env : Env) (argv : List (List Nat)) : Option (Int × World) :=
  match argv with
  | _ :: filename :: _ => editor_open_file w env filename
  | _ => some (LITE_ERROR, w)

/-- The function `command_write`. -/
def command_write (st : EditorState) (env : Env) (argv : List (List Nat)) :
    Option (Int × EditorState) :=
  match argv with
  | _ :: filename :: _ =>
    if st.buffer_count > 0 then
      match buffer_at st st.current_buffer with
      | none => none
      | some none => editor_save_current_buffer st env
      | some (some buffer) =>
        match set_buffer st st.current_buffer (some { buffer with buf := { buffer.buf with
            filename := if env.ok_name then some filename else none } }) with
        | none => none
        | some st1 => editor_save_current_buffer st1 env
    else editor_save_current_buffer st env
  | _ => editor_save_current_buffer st env

/-- The function `command_quit`; `argc` is the length of `argv`, `"!"` is the
byte 33. -/
def command_quit (st : EditorState) (argv : List (List Nat)) : Option (Int × EditorState) :=
  let force : Bool := decide (argv.length ≥ 2) && decide (argv[1]? = some [33])
  let close : Option (Int × EditorState) :=
    if st.buffer_count > 1 then editor_close_current_buffer st
    else some (LITE_OK, editor_quit st)
  if !force && decide (st.buffer_count > 0) then
    match buffer_at st st.current_buffer with
    | none => none
    | some buffer => if buffer_is_modified buffer then some (LITE_ERROR, st) else close
  else close

/-- The digits loop of `atoi`. -/
def atoi_digits : List Nat → Int → Int
  | [], acc => acc
  | c :: p, acc => if 48 ≤ c ∧ c ≤ 57 then atoi_digits p (acc * 10 + (↑c - 48)) else acc

/-- The function `atoi`: optional spaces, an optional sign, digits. `none`
when the value is not representable as `int` (the behaviour is undefined). -/
def atoi (str : List Nat) : Option Int :=
  let v : Int :=
    match skip_spaces str with
    | 45 :: r => - atoi_digits r 0
    | 43 :: r => atoi_digits r 0
    | r => atoi_digits r 0
  if -2147483648 ≤ v ∧ v ≤ 2147483647 then some v else none

/-- The function `command_tab`; `"new"` and `"list"` are given by their
bytes. -/
def command_tab (w : World) (env : Env) (argv : List (List Nat)) : Option (Int × World) :=
  match argv with
  | _ :: arg :: _ =>
    if arg = [110, 101, 119] then
      match buffer_create w.next_buffer_id env.ok_buffer env.ok_line env.ok_data with
      | (none, next_id) => some (LITE_ERROR, { w with next_buffer_id := next_id })
      | (some buffer, next_id) =>
        if w.st.buffer_count ≥ LITE_MAX_BUFFERS then
          match buffer_free buffer with
          | none => none
          | some _ => some (LITE_ERROR, { w with next_buffer_id := next_id })
        else
          match add_buffer w.st buffer with
          | none => none
          | some st1 => some (LITE_OK, { w with st := st1, next_buffer_id := next_id })
    else if arg = [108, 105, 115, 116] then some (LITE_OK, w)
    else
      match atoi arg with
      | none => none
      | some id =>
        (editor_switch_buffer w.st id).map (fun r => (r.1, { w with st := r.2 }))
  | _ => some (LITE_ERROR, w)

/-- The function `command_theme`; `"load"` is given by its bytes. -/
def command_theme (argv : List (List Nat)) : Int :=
  match argv with
  | _ :: arg :: rest =>
    if arg = [108, 111, 97, 100] then (if rest = [] then LITE_ERROR else LITE_OK)
    else LITE_ERROR
  | _ => LITE_ERROR

/-- The function `command_help`: it only sets the status message. -/
def command_help : Int := LITE_OK

/-- The call `commands[i].func(state, argc, argv)` through the function
pointer. -/
def run_command (f : CommandFunc) (w : World) (env : Env) (argv : List (List Nat)) :
    Option (Int × World) :=
  match f with
  | .command_open => command_open w env argv
  | .command_write => (command_write w.st env argv).map (fun r => (r.1, { w with st := r.2 }))
  | .command_quit => (command_quit w.st argv).map (fun r => (r.1, { w with st := r.2 }))
  | .command_tab => command_tab w env argv
  | .command_theme => some (command_theme argv, w)
  | .command_help => some (command_help, w)

/-- The lookup loop of `command_execute`: the function of the first command
whose name is `name`. -/
def find_command : List Command → List Nat → Option CommandFunc
  | [], _ => none
  | c :: cs, name => if c.name = name then some c.func else find_command cs name

/-- The function `command_execute`; `command_line` is a C string given by its
bytes, of which `strncpy` keeps the first `LITE_MAX_LINE_LENGTH - 1`. -/
def command_execute (w : World) (env : Env) (command_line : List Nat) :
    Option (Int × World) :=
  match parse_args ((c_string command_line).take (LITE_MAX_LINE_LENGTH - 1)) with
  | [] => some (LITE_ERROR, w)
  | name :: args =>
    match find_command w.commands name with
    | some f => run_command f w env (name :: args)
    | none => some (LITE_ERROR, w)

/-- An editor state that holds the buffers `bs` in the first slots of the
array, with `current_buffer = cur`, in command mode with the command line
`cmd` typed, and running; used for concrete examples. -/
def editor_of (bs : List State) (cur : Int) (cmd : List Nat) : EditorState :=
  { buffers := bs.map some ++ List.replicate (LITE_MAX_BUFFERS - bs.length) none,
    buffer_count := bs.length, current_buffer := cur, mode := .MODE_COMMAND,
    command_buffer := cmd ++ List.replicate (LITE_MAX_LINE_LENGTH - cmd.length) 0,
    command_pos := cmd.length, running := true }

/-! ## Link well-formedness in the words of the specification -/


/-- The links of the node at address `n` are consistent inside the list `l`
of line addresses: the node is live; its successor, if any, is a live node
of `l` whose `prev` is `n`; its predecessor, if any, is a live node of `l`
whose `next` is `n`. -/
def link_ok (h : Heap) (l : List Nat) (n : Nat) : Bool :=
  match rd h n with
  | none => false
  | some ln =>
    (match ln.next with
     | none => true
     | some m =>
       decide (m ∈ l) &&
         (match rd h m with
          | none => false
          | some lm => decide (lm.prev = some n))) &&
    (match ln.prev with
     | none => true
     | some p =>
       decide (p ∈ l) &&
         (match rd h p with
          | none => false
          | some lp => decide (lp.next = some n)))

/-- The node `first_line` points to has no predecessor. -/
def head_ok (s : State) : Bool :=
  match s.buf.first_line with
  | none => true
  | some a =>
    match rd s.heap a with
    | none => false
    | some ln => decide (ln.prev = none)

/-- Link well-formedness as the specification words it: `first_line` has no
predecessor, and every line reachable from it is live, is the `prev` of its
successor and the `next` of its predecessor, both of them reachable live
lines. -/
def LinksOk (s : State) : Prop :=
  head_ok s = true ∧ ∀ n ∈ line_addrs s, link_ok s.heap (line_addrs s) n = true

instance (s : State) : Decidable (LinksOk s) := by
  unfold LinksOk; infer_instance

/-! ## Tokens of a command line in the words of the specification -/


/-- The maximal runs of non-whitespace characters of a string, in the words
of the specification: the pieces between whitespace characters that are not
empty. -/
def runs (cmd : List Nat) : List (List Nat) :=
  (cmd.splitOnP isspace).filter (fun r => !r.isEmpty)

/-! ## Editor states, key handling -/

/-- The value stored in slot `j` of the array `buffers`. -/
def slot (st : EditorState) (j : Nat) : Option State := (st.buffers[j]?).getD none

/-- Slot `j` holds a buffer whose lines are well linked. -/
def slot_ok (st : EditorState) (j : Nat) : Bool :=
  match slot st j with
  | some b => decide (Linked b)
  | none => false

/-- The buffers of the set: the first `buffer_count` slots of the array. -/
def live_buffers (st : EditorState) : List (Option State) :=
  (List.range st.buffer_count.toNat).map (slot st)

/-- Well-formedness of the buffer set: `0 ≤ buffer_count ≤ LITE_MAX_BUFFERS`,
the selector `current_buffer` is an index below `buffer_count` whenever the
set is not empty, and each of the first `buffer_count` slots points to a
buffer whose lines are well linked. -/
def EditorOk (st : EditorState) : Prop :=
  0 ≤ st.buffer_count ∧ st.buffer_count ≤ LITE_MAX_BUFFERS ∧
  (0 < st.buffer_count → 0 ≤ st.current_buffer ∧ st.current_buffer < st.buffer_count) ∧
  ∀ j ∈ List.range st.buffer_count.toNat, slot_ok st j = true

instance (st : EditorState) : Decidable (EditorOk st) := by
  unfold EditorOk; infer_instance

/-- The state `editor_init` returns when its allocation, `ui_init` and
`command_init` succeed. -/
def editor_init : EditorState :=
  { buffers := List.replicate LITE_MAX_BUFFERS none, buffer_count := 0, current_buffer := 0,
    mode := .MODE_NORMAL, command_buffer := List.replicate LITE_MAX_LINE_LENGTH 0,
    command_pos := 0, running := false }

/-- The editor after `editor_init` in a new process, the static counter of
`buffer.c` holding `next_id` (1 when no buffer was created before). -/
def init_world (next_id : Int) : World :=
  { st := editor_init, next_buffer_id := next_id, commands := builtin_commands }

/-- One of the operations on the buffer set, with what it receives from its
environment. -/
inductive EdOp where
  | open_file (filename : List Nat) (env : Env)
  | tab_new (env : Env)
  | switch_buffer (buffer_id : Int)
  | close_current

/-- Perform one operation on the buffer set; the return code is dropped.
`"tab new"` is run through `command_execute`. -/
def ed_step (w : World) : EdOp → Option World
  | .open_file filename env => (editor_open_file w env filename).map (fun r => r.2)
  | .tab_new env =>
    (command_execute w env [116, 97, 98, 32, 110, 101, 119]).map (fun r => r.2)
  | .switch_buffer buffer_id =>
    (editor_switch_buffer w.st buffer_id).map (fun r => { w with st := r.2 })
  | .close_current =>
    (editor_close_current_buffer w.st).map (fun r => { w with st := r.2 })

/-- Perform a sequence of operations on the buffer set from left to right. -/
def ed_run : List EdOp → World → Option World
  | [], w => some w
  | op :: ops, w =>
    match ed_step w op with
    | none => none
    | some w1 => ed_run ops w1

/-- The key codes `KEY_BACKSPACE` and `KEY_ENTER` of `ncurses.h` (octal 0407
and 0527). -/
def KEY_BACKSPACE : Int := 263
def KEY_ENTER : Int := 343

/-- The function `editor_set_mode`; its `memset` zeroes the whole array
`command_buffer`. -/
def editor_set_mode (st : EditorState) (mode : EditorMode) : EditorState :=
  if mode ≠ .MODE_COMMAND then
    { st with mode := mode, command_buffer := List.replicate LITE_MAX_LINE_LENGTH 0,
              command_pos := 0 }
  else { st with mode := mode }

/-- The store `state->command_buffer[i] = v`; `none` for an index outside the
array of `LITE_MAX_LINE_LENGTH` bytes. -/
def poke_command (st : EditorState) (i : Int) (v : Nat) : Option EditorState :=
  if 0 ≤ i ∧ i < LITE_MAX_LINE_LENGTH then
    some { st with command_buffer := st.command_buffer.set i.toNat v }
  else none

/-- The call `strlen(buffer)` on an array of bytes; `none` when the array
holds no terminator. -/
def strlen (buffer : List Nat) : Option Int :=
  if 0 ∈ buffer then some ↑(c_string buffer).length else none

/-- A call `if (buffer) f(buffer)` of a buffer function on the current
buffer: nothing happens for `NULL`; the buffer is updated in place. -/
def on_buffer (w : World) (buffer : Option State) (f : State → Option State) :
    Option World :=
  match buffer with
  | none => some w
  | some b =>
    match f b with
    | none => none
    | some b1 =>
      (set_buffer w.st w.st.current_buffer (some b1)).map (fun st1 => { w with st := st1 })

/-- The function `editor_process_key`; `ok_re` is the outcome of the
`realloc` of the buffer function it calls, `env` gives the other outcomes.
The first `none` stands for a read outside the array `buffers`. -/
def editor_process_key (w : World) (env : Env) (ok_re : Bool) (key : Int) : Option World :=
  match (if w.st.buffer_count > 0 then buffer_at w.st w.st.current_buffer else some none) with
  | none => none
  | some buffer =>
    match w.st.mode with
    | .MODE_NORMAL =>
      if key = 104 then on_buffer w buffer (fun b => buffer_move_cursor b (-1) 0)
      else if key = 106 then on_buffer w buffer (fun b => buffer_move_cursor b 0 1)
      else if key = 107 then on_buffer w buffer (fun b => buffer_move_cursor b 0 (-1))
      else if key = 108 then on_buffer w buffer (fun b => buffer_move_cursor b 1 0)
      else if key = 105 then some { w with st := editor_set_mode w.st .MODE_INSERT }
      else if key = 58 then
        (poke_command (editor_set_mode w.st .MODE_COMMAND) 0 0).map
          (fun st1 => { w with st := { st1 with command_pos := 0 } })
      else if key = 113 then
        if w.st.buffer_count > 0 ∧ buffer_is_modified buffer = true then some w
        else some { w with st := { w.st with running := false } }
      else some w
    | .MODE_INSERT =>
      if key = 27 then some { w with st := editor_set_mode w.st .MODE_NORMAL }
      else if key = KEY_BACKSPACE ∨ key = 127 then
        on_buffer w buffer (fun b => (buffer_delete_char b ok_re).map (fun r => r.2))
      else if key = KEY_ENTER ∨ key = 13 ∨ key = 10 then
        on_buffer w buffer
          (fun b => (buffer_new_line b env.ok_line env.ok_data ok_re).map (fun r => r.2))
      else if key ≥ 32 ∧ key < 127 then
        on_buffer w buffer (fun b => (buffer_insert_char b key ok_re).map (fun r => r.2))
      else some w
    | .MODE_COMMAND =>
      if key = 27 then some { w with st := editor_set_mode w.st .MODE_NORMAL }
      else if key = KEY_BACKSPACE ∨ key = 127 then
        if w.st.command_pos > 0 then
          (poke_command { w.st with command_pos := w.st.command_pos - 1 }
            (w.st.command_pos - 1) 0).map (fun st1 => { w with st := st1 })
        else some w
      else if key = KEY_ENTER ∨ key = 13 ∨ key = 10 then
        match strlen w.st.command_buffer with
        | none => none
        | some n =>
          if n > 0 then
            match command_execute w env w.st.command_buffer with
            | none => none
            | some (_, w1) => some { w1 with st := editor_set_mode w1.st .MODE_NORMAL }
          else some { w with st := editor_set_mode w.st .MODE_NORMAL }
      else if key ≥ 32 ∧ key < 127 ∧ w.st.command_pos < LITE_MAX_LINE_LENGTH - 1 then
        match poke_command w.st w.st.command_pos key.toNat with
        | none => none
        | some st1 =>
          (poke_command { st1 with command_pos := st1.command_pos + 1 }
            (st1.command_pos + 1) 0).map (fun st2 => { w with st := st2 })
      else some w
    | .MODE_VISUAL => some { w with st := editor_set_mode w.st .MODE_NORMAL }

/-- The command line is consistent: the array has `LITE_MAX_LINE_LENGTH`
bytes, `command_pos` is the length of the C string it holds and is at most
`LITE_MAX_LINE_LENGTH - 1`. -/
def CmdOk (st : EditorState) : Prop :=
  st.command_buffer.length = LITE_MAX_LINE_LENGTH ∧
  strlen st.command_buffer = some st.command_pos ∧
  st.command_pos ≤ ↑LITE_MAX_LINE_LENGTH - 1

instance (st : EditorState) : Decidable (CmdOk st) := by
  unfold CmdOk; infer_instance

/-- Outside command mode the command line is empty and `command_pos` is 0. -/
def CmdClear (st : EditorState) : Prop :=
  st.mode ≠ .MODE_COMMAND → strlen st.command_buffer = some 0 ∧ st.command_pos = 0

instance (st : EditorState) : Decidable (CmdClear st) := by
  unfold CmdClear; infer_instance

/-- Allocations that all succeed and a file system without files. -/
def plain_env : Env :=
  { ok_buffer := true, ok_line := true, ok_data := true, fs := fun _ => none,
    alloc := fun _ => true, ok_name := true, fopen_ok := true }

/-- The three fields of the command line are the same in two editor
states. -/
def CmdSame (st' st : EditorState) : Prop :=
  st'.mode = st.mode ∧ st'.command_buffer = st.command_buffer ∧
    st'.command_pos = st.command_pos

/-- One thing that happens to a running editor: a key, with the outcomes its
call of `editor_process_key` receives, or an operation on the buffer set. -/
inductive Event where
  | key (env : Env) (ok_re : Bool) (code : Int)
  | op (e : EdOp)

/-- Perform one event. -/
def play_step (w : World) : Event → Option World
  | .key env ok_re code => editor_process_key w env ok_re code
  | .op e => ed_step w e

/-- Perform a sequence of events from left to right. -/
def play : List Event → World → Option World
  | [], w => some w
  | e :: es, w =>
    match play_step w e with
    | none => none
    | some w1 => play es w1

/-- An editor after `editor_init` and `"tab new"`, in command mode with the
command line `cmd` typed. -/
def command_world (cmd : List Nat) : World :=
  { st := editor_of [fresh_buffer 1] 0 cmd, next_buffer_id := 2, commands := builtin_commands }

/-! ## Size of a buffer and of a sequence of calls -/

/-- The number of characters of a buffer: the sum of the `length` fields of
its lines. -/
def total_length (s : State) : Int := (lengths s).sum

/-- The number of `buffer_insert_char` calls of a sequence. -/
def inserts : List Op → Nat
  | [] => 0
  | .insert _ _ :: ops => inserts ops + 1
  | _ :: ops => inserts ops

/-! ## Two histories of calls that leave defined behaviour -/

/-- Seven calls on a new buffer: type `a`, a NUL byte and `b`, go back to the
start of the line, break it there, move two columns to the right in the new
line, and break again. -/
def nul_calls : List Op :=
  [.insert 97 true, .insert 0 true, .insert 98 true, .set 0 0,
   .newline true true true, .move 2 0, .newline true true true]

/-- The buffer `fresh_buffer 1` after `n` calls `buffer_insert_char(buf, 'a')`
whose allocations succeed: one line of `n` letters, the cursor at its end. -/
def long_line (n : Nat) : State :=
  { heap := [some { data := List.replicate n (some 97) ++ [some 0], length := ↑n,
                    prev := none, next := none }],
    buf := { (fresh_buffer 1).buf with cursor_x := ↑n, modified := decide (0 < n) } }

/-- The buffer `long_line n` after a line break at the end of its line, the
letter `b` typed on the new line, and the cursor moved back to the start of
that line (all allocations succeed). -/
def long_pair (n : Nat) : State :=
  { heap := [some { data := List.replicate n (some 97) ++ [some 0], length := ↑n,
                    prev := none, next := some 1 },
             some { data := [some 98, some 0], length := 1,
                    prev := some 0, next := none }],
    buf := { (fresh_buffer 1).buf with
             current_line := some 1, line_count := 2, cursor_x := 0, cursor_y := 1,
             modified := true } }

/-- The `length` of the predecessor of the current line, 0 when there is
none. -/
def prev_len (s : State) : Int :=
  match s.buf.current_line with
  | none => 0
  | some a =>
    match rd s.heap a with
    | none => 0
    | some ln =>
      match ln.prev with
      | none => 0
      | some p => length_at s.heap p

/-! # Theorems -/
/-! ## Heap lemmas -/

theorem wrap32_id {x : Int} (h0 : -2147483648 ≤ x) (h1 : x < 2147483648) : wrap32 x = x := by
  unfold wrap32
  omega

theorem rd_some_lt {h : Heap} {a : Nat} {ln : Line} (e : rd h a = some ln) : a < h.length := by
  unfold rd at e
  by_contra hc
  rw [List.getElem?_eq_none (by omega)] at e
  simp at e

theorem rd_wr_same {h : Heap} {a : Nat} (ln : Line) (ha : a < h.length) :
    rd (wr h a ln) a = some ln := by
  simp [rd, wr, List.getElem?_set, ha]

theorem rd_wr_ne {h : Heap} {a b : Nat} (ln : Line) (hab : a ≠ b) :
    rd (wr h a ln) b = rd h b := by
  simp [rd, wr, List.getElem?_set, hab]

theorem rd_free_ne {h : Heap} {a b : Nat} (hab : a ≠ b) :
    rd (free_line h a) b = rd h b := by
  simp [rd, free_line, List.getElem?_set, hab]

theorem rd_free_same {h : Heap} {a : Nat} : rd (free_line h a) a = none := by
  simp only [rd, free_line, List.getElem?_set, if_true]
  split <;> rfl

theorem rd_append_old {h : Heap} {a : Nat} (x : Option Line) (ha : a < h.length) :
    rd (h ++ [x]) a = rd h a := by
  simp [rd, List.getElem?_append_left ha]

theorem rd_append_new {h : Heap} (x : Option Line) : rd (h ++ [x]) h.length = x := by
  simp [rd]

theorem length_wr (h : Heap) (a : Nat) (ln : Line) : (wr h a ln).length = h.length := by
  simp [wr]

theorem length_free (h : Heap) (a : Nat) : (free_line h a).length = h.length := by
  simp [free_line]

/-! ## Segments -/

theorem seg_nil {h : Heap} {pv p q : Option Nat} : Seg h pv p [] q ↔ p = q := by
  simp [Seg, seg_ok]

theorem seg_cons {h : Heap} {pv p q : Option Nat} {a : Nat} {l : List Nat} :
    Seg h pv p (a :: l) q ↔
      p = some a ∧ ∃ ln, rd h a = some ln ∧ ln.prev = pv ∧ Seg h (some a) ln.next l q := by
  unfold Seg
  simp only [seg_ok, Bool.and_eq_true, decide_eq_true_eq]
  cases e : rd h a with
  | none => simp
  | some ln => simp


theorem seg_head {h : Heap} {pv p q : Option Nat} {l : List Nat} (hs : Seg h pv p l q) :
    p = head_or q l := by
  cases l with
  | nil => simpa [seg_nil, head_or] using hs
  | cons a l => exact (seg_cons.1 hs).1

theorem seg_frame {h h' : Heap} {l : List Nat}
    (hf : ∀ a ∈ l, ∀ ln, rd h a = some ln →
      ∃ ln', rd h' a = some ln' ∧ ln'.prev = ln.prev ∧ ln'.next = ln.next) :
    ∀ {pv p q : Option Nat}, Seg h pv p l q → Seg h' pv p l q := by
  induction l with
  | nil => intro pv p q hs; exact seg_nil.2 (seg_nil.1 hs)
  | cons a l ih =>
    intro pv p q hs
    obtain ⟨hp, ln, hrd, hpv, hrest⟩ := seg_cons.1 hs
    obtain ⟨ln', hrd', hp', hn'⟩ := hf a (List.mem_cons_self a l) ln hrd
    refine seg_cons.2 ⟨hp, ln', hrd', hp'.trans hpv, ?_⟩
    rw [hn']
    exact ih (fun b hb => hf b (List.mem_cons_of_mem a hb)) hrest

theorem seg_frame_eq {h h' : Heap} {l : List Nat} (hf : ∀ a ∈ l, rd h' a = rd h a)
    {pv p q : Option Nat} (hs : Seg h pv p l q) : Seg h' pv p l q :=
  seg_frame (fun a ha ln hrd => ⟨ln, by rw [hf a ha, hrd], rfl, rfl⟩) hs

theorem seg_split {h : Heap} {a : Nat} {l2 : List Nat} {q : Option Nat} :
    ∀ {l1 : List Nat} {pv p : Option Nat},
      Seg h pv p (l1 ++ a :: l2) q ↔
        Seg h pv p l1 (some a) ∧
          ∃ ln, rd h a = some ln ∧ ln.prev = last_or pv l1 ∧ Seg h (some a) ln.next l2 q := by
  intro l1
  induction l1 with
  | nil =>
    intro pv p
    simp only [List.nil_append, seg_cons, seg_nil, last_or]
  | cons b l1 ih =>
    intro pv p
    simp only [List.cons_append, seg_cons, last_or]
    constructor
    · rintro ⟨hp, ln, hrd, hpv, hrest⟩
      obtain ⟨h1, h2⟩ := ih.1 hrest
      exact ⟨⟨hp, ln, hrd, hpv, h1⟩, h2⟩
    · rintro ⟨⟨hp, ln, hrd, hpv, h1⟩, h2⟩
      exact ⟨hp, ln, hrd, hpv, ih.2 ⟨h1, h2⟩⟩

theorem seg_mem_rd {h : Heap} {l : List Nat} :
    ∀ {pv p q : Option Nat}, Seg h pv p l q → ∀ a ∈ l, ∃ ln, rd h a = some ln := by
  induction l with
  | nil => intro pv p q _ a ha; simp at ha
  | cons b l ih =>
    intro pv p q hs a ha
    obtain ⟨_, ln, hrd, _, hrest⟩ := seg_cons.1 hs
    rcases List.mem_cons.1 ha with rfl | ha
    · exact ⟨ln, hrd⟩
    · exact ih hrest a ha

theorem seg_mem_lt {h : Heap} {l : List Nat} {pv p q : Option Nat} (hs : Seg h pv p l q)
    {a : Nat} (ha : a ∈ l) : a < h.length := by
  obtain ⟨ln, hrd⟩ := seg_mem_rd hs a ha
  exact rd_some_lt hrd

theorem seg_reach {h : Heap} {l : List Nat} :
    ∀ {pv p : Option Nat}, Seg h pv p l none → ∀ k, l.length ≤ k → reach h k p = l := by
  induction l with
  | nil =>
    intro pv p hs k _
    have := seg_nil.1 hs
    subst this
    cases k <;> rfl
  | cons a l ih =>
    intro pv p hs k hk
    obtain ⟨hp, ln, hrd, _, hrest⟩ := seg_cons.1 hs
    subst hp
    cases k with
    | zero => simp at hk
    | succ k =>
      simp only [reach, hrd]
      rw [ih hrest k (by simpa using hk)]

theorem seg_suffix {h : Heap} {a : Nat} {l2 : List Nat} {q : Option Nat} {l1 : List Nat}
    {pv p : Option Nat} (hs : Seg h pv p (l1 ++ a :: l2) q) :
    Seg h (last_or pv l1) (some a) (a :: l2) q := by
  obtain ⟨_, ln, hrd, hpv, hrest⟩ := seg_split.1 hs
  exact seg_cons.2 ⟨rfl, ln, hrd, hpv, hrest⟩

theorem seg_nodup {h : Heap} {l : List Nat} :
    ∀ {pv p : Option Nat}, Seg h pv p l none → l.Nodup := by
  induction l with
  | nil => intro pv p _; exact List.nodup_nil
  | cons a l ih =>
    intro pv p hs
    obtain ⟨hp, ln, hrd, _, hrest⟩ := seg_cons.1 hs
    refine List.nodup_cons.2 ⟨?_, ih hrest⟩
    intro hmem
    obtain ⟨l1, l2, rfl⟩ := List.append_of_mem hmem
    have h1 := seg_reach hs (l1 ++ a :: l2).length.succ (by simp)
    have h2 := seg_reach (seg_suffix hrest) (l1 ++ a :: l2).length.succ (by simp; omega)
    subst hp
    rw [h1] at h2
    have := congrArg List.length h2
    simp at this
    omega

theorem nodup_lt_length {n : Nat} {l : List Nat} (hn : l.Nodup) (hl : ∀ a ∈ l, a < n) :
    l.length ≤ n := by
  have hsub : l ⊆ List.range n := fun a ha => List.mem_range.2 (hl a ha)
  have := (List.subperm_of_subset hn hsub).length_le
  simpa using this

theorem seg_line_addrs {s : State} {l : List Nat}
    (hs : Seg s.heap none s.buf.first_line l none) : line_addrs s = l := by
  unfold line_addrs
  exact seg_reach hs _ (nodup_lt_length (seg_nodup hs) (fun a ha => seg_mem_lt hs ha))

theorem good_inv {s : State} {l : List Nat} (hg : Good s l) : Inv s := by
  have e := seg_line_addrs hg.1
  unfold Inv node_count
  rw [e]
  exact hg

theorem inv_good {s : State} (hi : Inv s) : Good s (line_addrs s) := hi

theorem last_or_append (pv : Option Nat) (l : List Nat) (a : Nat) :
    last_or pv (l ++ [a]) = some a := by
  induction l generalizing pv with
  | nil => rfl
  | cons b l ih => simpa [last_or] using ih (some b)

theorem last_or_none {l : List Nat} (h : last_or none l = none) : l = [] := by
  rcases List.eq_nil_or_concat l with rfl | ⟨l', a, rfl⟩
  · rfl
  · rw [List.concat_eq_append, last_or_append] at h; simp at h

theorem last_or_some {l : List Nat} {p : Nat} (h : last_or none l = some p) :
    ∃ l', l = l' ++ [p] := by
  rcases List.eq_nil_or_concat l with rfl | ⟨l', a, rfl⟩
  · simp [last_or] at h
  · rw [List.concat_eq_append, last_or_append] at h
    simp at h
    exact ⟨l', by rw [h, List.concat_eq_append]⟩

theorem split_at {l : List Nat} {i a : Nat} (h : l[i]? = some a) :
    ∃ l1 l2, l = l1 ++ a :: l2 ∧ l1.length = i := by
  obtain ⟨hi, ha⟩ := List.getElem?_eq_some.1 h
  refine ⟨l.take i, l.drop (i + 1), ?_, by simp; omega⟩
  rw [← ha]
  simp

theorem memmove_nat (d : List Cell) (dst src n : Nat) (h1 : dst + n ≤ d.length)
    (h2 : src + n ≤ d.length) :
    memmove d ↑dst ↑src ↑n =
      some (d.take dst ++ (d.drop src).take n ++ d.drop (dst + n)) := by
  unfold memmove
  rw [if_pos (by omega)]
  simp

theorem memcpy_nat (d : List Cell) (off : Nat) (src : List Cell) (n : Nat)
    (h1 : off + n ≤ d.length) (h2 : n ≤ src.length) :
    memcpy d ↑off src ↑n = some (d.take off ++ src.take n ++ d.drop (off + n)) := by
  unfold memcpy
  rw [if_pos (by omega)]
  simp

theorem poke_nat (d : List Cell) (i : Nat) (v : Nat) (h : i < d.length) :
    poke d ↑i v = some (d.set i (some v)) := by
  unfold poke
  rw [if_pos (by omega)]
  simp

theorem realloc_nat (d : List Cell) (n : Nat) :
    realloc d ↑n = d.take n ++ List.replicate (n - d.length) none := by
  simp [realloc]

theorem realloc_block (A : List Cell) (R : List Cell) (k : Nat) :
    ∃ X, X.length = k ∧ realloc (A ++ R) ↑(A.length + k) = A ++ X := by
  refine ⟨R.take k ++ List.replicate (k - R.length) none, by simp; omega, ?_⟩
  rw [realloc_nat, List.take_append, List.append_assoc]
  congr 2
  simp
  omega

theorem insert_block (A B : List Cell) (t : Cell) (R : List Cell) (v : Nat) :
    ∃ d1, memmove (realloc (A ++ B ++ t :: R) (↑(A.length + B.length) + 2)) (↑A.length + 1)
        ↑A.length (↑(A.length + B.length) - ↑A.length + 1) = some d1 ∧
      poke d1 ↑A.length v = some (A ++ some v :: (B ++ [t])) := by
  have e1 : ((A.length + B.length : Nat) : Int) + 2 = ((A ++ B ++ [t]).length + 1 : Nat) := by
    simp; omega
  have e2 : ((A.length : Nat) : Int) + 1 = ((A.length + 1 : Nat) : Int) := by simp
  have e3 : ((A.length + B.length : Nat) : Int) - ↑A.length + 1 = ((B.length + 1 : Nat) : Int) := by
    simp
  obtain ⟨X, hX, hre⟩ := realloc_block (A ++ B ++ [t]) R 1
  have hd : A ++ B ++ t :: R = (A ++ B ++ [t]) ++ R := by simp
  rw [e1, e2, e3, hd, hre]
  obtain ⟨x, rfl⟩ := List.length_eq_one.1 hX
  rw [memmove_nat _ _ _ _ (by simp <;> omega) (by simp <;> omega)]
  refine ⟨_, rfl, ?_⟩
  rw [poke_nat _ _ _ (by simp <;> omega)]
  congr 1
  have e4 : A ++ B ++ [t] ++ [x] = A ++ (B ++ [t, x]) := by simp
  rw [e4, List.take_append, List.drop_left, List.drop_eq_nil_of_le (by simp <;> omega)]
  have : ∃ y, List.take 1 (B ++ [t, x]) = [y] := by
    cases B with
    | nil => exact ⟨t, rfl⟩
    | cons b B => exact ⟨b, rfl⟩
  obtain ⟨y, hy⟩ := this
  rw [hy]
  have e5 : List.take (B.length + 1) (B ++ [t, x]) = B ++ [t] := by
    rw [List.take_append]; rfl
  rw [e5]
  simp [List.set_append]


theorem delete_block (A : List Cell) (x : Cell) (B : List Cell) (t : Cell) (R : List Cell) :
    memmove (A ++ x :: (B ++ t :: R)) (↑(A.length + 1) - 1) ↑(A.length + 1)
        (↑(A.length + 1 + B.length) - ↑(A.length + 1) + 1) =
      some (A ++ (B ++ [t]) ++ t :: R) := by
  have e1 : ((A.length + 1 : Nat) : Int) - 1 = ((A.length : Nat) : Int) := by simp
  have e3 : ((A.length + 1 + B.length : Nat) : Int) - ↑(A.length + 1) + 1 =
      ((B.length + 1 : Nat) : Int) := by
    simp
  rw [e1, e3, memmove_nat _ _ _ _ (by simp <;> omega) (by simp <;> omega)]
  congr 1
  have e4 : A ++ x :: (B ++ t :: R) = (A ++ [x]) ++ (B ++ t :: R) := by simp
  have e5 : A.length + 1 = (A ++ [x]).length := by simp
  have e6 : A.length + (B.length + 1) = (A ++ [x] ++ B).length := by simp <;> omega
  have e7 : A ++ [x] ++ (B ++ t :: R) = (A ++ [x] ++ B) ++ t :: R := by simp
  rw [List.take_left, e4, e5, List.drop_left, e6, e7, List.drop_left]
  have e8 : B ++ t :: R = B ++ [t] ++ R := by simp
  have e9 : B.length + 1 = (B ++ [t]).length := by simp
  rw [e8, e9, List.take_left]

theorem merge_block (P : List Cell) (Rp : List Cell) (L : List Cell) (t : Cell)
    (Rl : List Cell) :
    memcpy (realloc (P ++ Rp) (↑P.length + ↑L.length + 1)) ↑P.length (L ++ t :: Rl)
        (↑L.length + 1) = some (P ++ (L ++ [t])) := by
  have e1 : ((P.length : Nat) : Int) + ↑L.length + 1 = ((P.length + (L.length + 1) : Nat) : Int) := by
    push_cast; omega
  have e2 : ((L.length : Nat) : Int) + 1 = ((L.length + 1 : Nat) : Int) := by simp
  obtain ⟨X, hX, hre⟩ := realloc_block P Rp (L.length + 1)
  rw [e1, e2, hre, memcpy_nat _ _ _ _ (by simp <;> omega) (by simp)]
  congr 1
  have e8 : L ++ t :: Rl = L ++ [t] ++ Rl := by simp
  have e9 : L.length + 1 = (L ++ [t]).length := by simp
  rw [List.take_left, e8, e9, List.take_left, List.drop_eq_nil_of_le (by simp <;> omega)]
  simp

theorem strcpy_length {d src : List Cell} {off : Int} {nd : List Cell}
    (h : strcpy d src off = some nd) : nd.length = d.length := by
  unfold strcpy at h
  split at h
  · split at h
    · simp at h
    · split at h
      · simp at h
        subst h
        simp
        omega
      · simp at h
  · simp at h

theorem cstr_cells (T : List Nat) (R : List Cell) (hT : ∀ v ∈ T, v ≠ 0) :
    cstr (cells T ++ some 0 :: R) = some (cells T ++ [some 0]) := by
  induction T with
  | nil => simp [cells, cstr]
  | cons v T ih =>
    have hv : v ≠ 0 := hT v (List.mem_cons_self v T)
    obtain ⟨w, rfl⟩ := Nat.exists_eq_succ_of_ne_zero hv
    have := ih (fun u hu => hT u (List.mem_cons_of_mem _ hu))
    show Option.map (fun w_1 => some (w + 1) :: w_1) (cstr (cells T ++ some 0 :: R)) = _
    rw [this]
    rfl

theorem cstr_shape : ∀ (d w : List Cell), cstr d = some w →
    ∃ T R, (∀ v ∈ T, v ≠ 0) ∧ d = cells T ++ some 0 :: R ∧ w = cells T ++ [some 0] := by
  intro d
  induction d with
  | nil => intro w h; simp [cstr] at h
  | cons c d ih =>
    intro w h
    match c, h with
    | none, h => simp [cstr] at h
    | some 0, h =>
      simp [cstr] at h
      exact ⟨[], d, by simp, by simp [cells], by simp [cells, h]⟩
    | some (v + 1), h =>
      simp only [cstr, Option.map_eq_some'] at h
      obtain ⟨w', hw', rfl⟩ := h
      obtain ⟨T, R, hT, hd, hw⟩ := ih w' hw'
      refine ⟨(v + 1) :: T, R, ?_, ?_, ?_⟩
      · intro u hu
        rcases List.mem_cons.1 hu with rfl | hu
        · omega
        · exact hT u hu
      · simp [cells, hd]
      · simp [cells, hw]

theorem line_ok_at_iff {h : Heap} {a : Nat} :
    line_ok_at h a = true ↔ ∃ ln, rd h a = some ln ∧ 0 ≤ ln.length ∧
      ln.length < ln.data.length ∧ ln.length < 2147483647 := by
  unfold line_ok_at
  cases e : rd h a with
  | none => simp
  | some ln => simp

theorem good_len_lt {s : State} {l : List Nat} (hg : Good s l) {a : Nat} {ln : Line}
    (hmem : a ∈ l) (hrd : rd s.heap a = some ln) : ln.length < 2147483647 := by
  obtain ⟨ln', hrd', _, _, h⟩ := line_ok_at_iff.1 (hg.2.1 a hmem)
  rw [hrd] at hrd'
  cases hrd'
  exact h

theorem line_decomp {ln : Line} (h0 : 0 ≤ ln.length) (h1 : ln.length < ln.data.length)
    {x : Int} (hx0 : 0 ≤ x) (hx1 : x ≤ ln.length) :
    ∃ A B t R, ln.data = A ++ B ++ t :: R ∧ x = ↑A.length ∧
      ln.length = ((A.length + B.length : Nat) : Int) ∧ content ln = A ++ B := by
  have hlen : ln.length.toNat < ln.data.length := by omega
  refine ⟨ln.data.take x.toNat, (ln.data.drop x.toNat).take (ln.length.toNat - x.toNat),
    ln.data[ln.length.toNat], ln.data.drop (ln.length.toNat + 1), ?_, ?_, ?_, ?_⟩
  · have e1 : ln.data.take x.toNat ++ (ln.data.drop x.toNat).take (ln.length.toNat - x.toNat)
        = ln.data.take ln.length.toNat := by
      have : ln.length.toNat = x.toNat + (ln.length.toNat - x.toNat) := by omega
      conv_rhs => rw [this, List.take_add]
    rw [e1]
    simp
  · rw [List.length_take]; omega
  · rw [List.length_take, List.length_take, List.length_drop]; omega
  · unfold content
    have : ln.length.toNat = x.toNat + (ln.length.toNat - x.toNat) := by omega
    conv_lhs => rw [this, List.take_add]

theorem good_cur {s : State} {l : List Nat} (hg : Good s l) :
    ∃ a ln l1 l2, s.buf.current_line = some a ∧ rd s.heap a = some ln ∧
      l = l1 ++ a :: l2 ∧ s.buf.cursor_y = ↑l1.length ∧
      0 ≤ ln.length ∧ ln.length < ln.data.length ∧
      0 ≤ s.buf.cursor_x ∧ s.buf.cursor_x ≤ ln.length ∧
      ln.prev = last_or none l1 ∧ ln.next = head_or none l2 := by
  obtain ⟨hseg, hok, _, hy, hne, hidx, hx0, hx1⟩ := hg
  obtain ⟨a, ha⟩ := Option.ne_none_iff_exists'.1 hne
  rw [ha] at hidx
  obtain ⟨l1, l2, rfl, hl1⟩ := split_at hidx
  obtain ⟨ln, hrd, h0, h1, _⟩ := line_ok_at_iff.1 (hok a (by simp))
  obtain ⟨_, ln', hrd', hpv, hrest⟩ := seg_split.1 hseg
  rw [hrd] at hrd'
  cases hrd'
  refine ⟨a, ln, l1, l2, ha, hrd, rfl, by omega, h0, h1, hx0, ?_, hpv, seg_head hrest⟩
  simpa [current_len, ha, length_at, hrd] using hx1

theorem good_at {s : State} {l : List Nat} (hg : Good s l) :
    ∃ a ln l1 l2 A B t R, At s l a ln l1 l2 A B t R := by
  obtain ⟨a, ln, l1, l2, ha, hrd, hl, hy, h0, h1, hx0, hx1, hpv, hnx⟩ := good_cur hg
  obtain ⟨A, B, t, R, hd, hx, hlen, _⟩ := line_decomp h0 h1 hx0 hx1
  exact ⟨a, ln, l1, l2, A, B, t, R, ha, hrd, hl, hy, hd, hx, hlen, hpv, hnx⟩

theorem content_decomp {ln : Line} {A B : List Cell} {t : Cell} {R : List Cell}
    (hd : ln.data = A ++ B ++ t :: R) (hlen : ln.length = ((A.length + B.length : Nat) : Int)) :
    content ln = A ++ B := by
  unfold content
  rw [hd, hlen]
  have : (((A.length + B.length : Nat) : Int)).toNat = (A ++ B).length := by
    rw [List.length_append]; omega
  rw [this, List.take_left]

theorem content_at_wr_same {h : Heap} {a : Nat} (ln : Line) (ha : a < h.length) :
    content_at (wr h a ln) a = content ln := by
  simp [content_at, rd_wr_same ln ha]

theorem content_at_frame {h h' : Heap} {b : Nat} (e : rd h' b = rd h b) :
    content_at h' b = content_at h b := by
  simp [content_at, e]

theorem map_content_frame {h h' : Heap} {l : List Nat} (e : ∀ b ∈ l, rd h' b = rd h b) :
    l.map (content_at h') = l.map (content_at h) :=
  List.map_congr_left (fun b hb => content_at_frame (e b hb))

theorem lines_of_good {s : State} {l : List Nat} (hg : Good s l) :
    lines s = l.map (content_at s.heap) := by
  unfold lines
  rw [seg_line_addrs hg.1]

theorem lengths_of_good {s : State} {l : List Nat} (hg : Good s l) :
    lengths s = l.map (length_at s.heap) := by
  unfold lengths
  rw [seg_line_addrs hg.1]

theorem good_nodup {s : State} {l : List Nat} (hg : Good s l) : l.Nodup := seg_nodup hg.1

theorem nodup_mid {l1 l2 : List Nat} {a : Nat} (hn : (l1 ++ a :: l2).Nodup) :
    a ∉ l1 ∧ a ∉ l2 ∧ l1.Nodup ∧ l2.Nodup ∧ ∀ b ∈ l1, b ∉ l2 := by
  rw [List.nodup_append] at hn
  obtain ⟨h1, h2, h3⟩ := hn
  rw [List.nodup_cons] at h2
  refine ⟨fun h => h3 h (List.mem_cons_self a l2), h2.1, h1, h2.2, ?_⟩
  intro b hb hb2
  exact h3 hb (List.mem_cons_of_mem a hb2)

/-- Replacing the block and the length of the current line keeps the
invariant, as long as the new block has room for the new length and the
new column is within the line. -/
theorem good_payload {s : State} {l : List Nat} (hg : Good s l) {a : Nat} {ln : Line}
    (ha : s.buf.current_line = some a) (hrd : rd s.heap a = some ln)
    (d : List Cell) (n x : Int) (m : Bool)
    (hn0 : 0 ≤ n) (hn1 : n < d.length) (hx0 : 0 ≤ x) (hx1 : x ≤ n)
    (hn2 : n < 2147483647) :
    Good { heap := wr s.heap a { ln with data := d, length := n },
           buf := { s.buf with cursor_x := x, modified := m } } l := by
  obtain ⟨hseg, hok, hcnt, hy, hne, hidx, _, _⟩ := hg
  have halt := rd_some_lt hrd
  refine ⟨?_, ?_, hcnt, hy, hne, hidx, hx0, ?_⟩
  · refine seg_frame ?_ hseg
    intro b _ lb hb
    by_cases hba : a = b
    · subst hba
      rw [hrd] at hb
      cases hb
      exact ⟨_, rd_wr_same _ halt, rfl, rfl⟩
    · exact ⟨lb, by rw [rd_wr_ne _ hba]; exact hb, rfl, rfl⟩
  · intro b hb
    by_cases hba : a = b
    · subst hba
      exact line_ok_at_iff.2 ⟨_, rd_wr_same _ halt, hn0, hn1, hn2⟩
    · have := hok b hb
      unfold line_ok_at at this ⊢
      rw [show rd (wr s.heap a _) b = rd s.heap b from rd_wr_ne _ hba]
      exact this
  · show x ≤ current_len _
    simp only [current_len, ha, length_at]
    rw [rd_wr_same _ halt]
    exact hx1

theorem lines_payload {s : State} {l1 l2 : List Nat} {a : Nat} (hn : (l1 ++ a :: l2).Nodup)
    (ln' : Line) (ha : a < s.heap.length) :
    (l1 ++ a :: l2).map (content_at (wr s.heap a ln')) =
      l1.map (content_at s.heap) ++ content ln' :: l2.map (content_at s.heap) := by
  obtain ⟨h1, h2, _, _, _⟩ := nodup_mid hn
  rw [List.map_append, List.map_cons, content_at_wr_same _ ha]
  congr 1
  · exact map_content_frame (fun b hb => rd_wr_ne _ (fun e => h1 (e ▸ hb)))
  · congr 1
    exact map_content_frame (fun b hb => rd_wr_ne _ (fun e => h2 (e ▸ hb)))

theorem insert_eval {s : State} {l : List Nat} {a : Nat} {ln : Line} {l1 l2 : List Nat}
    {A B : List Cell} {t : Cell} {R : List Cell} (hat : At s l a ln l1 l2 A B t R)
    (ch : Int) (hfit : ln.length < 2147483646) :
    buffer_insert_char s ch true = some (LITE_OK,
      { heap := wr s.heap a
          { ln with data := A ++ some (to_char ch) :: (B ++ [t]), length := ln.length + 1 },
        buf := { s.buf with cursor_x := s.buf.cursor_x + 1, modified := true } }) := by
  obtain ⟨ha, hrd, _, _, hd, hx, hlen, _, _⟩ := hat
  obtain ⟨d1, hmm, hpk⟩ := insert_block A B t R (to_char ch)
  have w2 : wrap32 (ln.length + 2) = ln.length + 2 := wrap32_id (by omega) (by omega)
  have w1 : wrap32 (ln.length + 1) = ln.length + 1 := wrap32_id (by omega) (by omega)
  have wx : wrap32 (s.buf.cursor_x + 1) = s.buf.cursor_x + 1 :=
    wrap32_id (by omega) (by omega)
  unfold buffer_insert_char
  simp only [ha, hrd, w2, w1, wx]
  simp only [Bool.not_true, Bool.false_eq_true, if_false]
  rw [if_neg (by omega)]
  rw [hd, hx, hlen, hmm]
  simp only [hpk]

theorem insert_fail {s : State} {l : List Nat} (hg : Good s l) (ch : Int) :
    buffer_insert_char s ch false = some (LITE_ERROR, s) := by
  obtain ⟨a, ln, l1, l2, ha, hrd, _, _, h0, _⟩ := good_cur hg
  unfold buffer_insert_char
  simp only [ha, hrd]
  simp

theorem payload_cases {h h' : Heap} {b : Nat} (e : payload h' b = payload h b) :
    (rd h b = none ∧ rd h' b = none) ∨
      ∃ ln ln', rd h b = some ln ∧ rd h' b = some ln' ∧ ln'.data = ln.data ∧
        ln'.length = ln.length := by
  unfold payload at e
  cases e1 : rd h b with
  | none =>
    cases e2 : rd h' b with
    | none => exact Or.inl ⟨rfl, rfl⟩
    | some ln' => rw [e1, e2] at e; simp at e
  | some ln =>
    cases e2 : rd h' b with
    | none => rw [e1, e2] at e; simp at e
    | some ln' =>
      rw [e1, e2] at e
      simp at e
      exact Or.inr ⟨ln, ln', rfl, rfl, e.1, e.2⟩

theorem payload_of_rd {h h' : Heap} {b : Nat} (e : rd h' b = rd h b) :
    payload h' b = payload h b := by
  simp [payload, e]

theorem content_at_of_payload {h h' : Heap} {b : Nat} (e : payload h' b = payload h b) :
    content_at h' b = content_at h b := by
  rcases payload_cases e with ⟨e1, e2⟩ | ⟨ln, ln', e1, e2, hd, hl⟩
  · simp [content_at, e1, e2]
  · simp [content_at, e1, e2, content, hd, hl]

theorem length_at_of_payload {h h' : Heap} {b : Nat} (e : payload h' b = payload h b) :
    length_at h' b = length_at h b := by
  rcases payload_cases e with ⟨e1, e2⟩ | ⟨ln, ln', e1, e2, hd, hl⟩
  · simp [length_at, e1, e2]
  · simp [length_at, e1, e2, hl]

theorem line_ok_at_of_payload {h h' : Heap} {b : Nat} (e : payload h' b = payload h b) :
    line_ok_at h' b = line_ok_at h b := by
  rcases payload_cases e with ⟨e1, e2⟩ | ⟨ln, ln', e1, e2, hd, hl⟩
  · simp [line_ok_at, e1, e2]
  · simp [line_ok_at, e1, e2, hd, hl]

theorem is_cstr_at_of_payload {h h' : Heap} {b : Nat} (e : payload h' b = payload h b) :
    is_cstr_at h' b = is_cstr_at h b := by
  rcases payload_cases e with ⟨e1, e2⟩ | ⟨ln, ln', e1, e2, hd, hl⟩
  · simp [is_cstr_at, e1, e2]
  · simp [is_cstr_at, e1, e2, content, hd, hl]

theorem payload_some {h : Heap} {b : Nat} {ln : Line} (e : rd h b = some ln) :
    payload h b = some (ln.data, ln.length) := by
  simp [payload, e]

theorem content_at_payload {h : Heap} {b : Nat} {d : List Cell} {n : Int}
    (e : payload h b = some (d, n)) : content_at h b = d.take n.toNat := by
  unfold payload at e
  cases e1 : rd h b with
  | none => rw [e1] at e; simp at e
  | some ln =>
    rw [e1] at e
    simp at e
    simp [content_at, e1, content, e.1, e.2]

theorem length_at_payload {h : Heap} {b : Nat} {d : List Cell} {n : Int}
    (e : payload h b = some (d, n)) : length_at h b = n := by
  unfold payload at e
  cases e1 : rd h b with
  | none => rw [e1] at e; simp at e
  | some ln =>
    rw [e1] at e
    simp at e
    simp [length_at, e1, e.2]

theorem line_ok_at_payload {h : Heap} {b : Nat} {d : List Cell} {n : Int}
    (e : payload h b = some (d, n)) (h0 : 0 ≤ n) (h1 : n < d.length)
    (h2 : n < 2147483647) :
    line_ok_at h b = true := by
  unfold payload at e
  cases e1 : rd h b with
  | none => rw [e1] at e; simp at e
  | some ln =>
    rw [e1] at e
    simp at e
    simp [line_ok_at, e1, e.1, e.2, h0, h1, h2]

/-- The statement `if (next) next->prev = p` in front of a segment only
changes the `prev` field of the first node of the segment. -/
theorem relink_spec {h : Heap} {pv : Option Nat} {l2 : List Nat}
    (hs : Seg h pv (head_or none l2) l2 none) (p : Nat) :
    ∃ h2, relink_next h (head_or none l2) p = some h2 ∧
      Seg h2 (some p) (head_or none l2) l2 none ∧ h2.length = h.length ∧
      (∀ b, b ∉ l2 → rd h2 b = rd h b) ∧ (∀ b, payload h2 b = payload h b) := by
  cases l2 with
  | nil =>
    exact ⟨h, rfl, seg_nil.2 rfl, rfl, fun _ _ => rfl, fun _ => rfl⟩
  | cons m l2 =>
    have hnd := seg_nodup hs
    obtain ⟨_, nl, hrd, _, hrest⟩ := seg_cons.1 hs
    have hm : m ∉ l2 := (List.nodup_cons.1 hnd).1
    have hlt := rd_some_lt hrd
    refine ⟨wr h m { nl with prev := some p }, ?_, ?_, length_wr _ _ _, ?_, ?_⟩
    · simp [relink_next, head_or, hrd]
    · refine seg_cons.2 ⟨rfl, _, rd_wr_same _ hlt, rfl, ?_⟩
      exact seg_frame_eq (fun b hb => rd_wr_ne _ (fun e : m = b => hm (e ▸ hb))) hrest
    · intro b hb
      exact rd_wr_ne _ (fun e : m = b => hb (e ▸ List.mem_cons_self m l2))
    · intro b
      by_cases e : m = b
      · subst e
        simp [payload, rd_wr_same _ hlt, hrd]
      · exact payload_of_rd (rd_wr_ne _ e)

theorem rd_append_ne {h : Heap} {b : Nat} (x : Option Line) (hb : b ≠ h.length) :
    rd (h ++ [x]) b = rd h b := by
  by_cases hlt : b < h.length
  · exact rd_append_old x hlt
  · have h1 : h.length + 1 ≤ b := by omega
    simp [rd, List.getElem?_eq_none, h1]
    rw [List.getElem?_eq_none (by omega)]
    rfl

/-- Linking a new node after node `c`, as the second half of
`buffer_new_line` does, turns the list `l1 ++ c :: l2` into
`l1 ++ c :: n :: l2`. -/
theorem link_spec {h : Heap} {first : Option Nat} {l1 l2 : List Nat} {c : Nat} {ln : Line}
    (hs : Seg h none first (l1 ++ c :: l2) none) (hrd : rd h c = some ln)
    (x : Option Line) (nl c1 : Line) (hc1p : c1.prev = ln.prev) (hc1n : c1.next = ln.next) :
    ∃ h2 c2,
      relink_next (wr (wr (h ++ [x]) h.length { nl with next := c1.next, prev := some c }) c c1)
        c1.next h.length = some h2 ∧
      rd h2 c = some c2 ∧
      Seg (wr h2 c { c2 with next := some h.length }) none first
        (l1 ++ c :: h.length :: l2) none ∧
      payload (wr h2 c { c2 with next := some h.length }) c = some (c1.data, c1.length) ∧
      payload (wr h2 c { c2 with next := some h.length }) h.length
        = some (nl.data, nl.length) ∧
      ∀ b, b ≠ c → b ≠ h.length →
        payload (wr h2 c { c2 with next := some h.length }) b = payload h b := by
  have hnd := seg_nodup hs
  obtain ⟨hc1, hc2, _, _, h12⟩ := nodup_mid hnd
  obtain ⟨hs1, ln', hrd', hpv, hs2⟩ := seg_split.1 hs
  rw [hrd] at hrd'; cases hrd'
  have hnx := seg_head hs2
  have hclt := rd_some_lt hrd
  have hcn : c ≠ h.length := by omega
  have hlt : ∀ b ∈ l1 ++ c :: l2, b < h.length := fun b hb => seg_mem_lt hs hb
  have hl2n : h.length ∉ l2 := fun hm => by
    have := hlt h.length (by simp [hm]); omega
  have hl1n : h.length ∉ l1 := fun hm => by
    have := hlt h.length (by simp [hm]); omega
  -- the heap after the two stores
  have hlen0 : (h ++ [x]).length = h.length + 1 := by simp
  have hrd1 : ∀ b, b ≠ c → b ≠ h.length →
      rd (wr (wr (h ++ [x]) h.length { nl with next := c1.next, prev := some c }) c c1) b
        = rd h b := by
    intro b hbc hbn
    rw [rd_wr_ne _ (Ne.symm hbc), rd_wr_ne _ (Ne.symm hbn), rd_append_ne _ hbn]
  have hs2' : Seg (wr (wr (h ++ [x]) h.length { nl with next := c1.next, prev := some c }) c c1)
      (some c) (head_or none l2) l2 none := by
    rw [← hnx]
    exact seg_frame_eq (fun b hb => hrd1 b (fun e => hc2 (e ▸ hb)) (fun e => hl2n (e ▸ hb))) hs2
  obtain ⟨h2, hrl, hseg2, hlen2, hfr2, hpl2⟩ := relink_spec hs2' h.length
  have hrd2c : rd h2 c = some c1 := by
    rw [hfr2 c hc2]
    exact rd_wr_same _ (by rw [length_wr, hlen0]; omega)
  have hrd2n : rd h2 h.length = some { nl with next := c1.next, prev := some c } := by
    rw [hfr2 _ hl2n, rd_wr_ne _ hcn]
    exact rd_wr_same _ (by rw [hlen0]; omega)
  have hc2lt : c < h2.length := by rw [hlen2, length_wr, length_wr, hlen0]; omega
  refine ⟨h2, c1, ?_, hrd2c, ?_, ?_, ?_, ?_⟩
  · have e := hc1n.trans hnx
    rw [← e] at hrl
    exact hrl
  · refine seg_split.2 ⟨?_, _, rd_wr_same _ hc2lt, hc1p.trans hpv, ?_⟩
    · refine seg_frame_eq ?_ hs1
      intro b hb
      have hbc : b ≠ c := fun e => hc1 (e ▸ hb)
      have hbn : b ≠ h.length := fun e => hl1n (e ▸ hb)
      rw [rd_wr_ne _ (Ne.symm hbc), hfr2 b (h12 b hb), hrd1 b hbc hbn]
    · refine seg_cons.2 ⟨rfl, { nl with next := c1.next, prev := some c }, ?_, rfl, ?_⟩
      · rw [rd_wr_ne _ hcn]; exact hrd2n
      · show Seg _ (some h.length) c1.next l2 none
        rw [hc1n, hnx]
        exact seg_frame_eq (fun b hb => rd_wr_ne _ (fun e : c = b => hc2 (e ▸ hb))) hseg2
  · simp [payload, rd_wr_same _ hc2lt]
  · rw [payload_of_rd (rd_wr_ne _ hcn)]
    simp [payload, hrd2n]
  · intro b hbc hbn
    rw [payload_of_rd (rd_wr_ne _ (Ne.symm hbc)), hpl2 b]
    exact payload_of_rd (hrd1 b hbc hbn)

/-- Unlinking node `a` from behind node `p`, as the merge path of
`buffer_delete_char` does, turns the list `l1 ++ p :: a :: l2` into
`l1 ++ p :: l2`. -/
theorem unlink_spec {h : Heap} {first : Option Nat} {l1 l2 : List Nat} {p a : Nat}
    {pl ln : Line} (hs : Seg h none first (l1 ++ p :: a :: l2) none)
    (hrdp : rd h p = some pl) (hrda : rd h a = some ln) (d : List Cell) (n : Int) :
    ∃ h2,
      relink_next (wr h p { pl with data := d, length := n, next := ln.next }) ln.next p
        = some h2 ∧
      Seg (free_line h2 a) none first (l1 ++ p :: l2) none ∧
      payload (free_line h2 a) p = some (d, n) ∧
      ∀ b, b ≠ p → b ≠ a → payload (free_line h2 a) b = payload h b := by
  have hnd := seg_nodup hs
  obtain ⟨hp1, hp2, _, hnd2, h12⟩ := nodup_mid hnd
  obtain ⟨ha2, _⟩ := List.nodup_cons.1 hnd2
  have hpa : p ≠ a := fun e => hp2 (e ▸ List.mem_cons_self _ _)
  have hpl2 : p ∉ l2 := fun hm => hp2 (List.mem_cons_of_mem _ hm)
  obtain ⟨hs1, pl', hrdp', hpv, hs2⟩ := seg_split.1 hs
  rw [hrdp] at hrdp'; cases hrdp'
  obtain ⟨_, ln', hrda', _, hs3⟩ := seg_cons.1 hs2
  rw [hrda] at hrda'; cases hrda'
  have hnx := seg_head hs3
  have hplt := rd_some_lt hrdp
  have hs3' : Seg (wr h p { pl with data := d, length := n, next := ln.next })
      (some a) (head_or none l2) l2 none := by
    rw [← hnx]
    exact seg_frame_eq (fun b hb => rd_wr_ne _ (fun e : p = b => hpl2 (e ▸ hb))) hs3
  obtain ⟨h2, hrl, hseg2, hlen2, hfr2, hpay2⟩ := relink_spec hs3' p
  have hrd2p : rd (free_line h2 a) p
      = some { pl with data := d, length := n, next := ln.next } := by
    rw [rd_free_ne (Ne.symm hpa), hfr2 p hpl2]
    exact rd_wr_same _ hplt
  refine ⟨h2, ?_, ?_, ?_, ?_⟩
  · rw [← hnx] at hrl
    exact hrl
  · refine seg_split.2 ⟨?_, _, hrd2p, hpv, ?_⟩
    · refine seg_frame_eq ?_ hs1
      intro b hb
      have hbp : b ≠ p := fun e => hp1 (e ▸ hb)
      have hba : b ≠ a := fun e => h12 b hb (e ▸ List.mem_cons_self _ _)
      have hb2 : b ∉ l2 := fun hm => h12 b hb (List.mem_cons_of_mem _ hm)
      rw [rd_free_ne (Ne.symm hba), hfr2 b hb2, rd_wr_ne _ (Ne.symm hbp)]
    · show Seg _ (some p) ln.next l2 none
      rw [hnx]
      exact seg_frame_eq (fun b hb => rd_free_ne (fun e : a = b => ha2 (e ▸ hb))) hseg2
  · simp [payload, hrd2p]
  · intro b hbp hba
    rw [payload_of_rd (rd_free_ne (Ne.symm hba)), hpay2 b]
    exact payload_of_rd (rd_wr_ne _ (Ne.symm hbp))

theorem split_line_cases {ln : Line} {x : Int} {ok : Bool} {nl c1 : Line}
    (h : split_line ln x ok = some (some (nl, c1))) :
    (¬ x < ln.length ∧ nl = { data := [some 0], length := 0, prev := none, next := none } ∧
      c1 = ln) ∨
    (x < ln.length ∧ ∃ nd cd,
      strcpy (realloc [some 0] (ln.length - x + 1)) ln.data x = some nd ∧
      poke ln.data x 0 = some cd ∧
      nl = { data := nd, length := ln.length - x, prev := none, next := none } ∧
      c1 = { ln with data := cd, length := x }) := by
  unfold split_line at h
  by_cases hlt : x < ln.length
  · right
    refine ⟨hlt, ?_⟩
    rw [if_pos hlt] at h
    by_cases h1 : ln.length - x + 1 ≤ 0
    · rw [if_pos h1] at h; simp at h
    · rw [if_neg h1] at h
      cases ok with
      | false => simp at h
      | true =>
        simp only [Bool.not_true, Bool.false_eq_true, if_false] at h
        cases e1 : strcpy (realloc [some 0] (ln.length - x + 1)) ln.data x with
        | none => rw [e1] at h; simp at h
        | some nd =>
          rw [e1] at h
          cases e2 : poke ln.data x 0 with
          | none => rw [e2] at h; simp at h
          | some cd =>
            rw [e2] at h
            simp only [Option.some.injEq, Prod.mk.injEq] at h
            exact ⟨nd, cd, rfl, rfl, h.1.symm, h.2.symm⟩
  · left
    rw [if_neg hlt] at h
    simp only [Option.some.injEq, Prod.mk.injEq] at h
    exact ⟨hlt, h.1.symm, h.2.symm⟩

theorem split_line_links {ln : Line} {x : Int} {ok : Bool} {nl c1 : Line}
    (h : split_line ln x ok = some (some (nl, c1))) :
    c1.prev = ln.prev ∧ c1.next = ln.next := by
  rcases split_line_cases h with ⟨_, _, rfl⟩ | ⟨_, nd, cd, _, _, _, rfl⟩
  · exact ⟨rfl, rfl⟩
  · exact ⟨rfl, rfl⟩

theorem split_line_sizes {ln : Line} {A B : List Cell} {t : Cell} {R : List Cell}
    (hd : ln.data = A ++ B ++ t :: R) (hlen : ln.length = ((A.length + B.length : Nat) : Int))
    {ok : Bool} {nl c1 : Line}
    (h : split_line ln ↑A.length ok = some (some (nl, c1))) :
    c1.length = ↑A.length ∧ (A.length : Int) < c1.data.length ∧
      nl.length = ↑B.length ∧ (B.length : Int) < nl.data.length ∧
      c1.data.take A.length = A := by
  rcases split_line_cases h with ⟨hge, rfl, rfl⟩ | ⟨hlt, nd, cd, hnd, hcd, rfl, rfl⟩
  · have hB : B.length = 0 := by omega
    have hB' : B = [] := List.length_eq_zero.1 hB
    subst hB'
    refine ⟨by simpa using hlen, ?_, by simp, by simp, ?_⟩
    · rw [hd]; simp
    · rw [hd]; simp
  · have hl := strcpy_length hnd
    have e1 : ln.length - ↑A.length + 1 = ((B.length + 1 : Nat) : Int) := by
      rw [hlen]; push_cast; omega
    rw [e1, realloc_nat] at hl
    rw [hd, poke_nat _ _ _ (by simp <;> omega)] at hcd
    simp only [Option.some.injEq] at hcd
    subst hcd
    refine ⟨rfl, ?_, ?_, ?_, ?_⟩
    · simp <;> omega
    · simp [hlen]
    · simp only [hl]; simp <;> omega
    · simp [List.set_append, List.take_append_eq_append_take]

theorem good_mem_ok {s : State} {l : List Nat} (hg : Good s l) {b : Nat} (hb : b ∈ l) :
    ∃ lb, rd s.heap b = some lb ∧ 0 ≤ lb.length ∧ lb.length < lb.data.length := by
  obtain ⟨lb, h1, h2, h3, _⟩ := line_ok_at_iff.1 (hg.2.1 b hb)
  exact ⟨lb, h1, h2, h3⟩

theorem insert_spec {s : State} {l : List Nat} {a : Nat} {ln : Line} {l1 l2 : List Nat}
    {A B : List Cell} {t : Cell} {R : List Cell} (hg : Good s l)
    (hat : At s l a ln l1 l2 A B t R) (ch : Int) (hfit : ln.length < 2147483646) :
    ∃ h', buffer_insert_char s ch true = some (LITE_OK,
        { heap := h',
          buf := { s.buf with cursor_x := s.buf.cursor_x + 1, modified := true } }) ∧
      Good { heap := h',
             buf := { s.buf with cursor_x := s.buf.cursor_x + 1, modified := true } } l ∧
      payload h' a = some (A ++ some (to_char ch) :: (B ++ [t]), ln.length + 1) ∧
      ∀ b, b ≠ a → payload h' b = payload s.heap b := by
  have hev := insert_eval hat ch hfit
  obtain ⟨ha, hrd, _, _, hd, hx, hlen, _, _⟩ := hat
  have halt := rd_some_lt hrd
  refine ⟨_, hev, ?_, ?_, ?_⟩
  · refine good_payload hg ha hrd _ _ _ _ (by omega) ?_ (by omega) (by omega) (by omega)
    simp; omega
  · simp [payload, rd_wr_same _ halt]
  · intro b hb
    exact payload_of_rd (rd_wr_ne _ (Ne.symm hb))

theorem delete_inline_spec {s : State} {l : List Nat} {a : Nat} {ln : Line}
    {l1 l2 : List Nat} {A' : List Cell} {x : Cell} {B : List Cell} {t : Cell} {R : List Cell}
    (hg : Good s l) (hat : At s l a ln l1 l2 (A' ++ [x]) B t R) (ok : Bool) :
    ∃ h', buffer_delete_char s ok = some (LITE_OK,
        { heap := h',
          buf := { s.buf with cursor_x := s.buf.cursor_x - 1, modified := true } }) ∧
      Good { heap := h',
             buf := { s.buf with cursor_x := s.buf.cursor_x - 1, modified := true } } l ∧
      payload h' a = some (A' ++ (B ++ [t]) ++ t :: R, ln.length - 1) ∧
      ∀ b, b ≠ a → payload h' b = payload s.heap b := by
  have hlt := good_len_lt hg (by rw [hat.2.2.1]; simp) hat.2.1
  obtain ⟨ha, hrd, _, _, hd, hx, hlen, _, _⟩ := hat
  have halt := rd_some_lt hrd
  have hd' : ln.data = A' ++ x :: (B ++ t :: R) := by rw [hd]; simp
  have hx' : s.buf.cursor_x = ((A'.length + 1 : Nat) : Int) := by rw [hx]; simp
  have hlen' : ln.length = ((A'.length + 1 + B.length : Nat) : Int) := by rw [hlen]; simp
  have hev : buffer_delete_char s ok = some (LITE_OK,
      { heap := wr s.heap a { ln with data := A' ++ (B ++ [t]) ++ t :: R,
                                      length := ln.length - 1 },
        buf := { s.buf with cursor_x := s.buf.cursor_x - 1, modified := true } }) := by
    unfold buffer_delete_char
    simp only [ha, hrd]
    rw [if_neg (by omega)]
    have hb := delete_block A' x B t R
    rw [← hd', ← hx', ← hlen'] at hb
    simp only [hb]
  refine ⟨_, hev, ?_, ?_, ?_⟩
  · refine good_payload hg ha hrd _ _ _ _ (by omega) ?_ (by omega) (by omega) (by omega)
    simp; omega
  · simp [payload, rd_wr_same _ halt]
  · intro b hb
    exact payload_of_rd (rd_wr_ne _ (Ne.symm hb))

theorem delete_first_noop {s : State} {l : List Nat} {a : Nat} {ln : Line}
    {l2 : List Nat} {B : List Cell} {t : Cell} {R : List Cell}
    (hat : At s l a ln [] l2 [] B t R) (ok : Bool) :
    buffer_delete_char s ok = some (LITE_OK, s) := by
  obtain ⟨ha, hrd, _, _, _, hx, _, hpv, _⟩ := hat
  unfold buffer_delete_char
  simp only [ha, hrd]
  rw [if_pos (by simpa using hx)]
  simp only [last_or] at hpv
  simp only [hpv]

theorem merge_spec {s : State} {l : List Nat} {a : Nat} {ln : Line} {l1 l2 : List Nat}
    {p : Nat} {B : List Cell} {t : Cell} {R : List Cell} (hg : Good s l)
    (hat : At s l a ln (l1 ++ [p]) l2 [] B t R)
    (hfit : length_at s.heap p + ln.length < 2147483647) :
    ∃ pl P tp Rp h', rd s.heap p = some pl ∧ pl.data = P ++ tp :: Rp ∧
      pl.length = ↑P.length ∧
      buffer_delete_char s true = some (LITE_OK,
        { heap := h',
          buf := { s.buf with
            current_line := some p, cursor_x := pl.length,
            cursor_y := s.buf.cursor_y - 1,
            line_count := s.buf.line_count - 1, modified := true } }) ∧
      Good { heap := h',
             buf := { s.buf with
               current_line := some p, cursor_x := pl.length,
               cursor_y := s.buf.cursor_y - 1,
               line_count := s.buf.line_count - 1, modified := true } } (l1 ++ p :: l2) ∧
      payload h' p = some (P ++ (B ++ [t]), pl.length + ln.length) ∧
      ∀ b, b ≠ p → b ≠ a → payload h' b = payload s.heap b := by
  obtain ⟨ha, hrd, hl, hy, hd, hx, hlen, hpv, _⟩ := hat
  rw [last_or_append] at hpv
  have hl' : l = l1 ++ p :: a :: l2 := by rw [hl]; simp
  obtain ⟨pl, hrdp, hp0, hp1⟩ := good_mem_ok hg (b := p) (by rw [hl']; simp)
  have hfit' : pl.length + ln.length < 2147483647 := by
    simpa [length_at, hrdp] using hfit
  have w1 : wrap32 (pl.length + ln.length + 1) = pl.length + ln.length + 1 :=
    wrap32_id (by omega) (by omega)
  have w0 : wrap32 (pl.length + ln.length) = pl.length + ln.length :=
    wrap32_id (by omega) (by omega)
  obtain ⟨P, B', tp, Rp, hpd, hpx, hplen, _⟩ := line_decomp hp0 hp1 hp0 (le_refl _)
  have hB' : B' = [] := by
    apply List.length_eq_zero.1
    have : (P.length : Int) = ((P.length + B'.length : Nat) : Int) := by rw [← hpx, ← hplen]
    omega
  subst hB'
  simp only [List.append_nil] at hpd
  simp only [List.nil_append, List.length_nil, Nat.zero_add] at hd hlen
  have hseg := hg.1
  rw [hl'] at hseg
  have hmb := merge_block P (tp :: Rp) B t R
  rw [← hpd, ← hd, ← hpx, ← hlen] at hmb
  obtain ⟨h2, hrl, hseg', hpay, hfr⟩ :=
    unlink_spec hseg hrdp hrd (P ++ (B ++ [t])) (pl.length + ln.length)
  have hev : buffer_delete_char s true = some (LITE_OK,
      { heap := free_line h2 a,
        buf := { s.buf with
          current_line := some p, cursor_x := pl.length,
          cursor_y := s.buf.cursor_y - 1,
          line_count := s.buf.line_count - 1, modified := true } }) := by
    unfold buffer_delete_char
    simp only [ha, hrd]
    rw [if_pos (by simpa using hx)]
    simp only [hpv, hrdp, w1, w0]
    simp only [Bool.not_true, Bool.false_eq_true, if_false]
    rw [if_neg (by omega)]
    simp only [hmb, hrl]
  refine ⟨pl, P, tp, Rp, _, hrdp, hpd, hpx, hev, ?_, hpay, hfr⟩
  obtain ⟨_, hok, hcnt, hy0, _, _, _, _⟩ := hg
  have hnd := seg_nodup hseg
  obtain ⟨hp1', hp2', _, hnd2, h12⟩ := nodup_mid hnd
  refine ⟨hseg', ?_, ?_, ?_, ?_, ?_, hp0, ?_⟩
  · intro b hb
    by_cases hbp : b = p
    · subst hbp
      refine line_ok_at_payload hpay (by omega) ?_ (by omega)
      simp; omega
    · have hba : b ≠ a := by
        intro e
        subst e
        rcases List.mem_append.1 hb with h1 | h1
        · exact h12 b h1 (List.mem_cons_self _ _)
        · rcases List.mem_cons.1 h1 with h1 | h1
          · exact hbp h1
          · exact (List.nodup_cons.1 hnd2).1 h1
      rw [line_ok_at_of_payload (hfr b hbp hba)]
      apply hok
      rw [hl']
      rcases List.mem_append.1 hb with h1 | h1
      · exact List.mem_append_left _ h1
      · rcases List.mem_cons.1 h1 with h1 | h1
        · exact absurd h1 hbp
        · simp [h1]
  · show s.buf.line_count - 1 = _
    rw [hcnt, hl']
    simp
    omega
  · show 0 ≤ s.buf.cursor_y - 1
    rw [hy]; simp
  · show (some p : Option Nat) ≠ none
    simp
  · show (l1 ++ p :: l2)[(s.buf.cursor_y - 1).toNat]? = some p
    have : (s.buf.cursor_y - 1).toNat = l1.length := by rw [hy]; simp
    rw [this, List.getElem?_append_right (le_refl _)]
    simp
  · show pl.length ≤ current_len _
    simp only [current_len]
    rw [length_at_payload hpay]
    omega

theorem merge_fail {s : State} {l : List Nat} {a : Nat} {ln : Line} {l1 l2 : List Nat}
    {p : Nat} {B : List Cell} {t : Cell} {R : List Cell} (hg : Good s l)
    (hat : At s l a ln (l1 ++ [p]) l2 [] B t R) :
    buffer_delete_char s false = some (LITE_ERROR, s) := by
  obtain ⟨ha, hrd, hl, hy, hd, hx, hlen, hpv, _⟩ := hat
  rw [last_or_append] at hpv
  obtain ⟨pl, hrdp, hp0, hp1⟩ := good_mem_ok hg (b := p) (by rw [hl]; simp)
  unfold buffer_delete_char
  simp only [ha, hrd]
  rw [if_pos (by simpa using hx)]
  simp only [hpv, hrdp]
  simp

theorem good_heap_frame {s : State} {l : List Nat} (hg : Good s l) (h' : Heap)
    (hf : ∀ b ∈ l, rd h' b = rd s.heap b) : Good { s with heap := h' } l := by
  obtain ⟨hseg, hok, hcnt, hy, hne, hidx, hx0, hx1⟩ := hg
  refine ⟨seg_frame_eq hf hseg, ?_, hcnt, hy, hne, hidx, hx0, ?_⟩
  · intro b hb
    show line_ok_at h' b = true
    rw [line_ok_at_of_payload (payload_of_rd (hf b hb))]
    exact hok b hb
  · obtain ⟨a, ha⟩ := Option.ne_none_iff_exists'.1 hne
    have hmem : a ∈ l := by
      rw [ha] at hidx
      exact List.mem_iff_getElem?.2 ⟨_, hidx⟩
    show s.buf.cursor_x ≤ current_len { s with heap := h' }
    simp only [current_len, ha] at hx1 ⊢
    rw [length_at_of_payload (payload_of_rd (hf a hmem))]
    exact hx1

theorem new_line_spec {s : State} {l : List Nat} {a : Nat} {ln : Line} {l1 l2 : List Nat}
    {A B : List Cell} {t : Cell} {R : List Cell} (hg : Good s l)
    (hat : At s l a ln l1 l2 A B t R) {ok : Bool} {nl c1 : Line}
    (hsp : split_line ln s.buf.cursor_x ok = some (some (nl, c1))) :
    ∃ h', buffer_new_line s true true ok = some (LITE_OK,
        { heap := h',
          buf := { s.buf with
            current_line := some s.heap.length, cursor_x := 0,
            cursor_y := s.buf.cursor_y + 1,
            line_count := s.buf.line_count + 1, modified := true } }) ∧
      Good { heap := h',
             buf := { s.buf with
               current_line := some s.heap.length, cursor_x := 0,
               cursor_y := s.buf.cursor_y + 1,
               line_count := s.buf.line_count + 1, modified := true } }
        (l1 ++ a :: s.heap.length :: l2) ∧
      payload h' a = some (c1.data, c1.length) ∧
      payload h' s.heap.length = some (nl.data, nl.length) ∧
      ∀ b, b ≠ a → b ≠ s.heap.length → payload h' b = payload s.heap b := by
  have hblt := good_len_lt hg (by rw [hat.2.2.1]; simp) hat.2.1
  obtain ⟨ha, hrd, hl, hy, hd, hx, hlen, hpv, hnx⟩ := hat
  obtain ⟨hc1p, hc1n⟩ := split_line_links hsp
  have hsp' := hsp
  rw [hx] at hsp'
  obtain ⟨hc1len, hc1sz, hnllen, hnlsz, _⟩ := split_line_sizes hd hlen hsp'
  have hseg := hg.1
  rw [hl] at hseg
  obtain ⟨h2, c2, hrl, hrd2, hseg', hpa, hpn, hfr⟩ :=
    link_spec hseg hrd (some { data := [some 0], length := 0, prev := none, next := none })
      nl c1 hc1p hc1n
  have hev : buffer_new_line s true true ok = some (LITE_OK,
      { heap := wr h2 a { c2 with next := some s.heap.length },
        buf := { s.buf with
          current_line := some s.heap.length, cursor_x := 0,
          cursor_y := s.buf.cursor_y + 1,
          line_count := s.buf.line_count + 1, modified := true } }) := by
    unfold buffer_new_line
    simp only [ha, hrd, create_line, Bool.and_self, if_true, hsp, hrl, hrd2]
  refine ⟨_, hev, ?_, hpa, hpn, hfr⟩
  obtain ⟨_, hok, hcnt, hy0, _, _, _, _⟩ := hg
  have hlt : ∀ b ∈ l, b < s.heap.length := fun b hb => by
    obtain ⟨lb, hb', _⟩ := line_ok_at_iff.1 (hok b hb)
    exact rd_some_lt hb'
  have han : a ≠ s.heap.length := by
    have := hlt a (by rw [hl]; simp)
    omega
  refine ⟨hseg', ?_, ?_, ?_, ?_, ?_, le_refl _, ?_⟩
  · intro b hb
    by_cases hba : b = a
    · subst hba
      exact line_ok_at_payload hpa (by omega) (by omega) (by omega)
    · by_cases hbn : b = s.heap.length
      · subst hbn
        exact line_ok_at_payload hpn (by omega) (by omega) (by omega)
      · rw [line_ok_at_of_payload (hfr b hba hbn)]
        apply hok
        rw [hl]
        rcases List.mem_append.1 hb with h1 | h1
        · exact List.mem_append_left _ h1
        · rcases List.mem_cons.1 h1 with h1 | h1
          · exact absurd h1 hba
          · rcases List.mem_cons.1 h1 with h1 | h1
            · exact absurd h1 hbn
            · simp [h1]
  · show s.buf.line_count + 1 = _
    rw [hcnt, hl]
    simp
    omega
  · show 0 ≤ s.buf.cursor_y + 1
    omega
  · show (some s.heap.length : Option Nat) ≠ none
    simp
  · show (l1 ++ a :: s.heap.length :: l2)[(s.buf.cursor_y + 1).toNat]? = some s.heap.length
    have : (s.buf.cursor_y + 1).toNat = l1.length + 1 := by rw [hy]; omega
    rw [this, List.getElem?_append_right (by omega)]
    simp
  · show (0 : Int) ≤ current_len _
    simp only [current_len]
    rw [length_at_payload hpn]
    omega

theorem new_line_alloc_fail {s : State} {l : List Nat} (hg : Good s l)
    (ok_line ok_data ok_re : Bool) (hf : (ok_line && ok_data) = false) :
    buffer_new_line s ok_line ok_data ok_re = some (LITE_ERROR, s) := by
  obtain ⟨a, ln, l1, l2, ha, hrd, _⟩ := good_cur hg
  unfold buffer_new_line
  simp only [ha, hrd, create_line, hf]
  simp

theorem new_line_cases {s : State} {l : List Nat} {a : Nat} {ln : Line} {l1 l2 : List Nat}
    {A B : List Cell} {t : Cell} {R : List Cell}
    (hat : At s l a ln l1 l2 A B t R) (ok : Bool) :
    (split_line ln s.buf.cursor_x ok = none ∧ buffer_new_line s true true ok = none) ∨
    (split_line ln s.buf.cursor_x ok = some none ∧
      buffer_new_line s true true ok = some (LITE_ERROR,
        { s with heap := (free_line (s.heap ++
            [some { data := [some 0], length := 0, prev := none, next := none }])
            s.heap.length) })) ∨
    ∃ nl c1, split_line ln s.buf.cursor_x ok = some (some (nl, c1)) := by
  obtain ⟨ha, hrd, _⟩ := hat
  cases e : split_line ln s.buf.cursor_x ok with
  | none =>
    left
    refine ⟨rfl, ?_⟩
    unfold buffer_new_line
    simp only [ha, hrd, create_line, Bool.and_self, if_true, e]
  | some r =>
    cases r with
    | none =>
      right; left
      refine ⟨rfl, ?_⟩
      unfold buffer_new_line
      simp only [ha, hrd, create_line, Bool.and_self, if_true, e]
    | some pr =>
      right; right
      exact ⟨pr.1, pr.2, rfl⟩

theorem good_pos {s : State} {l : List Nat} (hg : Good s l) : Pos s l :=
  ⟨hg.1, hg.2.1, hg.2.2.1, hg.2.2.2.1, hg.2.2.2.2.1, hg.2.2.2.2.2.1⟩

theorem pos_good {s : State} {l : List Nat} (hp : Pos s l) (h0 : 0 ≤ s.buf.cursor_x)
    (h1 : s.buf.cursor_x ≤ current_len s) : Good s l :=
  ⟨hp.1, hp.2.1, hp.2.2.1, hp.2.2.2.1, hp.2.2.2.2.1, hp.2.2.2.2.2, h0, h1⟩

theorem pos_cur {s : State} {l : List Nat} (hp : Pos s l) :
    ∃ a ln l1 l2, s.buf.current_line = some a ∧ rd s.heap a = some ln ∧
      l = l1 ++ a :: l2 ∧ s.buf.cursor_y = ↑l1.length ∧
      0 ≤ ln.length ∧ ln.length < ln.data.length ∧
      ln.prev = last_or none l1 ∧ ln.next = head_or none l2 := by
  obtain ⟨hseg, hok, _, hy, hne, hidx⟩ := hp
  obtain ⟨a, ha⟩ := Option.ne_none_iff_exists'.1 hne
  rw [ha] at hidx
  obtain ⟨l1, l2, rfl, hl1⟩ := split_at hidx
  obtain ⟨ln, hrd, h0, h1, _⟩ := line_ok_at_iff.1 (hok a (by simp))
  obtain ⟨_, ln', hrd', hpv, hrest⟩ := seg_split.1 hseg
  rw [hrd] at hrd'
  cases hrd'
  exact ⟨a, ln, l1, l2, ha, hrd, rfl, by omega, h0, h1, hpv, seg_head hrest⟩

theorem pos_at_row {s : State} {l : List Nat} (hp : Pos s l) {b : Nat} {k : Int}
    (hk : 0 ≤ k) (hb : l[k.toNat]? = some b) : Pos (at_row s (some b) k) l := by
  obtain ⟨hseg, hok, hcnt, _, _, _⟩ := hp
  exact ⟨hseg, hok, hcnt, hk, by simp [at_row], hb⟩

theorem at_row_at_row (s : State) (b c : Option Nat) (k m : Int) :
    at_row (at_row s b k) c m = at_row s c m := rfl

theorem at_row_self (s : State) : at_row s s.buf.current_line s.buf.cursor_y = s := rfl

theorem move_up_spec {l : List Nat} : ∀ (k : Nat) (s : State) (dy : Int),
    k = (-dy).toNat → Pos s l →
    ∃ b r dy', move_up k s dy = some (at_row s b r, dy') ∧ Pos (at_row s b r) l ∧
      r = max (s.buf.cursor_y + min dy 0) 0 ∧ (0 ≤ dy → dy' = dy) ∧ (dy ≤ 0 → dy' ≤ 0) := by
  intro k
  induction k with
  | zero =>
    intro s dy hk hp
    refine ⟨s.buf.current_line, s.buf.cursor_y, dy, rfl, hp, ?_, fun _ => rfl, fun h => h⟩
    have := hp.2.2.2.1
    omega
  | succ k ih =>
    intro s dy hk hp
    have hdy : dy < 0 := by omega
    obtain ⟨a, ln, l1, l2, ha, hrd, hl, hy, _, _, hpv, _⟩ := pos_cur hp
    cases e : ln.prev with
    | none =>
      rw [e] at hpv
      have hl1 := last_or_none hpv.symm
      subst hl1
      have hmv : move_up (k + 1) s dy = some (s, dy) := by
        simp only [move_up, if_pos hdy, ha, hrd, e]
      refine ⟨s.buf.current_line, s.buf.cursor_y, dy, hmv, hp, ?_, fun h => rfl,
        fun h => h⟩
      simp at hy; omega
    | some p =>
      rw [e] at hpv
      obtain ⟨l1', rfl⟩ := last_or_some hpv.symm
      have hp1 : Pos (at_row s (some p) (s.buf.cursor_y - 1)) l := by
        refine pos_at_row hp (by rw [hy]; simp) ?_
        have : (s.buf.cursor_y - 1).toNat = l1'.length := by rw [hy]; simp
        rw [this, hl, List.append_assoc, List.getElem?_append_right (le_refl _)]
        simp
      obtain ⟨b, r, dy', hmv, hpos, hr, h1, h2⟩ := ih _ (dy + 1) (by omega) hp1
      have hmv' : move_up (k + 1) s dy = some (at_row s b r, dy') := by
        simp only [move_up, if_pos hdy, ha, hrd, e]
        exact hmv
      refine ⟨b, r, dy', hmv', hpos, ?_, fun h => by omega, fun _ => h2 (by omega)⟩
      rw [hr]
      show max (s.buf.cursor_y - 1 + min (dy + 1) 0) 0 = _
      omega

theorem move_down_spec {l : List Nat} : ∀ (k : Nat) (s : State) (dy : Int),
    k = dy.toNat → Pos s l →
    ∃ b r dy', move_down k s dy = some (at_row s b r, dy') ∧ Pos (at_row s b r) l ∧
      r = min (s.buf.cursor_y + max dy 0) (↑l.length - 1) := by
  intro k
  induction k with
  | zero =>
    intro s dy hk hp
    refine ⟨s.buf.current_line, s.buf.cursor_y, dy, rfl, hp, ?_⟩
    obtain ⟨a, ln, l1, l2, ha, hrd, hl, hy, _⟩ := pos_cur hp
    rw [hl]; simp; omega
  | succ k ih =>
    intro s dy hk hp
    have hdy : dy > 0 := by omega
    obtain ⟨a, ln, l1, l2, ha, hrd, hl, hy, _, _, _, hnx⟩ := pos_cur hp
    cases l2 with
    | nil =>
      simp only [head_or] at hnx
      have hmv : move_down (k + 1) s dy = some (s, dy) := by
        simp only [move_down, if_pos hdy, ha, hrd, hnx]
      refine ⟨s.buf.current_line, s.buf.cursor_y, dy, hmv, hp, ?_⟩
      rw [hl]; simp; omega
    | cons n l2 =>
      simp only [head_or] at hnx
      have hp1 : Pos (at_row s (some n) (s.buf.cursor_y + 1)) l := by
        refine pos_at_row hp (by omega) ?_
        have : (s.buf.cursor_y + 1).toNat = l1.length + 1 := by omega
        rw [this, hl, List.getElem?_append_right (by omega)]
        simp
      obtain ⟨b, r, dy', hmv, hpos, hr⟩ := ih _ (dy - 1) (by omega) hp1
      have hmv' : move_down (k + 1) s dy = some (at_row s b r, dy') := by
        simp only [move_down, if_pos hdy, ha, hrd, hnx]
        exact hmv
      refine ⟨b, r, dy', hmv', hpos, ?_⟩
      rw [hr]
      show min (s.buf.cursor_y + 1 + max (dy - 1) 0) _ = _
      omega

theorem seek_down_spec {l : List Nat} : ∀ (k : Nat) (s : State) (y : Int),
    k = (y - s.buf.cursor_y).toNat → Pos s l →
    ∃ b r, seek_down k s y = some (at_row s b r) ∧ Pos (at_row s b r) l ∧
      r = min (max y s.buf.cursor_y) (↑l.length - 1) := by
  intro k
  induction k with
  | zero =>
    intro s y hk hp
    refine ⟨s.buf.current_line, s.buf.cursor_y, rfl, hp, ?_⟩
    obtain ⟨a, ln, l1, l2, ha, hrd, hl, hy, _⟩ := pos_cur hp
    rw [hl]; simp; omega
  | succ k ih =>
    intro s y hk hp
    have hdy : s.buf.cursor_y < y := by omega
    obtain ⟨a, ln, l1, l2, ha, hrd, hl, hy, _, _, _, hnx⟩ := pos_cur hp
    cases l2 with
    | nil =>
      simp only [head_or] at hnx
      have hmv : seek_down (k + 1) s y = some s := by
        simp only [seek_down, if_pos hdy, ha, hrd, hnx]
      refine ⟨s.buf.current_line, s.buf.cursor_y, hmv, hp, ?_⟩
      rw [hl]; simp; omega
    | cons n l2 =>
      simp only [head_or] at hnx
      have hp1 : Pos (at_row s (some n) (s.buf.cursor_y + 1)) l := by
        refine pos_at_row hp (by omega) ?_
        have : (s.buf.cursor_y + 1).toNat = l1.length + 1 := by omega
        rw [this, hl, List.getElem?_append_right (by omega)]
        simp
      obtain ⟨b, r, hmv, hpos, hr⟩ := ih (at_row s (some n) (s.buf.cursor_y + 1)) y
        (by show k = (y - (s.buf.cursor_y + 1)).toNat; omega) hp1
      have hmv' : seek_down (k + 1) s y = some (at_row s b r) := by
        simp only [seek_down, if_pos hdy, ha, hrd, hnx]
        exact hmv
      refine ⟨b, r, hmv', hpos, ?_⟩
      rw [hr]
      show min (max y (s.buf.cursor_y + 1)) _ = _
      omega

theorem clamp_cursor_spec {s : State} {l : List Nat} (hp : Pos s l) :
    clamp_cursor s = some (at_col s (min (max s.buf.cursor_x 0) (current_len s))) ∧
      Good (at_col s (min (max s.buf.cursor_x 0) (current_len s))) l := by
  obtain ⟨a, ln, l1, l2, ha, hrd, hl, hy, h0, _⟩ := pos_cur hp
  have hcl : current_len s = ln.length := by simp [current_len, ha, length_at, hrd]
  constructor
  · rw [hcl]
    by_cases hx : s.buf.cursor_x < 0
    · have e : min (max s.buf.cursor_x 0) ln.length = 0 := by omega
      rw [e]
      have hev : clamp_cursor s = some { s with buf := { s.buf with cursor_x := 0 } } := by
        unfold clamp_cursor
        simp only [if_pos hx, ha, hrd]
        rw [if_neg (by omega)]
      exact hev
    · by_cases hx2 : s.buf.cursor_x > ln.length
      · have e : min (max s.buf.cursor_x 0) ln.length = ln.length := by omega
        rw [e]
        have hev : clamp_cursor s
            = some { s with buf := { s.buf with cursor_x := ln.length } } := by
          unfold clamp_cursor
          simp only [if_neg hx, ha, hrd]
          rw [if_pos hx2]
        exact hev
      · have e : min (max s.buf.cursor_x 0) ln.length = s.buf.cursor_x := by omega
        rw [e]
        have hev : clamp_cursor s = some s := by
          unfold clamp_cursor
          simp only [if_neg hx, ha, hrd]
          rw [if_neg hx2]
        exact hev
  · refine pos_good hp ?_ ?_
    · show 0 ≤ min (max s.buf.cursor_x 0) (current_len s)
      omega
    · show min (max s.buf.cursor_x 0) (current_len s) ≤ current_len s
      omega

theorem pos_at_col {s : State} {l : List Nat} (hp : Pos s l) (x : Int) : Pos (at_col s x) l :=
  hp

theorem pos_row {s : State} {l : List Nat} (hp : Pos s l) :
    0 ≤ s.buf.cursor_y ∧ s.buf.cursor_y ≤ ↑l.length - 1 := by
  obtain ⟨a, ln, l1, l2, _, _, hl, hy, _⟩ := pos_cur hp
  rw [hl, hy]
  simp
  omega

theorem move_cursor_spec {s : State} {l : List Nat} (hp : Pos s l) (dx dy : Int) :
    ∃ b r,
      buffer_move_cursor s dx dy = some (at_col (at_row s b r)
        (min (max (wrap32 (s.buf.cursor_x + dx)) 0) (current_len (at_row s b r)))) ∧
      Good (at_col (at_row s b r)
        (min (max (wrap32 (s.buf.cursor_x + dx)) 0) (current_len (at_row s b r)))) l ∧
      r = min (max (s.buf.cursor_y + dy) 0) (↑l.length - 1) ∧ l[r.toNat]? = b := by
  obtain ⟨b1, r1, dy1, hup, hp1, hr1, hd1, hd2⟩ := move_up_spec (-dy).toNat s dy rfl hp
  obtain ⟨b2, r2, dy2, hdn, hp2, hr2⟩ := move_down_spec dy1.toNat (at_row s b1 r1) dy1 rfl hp1
  rw [at_row_at_row] at hdn hp2
  have hcl := clamp_cursor_spec (pos_at_col hp2 (wrap32 (s.buf.cursor_x + dx)))
  have hy := pos_row hp
  refine ⟨b2, r2, ?_, hcl.2, ?_, hp2.2.2.2.2.2⟩
  · unfold buffer_move_cursor
    simp only [hup, hdn]
    exact hcl.1
  · rw [hr2, hr1]
    show min (max (s.buf.cursor_y + min dy 0) 0 + max dy1 0) _ = _
    rcases le_total 0 dy with h | h
    · have := hd1 h
      omega
    · have := hd2 h
      omega

theorem good_nonempty {s : State} {l : List Nat} (hp : Pos s l) :
    ∃ a l', l = a :: l' ∧ s.buf.first_line = some a := by
  obtain ⟨a, ln, l1, l2, _, _, hl, _⟩ := pos_cur hp
  have hh := seg_head hp.1
  cases l with
  | nil => simp at hl
  | cons b l' => exact ⟨b, l', rfl, hh⟩

theorem set_cursor_spec {s : State} {l : List Nat} (hp : Pos s l) (x y : Int) :
    ∃ b r,
      buffer_set_cursor s x y = some (at_col (at_row s b r)
        (min (max x 0) (current_len (at_row s b r)))) ∧
      Good (at_col (at_row s b r) (min (max x 0) (current_len (at_row s b r)))) l ∧
      r = min (max y 0) (↑l.length - 1) ∧ l[r.toNat]? = b := by
  obtain ⟨a, l', hl, hfirst⟩ := good_nonempty hp
  have hp0 : Pos (at_row s s.buf.first_line 0) l := by
    rw [hfirst]
    refine pos_at_row hp (le_refl _) ?_
    rw [hl]; simp
  obtain ⟨b, r, hsk, hp1, hr⟩ := seek_down_spec y.toNat (at_row s s.buf.first_line 0) y
    (by show y.toNat = (y - 0).toNat; simp) hp0
  rw [at_row_at_row] at hsk hp1
  have hcl := clamp_cursor_spec (pos_at_col hp1 x)
  refine ⟨b, r, ?_, hcl.2, ?_, hp1.2.2.2.2.2⟩
  · unfold buffer_set_cursor
    show (match seek_down y.toNat (at_row s s.buf.first_line 0) y with
      | none => none
      | some s1 => clamp_cursor { s1 with buf := { s1.buf with cursor_x := x } }) = _
    rw [hsk]
    exact hcl.1
  · rw [hr]; rfl

theorem is_cstr_at_payload {h : Heap} {b : Nat} {d : List Cell} {n : Int}
    (e : payload h b = some (d, n)) :
    is_cstr_at h b = true ↔ cstr d = some (d.take n.toNat ++ [some 0]) := by
  unfold payload at e
  cases e1 : rd h b with
  | none => rw [e1] at e; simp at e
  | some ln =>
    rw [e1] at e
    simp at e
    simp [is_cstr_at, e1, content, e.1, e.2]

theorem cells_append (S T : List Nat) : cells (S ++ T) = cells S ++ cells T := by
  simp [cells]

theorem cells_length (S : List Nat) : (cells S).length = S.length := by
  simp [cells]

theorem cells_split {T : List Nat} {A B : List Cell} (h : cells T = A ++ B) :
    A = cells (T.take A.length) ∧ B = cells (T.drop A.length) := by
  have h1 : cells T = cells (T.take A.length) ++ cells (T.drop A.length) := by
    rw [← cells_append, List.take_append_drop]
  have hlen : A.length ≤ T.length := by
    have := congrArg List.length h
    rw [cells_length, List.length_append] at this
    omega
  rw [h1] at h
  have := List.append_inj h (by rw [cells_length, List.length_take]; omega)
  exact ⟨this.1.symm, this.2.symm⟩

/-- A block whose C string is exactly its first `|A| + |B|` cells consists of
initialised non-NUL bytes followed by a NUL. -/
theorem str_decomp {A B : List Cell} {t : Cell} {R : List Cell}
    (h : cstr (A ++ B ++ t :: R) = some (A ++ B ++ [some 0])) :
    ∃ TA TB, A = cells TA ∧ B = cells TB ∧ t = some 0 ∧ (∀ v ∈ TA, v ≠ 0) ∧
      (∀ v ∈ TB, v ≠ 0) := by
  obtain ⟨T, R', hT, hd, hw⟩ := cstr_shape _ _ h
  have hAB : A ++ B = cells T := List.append_inj_left' hw rfl
  rw [hAB] at hd
  have h2 := List.append_inj_right hd rfl
  simp only [List.cons.injEq] at h2
  obtain ⟨hA, hB⟩ := cells_split hAB.symm
  refine ⟨_, _, hA, hB, h2.1, ?_, ?_⟩
  · intro v hv; exact hT v (List.mem_of_mem_take hv)
  · intro v hv; exact hT v (List.mem_of_mem_drop hv)

theorem str_mk (T : List Nat) (R : List Cell) (hT : ∀ v ∈ T, v ≠ 0) (n : Int)
    (hn : n = ↑T.length) :
    cstr (cells T ++ some 0 :: R)
      = some ((cells T ++ some 0 :: R).take n.toNat ++ [some 0]) := by
  rw [cstr_cells T R hT]
  have : n.toNat = (cells T).length := by rw [cells_length]; omega
  rw [this, List.take_left]

theorem cstr_tail {B : List Cell} {t : Cell} {R : List Cell}
    (h : cstr (B ++ t :: R) = some (B ++ [some 0])) :
    ∃ TB, B = cells TB ∧ t = some 0 ∧ (∀ v ∈ TB, v ≠ 0) := by
  have h' : cstr ([] ++ B ++ t :: R) = some ([] ++ B ++ [some 0]) := by simpa using h
  obtain ⟨_, TB, _, hB, ht, _, hTB⟩ := str_decomp h'
  exact ⟨TB, hB, ht, hTB⟩

theorem split_line_eval {ln : Line} {A B : List Cell} {t : Cell} {R : List Cell}
    (hd : ln.data = A ++ B ++ t :: R) (hlen : ln.length = ((A.length + B.length : Nat) : Int))
    (hstr : cstr (B ++ t :: R) = some (B ++ [some 0])) :
    ∃ c1, split_line ln ↑A.length true = some (some
      ({ data := B ++ [some 0], length := ↑B.length, prev := none, next := none }, c1)) ∧
      c1.data = A ++ some 0 :: (B ++ t :: R).tail ∧ c1.length = ↑A.length := by
  obtain ⟨TB, hB, ht, hTB⟩ := cstr_tail hstr
  unfold split_line
  by_cases hlt : (A.length : Int) < ln.length
  · rw [if_pos hlt, if_neg (by omega)]
    simp only [Bool.not_true, Bool.false_eq_true, if_false]
    have e1 : ln.length - ↑A.length + 1 = ((B.length + 1 : Nat) : Int) := by
      rw [hlen]; push_cast; omega
    have hcp : strcpy (realloc [some 0] (ln.length - ↑A.length + 1)) ln.data ↑A.length
        = some (B ++ [some 0]) := by
      rw [e1, realloc_nat]
      unfold strcpy
      rw [if_pos (by rw [hd]; simp <;> omega)]
      have : (A.length : Int).toNat = A.length := by simp
      rw [this, hd, List.append_assoc, List.drop_left, hstr]
      simp only
      rw [if_pos (by simp <;> omega), List.drop_eq_nil_of_le (by simp <;> omega)]
      simp
    rw [hcp]
    simp only
    rw [hd, poke_nat _ _ _ (by simp <;> omega)]
    simp only
    refine ⟨{ ln with data := (A ++ B ++ t :: R).set A.length (some 0),
                      length := ↑A.length }, ?_, ?_, rfl⟩
    · have : ln.length - ↑A.length = ↑B.length := by rw [hlen]; push_cast; omega
      rw [this]
    · show (A ++ B ++ t :: R).set A.length (some 0) = _
      rw [List.append_assoc, List.set_append_right _ _ (le_refl _)]
      simp
      cases B with
      | nil => simp
      | cons b B => simp
  · rw [if_neg hlt]
    have hB0 : B = [] := List.length_eq_zero.1 (by omega)
    subst hB0
    refine ⟨ln, ?_, ?_, ?_⟩
    · simp
    · rw [hd, ht]; simp
    · rw [hlen]; simp

theorem at_payload {s : State} {l : List Nat} {a : Nat} {ln : Line} {l1 l2 : List Nat}
    {A B : List Cell} {t : Cell} {R : List Cell} (hat : At s l a ln l1 l2 A B t R) :
    payload s.heap a = some (A ++ B ++ t :: R, ((A.length + B.length : Nat) : Int)) := by
  obtain ⟨_, hrd, _, _, hd, _, hlen, _, _⟩ := hat
  rw [payload_some hrd, hd, hlen]

theorem at_str {s : State} {l : List Nat} {a : Nat} {ln : Line} {l1 l2 : List Nat}
    {A B : List Cell} {t : Cell} {R : List Cell} (hat : At s l a ln l1 l2 A B t R)
    (hs : is_cstr_at s.heap a = true) :
    ∃ TA TB, A = cells TA ∧ B = cells TB ∧ t = some 0 ∧ (∀ v ∈ TA, v ≠ 0) ∧
      (∀ v ∈ TB, v ≠ 0) := by
  have h := (is_cstr_at_payload (at_payload hat)).1 hs
  have e : (((A.length + B.length : Nat) : Int)).toNat = (A ++ B).length := by
    rw [List.length_append]; omega
  rw [e, List.append_assoc A B, ← List.append_assoc, List.take_left] at h
  rw [List.append_assoc A B] at h
  rw [← List.append_assoc A B (t :: R)] at h
  exact str_decomp h

theorem is_cstr_mk {h : Heap} {b : Nat} {d : List Cell} {n : Int} (T : List Nat)
    (R : List Cell) (e : payload h b = some (d, n)) (hd : d = cells T ++ some 0 :: R)
    (hn : n = ↑T.length) (hT : ∀ v ∈ T, v ≠ 0) : is_cstr_at h b = true := by
  rw [is_cstr_at_payload e, hd]
  exact str_mk T R hT n hn

theorem mem_cons_ne {T : List Nat} {v : Nat} (hv : v ≠ 0) (hT : ∀ u ∈ T, u ≠ 0) :
    ∀ u ∈ v :: T, u ≠ 0 := by
  intro u hu
  rcases List.mem_cons.1 hu with rfl | hu
  · exact hv
  · exact hT u hu

theorem mem_append_ne {S T : List Nat} (hS : ∀ u ∈ S, u ≠ 0) (hT : ∀ u ∈ T, u ≠ 0) :
    ∀ u ∈ S ++ T, u ≠ 0 := by
  intro u hu
  rcases List.mem_append.1 hu with hu | hu
  · exact hS u hu
  · exact hT u hu

theorem insert_str {s : State} {l : List Nat} {a : Nat} {ln : Line} {l1 l2 : List Nat}
    {A B : List Cell} {t : Cell} {R : List Cell}
    (hat : At s l a ln l1 l2 A B t R) (hstr : ∀ b ∈ l, is_cstr_at s.heap b = true)
    {v : Nat} (hv : v ≠ 0) {h' : Heap}
    (hpa : payload h' a = some (A ++ some v :: (B ++ [t]), ln.length + 1))
    (hfr : ∀ b, b ≠ a → payload h' b = payload s.heap b) :
    ∀ b ∈ l, is_cstr_at h' b = true := by
  have hmem : a ∈ l := by rw [hat.2.2.1]; simp
  obtain ⟨TA, TB, rfl, rfl, rfl, hTA, hTB⟩ := at_str hat (hstr a hmem)
  intro b hb
  by_cases hba : b = a
  · subst hba
    refine is_cstr_mk (TA ++ v :: TB) [] hpa ?_ ?_ (mem_append_ne hTA (mem_cons_ne hv hTB))
    · simp [cells]
    · rw [hat.2.2.2.2.2.2.1]; simp [cells]; omega
  · rw [is_cstr_at_of_payload (hfr b hba)]
    exact hstr b hb

theorem cells_concat {T : List Nat} {A : List Cell} {x : Cell} (h : A ++ [x] = cells T) :
    ∃ T', A = cells T' ∧ ∀ v ∈ T', v ∈ T := by
  obtain ⟨hA, _⟩ := cells_split h.symm
  exact ⟨_, hA, fun v hv => List.mem_of_mem_take hv⟩

theorem delete_inline_str {s : State} {l : List Nat} {a : Nat} {ln : Line}
    {l1 l2 : List Nat} {A' : List Cell} {x : Cell} {B : List Cell} {t : Cell} {R : List Cell}
    (hat : At s l a ln l1 l2 (A' ++ [x]) B t R)
    (hstr : ∀ b ∈ l, is_cstr_at s.heap b = true) {h' : Heap}
    (hpa : payload h' a = some (A' ++ (B ++ [t]) ++ t :: R, ln.length - 1))
    (hfr : ∀ b, b ≠ a → payload h' b = payload s.heap b) :
    ∀ b ∈ l, is_cstr_at h' b = true := by
  have hmem : a ∈ l := by rw [hat.2.2.1]; simp
  obtain ⟨TA, TB, hA, rfl, rfl, hTA, hTB⟩ := at_str hat (hstr a hmem)
  obtain ⟨TA', rfl, hsub⟩ := cells_concat hA
  intro b hb
  by_cases hba : b = a
  · subst hba
    refine is_cstr_mk (TA' ++ TB) (some 0 :: R) hpa ?_ ?_
      (mem_append_ne (fun v hv => hTA v (hsub v hv)) hTB)
    · simp [cells]
    · rw [hat.2.2.2.2.2.2.1]; simp [cells]; omega
  · rw [is_cstr_at_of_payload (hfr b hba)]
    exact hstr b hb

theorem at_tail_str {s : State} {l : List Nat} {a : Nat} {ln : Line} {l1 l2 : List Nat}
    {A B : List Cell} {t : Cell} {R : List Cell} (hat : At s l a ln l1 l2 A B t R)
    (hs : is_cstr_at s.heap a = true) : cstr (B ++ t :: R) = some (B ++ [some 0]) := by
  obtain ⟨_, TB, _, rfl, rfl, _, hTB⟩ := at_str hat hs
  exact cstr_cells TB R hTB

theorem merge_str {s : State} {l : List Nat} {a : Nat} {ln : Line} {l1 l2 : List Nat}
    {p : Nat} {B : List Cell} {t : Cell} {R : List Cell}
    (hat : At s l a ln (l1 ++ [p]) l2 [] B t R)
    (hnd : l.Nodup)
    (hstr : ∀ b ∈ l, is_cstr_at s.heap b = true)
    {pl : Line} {P : List Cell} {tp : Cell} {Rp : List Cell}
    (hrdp : rd s.heap p = some pl) (hpd : pl.data = P ++ tp :: Rp)
    (hpl : pl.length = ↑P.length) {h' : Heap}
    (hpp : payload h' p = some (P ++ (B ++ [t]), pl.length + ln.length))
    (hfr : ∀ b, b ≠ p → b ≠ a → payload h' b = payload s.heap b) :
    ∀ b ∈ l1 ++ p :: l2, is_cstr_at h' b = true := by
  have hl : l = l1 ++ p :: a :: l2 := by rw [hat.2.2.1]; simp
  have hmem : a ∈ l := by rw [hl]; simp
  have hmemp : p ∈ l := by rw [hl]; simp
  obtain ⟨_, TB, _, rfl, rfl, _, hTB⟩ := at_str hat (hstr a hmem)
  have hps : cstr (P ++ tp :: Rp) = some (P ++ [some 0]) := by
    have h1 := (is_cstr_at_payload (payload_some hrdp)).1 (hstr p hmemp)
    rw [hpd, hpl] at h1
    have : ((P.length : Nat) : Int).toNat = P.length := by simp
    rw [this, List.take_left] at h1
    exact h1
  obtain ⟨TP, rfl, rfl, hTP⟩ := cstr_tail hps
  rw [hl] at hnd
  obtain ⟨_, _, _, hnd2, h12⟩ := nodup_mid hnd
  intro b hb
  by_cases hbp : b = p
  · subst hbp
    refine is_cstr_mk (TP ++ TB) [] hpp ?_ ?_ (mem_append_ne hTP hTB)
    · simp [cells]
    · rw [hpl, hat.2.2.2.2.2.2.1]; simp [cells]
  · have hba : b ≠ a := by
      intro e
      subst e
      rcases List.mem_append.1 hb with h1 | h1
      · exact h12 b h1 (List.mem_cons_self _ _)
      · rcases List.mem_cons.1 h1 with h1 | h1
        · exact hbp h1
        · exact (List.nodup_cons.1 hnd2).1 h1
    rw [is_cstr_at_of_payload (hfr b hbp hba)]
    apply hstr
    rw [hl]
    rcases List.mem_append.1 hb with h1 | h1
    · exact List.mem_append_left _ h1
    · rcases List.mem_cons.1 h1 with h1 | h1
      · exact absurd h1 hbp
      · simp [h1]

theorem new_line_str {s : State} {l : List Nat} {a : Nat} {ln : Line} {l1 l2 : List Nat}
    {A B : List Cell} {t : Cell} {R : List Cell}
    (hat : At s l a ln l1 l2 A B t R)
    (hstr : ∀ b ∈ l, is_cstr_at s.heap b = true) {c1 : Line}
    (hc1d : c1.data = A ++ some 0 :: (B ++ t :: R).tail) (hc1l : c1.length = ↑A.length)
    {h' : Heap} {n : Nat}
    (hpa : payload h' a = some (c1.data, c1.length))
    (hpn : payload h' n = some (B ++ [some 0], (B.length : Int)))
    (hfr : ∀ b, b ≠ a → b ≠ n → payload h' b = payload s.heap b) :
    ∀ b ∈ l1 ++ a :: n :: l2, is_cstr_at h' b = true := by
  have hl : l = l1 ++ a :: l2 := hat.2.2.1
  have hmem : a ∈ l := by rw [hl]; simp
  obtain ⟨TA, TB, rfl, rfl, rfl, hTA, hTB⟩ := at_str hat (hstr a hmem)
  intro b hb
  by_cases hba : b = a
  · subst hba
    exact is_cstr_mk TA _ hpa hc1d (by rw [hc1l]; simp [cells]) hTA
  · by_cases hbn : b = n
    · subst hbn
      refine is_cstr_mk TB [] hpn rfl (by simp [cells]) hTB
    · rw [is_cstr_at_of_payload (hfr b hba hbn)]
      apply hstr
      rw [hl]
      rcases List.mem_append.1 hb with h1 | h1
      · exact List.mem_append_left _ h1
      · rcases List.mem_cons.1 h1 with h1 | h1
        · exact absurd h1 hba
        · rcases List.mem_cons.1 h1 with h1 | h1
          · exact absurd h1 hbn
          · simp [h1]

theorem list_nil_or_snoc {α : Type} (l : List α) : l = [] ∨ ∃ l' x, l = l' ++ [x] := by
  rcases List.eq_nil_or_concat l with h | ⟨l', x, h⟩
  · exact Or.inl h
  · exact Or.inr ⟨l', x, by rw [h, List.concat_eq_append]⟩

theorem total_of_good {s : State} {l : List Nat} (hg : Good s l) :
    total_length s = (l.map (length_at s.heap)).sum := by
  rw [total_length, lengths_of_good hg]

theorem length_at_nonneg {s : State} {l : List Nat} (hg : Good s l) :
    ∀ x ∈ l.map (length_at s.heap), 0 ≤ x := by
  intro x hx
  obtain ⟨b, hb, rfl⟩ := List.mem_map.1 hx
  obtain ⟨lb, hrb, h0, _⟩ := good_mem_ok hg hb
  simp [length_at, hrb, h0]

/-- The current line is not longer than the whole buffer. -/
theorem total_ge_cur {s : State} {l : List Nat} {a : Nat} {ln : Line} {l1 l2 : List Nat}
    (hg : Good s l) (hl : l = l1 ++ a :: l2) (hrd : rd s.heap a = some ln) :
    ln.length ≤ total_length s := by
  have hnn := length_at_nonneg hg
  rw [total_of_good hg]
  subst hl
  rw [List.map_append, List.map_cons, List.sum_append, List.sum_cons]
  rw [List.map_append, List.map_cons] at hnn
  have h1 : 0 ≤ (l1.map (length_at s.heap)).sum :=
    List.sum_nonneg (fun x hx => hnn x (by simp [hx]))
  have h2 : 0 ≤ (l2.map (length_at s.heap)).sum :=
    List.sum_nonneg (fun x hx => hnn x (by simp [hx]))
  have h3 : length_at s.heap a = ln.length := by simp [length_at, hrd]
  omega

/-- Two neighbouring lines are together not longer than the whole buffer. -/
theorem total_ge_two {s : State} {l : List Nat} {p a : Nat} {ln : Line} {l1 l2 : List Nat}
    (hg : Good s l) (hl : l = l1 ++ p :: a :: l2) (hrd : rd s.heap a = some ln) :
    length_at s.heap p + ln.length ≤ total_length s := by
  have hnn := length_at_nonneg hg
  rw [total_of_good hg]
  subst hl
  rw [List.map_append, List.map_cons, List.map_cons, List.sum_append, List.sum_cons,
    List.sum_cons]
  rw [List.map_append, List.map_cons, List.map_cons] at hnn
  have h1 : 0 ≤ (l1.map (length_at s.heap)).sum :=
    List.sum_nonneg (fun x hx => hnn x (by simp [hx]))
  have h2 : 0 ≤ (l2.map (length_at s.heap)).sum :=
    List.sum_nonneg (fun x hx => hnn x (by simp [hx]))
  have h3 : length_at s.heap a = ln.length := by simp [length_at, hrd]
  omega

theorem map_length_frame {h h' : Heap} {k : List Nat}
    (hf : ∀ b ∈ k, payload h' b = payload h b) :
    k.map (length_at h') = k.map (length_at h) :=
  List.map_congr_left (fun b hb => length_at_of_payload (hf b hb))

/-- The size of the buffer after a change of one line. -/
theorem total_mid {s s' : State} {l1 l2 : List Nat} {a : Nat}
    (hg : Good s (l1 ++ a :: l2)) (hg' : Good s' (l1 ++ a :: l2))
    (hfr : ∀ b, b ≠ a → payload s'.heap b = payload s.heap b) :
    total_length s' = total_length s - length_at s.heap a + length_at s'.heap a := by
  obtain ⟨h1, h2, _, _, _⟩ := nodup_mid (good_nodup hg)
  rw [total_of_good hg, total_of_good hg']
  simp only [List.map_append, List.map_cons, List.sum_append, List.sum_cons]
  rw [map_length_frame (k := l1) (fun b hb => hfr b (fun e => h1 (e ▸ hb))),
    map_length_frame (k := l2) (fun b hb => hfr b (fun e => h2 (e ▸ hb)))]
  omega

/-- The size of the buffer after the merge of two neighbouring lines. -/
theorem total_merge {s s' : State} {l1 l2 : List Nat} {p a : Nat}
    (hg : Good s (l1 ++ p :: a :: l2)) (hg' : Good s' (l1 ++ p :: l2))
    (hfr : ∀ b, b ≠ p → b ≠ a → payload s'.heap b = payload s.heap b) :
    total_length s' = total_length s - length_at s.heap p - length_at s.heap a
      + length_at s'.heap p := by
  obtain ⟨hp1, hp2, _, hnd2, h12⟩ := nodup_mid (good_nodup hg)
  have ha2 : a ∉ l2 := (List.nodup_cons.1 hnd2).1
  rw [total_of_good hg, total_of_good hg']
  simp only [List.map_append, List.map_cons, List.sum_append, List.sum_cons]
  rw [map_length_frame (k := l1) (fun b hb => hfr b (fun e => hp1 (e ▸ hb))
      (fun e => h12 b hb (e ▸ List.mem_cons_self _ _))),
    map_length_frame (k := l2)
      (fun b hb => hfr b (fun e => hp2 (e ▸ List.mem_cons_of_mem _ hb))
        (fun e => ha2 (e ▸ hb)))]
  omega

/-- The size of the buffer after a new node is linked behind a line. -/
theorem total_split {s s' : State} {l1 l2 : List Nat} {a n : Nat}
    (hg : Good s (l1 ++ a :: l2)) (hg' : Good s' (l1 ++ a :: n :: l2))
    (hfr : ∀ b, b ≠ a → b ≠ n → payload s'.heap b = payload s.heap b) :
    total_length s' = total_length s - length_at s.heap a + length_at s'.heap a
      + length_at s'.heap n := by
  obtain ⟨ha1, ha2, _, hnd2, h12⟩ := nodup_mid (good_nodup hg')
  have hn2 : n ∉ l2 := (List.nodup_cons.1 hnd2).1
  have ha2' : a ∉ l2 := fun h => ha2 (List.mem_cons_of_mem _ h)
  rw [total_of_good hg, total_of_good hg']
  simp only [List.map_append, List.map_cons, List.sum_append, List.sum_cons]
  rw [map_length_frame (k := l1) (fun b hb => hfr b (fun e => ha1 (e ▸ hb))
      (fun e => h12 b hb (e ▸ List.mem_cons_self _ _))),
    map_length_frame (k := l2)
      (fun b hb => hfr b (fun e => ha2' (e ▸ hb)) (fun e => hn2 (e ▸ hb)))]
  omega

/-- A successful `realloc` for one more character in a line of `INT_MAX - 1`
characters: the size `length + 2` has overflowed, no result is defined. -/
theorem insert_overflow {s : State} {l : List Nat} {a : Nat} {ln : Line} {l1 l2 : List Nat}
    {A B : List Cell} {t : Cell} {R : List Cell} (hg : Good s l)
    (hat : At s l a ln l1 l2 A B t R) (ch : Int) (hbig : ¬ ln.length < 2147483646) :
    buffer_insert_char s ch true = none := by
  have hlt := good_len_lt hg (by rw [hat.2.2.1]; simp) hat.2.1
  obtain ⟨ha, hrd, _, _, _, _, hlen, _, _⟩ := hat
  have hw : wrap32 (ln.length + 2) ≤ 0 := by unfold wrap32; omega
  unfold buffer_insert_char
  simp only [ha, hrd, Bool.not_true, Bool.false_eq_true, if_false, hw, if_true]

/-- A successful `realloc` for the merge of two lines of `INT_MAX` characters
or more together: the size has overflowed, no result is defined. -/
theorem merge_overflow {s : State} {l : List Nat} {a : Nat} {ln : Line} {l1 l2 : List Nat}
    {p : Nat} {B : List Cell} {t : Cell} {R : List Cell} (hg : Good s l)
    (hat : At s l a ln (l1 ++ [p]) l2 [] B t R)
    (hbig : ¬ length_at s.heap p + ln.length < 2147483647) :
    buffer_delete_char s true = none := by
  have hlt := good_len_lt hg (by rw [hat.2.2.1]; simp) hat.2.1
  obtain ⟨ha, hrd, hl, hy, hd, hx, hlen, hpv, _⟩ := hat
  rw [last_or_append] at hpv
  obtain ⟨pl, hrdp, hp0, hp1⟩ := good_mem_ok hg (b := p) (by rw [hl]; simp)
  have hplt := good_len_lt hg (by rw [hl]; simp) hrdp
  have hbig' : ¬ pl.length + ln.length < 2147483647 := by
    simpa [length_at, hrdp] using hbig
  have hw : wrap32 (pl.length + ln.length + 1) ≤ 0 := by unfold wrap32; omega
  unfold buffer_delete_char
  simp only [ha, hrd]
  rw [if_pos (by simpa using hx)]
  simp only [hpv, hrdp, Bool.not_true, Bool.false_eq_true, if_false, hw, if_true]

theorem current_len_of_at {s : State} {l : List Nat} {a : Nat} {ln : Line} {l1 l2 : List Nat}
    {A B : List Cell} {t : Cell} {R : List Cell} (hat : At s l a ln l1 l2 A B t R) :
    current_len s = ln.length := by
  simp [current_len, hat.1, length_at, hat.2.1]

theorem prev_len_at {s : State} {l : List Nat} {a : Nat} {ln : Line} {l1 l2 : List Nat}
    {p : Nat} {A B : List Cell} {t : Cell} {R : List Cell}
    (hat : At s l a ln (l1 ++ [p]) l2 A B t R) :
    prev_len s = length_at s.heap p := by
  have hpv := hat.2.2.2.2.2.2.2.1
  rw [last_or_append] at hpv
  simp [prev_len, hat.1, hat.2.1, hpv]

/-- One call from a state that satisfies the invariant: either the call has
no defined behaviour, which can happen only when a line is not a C string or
when the buffer would exceed `INT_MAX - 1` characters, or it ends in a state
that satisfies the invariant again (and whose lines are C strings if they
were before and no NUL was inserted). -/
theorem step_cases {s : State} {l : List Nat} (hg : Good s l) (op : Op) :
    (step s op = none ∧
      (¬ (∀ b ∈ l, is_cstr_at s.heap b = true) ∨
        2147483646 < total_length s + ↑(inserts [op]))) ∨
    ∃ s' l', step s op = some s' ∧ Good s' l' ∧
      ((∀ b ∈ l, is_cstr_at s.heap b = true) → no_nul [op] = true →
        ∀ b ∈ l', is_cstr_at s'.heap b = true) ∧
      total_length s' ≤ total_length s + ↑(inserts [op]) := by
  obtain ⟨a, ln, l1, l2, A, B, t, R, hat⟩ := good_at hg
  have hla : length_at s.heap a = ln.length := by simp [length_at, hat.2.1]
  cases op with
  | insert ch ok =>
    cases ok with
    | false =>
      right
      refine ⟨s, l, ?_, hg, fun h _ => h, by simp [inserts]⟩
      simp [step, insert_fail hg ch]
    | true =>
      by_cases hfit : ln.length < 2147483646
      · right
        obtain ⟨h', hev, hg', hpa, hfr⟩ := insert_spec hg hat ch hfit
        refine ⟨_, l, by simp [step, hev], hg', ?_, ?_⟩
        · intro hstr hn
          have hv : to_char ch ≠ 0 := by simpa [no_nul] using hn
          exact insert_str hat hstr hv hpa hfr
        · have hl := hat.2.2.1
          subst hl
          rw [total_mid hg hg' hfr, hla]
          show _ - _ + length_at h' a ≤ _
          rw [length_at_payload hpa]
          simp only [inserts]
          push_cast
          omega
      · left
        refine ⟨by simp [step, insert_overflow hg hat ch hfit], Or.inr ?_⟩
        have := total_ge_cur hg hat.2.2.1 hat.2.1
        simp only [inserts]
        push_cast
        omega
  | delete ok =>
    rcases list_nil_or_snoc A with rfl | ⟨A', x, rfl⟩
    · rcases list_nil_or_snoc l1 with rfl | ⟨l1', p, rfl⟩
      · right
        refine ⟨s, l, ?_, hg, fun h _ => h, by simp [inserts]⟩
        simp [step, delete_first_noop hat ok]
      · have hl' : l = l1' ++ p :: a :: l2 := by rw [hat.2.2.1]; simp
        cases ok with
        | false =>
          right
          refine ⟨s, l, ?_, hg, fun h _ => h, by simp [inserts]⟩
          simp [step, merge_fail hg hat]
        | true =>
          by_cases hfit : length_at s.heap p + ln.length < 2147483647
          · right
            obtain ⟨pl, P, tp, Rp, h', hrdp, hpd, hpl, hev, hg', hpp, hfr⟩ :=
              merge_spec hg hat hfit
            refine ⟨_, _, by simp [step, hev], hg', ?_, ?_⟩
            · intro hstr _
              exact merge_str hat (good_nodup hg) hstr hrdp hpd hpl hpp hfr
            · have hlp : length_at s.heap p = pl.length := by simp [length_at, hrdp]
              subst hl'
              rw [total_merge hg hg' hfr, hla, hlp]
              show _ - _ - _ + length_at h' p ≤ _
              rw [length_at_payload hpp]
              simp only [inserts]
              push_cast
              omega
          · left
            refine ⟨by simp [step, merge_overflow hg hat hfit], Or.inr ?_⟩
            have := total_ge_two hg hl' hat.2.1
            simp only [inserts]
            push_cast
            omega
    · right
      obtain ⟨h', hev, hg', hpa, hfr⟩ := delete_inline_spec hg hat ok
      refine ⟨_, l, by simp [step, hev], hg', ?_, ?_⟩
      · intro hstr _
        exact delete_inline_str hat hstr hpa hfr
      · have hl := hat.2.2.1
        subst hl
        rw [total_mid hg hg' hfr, hla]
        show _ - _ + length_at h' a ≤ _
        rw [length_at_payload hpa]
        simp only [inserts]
        push_cast
        omega
  | newline ok_line ok_data ok_re =>
    by_cases hal : (ok_line && ok_data) = false
    · right
      refine ⟨s, l, ?_, hg, fun h _ => h, by simp [inserts]⟩
      simp [step, new_line_alloc_fail hg ok_line ok_data ok_re hal]
    · have h1 : ok_line = true ∧ ok_data = true := by
        cases ok_line <;> cases ok_data <;> simp at hal ⊢
      obtain ⟨rfl, rfl⟩ := h1
      have hmem : a ∈ l := by rw [hat.2.2.1]; simp
      rcases new_line_cases hat ok_re with ⟨hsp, hev⟩ | ⟨hsp, hev⟩ | ⟨nl, c1, hsp⟩
      · left
        refine ⟨by simp [step, hev], Or.inl ?_⟩
        intro hstr
        cases ok_re with
        | true =>
          obtain ⟨c1, he, _⟩ := split_line_eval hat.2.2.2.2.1 hat.2.2.2.2.2.2.1
            (at_tail_str hat (hstr a hmem))
          rw [hat.2.2.2.2.2.1, he] at hsp
          simp at hsp
        | false =>
          unfold split_line at hsp
          simp only [Bool.not_false, if_true] at hsp
          split at hsp
          · split at hsp
            · have := hat.2.2.2.2.2.1
              have := hat.2.2.2.2.2.2.1
              omega
            · simp at hsp
          · simp at hsp
      · right
        have hfrm : ∀ b ∈ l, rd (free_line (s.heap ++
            [some { data := [some 0], length := 0, prev := none, next := none }])
            s.heap.length) b = rd s.heap b := by
          intro b hb
          obtain ⟨lb, hrb, _⟩ := good_mem_ok hg hb
          have hlt := rd_some_lt hrb
          rw [rd_free_ne (by omega), rd_append_old _ hlt]
        have hgf := good_heap_frame hg _ hfrm
        refine ⟨{ s with heap := (free_line (s.heap ++
            [some { data := [some 0], length := 0, prev := none, next := none }])
            s.heap.length) }, l, by simp [step, hev], hgf, ?_, ?_⟩
        rotate_left
        · rw [total_of_good hgf, total_of_good hg,
            map_length_frame (fun b hb => payload_of_rd (hfrm b hb))]
          simp [inserts]
        · intro hstr _ b hb
          obtain ⟨lb, hrb, _⟩ := good_mem_ok hg hb
          have hlt := rd_some_lt hrb
          have e : rd (free_line (s.heap ++
              [some { data := [some 0], length := 0, prev := none, next := none }])
              s.heap.length) b = rd s.heap b := by
            rw [rd_free_ne (by omega), rd_append_old _ hlt]
          have e2 := is_cstr_at_of_payload (payload_of_rd e)
          exact e2.trans (hstr b hb)
      · right
        obtain ⟨h', hev, hg', hpa, hpn, hfr⟩ := new_line_spec hg hat hsp
        refine ⟨_, _, by simp [step, hev], hg', ?_, ?_⟩
        rotate_left
        · have hsp' := hsp
          rw [hat.2.2.2.2.2.1] at hsp'
          obtain ⟨hc1len, _, hnllen, _, _⟩ :=
            split_line_sizes hat.2.2.2.2.1 hat.2.2.2.2.2.2.1 hsp'
          have hlen := hat.2.2.2.2.2.2.1
          have hl := hat.2.2.1
          subst hl
          rw [total_split hg hg' hfr, hla]
          show _ - _ + length_at h' a + length_at h' s.heap.length ≤ _
          rw [length_at_payload hpa, length_at_payload hpn]
          simp only [inserts]
          push_cast at hlen ⊢
          omega
        intro hstr _
        obtain ⟨c1', he, hc1d, hc1l⟩ := split_line_eval hat.2.2.2.2.1 hat.2.2.2.2.2.2.1
          (at_tail_str hat (hstr a hmem))
        cases ok_re with
        | false =>
          have : ¬ s.buf.cursor_x < ln.length := by
            intro hlt
            unfold split_line at hsp
            rw [if_pos hlt] at hsp
            simp only [Bool.not_false, if_true] at hsp
            split at hsp <;> simp at hsp
          have hB : B = [] := by
            apply List.length_eq_zero.1
            have := hat.2.2.2.2.2.1
            have := hat.2.2.2.2.2.2.1
            omega
          subst hB
          rcases split_line_cases hsp with ⟨_, rfl, rfl⟩ | ⟨hlt, _⟩
          · obtain ⟨TA, TB, rfl, _, rfl, hTA, _⟩ := at_str hat (hstr a hmem)
            have hd := hat.2.2.2.2.1
            have hlen := hat.2.2.2.2.2.2.1
            have hd2 : c1.data = cells TA ++ some 0 :: ([] ++ some 0 :: R).tail := by
              rw [hd]; simp
            have hl2 : c1.length = ↑(cells TA).length := by
              rw [hlen]; simp
            exact new_line_str hat hstr hd2 hl2 hpa (by simpa using hpn) hfr
          · exact absurd hlt this
        | true =>
          rw [hat.2.2.2.2.2.1, he] at hsp
          simp only [Option.some.injEq, Prod.mk.injEq] at hsp
          obtain ⟨rfl, rfl⟩ := hsp
          exact new_line_str hat hstr hc1d hc1l hpa hpn hfr
  | move dx dy =>
    right
    obtain ⟨b, r, hev, hg', _, _⟩ := move_cursor_spec (good_pos hg) dx dy
    refine ⟨_, l, by simp [step, hev], hg', fun h _ => h, ?_⟩
    show total_length s ≤ _
    simp [inserts]
  | set x y =>
    right
    obtain ⟨b, r, hev, hg', _, _⟩ := set_cursor_spec (good_pos hg) x y
    refine ⟨_, l, by simp [step, hev], hg', fun h _ => h, ?_⟩
    show total_length s ≤ _
    simp [inserts]

theorem no_nul_cons (op : Op) (ops : List Op) :
    no_nul (op :: ops) = (no_nul [op] && no_nul ops) := by
  cases op <;> simp [no_nul]

theorem run_good {ops : List Op} : ∀ {s : State} {l : List Nat}, Good s l →
    ∀ {s' : State}, run ops s = some s' → ∃ l', Good s' l' := by
  induction ops with
  | nil =>
    intro s l hg s' h
    simp only [run, Option.some.injEq] at h
    subst h
    exact ⟨l, hg⟩
  | cons op ops ih =>
    intro s l hg s' h
    rcases step_cases hg op with ⟨hn, _⟩ | ⟨s1, l1, hs, hg1, _⟩
    · simp [run, hn] at h
    · simp only [run, hs] at h
      exact ih hg1 h

theorem inserts_cons (op : Op) (ops : List Op) :
    inserts (op :: ops) = inserts [op] + inserts ops := by
  cases op <;> simp [inserts]; omega

/-- A sequence of calls that inserts no NUL byte and keeps the buffer within
`INT_MAX - 1` characters, from a state that satisfies the invariant with all
lines C strings: it runs to an end, in a state of the same kind. -/
theorem run_total {ops : List Op} : ∀ {s : State} {l : List Nat}, Good s l →
    (∀ b ∈ l, is_cstr_at s.heap b = true) → no_nul ops = true →
    total_length s + ↑(inserts ops) ≤ 2147483646 →
    ∃ s' l', run ops s = some s' ∧ Good s' l' ∧
      (∀ b ∈ l', is_cstr_at s'.heap b = true) ∧
      total_length s' ≤ total_length s + ↑(inserts ops) := by
  induction ops with
  | nil =>
    intro s l hg hstr _ _
    exact ⟨s, l, rfl, hg, hstr, by simp [inserts]⟩
  | cons op ops ih =>
    intro s l hg hstr hn hsz
    rw [no_nul_cons, Bool.and_eq_true] at hn
    rw [inserts_cons] at hsz ⊢
    push_cast at hsz ⊢
    rcases step_cases hg op with ⟨_, hns | hbig⟩ | ⟨s1, l1, hs, hg1, hstr1, ht1⟩
    · exact absurd hstr hns
    · omega
    · obtain ⟨s', l', hr, hg', hstr', ht'⟩ := ih hg1 (hstr1 hstr hn.1) hn.2 (by omega)
      exact ⟨s', l', by simp only [run, hs]; exact hr, hg', hstr', by omega⟩

theorem total_fresh (next_id : Int) : total_length (fresh_buffer next_id) = 0 := rfl

theorem run_append (xs ys : List Op) : ∀ s : State,
    run (xs ++ ys) s = (run xs s).bind (run ys) := by
  induction xs with
  | nil => intro s; rfl
  | cons x xs ih =>
    intro s
    simp only [List.cons_append, run]
    cases step s x with
    | none => rfl
    | some s1 => exact ih s1

theorem step_none {s : State} {ch : Int}
    (h : buffer_insert_char s ch true = none) :
    (some s).bind (run [.insert ch true]) = none := by
  simp [run, step, h]

theorem long_line_at (n : Nat) :
    At (long_line n) [0]
      0 { data := List.replicate n (some 97) ++ [some 0], length := ↑n,
          prev := none, next := none }
      [] [] (List.replicate n (some 97)) [] (some 0) [] := by
  refine ⟨rfl, rfl, rfl, rfl, ?_, ?_, ?_, rfl, rfl⟩
  · simp
  · simp [long_line]
  · simp

theorem good_long_line (n : Nat) (hn : n < 2147483647) : Good (long_line n) [0] := by
  refine ⟨?_, ?_, rfl, le_refl _, ?_, rfl, ?_, ?_⟩
  · exact seg_cons.2 ⟨rfl, _, rfl, rfl, seg_nil.2 rfl⟩
  · intro a ha
    simp only [List.mem_singleton] at ha
    subst ha
    exact line_ok_at_iff.2 ⟨_, rfl, by simp, by simp, by simp; omega⟩
  · simp [long_line, fresh_buffer]
  · show (0 : Int) ≤ ↑n
    omega
  · exact le_refl (↑n : Int)

/-- One insert at the end of the long line. -/
theorem long_insert (n : Nat) (hn : n < 2147483646) :
    buffer_insert_char (long_line n) 97 true = some (LITE_OK, long_line (n + 1)) := by
  rw [insert_eval (long_line_at n) 97 (by show (↑n : Int) < 2147483646; omega)]
  simp [long_line, wr, List.replicate_succ', to_char]

theorem long_insert_none (ch : Int) :
    buffer_insert_char (long_line 2147483646) ch true = none :=
  insert_overflow (good_long_line 2147483646 (by norm_num)) (long_line_at 2147483646) ch
    (by show ¬ ((2147483646 : Nat) : Int) < 2147483646; omega)

theorem run_cons_insert (s s1 : State) (ch : Int) (ops : List Op)
    (h : buffer_insert_char s ch true = some (LITE_OK, s1)) :
    run (.insert ch true :: ops) s = run ops s1 := by
  simp only [run, step, h, Option.map_some']

/-- The buffer after `k` more inserts. -/
theorem run_inserts (n k : Nat) (h : n + k ≤ 2147483646) :
    run (List.replicate k (.insert 97 true)) (long_line n) = some (long_line (n + k)) := by
  induction k generalizing n with
  | zero => rfl
  | succ k ih =>
    rw [List.replicate_succ, run_cons_insert _ _ _ _ (long_insert n (by omega)),
      ih (n + 1) (by omega), Nat.add_right_comm, Nat.add_assoc]

theorem run_long (k : Nat) (h : k ≤ 2147483646) :
    run (List.replicate k (.insert 97 true)) (fresh_buffer 1) = some (long_line k) := by
  have e := run_inserts 0 k (by omega)
  rwa [Nat.zero_add] at e

theorem create_fresh {next_id : Int} {a b c : Bool} {s0 : State}
    (h : (buffer_create next_id a b c).1 = some s0) : s0 = fresh_buffer next_id := by
  unfold buffer_create create_line at h
  cases a <;> cases b <;> cases c <;> simp at h
  exact h.symm

theorem good_fresh (next_id : Int) : Good (fresh_buffer next_id) [0] := by
  refine ⟨?_, ?_, rfl, le_refl _, ?_, rfl, le_refl _, ?_⟩
  · exact seg_cons.2 ⟨rfl, _, rfl, rfl, seg_nil.2 rfl⟩
  · intro a ha
    simp only [List.mem_singleton] at ha
    subst ha
    rfl
  · simp [fresh_buffer]
  · show (0 : Int) ≤ 0
    exact le_refl _

theorem str_fresh (next_id : Int) : ∀ b ∈ [0], is_cstr_at (fresh_buffer next_id).heap b = true := by
  intro a ha
  simp only [List.mem_singleton] at ha
  subst ha
  rfl

theorem good_count {s : State} {l : List Nat} (hg : Good s l) :
    s.buf.line_count = ↑(node_count s) := by
  unfold node_count
  rw [seg_line_addrs hg.1]
  exact hg.2.2.1

theorem good_cursor {s : State} {l : List Nat} (hg : Good s l) :
    ∃ a ln, s.buf.current_line = some a ∧ rd s.heap a = some ln ∧
      0 ≤ s.buf.cursor_x ∧ s.buf.cursor_x ≤ ln.length ∧
      0 ≤ s.buf.cursor_y ∧ (line_addrs s)[s.buf.cursor_y.toNat]? = some a := by
  obtain ⟨a, ln, l1, l2, ha, hrd, hl, hy, _, _, hx0, hx1, _, _⟩ := good_cur hg
  refine ⟨a, ln, ha, hrd, hx0, hx1, hg.2.2.2.1, ?_⟩
  rw [seg_line_addrs hg.1, ← ha]
  exact hg.2.2.2.2.2.1

theorem map_content_payload {h h' : Heap} {l : List Nat}
    (e : ∀ b ∈ l, payload h' b = payload h b) :
    l.map (content_at h') = l.map (content_at h) :=
  List.map_congr_left (fun b hb => content_at_of_payload (e b hb))

theorem take_mid {α : Type} (L1 L2 : List α) (x : α) :
    (L1 ++ x :: L2).take L1.length = L1 := by
  rw [List.take_left]

theorem drop_mid {α : Type} (L1 L2 : List α) (x : α) :
    (L1 ++ x :: L2).drop (L1.length + 1) = L2 := by
  have : L1 ++ x :: L2 = (L1 ++ [x]) ++ L2 := by simp
  rw [this]
  have e : L1.length + 1 = (L1 ++ [x]).length := by simp
  rw [e, List.drop_left]

theorem set_mid {α : Type} (L1 L2 : List α) (x y : α) :
    (L1 ++ x :: L2).set L1.length y = L1 ++ y :: L2 := by
  rw [List.set_append_right _ _ (le_refl _)]
  simp

/-- The line sequence of a state in terms of the cursor decomposition. -/
theorem lines_at {s : State} {l : List Nat} {a : Nat} {ln : Line} {l1 l2 : List Nat}
    {A B : List Cell} {t : Cell} {R : List Cell} (hg : Good s l)
    (hat : At s l a ln l1 l2 A B t R) :
    lines s = l1.map (content_at s.heap) ++ (A ++ B) :: l2.map (content_at s.heap) ∧
      current_content s = some (A ++ B) ∧ s.buf.cursor_y.toNat = (l1.map (content_at s.heap)).length := by
  obtain ⟨ha, hrd, hl, hy, hd, hx, hlen, _, _⟩ := hat
  refine ⟨?_, ?_, ?_⟩
  · rw [lines_of_good hg, hl, List.map_append, List.map_cons]
    simp only [content_at, hrd, content_decomp hd hlen]
  · simp [current_content, ha, hrd, content_decomp hd hlen]
  · rw [hy]; simp

/-- The line sequence after a change of the payload of the current line. -/
theorem lines_after_payload {s s' : State} {l : List Nat} {a : Nat} {l1 l2 : List Nat}
    (hl : l = l1 ++ a :: l2) (hnd : l.Nodup) (hg' : Good s' l) {d : List Cell} {n : Int}
    (hpa : payload s'.heap a = some (d, n))
    (hfr : ∀ b, b ≠ a → payload s'.heap b = payload s.heap b) :
    lines s' = l1.map (content_at s.heap) ++ d.take n.toNat :: l2.map (content_at s.heap) := by
  rw [hl] at hnd
  obtain ⟨h1, h2, _, _, _⟩ := nodup_mid hnd
  rw [lines_of_good hg', hl, List.map_append, List.map_cons, content_at_payload hpa]
  congr 1
  · exact map_content_payload (fun b hb => hfr b (fun e => h1 (e ▸ hb)))
  · congr 1
    exact map_content_payload (fun b hb => hfr b (fun e => h2 (e ▸ hb)))

theorem current_of_payload {s : State} {a : Nat} {d : List Cell} {n : Int}
    (ha : s.buf.current_line = some a) (hpa : payload s.heap a = some (d, n)) :
    current_content s = some (d.take n.toNat) ∧ current_length s = some n := by
  unfold payload at hpa
  cases e : rd s.heap a with
  | none => rw [e] at hpa; simp at hpa
  | some ln =>
    rw [e] at hpa
    simp at hpa
    simp [current_content, current_length, ha, e, content, hpa.1, hpa.2]

/-- C8. For every buffer that satisfies the invariant, with cursor column
`c > 0` on a line with content `S`, `buffer_delete_char` returns `LITE_OK`,
makes the content of the current line `S[0..c-1) ++ S[c..)`, decrements
that line's length and `cursor_x` by one, sets `modified`, keeps `cursor_y`,
`line_count`, `current_line` and every other line, and keeps the invariant
(whatever the allocator would answer: this path does not allocate). -/
theorem delete_char_inline_correct (s : State) (S : List Cell) (c : Nat) (ok : Bool)
    (hi : Inv s) (hS : current_content s = some S) (hc : s.buf.cursor_x = ↑c)
    (hpos : 0 < c) :
    ∃ s', buffer_delete_char s ok = some (LITE_OK, s') ∧
      current_content s' = some (S.take (c - 1) ++ S.drop c) ∧
      current_length s' = some ((S.length : Int) - 1) ∧
      s'.buf.cursor_x = ↑c - 1 ∧ s'.buf.cursor_y = s.buf.cursor_y ∧
      s'.buf.line_count = s.buf.line_count ∧
      s'.buf.current_line = s.buf.current_line ∧ s'.buf.modified = true ∧
      lines s' = (lines s).set s.buf.cursor_y.toNat (S.take (c - 1) ++ S.drop c) ∧
      Inv s' := by
  have hg := inv_good hi
  obtain ⟨a, ln, l1, l2, A, B, t, R, hat⟩ := good_at hg
  obtain ⟨hlines, hcur, hrow⟩ := lines_at hg hat
  rw [hcur] at hS
  simp only [Option.some.injEq] at hS
  subst hS
  have hcA : c = A.length := by
    have := hat.2.2.2.2.2.1
    omega
  subst hcA
  rcases list_nil_or_snoc A with rfl | ⟨A', x, rfl⟩
  · simp at hpos
  obtain ⟨h', hev, hg', hpa, hfr⟩ := delete_inline_spec hg hat ok
  have hcur' := current_of_payload (s := { heap := h', buf := { s.buf with
    cursor_x := s.buf.cursor_x - 1, modified := true } }) hat.1 hpa
  have hlen := hat.2.2.2.2.2.2.1
  have e1 : (ln.length - 1).toNat = (A' ++ B).length := by
    rw [hlen]; simp; omega
  have e2 : (A' ++ (B ++ [t]) ++ t :: R).take (ln.length - 1).toNat = A' ++ B := by
    rw [e1]
    have : A' ++ (B ++ [t]) ++ t :: R = (A' ++ B) ++ ([t] ++ t :: R) := by simp
    rw [this, List.take_left]
  have e3 : (A' ++ [x] ++ B).take ((A' ++ [x]).length - 1) ++ (A' ++ [x] ++ B).drop (A' ++ [x]).length
      = A' ++ B := by
    rw [List.drop_left]
    have : (A' ++ [x]).length - 1 = A'.length := by simp
    rw [this, List.append_assoc, List.take_left]
  refine ⟨_, hev, ?_, ?_, ?_, rfl, rfl, rfl, rfl, ?_, good_inv hg'⟩
  · rw [hcur'.1, e2, e3]
  · rw [hcur'.2, hlen]; simp; omega
  · show s.buf.cursor_x - 1 = _
    rw [hc]
  · rw [lines_after_payload hat.2.2.1 (good_nodup hg) hg' hpa hfr, e2, hlines, hrow, set_mid,
      e3]

theorem delete_char_inline_correct_witness :
    Inv (buffer_of [[97, 98, 99]] 2 0) ∧
    ∃ s', buffer_delete_char (buffer_of [[97, 98, 99]] 2 0) true = some (LITE_OK, s') ∧
      current_content s' = some [some 97, some 99] ∧ s'.buf.cursor_x = 1 := by
  refine ⟨by decide, ?_⟩
  obtain ⟨s', k1, k2, _, k4, _⟩ :=
    delete_char_inline_correct (buffer_of [[97, 98, 99]] 2 0)
      [some 97, some 98, some 99] 2 true (by decide) rfl rfl (by decide)
  exact ⟨s', k1, k2, k4⟩

/-- C9. For every buffer that satisfies the invariant with the cursor on the
first line (`cursor_y = 0`) at column 0, `buffer_delete_char` returns
`LITE_OK` and leaves the whole state unchanged, the `modified` flag
included; so calling it twice gives the same state as calling it once or
not at all. -/
theorem delete_char_first_line_noop (s : State) (ok ok2 : Bool) (hi : Inv s)
    (hy : s.buf.cursor_y = 0) (hx : s.buf.cursor_x = 0) :
    buffer_delete_char s ok = some (LITE_OK, s) ∧
    (buffer_delete_char s ok).bind (fun r => buffer_delete_char r.2 ok2)
      = some (LITE_OK, s) := by
  have hg := inv_good hi
  obtain ⟨a, ln, l1, l2, A, B, t, R, hat⟩ := good_at hg
  have hl1 : l1 = [] := by
    apply List.length_eq_zero.1
    have := hat.2.2.2.1
    omega
  have hA : A = [] := by
    apply List.length_eq_zero.1
    have := hat.2.2.2.2.2.1
    omega
  subst hl1 hA
  have h1 := delete_first_noop hat ok
  have h2 := delete_first_noop hat ok2
  refine ⟨h1, ?_⟩
  rw [h1]
  exact h2

theorem delete_char_first_line_noop_witness :
    Inv (fresh_buffer 1) ∧
    buffer_delete_char (fresh_buffer 1) true = some (LITE_OK, fresh_buffer 1) :=
  ⟨by decide, (delete_char_first_line_noop (fresh_buffer 1) true true (by decide) rfl rfl).1⟩

theorem lines_mid1 {s' : State} {h : Heap} {l1 l2 : List Nat} {p : Nat}
    (hg' : Good s' (l1 ++ p :: l2)) {d : List Cell} {n : Int}
    (hpp : payload s'.heap p = some (d, n))
    (h1 : ∀ b ∈ l1, payload s'.heap b = payload h b)
    (h2 : ∀ b ∈ l2, payload s'.heap b = payload h b) :
    lines s' = l1.map (content_at h) ++ d.take n.toNat :: l2.map (content_at h) := by
  rw [lines_of_good hg', List.map_append, List.map_cons, content_at_payload hpp,
    map_content_payload h1, map_content_payload h2]

theorem lines_mid2 {s' : State} {h : Heap} {l1 l2 : List Nat} {a n : Nat}
    (hg' : Good s' (l1 ++ a :: n :: l2)) {da dn : List Cell} {ka kn : Int}
    (hpa : payload s'.heap a = some (da, ka)) (hpn : payload s'.heap n = some (dn, kn))
    (h1 : ∀ b ∈ l1, payload s'.heap b = payload h b)
    (h2 : ∀ b ∈ l2, payload s'.heap b = payload h b) :
    lines s' = l1.map (content_at h) ++ da.take ka.toNat :: dn.take kn.toNat ::
      l2.map (content_at h) := by
  rw [lines_of_good hg', List.map_append, List.map_cons, List.map_cons,
    content_at_payload hpa, content_at_payload hpn,
    map_content_payload h1, map_content_payload h2]

theorem take_drop_mid2 {α : Type} (L1 L2 : List α) (x y : α) :
    (L1 ++ x :: y :: L2).take L1.length = L1 ∧
      (L1 ++ x :: y :: L2).drop (L1.length + 2) = L2 ∧
      (L1 ++ x :: y :: L2)[L1.length]? = some x ∧
      (L1 ++ x :: y :: L2)[L1.length + 1]? = some y ∧
      (L1 ++ x :: y :: L2).take (L1.length + 1) = L1 ++ [x] := by
  refine ⟨List.take_left _ _, ?_, ?_, ?_, ?_⟩
  · have : L1 ++ x :: y :: L2 = (L1 ++ [x, y]) ++ L2 := by simp
    rw [this]
    have e : L1.length + 2 = (L1 ++ [x, y]).length := by simp
    rw [e, List.drop_left]
  · rw [List.getElem?_append_right (le_refl _)]; simp
  · rw [List.getElem?_append_right (by omega)]; simp
  · have : L1 ++ x :: y :: L2 = (L1 ++ [x]) ++ y :: L2 := by simp
    rw [this]
    have e : L1.length + 1 = (L1 ++ [x]).length := by simp
    rw [e, List.take_left]

/-- Under the invariant the content of a line has `length` characters. -/
theorem content_length {s : State} {l : List Nat} (hg : Good s l) {a : Nat} (ha : a ∈ l) :
    ((content_at s.heap a).length : Int) = length_at s.heap a := by
  obtain ⟨ln, hrd, h0, h1, _⟩ := line_ok_at_iff.1 (hg.2.1 a ha)
  simp only [length_at, hrd, content_at, content, List.length_take]
  omega

/-- A line break at the end of the long line, the letter `b`, and a step to
the left. -/
theorem run_pair (n : Nat) :
    (some (long_line n)).bind (run [.newline true true true, .insert 98 true, .move (-1) 0])
      = some (long_pair n) := by
  simp [run, step, buffer_new_line, long_line, fresh_buffer, rd, create_line, split_line, wr,
    relink_next, buffer_insert_char, memmove, poke, realloc, wrap32, buffer_move_cursor,
    move_up, move_down, clamp_cursor, long_pair, to_char, LITE_OK]

theorem long_pair_at (n : Nat) :
    At (long_pair n) [0, 1]
      1 { data := [some 98, some 0], length := 1, prev := some 0, next := none }
      ([] ++ [0]) [] [] [some 98] (some 0) [] :=
  ⟨rfl, rfl, rfl, rfl, rfl, rfl, rfl, rfl, rfl⟩

theorem good_long_pair (n : Nat) (hn : n < 2147483647) : Good (long_pair n) [0, 1] := by
  refine ⟨?_, ?_, rfl, ?_, ?_, rfl, le_refl _, ?_⟩
  · exact seg_cons.2 ⟨rfl, _, rfl, rfl, seg_cons.2 ⟨rfl, _, rfl, rfl, seg_nil.2 rfl⟩⟩
  · intro a ha
    simp only [List.mem_cons, List.mem_singleton, List.not_mem_nil, or_false] at ha
    rcases ha with rfl | rfl
    · exact line_ok_at_iff.2 ⟨_, rfl, by simp, by simp, by simp; omega⟩
    · exact line_ok_at_iff.2 ⟨_, rfl, by simp, by simp, by simp⟩
  · show (0 : Int) ≤ 1
    decide
  · simp [long_pair]
  · show (0 : Int) ≤ 1
    decide

theorem at_tail_is_string {s : State} {l : List Nat} {a : Nat} {ln : Line} {l1 l2 : List Nat}
    {A B : List Cell} {t : Cell} {R : List Cell} (hat : At s l a ln l1 l2 A B t R) :
    tail_is_string s = true ↔ cstr (B ++ t :: R) = some (B ++ [some 0]) := by
  obtain ⟨ha, hrd, _, _, hd, hx, hlen, _, _⟩ := hat
  have e1 : s.buf.cursor_x.toNat = A.length := by omega
  simp only [tail_is_string, ha, hrd, decide_eq_true_eq, content_decomp hd hlen, e1, hd]
  rw [List.append_assoc, List.drop_left, List.drop_left]

/-- C6 fails as stated: on the one-line buffer `'a'`, NUL, `'b'` (reached
through the API by inserting the three bytes and moving to the origin),
which satisfies the invariant, `buffer_new_line` at column 0 returns
`LITE_OK` but the new line is not `S[0..)`: `strcpy` stops at the NUL, and
the third character of the new line is indeterminate. -/
theorem new_line_nul_counterexample :
    run [.insert 97 true, .insert 0 true, .insert 98 true, .set 0 0] (fresh_buffer 1)
      = some nul_buffer ∧
    Inv nul_buffer ∧
    current_content nul_buffer = some [some 97, some 0, some 98] ∧
    nul_buffer.buf.cursor_x = 0 ∧
    (buffer_new_line nul_buffer true true true).map (fun q => (q.1, lines q.2))
      = some (LITE_OK, [[], [some 97, some 0, none]]) ∧
    (buffer_new_line nul_buffer true true true).map (fun q => lines q.2)
      ≠ some [[], [some 97, some 0, some 98]] := by
  decide

/-- C6, amended. For every buffer that satisfies the invariant, with the
cursor at column `c` of a line with content `S` at row `r`, such that the
block of that line holds `S[c..)` as non-NUL bytes followed by a NUL
terminator, `buffer_new_line` with successful allocations returns `LITE_OK`
and replaces that line by the two adjacent lines `S[0..c)` and `S[c..)`,
the new node linked immediately after the original one and all other lines
unchanged and in order; the cursor becomes (row `r + 1`, column 0) on the
new line, `line_count` increases by one, `modified` is set, and the
invariant is kept.  The line `"hello"` with the cursor at column 5 gives the
lines `"hello"` and `""`, cursor (1, 0), `line_count = 2`. -/
theorem new_line_correct (s : State) (S : List Cell) (c : Nat)
    (hi : Inv s) (hS : current_content s = some S) (hc : s.buf.cursor_x = ↑c)
    (hstr : tail_is_string s = true) :
    (∃ s' n, buffer_new_line s true true true = some (LITE_OK, s') ∧
      lines s' = (lines s).take s.buf.cursor_y.toNat ++ S.take c :: S.drop c ::
        (lines s).drop (s.buf.cursor_y.toNat + 1) ∧
      line_addrs s' = (line_addrs s).take (s.buf.cursor_y.toNat + 1) ++ n ::
        (line_addrs s).drop (s.buf.cursor_y.toNat + 1) ∧
      s'.buf.current_line = some n ∧ current_content s' = some (S.drop c) ∧
      s'.buf.cursor_x = 0 ∧ s'.buf.cursor_y = s.buf.cursor_y + 1 ∧
      s'.buf.line_count = s.buf.line_count + 1 ∧ s'.buf.modified = true ∧
      Inv s') ∧
    (buffer_new_line (buffer_of [[104, 101, 108, 108, 111]] 5 0) true true true).map
        (fun q => (q.1, lines q.2, q.2.buf.cursor_y, q.2.buf.cursor_x, q.2.buf.line_count))
      = some (LITE_OK, [[some 104, some 101, some 108, some 108, some 111], []], 1, 0, 2) := by
  refine ⟨?_, by decide⟩
  have hg := inv_good hi
  obtain ⟨a, ln, l1, l2, A, B, t, R, hat⟩ := good_at hg
  obtain ⟨hlines, hcur, hrow⟩ := lines_at hg hat
  rw [hcur] at hS
  simp only [Option.some.injEq] at hS
  subst hS
  have hx := hat.2.2.2.2.2.1
  have hcA : c = A.length := by omega
  subst hcA
  have hts := (at_tail_is_string hat).1 hstr
  obtain ⟨c1, hsp, hc1d, hc1l⟩ := split_line_eval hat.2.2.2.2.1 hat.2.2.2.2.2.2.1 hts
  rw [← hx] at hsp
  obtain ⟨h', hev, hg', hpa, hpn, hfr⟩ := new_line_spec hg hat hsp
  have hl : line_addrs s = l1 ++ a :: l2 := hat.2.2.1
  have hnd := good_nodup hg
  rw [hl] at hnd
  obtain ⟨ha1, ha2, _, _, _⟩ := nodup_mid hnd
  have hlt : ∀ b ∈ line_addrs s, b ≠ s.heap.length := fun b hb => by
    obtain ⟨lb, hrb, _⟩ := good_mem_ok hg hb
    have := rd_some_lt hrb
    omega
  have e1 : c1.data.take c1.length.toNat = A := by
    rw [hc1d, hc1l]
    have : ((A.length : Nat) : Int).toNat = A.length := by simp
    rw [this, List.take_left]
  have e2 : (B ++ [some 0]).take ((B.length : Int)).toNat = B := by
    have : ((B.length : Nat) : Int).toNat = B.length := by simp
    rw [this, List.take_left]
  have hcur' := current_of_payload (s := { heap := h', buf := { s.buf with
      current_line := some s.heap.length, cursor_x := 0,
      cursor_y := s.buf.cursor_y + 1,
      line_count := s.buf.line_count + 1, modified := true } }) rfl hpn
  have hr1 : s.buf.cursor_y.toNat = l1.length := by
    have := hat.2.2.2.1
    omega
  refine ⟨_, s.heap.length, hev, ?_, ?_, rfl, ?_, rfl, rfl, rfl, rfl, good_inv hg'⟩
  · rw [lines_mid2 hg' hpa hpn
      (fun b hb => hfr b (fun e => ha1 (e ▸ hb)) (hlt b (by rw [hl]; simp [hb])))
      (fun b hb => hfr b (fun e => ha2 (e ▸ hb)) (hlt b (by rw [hl]; simp [hb]))),
      e1, e2, hlines, hrow, take_mid, drop_mid, List.take_left, List.drop_left]
  · rw [seg_line_addrs hg'.1, hl, hr1, drop_mid]
    have : l1 ++ a :: l2 = (l1 ++ [a]) ++ l2 := by simp
    rw [this]
    have e : l1.length + 1 = (l1 ++ [a]).length := by simp
    rw [e, List.take_left]
    simp
  · rw [hcur'.1, e2, List.drop_left]

theorem new_line_correct_witness :
    Inv (buffer_of [[97, 98, 99]] 1 0) ∧ tail_is_string (buffer_of [[97, 98, 99]] 1 0) = true ∧
    ∃ s', buffer_new_line (buffer_of [[97, 98, 99]] 1 0) true true true
        = some (LITE_OK, s') ∧
      lines s' = [[some 97], [some 98, some 99]] := by
  refine ⟨by decide, by decide, ?_⟩
  obtain ⟨s', n, k1, k2, _⟩ :=
    (new_line_correct (buffer_of [[97, 98, 99]] 1 0) [some 97, some 98, some 99] 1
      (by decide) rfl rfl (by decide)).1
  exact ⟨s', k1, by rw [k2]; rfl⟩

theorem payload_rd {h : Heap} {b : Nat} {d : List Cell} {n : Int}
    (e : payload h b = some (d, n)) : ∃ ln, rd h b = some ln ∧ ln.data = d ∧ ln.length = n := by
  unfold payload at e
  cases e1 : rd h b with
  | none => rw [e1] at e; simp at e
  | some ln =>
    rw [e1] at e
    simp at e
    exact ⟨ln, rfl, e.1, e.2⟩

theorem at_of_payload {s : State} {l : List Nat} {a : Nat} {l1 l2 : List Nat}
    {A B : List Cell} {t : Cell} {R : List Cell} (hg : Good s l) (hl : l = l1 ++ a :: l2)
    (ha : s.buf.current_line = some a) (hy : s.buf.cursor_y = ↑l1.length)
    (hx : s.buf.cursor_x = ↑A.length)
    (hp : payload s.heap a = some (A ++ B ++ t :: R, ((A.length + B.length : Nat) : Int))) :
    ∃ ln, At s l a ln l1 l2 A B t R := by
  obtain ⟨ln, hrd, hd, hlen⟩ := payload_rd hp
  have hseg := hg.1
  rw [hl] at hseg
  obtain ⟨_, ln', hrd', hpv, hrest⟩ := seg_split.1 hseg
  rw [hrd] at hrd'
  cases hrd'
  exact ⟨ln, ha, hrd, hl, hy, hd, hx, hlen, hpv, seg_head hrest⟩

/-- C4 fails as stated: on the one-line buffer `'a'`, NUL, `'b'`, which
satisfies the invariant, `buffer_new_line` at column 0 followed by
`buffer_delete_char` ends with one line whose third character is
indeterminate instead of the original `'b'`. -/
theorem split_merge_nul_counterexample :
    Inv nul_buffer ∧ lines nul_buffer = [[some 97, some 0, some 98]] ∧
    ((buffer_new_line nul_buffer true true true).bind
        (fun q => buffer_delete_char q.2 true)).map (fun q => (q.1, lines q.2))
      = some (LITE_OK, [[some 97, some 0, none]]) ∧
    ((buffer_new_line nul_buffer true true true).bind
        (fun q => buffer_delete_char q.2 true)).map (fun q => lines q.2)
      ≠ some (lines nul_buffer) := by
  decide

/-- C4, amended. For every buffer that satisfies the invariant, with the
cursor at column `c` of a line with content `S` whose block holds `S[c..)`
as non-NUL bytes followed by a NUL terminator, `buffer_new_line` followed
immediately by `buffer_delete_char` (allocations succeeding) restores the
original line sequence, the original nodes, `line_count`, `cursor_y`,
`current_line` and `cursor_x = c`, and keeps the invariant. -/
theorem split_merge_inverse (s : State) (S : List Cell) (c : Nat)
    (hi : Inv s) (hS : current_content s = some S) (hc : s.buf.cursor_x = ↑c)
    (hstr : tail_is_string s = true) :
    ∃ s1 s2, buffer_new_line s true true true = some (LITE_OK, s1) ∧
      buffer_delete_char s1 true = some (LITE_OK, s2) ∧
      lines s2 = lines s ∧ line_addrs s2 = line_addrs s ∧
      current_content s2 = some S ∧
      s2.buf.line_count = s.buf.line_count ∧ s2.buf.cursor_y = s.buf.cursor_y ∧
      s2.buf.cursor_x = ↑c ∧ s2.buf.current_line = s.buf.current_line ∧ Inv s2 := by
  have hg := inv_good hi
  obtain ⟨a, ln, l1, l2, A, B, t, R, hat⟩ := good_at hg
  obtain ⟨hlines, hcur, hrow⟩ := lines_at hg hat
  rw [hcur] at hS
  simp only [Option.some.injEq] at hS
  subst hS
  have hx := hat.2.2.2.2.2.1
  have hcA : c = A.length := by omega
  subst hcA
  have hts := (at_tail_is_string hat).1 hstr
  obtain ⟨c1, hsp, hc1d, hc1l⟩ := split_line_eval hat.2.2.2.2.1 hat.2.2.2.2.2.2.1 hts
  rw [← hx] at hsp
  obtain ⟨h1, hev1, hg1, hpa1, hpn1, hfr1⟩ := new_line_spec hg hat hsp
  have hl : line_addrs s = l1 ++ a :: l2 := hat.2.2.1
  have hnd := good_nodup hg
  rw [hl] at hnd
  obtain ⟨ha1, ha2, _, _, _⟩ := nodup_mid hnd
  have hlt : ∀ b ∈ line_addrs s, b ≠ s.heap.length := fun b hb => by
    obtain ⟨lb, hrb, _⟩ := good_mem_ok hg hb
    have := rd_some_lt hrb
    omega
  -- the cursor decomposition after the line break
  have hl' : l1 ++ a :: s.heap.length :: l2 = (l1 ++ [a]) ++ s.heap.length :: l2 := by simp
  rw [hl'] at hg1
  obtain ⟨ln1, hat1⟩ := at_of_payload (A := []) (B := B) (t := some 0) (R := []) hg1 rfl rfl
    (by show s.buf.cursor_y + 1 = _; rw [hat.2.2.2.1]; simp) rfl (by simpa using hpn1)
  have hfit1 : length_at h1 a + ln1.length < 2147483647 := by
    have k1 := length_at_payload hpa1
    have k2 := hat1.2.2.2.2.2.2.1
    have k3 := good_len_lt hg (a := a) (by rw [hl]; simp) hat.2.1
    have k4 := hat.2.2.2.2.2.2.1
    simp only [List.length_nil, Nat.zero_add] at k2
    rw [k1, k2, hc1l]
    push_cast at k4
    omega
  obtain ⟨pl, P, tp, Rp, h2, hrdp, hpd, hpl, hev2, hg2, hpp2, hfr2⟩ :=
    merge_spec hg1 hat1 hfit1
  -- the predecessor is the truncated original line
  obtain ⟨pl', hrd', hd', hlen'⟩ := payload_rd hpa1
  have e0 : pl' = pl := by
    have : rd h1 a = some pl := hrdp
    rw [hrd'] at this
    exact Option.some.inj this
  subst e0
  have hP : P = A := by
    have h3 : (pl'.data).take A.length = A := by rw [hd', hc1d, List.take_left]
    have h4 : (pl'.data).take P.length = P := by rw [hpd, List.take_left]
    have h5 : P.length = A.length := by
      have : pl'.length = ↑A.length := by rw [hlen', hc1l]
      omega
    rw [h5] at h4
    rw [← h4, h3]
  subst hP
  have hlen1 : ln1.length = ↑B.length := by
    have := hat1.2.2.2.2.2.2.1
    simpa using this
  have e2 : (P ++ (B ++ [some 0])).take (pl'.length + ln1.length).toNat = P ++ B := by
    have e1 : (pl'.length + ln1.length).toNat = (P ++ B).length := by
      rw [hpl, hlen1]; simp; omega
    rw [e1, ← List.append_assoc, List.take_left]
  have hcur2 := current_of_payload (s := { heap := h2, buf := { ({ s.buf with
      current_line := some s.heap.length, cursor_x := 0,
      cursor_y := s.buf.cursor_y + 1,
      line_count := s.buf.line_count + 1, modified := true } : Buffer) with
      current_line := some a, cursor_x := pl'.length,
      cursor_y := s.buf.cursor_y + 1 - 1,
      line_count := s.buf.line_count + 1 - 1, modified := true } }) rfl hpp2
  have hfr : ∀ b ∈ line_addrs s, b ≠ a → payload h2 b = payload s.heap b := by
    intro b hb hba
    rw [hfr2 b hba (hlt b hb)]
    exact hfr1 b hba (hlt b hb)
  refine ⟨_, _, hev1, hev2, ?_, ?_, ?_, ?_, ?_, ?_, ?_, good_inv hg2⟩
  · rw [lines_mid1 hg2 hpp2
      (fun b hb => hfr b (by rw [hl]; simp [hb]) (fun e => ha1 (e ▸ hb)))
      (fun b hb => hfr b (by rw [hl]; simp [hb]) (fun e => ha2 (e ▸ hb))),
      e2, hlines]
  · rw [seg_line_addrs hg2.1, hl]
  · rw [hcur2.1, e2]
  · show s.buf.line_count + 1 - 1 = s.buf.line_count
    omega
  · show s.buf.cursor_y + 1 - 1 = s.buf.cursor_y
    omega
  · show pl'.length = ↑P.length
    exact hpl
  · show some a = s.buf.current_line
    rw [hat.1]

theorem split_merge_inverse_witness :
    Inv (buffer_of [[97, 98, 99], [100]] 2 0) ∧
    tail_is_string (buffer_of [[97, 98, 99], [100]] 2 0) = true ∧
    ∃ s1 s2, buffer_new_line (buffer_of [[97, 98, 99], [100]] 2 0) true true true
        = some (LITE_OK, s1) ∧
      buffer_delete_char s1 true = some (LITE_OK, s2) ∧
      lines s2 = [[some 97, some 98, some 99], [some 100]] ∧ s2.buf.cursor_x = 2 := by
  refine ⟨by decide, by decide, ?_⟩
  obtain ⟨s1, s2, k1, k2, k3, _, _, _, _, k8, _⟩ :=
    split_merge_inverse (buffer_of [[97, 98, 99], [100]] 2 0) [some 97, some 98, some 99] 2
      (by decide) rfl rfl (by decide)
  exact ⟨s1, s2, k1, k2, by rw [k3]; rfl, k8⟩

/-- What `buffer_move_cursor` does on a buffer that satisfies the invariant,
in terms of the 32-bit sum `wrap32 (cursor_x + dx)`. -/
theorem move_cursor_full (s : State) (dx dy : Int) (hi : Inv s) :
    ∃ s' len, buffer_move_cursor s dx dy = some s' ∧
      s'.buf.cursor_y = min (max (s.buf.cursor_y + dy) 0) (↑(node_count s) - 1) ∧
      s'.buf.current_line = (line_addrs s)[s'.buf.cursor_y.toNat]? ∧
      (lengths s)[s'.buf.cursor_y.toNat]? = some len ∧
      s'.buf.cursor_x = min (max (wrap32 (s.buf.cursor_x + dx)) 0) len ∧
      s'.heap = s.heap ∧
      s'.buf = { s.buf with current_line := s'.buf.current_line,
                            cursor_x := s'.buf.cursor_x, cursor_y := s'.buf.cursor_y } ∧
      Inv s' := by
  have hg := inv_good hi
  obtain ⟨b, r, hev, hg', hr, hb⟩ := move_cursor_spec (good_pos hg) dx dy
  obtain ⟨a, ln, ha, hrd, _, _, _, hidx⟩ := good_cursor hg'
  have hba : b = some a := ha
  subst hba
  refine ⟨_, current_len (at_row s (some a) r), hev, hr, hb.symm, ?_, rfl, rfl, rfl,
    good_inv hg'⟩
  show (lengths s)[r.toNat]? = some (current_len (at_row s (some a) r))
  unfold lengths
  rw [List.getElem?_map, hb]
  rfl

/-- C10. On every buffer that satisfies the invariant, with `n` lines and the
cursor at (row `r`, column `c`), `buffer_move_cursor(dx, dy)` moves to row
`r' = min(max(r + dy, 0), n - 1)`, makes the node at row `r'` the current
line and, when `c + dx` is representable as a 32-bit `int`, sets `cursor_x`
to `min(max(c + dx, 0), length of the line at r')`, changing nothing else.
When `c + dx` overflows the claim fails: on the one-line buffer `"a"` with
the cursor at column 1, `buffer_move_cursor(2147483647, 0)` leaves the
cursor at column 0, where the claim gives `min(max(2147483648, 0), 1) = 1`. -/
theorem move_cursor_clamps_unless_overflow :
    (∀ (s : State) (dx dy : Int), Inv s →
      -2147483648 ≤ s.buf.cursor_x + dx → s.buf.cursor_x + dx < 2147483648 →
      ∃ s' len, buffer_move_cursor s dx dy = some s' ∧
        s'.buf.cursor_y = min (max (s.buf.cursor_y + dy) 0) (↑(node_count s) - 1) ∧
        s'.buf.current_line = (line_addrs s)[s'.buf.cursor_y.toNat]? ∧
        (lengths s)[s'.buf.cursor_y.toNat]? = some len ∧
        s'.buf.cursor_x = min (max (s.buf.cursor_x + dx) 0) len ∧
        s'.heap = s.heap ∧
        s'.buf = { s.buf with current_line := s'.buf.current_line,
                              cursor_x := s'.buf.cursor_x, cursor_y := s'.buf.cursor_y } ∧
        Inv s') ∧
    (Inv (buffer_of [[97]] 1 0) ∧
      (buffer_move_cursor (buffer_of [[97]] 1 0) 2147483647 0).map
          (fun q => (q.buf.cursor_y, q.buf.cursor_x)) = some (0, 0) ∧
      min (max ((buffer_of [[97]] 1 0).buf.cursor_x + 2147483647) 0) 1 = 1) := by
  refine ⟨?_, by decide⟩
  intro s dx dy hi h0 h1
  obtain ⟨s', len, k1, k2, k3, k4, k5, k6, k7, k8⟩ := move_cursor_full s dx dy hi
  rw [wrap32_id h0 h1] at k5
  exact ⟨s', len, k1, k2, k3, k4, k5, k6, k7, k8⟩

theorem fgets_chunk_line (T rest : List Nat) (hT : 10 ∉ T) :
    ∀ n, T.length < n → fgets_chunk n (T ++ 10 :: rest) = (T ++ [10], rest) := by
  induction T with
  | nil =>
    intro n hn
    cases n with
    | zero => simp at hn
    | succ n => simp [fgets_chunk]
  | cons c T ih =>
    intro n hn
    cases n with
    | zero => simp at hn
    | succ n =>
      have hc : c ≠ 10 := fun e => hT (e ▸ List.mem_cons_self _ _)
      have hT' : 10 ∉ T := fun h => hT (List.mem_cons_of_mem _ h)
      have e := ih hT' n (by simpa using hn)
      show (if c = 10 then ([c], T ++ 10 :: rest)
        else (c :: (fgets_chunk n (T ++ 10 :: rest)).1, (fgets_chunk n (T ++ 10 :: rest)).2)) = _
      rw [if_neg hc, e]
      rfl

theorem fgets_line (T rest : List Nat) (hT : 10 ∉ T)
    (hlen : T.length + 2 ≤ LITE_MAX_LINE_LENGTH) :
    fgets (T ++ 10 :: rest) = some (T ++ [10], rest) := by
  have h := fgets_chunk_line T rest hT (LITE_MAX_LINE_LENGTH - 1) (by omega)
  cases T with
  | nil => simp only [List.nil_append, fgets] at h ⊢; rw [h]
  | cons c T => simp only [List.cons_append, fgets] at h ⊢; rw [h]

theorem c_string_id (T : List Nat) (hT : ∀ v ∈ T, v ≠ 0) : c_string T = T := by
  unfold c_string
  rw [List.takeWhile_eq_self_iff]
  intro v hv
  simpa using hT v hv

theorem strip_eol_line (T : List Nat) (h13 : T.getLast? ≠ some 13) :
    strip_eol (T ++ [10]) = T := by
  have h1 : strip_last (fun c => c == 10 || c == 13) (T ++ [10]) = T := by
    simp [strip_last]
  unfold strip_eol
  rw [h1]
  unfold strip_last
  cases e : T.getLast? with
  | none => rfl
  | some c =>
    have hc : c ≠ 13 := fun hc => h13 (by rw [e, hc])
    simp [hc]

theorem file_of_length (Ts : List (List Nat)) : Ts.length ≤ (file_of Ts).length := by
  induction Ts with
  | nil => simp [file_of]
  | cons T Ts ih => simp [file_of]; omega

theorem cstr_bytes_cells (T : List Nat) (R : List Cell) (hT : ∀ v ∈ T, v ≠ 0) :
    cstr_bytes (cells T ++ some 0 :: R) = some T := by
  induction T with
  | nil => simp [cells, cstr_bytes]
  | cons v T ih =>
    have hv : v ≠ 0 := hT v (List.mem_cons_self v T)
    obtain ⟨w, rfl⟩ := Nat.exists_eq_succ_of_ne_zero hv
    have := ih (fun u hu => hT u (List.mem_cons_of_mem _ hu))
    show Option.map (fun r => (w + 1) :: r) (cstr_bytes (cells T ++ some 0 :: R)) = _
    rw [this]
    rfl

/-- A line that is a C string of its `length` characters: the bytes `fputs`
writes are its content. -/
theorem str_bytes {h : Heap} {a : Nat} (hs : is_cstr_at h a = true) :
    ∃ ln, rd h a = some ln ∧ cstr_bytes ln.data = some (bytes_at h a) ∧
      content_at h a = cells (bytes_at h a) ∧ (∀ v ∈ bytes_at h a, v ≠ 0) := by
  unfold is_cstr_at at hs
  cases e : rd h a with
  | none => rw [e] at hs; simp at hs
  | some ln =>
    rw [e] at hs
    simp only [decide_eq_true_eq] at hs
    obtain ⟨T, R, hT, hd, hw⟩ := cstr_shape _ _ hs
    have hc : content ln = cells T := List.append_inj_left' hw rfl
    have hb : cstr_bytes ln.data = some T := by rw [hd]; exact cstr_bytes_cells T R hT
    have hba : bytes_at h a = T := by simp [bytes_at, e, hb]
    refine ⟨ln, rfl, by rw [hba]; exact hb, ?_, by rw [hba]; exact hT⟩
    rw [hba]
    simp [content_at, e, hc]

theorem save_loop_spec {h : Heap} {l : List Nat} :
    ∀ {pv p : Option Nat}, Seg h pv p l none → (∀ a ∈ l, is_cstr_at h a = true) →
      ∀ k, l.length < k → save_loop k h p = some (file_of (l.map (bytes_at h))) := by
  induction l with
  | nil =>
    intro pv p hs _ k hk
    have := seg_nil.1 hs
    subst this
    cases k with
    | zero => simp at hk
    | succ k => rfl
  | cons a l ih =>
    intro pv p hs hstr k hk
    obtain ⟨hp, ln, hrd, _, hrest⟩ := seg_cons.1 hs
    subst hp
    cases k with
    | zero => simp at hk
    | succ k =>
      obtain ⟨ln', hrd', hb, _, _⟩ := str_bytes (hstr a (List.mem_cons_self a l))
      rw [hrd] at hrd'
      cases hrd'
      simp only [save_loop, hrd, hb, List.map_cons, file_of]
      rw [ih hrest (fun b hb => hstr b (List.mem_cons_of_mem _ hb)) k (by simpa using hk)]
      rfl

theorem file_save_spec {s : State} {l : List Nat} (hg : Good s l)
    (hstr : ∀ a ∈ l, is_cstr_at s.heap a = true) (hname : s.buf.filename ≠ none) :
    file_save s true = some (LITE_OK, { s with buf := { s.buf with modified := false } },
      some (file_of (l.map (bytes_at s.heap)))) ∧
    lines s = (l.map (bytes_at s.heap)).map cells := by
  constructor
  · obtain ⟨name, hn⟩ := Option.ne_none_iff_exists'.1 hname
    have hlen : l.length < s.heap.length + 1 := by
      have := nodup_lt_length (seg_nodup hg.1) (fun a ha => seg_mem_lt hg.1 ha)
      omega
    unfold file_save
    simp only [hn, Bool.not_true, Bool.false_eq_true, if_false,
      save_loop_spec hg.1 hstr _ hlen]
  · rw [lines_of_good hg, List.map_map]
    apply List.map_congr_left
    intro a ha
    obtain ⟨_, _, _, hc, _⟩ := str_bytes (hstr a ha)
    exact hc

theorem clear_lines_spec {l : List Nat} : ∀ {h : Heap} {pv p : Option Nat},
    Seg h pv p l none → l ≠ [] → ∀ k, l.length ≤ k →
    ∃ hc, clear_lines k h p = some hc ∧ hc.length = h.length := by
  induction l with
  | nil => intro h pv p _ hne; exact absurd rfl hne
  | cons a l ih =>
    intro h pv p hs _ k hk
    have hnd := seg_nodup hs
    obtain ⟨hp, ln, hrd, _, hrest⟩ := seg_cons.1 hs
    subst hp
    cases k with
    | zero => simp at hk
    | succ k =>
      have hnx := seg_head hrest
      cases l with
      | nil =>
        simp only [head_or] at hnx
        refine ⟨wr h a { ln with data := [] }, ?_, length_wr _ _ _⟩
        simp only [clear_lines, hrd]
        rw [hnx]
      | cons n l' =>
        simp only [head_or] at hnx
        have ha : a ∉ n :: l' := (List.nodup_cons.1 hnd).1
        have hrest' : Seg (free_line h a) (some a) (some n) (n :: l') none := by
          rw [hnx] at hrest
          exact seg_frame_eq (fun b hb => rd_free_ne (fun e : a = b => ha (e ▸ hb))) hrest
        obtain ⟨hc, hcl, hlen⟩ := ih hrest' (by simp) k (by simpa using hk)
        refine ⟨hc, ?_, by rw [hlen, length_free]⟩
        simp only [clear_lines, hrd, hnx]
        exact hcl

/-- Appending a new node at the end of the list, as one iteration of the
reading loop of `file_load` does. -/
theorem append_spec {h : Heap} {b : Buffer} {l : List Nat}
    (hs : Seg h none b.first_line l none) (nl : Line) (hnp : nl.prev = last_or none l)
    (hnn : nl.next = none) :
    ∃ h2 b2,
      append_link (h ++ [some nl]) b (last_or none l) h.length = some (h2, b2) ∧
      Seg h2 none b2.first_line (l ++ [h.length]) none ∧ h2.length = h.length + 1 ∧
      payload h2 h.length = some (nl.data, nl.length) ∧
      (∀ a, a ≠ h.length → payload h2 a = payload h a) ∧
      b2 = { b with first_line := b2.first_line } := by
  rcases list_nil_or_snoc l with rfl | ⟨l0, p, rfl⟩
  · refine ⟨_, { b with first_line := some h.length }, rfl, ?_, by simp, ?_, ?_, rfl⟩
    · refine seg_cons.2 ⟨rfl, nl, rd_append_new _, hnp, ?_⟩
      rw [hnn]
      exact seg_nil.2 rfl
    · simp [payload, rd_append_new]
    · intro a ha
      exact payload_of_rd (rd_append_ne _ ha)
  · have hnd := seg_nodup hs
    have hp0 : p ∉ l0 := by
      rw [List.nodup_append] at hnd
      intro hm
      exact hnd.2.2 hm (List.mem_singleton_self p)
    obtain ⟨hs1, pl, hrdp, hpv, hs2⟩ := seg_split.1 hs
    have hplt := rd_some_lt hrdp
    have hpn : p ≠ h.length := by omega
    have hlo : last_or none (l0 ++ [p]) = some p := last_or_append _ _ _
    have hrd1 : rd (h ++ [some nl]) p = some pl := by
      rw [rd_append_old _ hplt]; exact hrdp
    have hlen1 : p < (h ++ [some nl]).length := by simp; omega
    refine ⟨wr (h ++ [some nl]) p { pl with next := some h.length }, b, ?_, ?_, ?_, ?_, ?_,
      rfl⟩
    · rw [hlo]
      simp only [append_link, hrd1]
    · rw [List.append_assoc]
      refine seg_split.2 ⟨?_, _, rd_wr_same _ hlen1, hpv, ?_⟩
      · refine seg_frame_eq ?_ hs1
        intro a ha
        have hap : a ≠ p := fun e => hp0 (e ▸ ha)
        have halt := seg_mem_lt hs1 ha
        rw [rd_wr_ne _ (Ne.symm hap), rd_append_old _ halt]
      · refine seg_cons.2 ⟨rfl, nl, ?_, hnp.trans hlo, ?_⟩
        · rw [rd_wr_ne _ hpn, rd_append_new]
        · rw [hnn]
          exact seg_nil.2 rfl
    · rw [length_wr]; simp
    · rw [payload_of_rd (rd_wr_ne _ hpn)]
      simp [payload, rd_append_new]
    · intro a ha
      by_cases hap : a = p
      · subst hap
        simp [payload, rd_wr_same _ hlen1, hrdp]
      · rw [payload_of_rd (rd_wr_ne _ (Ne.symm hap))]
        exact payload_of_rd (rd_append_ne _ ha)

theorem load_step {T : List Nat} (hT : bytes_safe T) (rest : List Nat) :
    fgets (T ++ 10 :: rest) = some (T ++ [10], rest) ∧
      strip_eol (c_string (T ++ [10])) = T := by
  obtain ⟨h10, h0, h13, hlen⟩ := hT
  refine ⟨fgets_line T rest h10 hlen, ?_⟩
  rw [c_string_id _ (by
    intro v hv
    rcases List.mem_append.1 hv with hv | hv
    · exact h0 v hv
    · simp at hv; omega)]
  exact strip_eol_line T h13

theorem load_loop_spec : ∀ (Ts : List (List Nat)), (∀ T ∈ Ts, bytes_safe T) →
    ∀ (k i : Nat) (h : Heap) (b : Buffer) (l : List Nat), Ts.length ≤ k →
      Seg h none b.first_line l none →
      ∃ h' b' l', load_loop k (file_of Ts) (fun _ => true) i h b (last_or none l)
          = some (none, h', b') ∧
        Seg h' none b'.first_line (l ++ l') none ∧
        b'.line_count = b.line_count + ↑Ts.length ∧
        b' = { b with first_line := b'.first_line, line_count := b'.line_count } ∧
        (∀ a ∈ l, payload h' a = payload h a) ∧
        l'.map (payload h') = Ts.map loaded := by
  intro Ts
  induction Ts with
  | nil =>
    intro _ k i h b l _ hs
    refine ⟨h, b, [], ?_, by simpa using hs, by simp, rfl, fun _ _ => rfl, rfl⟩
    cases k with
    | zero => rfl
    | succ k => rfl
  | cons T Ts ih =>
    intro hsafe k i h b l hk hs
    cases k with
    | zero => simp at hk
    | succ k =>
      obtain ⟨hfg, hstrip⟩ := load_step (hsafe T (List.mem_cons_self T Ts)) (file_of Ts)
      obtain ⟨h2, b2, hap, hs2, hlen2, hpn, hfr2, hb2⟩ := append_spec hs
        { data := cells T ++ [some 0], length := (T.length : Int),
          prev := last_or none l, next := none } rfl rfl
      have hs2' : Seg h2 none
          ({ b2 with line_count := b2.line_count + 1 } : Buffer).first_line
          (l ++ [h.length]) none := hs2
      obtain ⟨h', b', l', hll, hs', hcnt, hb', hfr', hmap⟩ :=
        ih (fun U hU => hsafe U (List.mem_cons_of_mem _ hU)) k (i + 2) h2
          { b2 with line_count := b2.line_count + 1 } (l ++ [h.length])
          (by simpa using hk) hs2'
      rw [last_or_append] at hll
      have hlt : ∀ a ∈ l, a ≠ h.length := fun a ha => by
        have := seg_mem_lt hs ha
        omega
      refine ⟨h', b', h.length :: l', ?_, ?_, ?_, ?_, ?_, ?_⟩
      · show load_loop (k + 1) (T ++ 10 :: file_of Ts) (fun _ => true) i h b (last_or none l) = _
        simp only [load_loop, hfg, hstrip, Bool.not_true, Bool.false_eq_true, if_false, hap]
        exact hll
      · have : l ++ h.length :: l' = (l ++ [h.length]) ++ l' := by simp
        rw [this]
        exact hs'
      · rw [hcnt]
        show b2.line_count + 1 + ↑Ts.length = b.line_count + ↑(T :: Ts).length
        have : b2.line_count = b.line_count := by rw [hb2]
        rw [this]
        simp
        omega
      · rw [hb']
        show _ = ({ b with first_line := _, line_count := _ } : Buffer)
        have e1 : b2.filename = b.filename := by rw [hb2]
        have e2 : b2.current_line = b.current_line := by rw [hb2]
        have e3 : b2.cursor_x = b.cursor_x := by rw [hb2]
        have e4 : b2.cursor_y = b.cursor_y := by rw [hb2]
        have e5 : b2.scroll_x = b.scroll_x := by rw [hb2]
        have e6 : b2.scroll_y = b.scroll_y := by rw [hb2]
        have e7 : b2.modified = b.modified := by rw [hb2]
        have e8 : b2.id = b.id := by rw [hb2]
        simp only [e1, e2, e3, e4, e5, e6, e7, e8]
      · intro a ha
        rw [hfr' a (List.mem_append_left _ ha)]
        exact hfr2 a (hlt a ha)
      · rw [List.map_cons, List.map_cons, hmap, hfr' h.length (by simp), hpn]
        rfl

theorem fgets_chunk_length : ∀ (n : Nat) (f : List Nat), (fgets_chunk n f).1.length ≤ n := by
  intro n
  induction n with
  | zero => intro f; simp [fgets_chunk]
  | succ n ih =>
    intro f
    cases f with
    | nil => simp [fgets_chunk]
    | cons c f =>
      simp only [fgets_chunk]
      split_ifs
      · simp
      · have := ih f
        simp only [List.length_cons]
        omega

theorem chunks_length : ∀ (k : Nat) (f : List Nat), ∀ c ∈ chunks k f, c.length ≤ 1023 := by
  intro k
  induction k with
  | zero => intro f c hc; simp [chunks] at hc
  | succ k ih =>
    intro f c hc
    cases f with
    | nil => simp [chunks, fgets] at hc
    | cons x f =>
      simp only [chunks, fgets, List.mem_cons] at hc
      rcases hc with rfl | hc
      · exact fgets_chunk_length _ _
      · exact ih _ c hc

theorem strip_last_length (p : Nat → Bool) (str : List Nat) :
    (strip_last p str).length ≤ str.length := by
  unfold strip_last
  split
  · split_ifs
    · simp
    · exact le_refl _
  · exact le_refl _

theorem loaded_line_length (c : List Nat) : (strip_eol (c_string c)).length ≤ c.length := by
  unfold strip_eol c_string
  have h1 := strip_last_length (fun c => c == 13)
    (strip_last (fun c => c == 10 || c == 13) (c.takeWhile (fun c => c ≠ 0)))
  have h2 := strip_last_length (fun c => c == 10 || c == 13) (c.takeWhile (fun c => c ≠ 0))
  have h3 := (List.takeWhile_sublist (fun c => decide (c ≠ 0)) (l := c)).length_le
  omega

theorem loaded_nodes {h : Heap} : ∀ {l : List Nat} {Ts : List (List Nat)},
    l.map (payload h) = Ts.map loaded →
    l.length = Ts.length ∧ l.map (content_at h) = Ts.map cells ∧
      ((∀ T ∈ Ts, T.length ≤ 1023) → ∀ a ∈ l, line_ok_at h a = true) := by
  intro l
  induction l with
  | nil =>
    intro Ts hm
    cases Ts with
    | nil => exact ⟨rfl, rfl, fun _ _ ha => by simp at ha⟩
    | cons T Ts => simp at hm
  | cons a l ih =>
    intro Ts hm
    cases Ts with
    | nil => simp at hm
    | cons T Ts =>
      simp only [List.map_cons, List.cons.injEq] at hm
      obtain ⟨hlen, hc, hok⟩ := ih hm.2
      have hp : payload h a = some (cells T ++ [some 0], (T.length : Int)) := hm.1
      refine ⟨by simp [hlen], ?_, ?_⟩
      · rw [List.map_cons, List.map_cons, hc, content_at_payload hp]
        have : ((T.length : Nat) : Int).toNat = (cells T).length := by simp [cells]
        rw [this, List.take_left]
      · intro hsz b hb
        rcases List.mem_cons.1 hb with rfl | hb
        · have := hsz T (List.mem_cons_self _ _)
          exact line_ok_at_payload hp (by omega) (by simp [cells]) (by omega)
        · exact hok (fun T hT => hsz T (List.mem_cons_of_mem _ hT)) b hb

/-- Loading a file that consists of `'\n'`-terminated records of safe lines
into a buffer that satisfies the invariant gives exactly those lines. -/
theorem file_load_spec {t : State} {lt : List Nat} (hg : Good t lt)
    {Ts : List (List Nat)} (hne : Ts ≠ []) (hsafe : ∀ T ∈ Ts, bytes_safe T) :
    ∃ t1 l1, file_load t (some (file_of Ts)) (fun _ => true) = some (LITE_OK, t1) ∧
      Good t1 l1 ∧ lines t1 = Ts.map cells ∧ t1.buf.line_count = ↑Ts.length := by
  obtain ⟨a0, lt', hlt, _⟩ := good_nonempty (good_pos hg)
  have hlen : lt.length ≤ t.heap.length + 1 := by
    have := nodup_lt_length (seg_nodup hg.1) (fun a ha => seg_mem_lt hg.1 ha)
    omega
  obtain ⟨hc, hcl, _⟩ := clear_lines_spec hg.1 (by rw [hlt]; simp) _ hlen
  obtain ⟨h', b', l', hll, hs', hcnt, hb', _, hmap⟩ :=
    load_loop_spec Ts hsafe (file_of Ts).length 0 hc
      { t.buf with first_line := none, current_line := none, line_count := 0,
                   cursor_x := 0, cursor_y := 0 } [] (file_of_length Ts) (seg_nil.2 rfl)
  simp only [List.nil_append, last_or] at hll hs'
  obtain ⟨hl'len, hcont, hok0⟩ := loaded_nodes hmap
  have hok := hok0 (fun T hT => by
    have := (hsafe T hT).2.2.2
    simp only [LITE_MAX_LINE_LENGTH] at this
    omega)
  have hTs : 0 < Ts.length := List.length_pos.2 hne
  have hcnt' : b'.line_count = ↑Ts.length := by
    rw [hcnt]
    show (0 : Int) + _ = _
    omega
  have hnz : ¬ b'.line_count = 0 := by omega
  have hy : b'.cursor_y = 0 := by rw [hb']
  have hx : b'.cursor_x = 0 := by rw [hb']
  obtain ⟨a1, l1', hl1⟩ : ∃ a1 l1', l' = a1 :: l1' := by
    cases l' with
    | nil => simp at hl'len; omega
    | cons a1 l1' => exact ⟨a1, l1', rfl⟩
  have hfirst : b'.first_line = some a1 := by
    have := seg_head hs'
    rw [hl1] at this
    exact this
  have hgood : Good { heap := h', buf := { b' with
      current_line := b'.first_line, modified := false } } l' := by
    refine ⟨hs', hok, ?_, ?_, ?_, ?_, ?_, ?_⟩
    · show b'.line_count = ↑l'.length
      rw [hcnt', hl'len]
    · show 0 ≤ b'.cursor_y
      omega
    · show b'.first_line ≠ none
      rw [hfirst]; simp
    · show l'[b'.cursor_y.toNat]? = b'.first_line
      rw [hy, hfirst, hl1]
      simp
    · show 0 ≤ b'.cursor_x
      omega
    · show b'.cursor_x ≤ current_len _
      rw [hx]
      simp only [current_len, hfirst]
      obtain ⟨la, hra, h0, _⟩ := line_ok_at_iff.1 (hok a1 (by rw [hl1]; simp))
      simp only [length_at, hra]
      exact h0
  refine ⟨_, l', ?_, hgood, ?_, hcnt'⟩
  · unfold file_load
    simp only [hcl, hll]
    rw [if_neg hnz]
  · rw [lines_of_good hgood]
    exact hcont

theorem safe_bytes {h : Heap} {a : Nat} (hs : is_cstr_at h a = true)
    (hsafe : line_safe (content_at h a) = true) : bytes_safe (bytes_at h a) := by
  obtain ⟨_, _, _, hc, h0⟩ := str_bytes hs
  rw [hc] at hsafe
  simp only [line_safe, Bool.and_eq_true, decide_eq_true_eq] at hsafe
  obtain ⟨⟨h10, h13⟩, hlen⟩ := hsafe
  refine ⟨?_, h0, ?_, ?_⟩
  · intro hm
    exact h10 (List.mem_map.2 ⟨10, hm, rfl⟩)
  · intro hl
    apply h13
    simp [cells, List.getLast?_map, hl]
  · simpa [cells] using hlen

/-- C3 fails as stated. (a) The buffer loaded from the file `"a\r\r\n"` holds
the line `"a\r"`; saving it and loading the written bytes gives the line
`"a"`. (b) A line of 1023 characters `'a'` comes back as two lines. (c) A
line that contains `'\n'` comes back as two lines. (d) A line that contains
a NUL comes back cut at the NUL. All four buffers have a filename and
satisfy the invariant. -/
theorem roundtrip_counterexample :
    ((buffer_load_file (fresh_buffer 1) [102] (some [97, 13, 13, 10]) (fun _ => true) true).map
        (fun q => (q.1, lines q.2, q.2.buf.filename))
      = some (LITE_OK, [[some 97, some 13]], some [102]) ∧
     (buffer_load_file (fresh_buffer 1) [102] (some [97, 13, 13, 10]) (fun _ => true) true).map
        (fun q => decide (Inv q.2)) = some true ∧
     (buffer_load_file (fresh_buffer 1) [102] (some [97, 13, 13, 10]) (fun _ => true) true).bind
        (fun q => save_then_load q.2 q.2) = some [[some 97]]) ∧
    (Inv (set_filename (buffer_of [List.replicate 1023 97] 0 0) [102]) ∧
     (lines (set_filename (buffer_of [List.replicate 1023 97] 0 0) [102])).length = 1 ∧
     (save_then_load (set_filename (buffer_of [List.replicate 1023 97] 0 0) [102])
        (set_filename (buffer_of [List.replicate 1023 97] 0 0) [102])).map List.length
      = some 2) ∧
    (Inv (set_filename (buffer_of [[97, 10, 98]] 0 0) [102]) ∧
     lines (set_filename (buffer_of [[97, 10, 98]] 0 0) [102]) = [[some 97, some 10, some 98]] ∧
     save_then_load (set_filename (buffer_of [[97, 10, 98]] 0 0) [102])
        (set_filename (buffer_of [[97, 10, 98]] 0 0) [102])
      = some [[some 97], [some 98]]) ∧
    (Inv (set_filename nul_buffer [102]) ∧
     lines (set_filename nul_buffer [102]) = [[some 97, some 0, some 98]] ∧
     save_then_load (set_filename nul_buffer [102]) (set_filename nul_buffer [102])
      = some [[some 97]]) := by
  refine ⟨by decide, ?_, by decide, by decide⟩
  set_option maxRecDepth 100000 in decide

/-- C3, amended. For every buffer `B` that has a filename and satisfies the
invariant, whose lines are C strings of their `length` characters (non-NUL
bytes followed by a NUL) that contain no `'\n'`, do not end in `'\r'` and
are at most 1022 characters long, `file_save` succeeds and `file_load` of
the written bytes (into any buffer that satisfies the invariant,
allocations succeeding) succeeds with a line sequence equal to that of `B`
and the same `line_count`. -/
theorem save_load_roundtrip (s t : State) (hi : Inv s) (hname : s.buf.filename ≠ none)
    (hstr : AllStrings s) (hsafe : ∀ S ∈ lines s, line_safe S = true) (ht : Inv t) :
    ∃ s1 bytes t1, file_save s true = some (LITE_OK, s1, some bytes) ∧
      file_load t (some bytes) (fun _ => true) = some (LITE_OK, t1) ∧
      lines t1 = lines s ∧ t1.buf.line_count = s.buf.line_count ∧ Inv t1 := by
  have hg := inv_good hi
  obtain ⟨hsave, hlines⟩ := file_save_spec hg hstr hname
  have hsafe' : ∀ T ∈ (line_addrs s).map (bytes_at s.heap), bytes_safe T := by
    intro T hT
    obtain ⟨a, ha, rfl⟩ := List.mem_map.1 hT
    refine safe_bytes (hstr a ha) (hsafe _ ?_)
    rw [lines_of_good hg]
    exact List.mem_map.2 ⟨a, ha, rfl⟩
  obtain ⟨a0, l0, hl0, _⟩ := good_nonempty (good_pos hg)
  have hne : (line_addrs s).map (bytes_at s.heap) ≠ [] := by
    rw [hl0]; simp
  obtain ⟨t1, l1, hload, hg1, hl1, hc1⟩ := file_load_spec (inv_good ht) hne hsafe'
  refine ⟨_, _, t1, hsave, hload, ?_, ?_, good_inv hg1⟩
  · rw [hl1, hlines]
  · rw [hc1, hg.2.2.1]
    simp

theorem save_load_roundtrip_witness :
    Inv (set_filename (buffer_of [[97, 98], [], [99]] 1 0) [102]) ∧
    AllStrings (set_filename (buffer_of [[97, 98], [], [99]] 1 0) [102]) ∧
    ∃ s1 bytes t1,
      file_save (set_filename (buffer_of [[97, 98], [], [99]] 1 0) [102]) true
        = some (LITE_OK, s1, some bytes) ∧
      file_load (fresh_buffer 2) (some bytes) (fun _ => true) = some (LITE_OK, t1) ∧
      lines t1 = [[some 97, some 98], [], [some 99]] := by
  refine ⟨by decide, by decide, ?_⟩
  obtain ⟨s1, bytes, t1, k1, k2, k3, _⟩ :=
    save_load_roundtrip (set_filename (buffer_of [[97, 98], [], [99]] 1 0) [102])
      (fresh_buffer 2) (by decide) (by decide) (by decide) (by decide) (by decide)
  exact ⟨s1, bytes, t1, k1, k2, by rw [k3]; rfl⟩

theorem linked_pos {s : State} (hl : Linked s) :
    Pos (at_row s s.buf.first_line 0) (line_addrs s) := by
  have hi : Inv (at_col (at_row s s.buf.first_line 0) 0) := hl
  have hp : Pos (at_col (at_row s s.buf.first_line 0) 0)
      (line_addrs (at_col (at_row s s.buf.first_line 0) 0)) := good_pos (inv_good hi)
  exact hp

theorem inv_linked {s : State} (hi : Inv s) : Linked s := by
  have hp := good_pos (inv_good hi)
  obtain ⟨a, l', hl, hfirst⟩ := good_nonempty hp
  have hp0 : Pos (at_row s s.buf.first_line 0) (line_addrs s) := by
    rw [hfirst]
    refine pos_at_row hp (le_refl _) ?_
    rw [hl]; simp
  have hg : Good (at_col (at_row s s.buf.first_line 0) 0) (line_addrs s) := by
    refine pos_good (pos_at_col hp0 0) (le_refl _) ?_
    obtain ⟨a, ln, l1, l2, ha, hrd, _, _, h0, _⟩ := pos_cur hp0
    show (0 : Int) ≤ current_len (at_row s s.buf.first_line 0)
    simp only [current_len, ha, length_at, hrd]
    exact h0
  exact good_inv hg

/-- What `buffer_set_cursor` does when the buffer with the cursor at the
head satisfies `Pos`: the previous cursor plays no part. -/
theorem set_cursor_any {s : State} {l : List Nat}
    (hp0 : Pos (at_row s s.buf.first_line 0) l) (x y : Int) :
    ∃ b r,
      buffer_set_cursor s x y = some (at_col (at_row s b r)
        (min (max x 0) (current_len (at_row s b r)))) ∧
      Good (at_col (at_row s b r) (min (max x 0) (current_len (at_row s b r)))) l ∧
      r = min (max y 0) (↑l.length - 1) ∧ l[r.toNat]? = b := by
  obtain ⟨b, r, hsk, hp1, hr⟩ := seek_down_spec y.toNat (at_row s s.buf.first_line 0) y
    (by show y.toNat = (y - 0).toNat; simp) hp0
  rw [at_row_at_row] at hsk hp1
  have hcl := clamp_cursor_spec (pos_at_col hp1 x)
  refine ⟨b, r, ?_, hcl.2, ?_, hp1.2.2.2.2.2⟩
  · unfold buffer_set_cursor
    show (match seek_down y.toNat (at_row s s.buf.first_line 0) y with
      | none => none
      | some s1 => clamp_cursor { s1 with buf := { s1.buf with cursor_x := x } }) = _
    rw [hsk]
    exact hcl.1
  · rw [hr]; rfl

/-- C11. For every buffer whose lines form a well-linked list of `n ≥ 1`
nodes (`Linked`: the invariant but for the cursor, so the previous
`current_line`, `cursor_x` and `cursor_y` are arbitrary) and all integers
`x`, `y`, `buffer_set_cursor(x, y)` returns, sets `cursor_y` to
`min(max(y, 0), n - 1)`, makes `current_line` the node at that row counted
from `first_line`, sets `cursor_x` to `min(max(x, 0), len)` with `len` the
`length` of that node, changes nothing else, and the result satisfies the
invariant. -/
theorem set_cursor_correct (s : State) (x y : Int) (hl : Linked s) :
    ∃ s' len, buffer_set_cursor s x y = some s' ∧
      1 ≤ node_count s ∧
      s'.buf.cursor_y = min (max y 0) (↑(node_count s) - 1) ∧
      s'.buf.current_line = (line_addrs s)[s'.buf.cursor_y.toNat]? ∧
      s'.buf.current_line ≠ none ∧
      (lengths s)[s'.buf.cursor_y.toNat]? = some len ∧
      s'.buf.cursor_x = min (max x 0) len ∧
      s'.heap = s.heap ∧
      s'.buf = { s.buf with current_line := s'.buf.current_line,
                            cursor_x := s'.buf.cursor_x, cursor_y := s'.buf.cursor_y } ∧
      Inv s' := by
  have hp0 := linked_pos hl
  obtain ⟨b, r, hev, hg', hr, hb⟩ := set_cursor_any hp0 x y
  obtain ⟨a, ln, ha, hrd, _, _, _, hidx⟩ := good_cursor hg'
  have hba : b = some a := ha
  subst hba
  have hn : 1 ≤ node_count s := by
    obtain ⟨a0, l', hl0, _⟩ := good_nonempty hp0
    unfold node_count
    rw [hl0]; simp
  refine ⟨_, current_len (at_row s (some a) r), hev, hn, hr, hb.symm, by simp [at_col, at_row], ?_,
    rfl, rfl, rfl, good_inv hg'⟩
  show (lengths s)[r.toNat]? = some (current_len (at_row s (some a) r))
  unfold lengths
  rw [List.getElem?_map, hb]
  rfl

theorem set_cursor_correct_witness :
    Linked (buffer_of [[97, 98], [99]] 7 5) ∧
    ¬ Inv (buffer_of [[97, 98], [99]] 7 5) ∧
    ∃ s' len, buffer_set_cursor (buffer_of [[97, 98], [99]] 7 5) 9 (-3) = some s' ∧
      1 ≤ node_count (buffer_of [[97, 98], [99]] 7 5) ∧
      s'.buf.cursor_y
        = min (max (-3 : Int) 0) ((node_count (buffer_of [[97, 98], [99]] 7 5) : Int) - 1) ∧
      s'.buf.current_line = (line_addrs (buffer_of [[97, 98], [99]] 7 5))[s'.buf.cursor_y.toNat]? ∧
      s'.buf.current_line ≠ none ∧
      (lengths (buffer_of [[97, 98], [99]] 7 5))[s'.buf.cursor_y.toNat]? = some len ∧
      s'.buf.cursor_x = min (max 9 0) len ∧
      s'.heap = (buffer_of [[97, 98], [99]] 7 5).heap ∧
      s'.buf = { (buffer_of [[97, 98], [99]] 7 5).buf with
        current_line := s'.buf.current_line,
        cursor_x := s'.buf.cursor_x, cursor_y := s'.buf.cursor_y } ∧
      Inv s' :=
  ⟨by decide, by decide, set_cursor_correct (buffer_of [[97, 98], [99]] 7 5) 9 (-3) (by decide)⟩

theorem buffer_eta_load {b b2 b3 : Buffer} (h2 : b2 = { b with first_line := b2.first_line })
    (h3 : b3 = { b2 with first_line := b3.first_line, line_count := b3.line_count }) :
    b3 = { b with first_line := b3.first_line, line_count := b3.line_count } := by
  rw [h3]
  show _ = ({ b with first_line := _, line_count := _ } : Buffer)
  have e1 : b2.filename = b.filename := by rw [h2]
  have e2 : b2.current_line = b.current_line := by rw [h2]
  have e3 : b2.cursor_x = b.cursor_x := by rw [h2]
  have e4 : b2.cursor_y = b.cursor_y := by rw [h2]
  have e5 : b2.scroll_x = b.scroll_x := by rw [h2]
  have e6 : b2.scroll_y = b.scroll_y := by rw [h2]
  have e7 : b2.modified = b.modified := by rw [h2]
  have e8 : b2.id = b.id := by rw [h2]
  simp only [e1, e2, e3, e4, e5, e6, e7, e8]

/-- The reading loop of `file_load` for any file content and any allocation
outcomes: it either stops on a failed allocation with `LITE_ERROR`, or
appends one node per string read by `fgets`. -/
theorem load_loop_any : ∀ (k : Nat) (f : List Nat) (alloc : Nat → Bool) (i : Nat) (h : Heap)
    (b : Buffer) (l : List Nat), Seg h none b.first_line l none →
    ∃ c h' b', load_loop k f alloc i h b (last_or none l) = some (c, h', b') ∧
      b' = { b with first_line := b'.first_line, line_count := b'.line_count } ∧
      h.length ≤ h'.length ∧
      ((c = some LITE_ERROR ∧ ∃ j, alloc j = false) ∨
       (c = none ∧ ∃ l', Seg h' none b'.first_line (l ++ l') none ∧
          b'.line_count = b.line_count + ↑(chunks k f).length ∧
          (∀ a ∈ l, payload h' a = payload h a) ∧
          l'.map (payload h')
            = (chunks k f).map (fun chunk => loaded (strip_eol (c_string chunk))) ∧
          (∀ a ∈ l', h.length ≤ a))) := by
  intro k
  induction k with
  | zero =>
    intro f alloc i h b l hs
    exact ⟨none, h, b, rfl, rfl, le_refl _, Or.inr ⟨rfl, [], by simpa using hs, by simp [chunks],
      fun _ _ => rfl, rfl, fun _ ha => by simp at ha⟩⟩
  | succ k ih =>
    intro f alloc i h b l hs
    cases hfg : fgets f with
    | none =>
      refine ⟨none, h, b, ?_, rfl, le_refl _, Or.inr ⟨rfl, [], by simpa using hs, by simp [chunks, hfg],
        fun _ _ => rfl, by simp [chunks, hfg], fun _ ha => by simp at ha⟩⟩
      simp only [load_loop, hfg]
    | some cr =>
      obtain ⟨chunk, rest⟩ := cr
      have hch : chunks (k + 1) f = chunk :: chunks k rest := by simp only [chunks, hfg]
      by_cases h1 : alloc i = false
      · refine ⟨some LITE_ERROR, h, b, ?_, rfl, le_refl _, Or.inl ⟨rfl, i, h1⟩⟩
        simp only [load_loop, hfg, h1, Bool.not_false, if_true]
      by_cases h2 : alloc (i + 1) = false
      · refine ⟨some LITE_ERROR, h, b, ?_, rfl, le_refl _, Or.inl ⟨rfl, i + 1, h2⟩⟩
        simp only [load_loop, hfg, h2, Bool.not_false, if_true]
        split <;> rfl
      have h1' : alloc i = true := by simpa using h1
      have h2' : alloc (i + 1) = true := by simpa using h2
      obtain ⟨hp2, b2, hap, hs2, hlen2, hpn, hfr2, hb2⟩ := append_spec hs
        { data := cells (strip_eol (c_string chunk)) ++ [some 0],
          length := ((strip_eol (c_string chunk)).length : Int),
          prev := last_or none l, next := none } rfl rfl
      have hs2' : Seg hp2 none
          ({ b2 with line_count := b2.line_count + 1 } : Buffer).first_line
          (l ++ [h.length]) none := hs2
      obtain ⟨c, h', b', hll, hb', hle, hcase⟩ :=
        ih rest alloc (i + 2) hp2 { b2 with line_count := b2.line_count + 1 } (l ++ [h.length])
          hs2'
      rw [last_or_append] at hll
      have hev : load_loop (k + 1) f alloc i h b (last_or none l) = some (c, h', b') := by
        simp only [load_loop, hfg, h1', h2', Bool.not_true, Bool.false_eq_true, if_false, hap]
        exact hll
      have hbb : b' = { b with first_line := b'.first_line, line_count := b'.line_count } := by
        refine buffer_eta_load hb2 ?_
        rw [hb']
      have hlt : ∀ a ∈ l, a ≠ h.length := fun a ha => by
        have := seg_mem_lt hs ha
        omega
      refine ⟨c, h', b', hev, hbb, by omega, ?_⟩
      rcases hcase with herr | ⟨hc, l', hs', hcnt, hfr', hmap, hge⟩
      · exact Or.inl herr
      · refine Or.inr ⟨hc, h.length :: l', ?_, ?_, ?_, ?_, ?_⟩
        · have : l ++ h.length :: l' = (l ++ [h.length]) ++ l' := by simp
          rw [this]
          exact hs'
        · rw [hcnt, hch]
          show b2.line_count + 1 + _ = _
          have : b2.line_count = b.line_count := by rw [hb2]
          rw [this]
          simp
          omega
        · intro a ha
          rw [hfr' a (List.mem_append_left _ ha)]
          exact hfr2 a (hlt a ha)
        · rw [hch, List.map_cons, List.map_cons, hmap, hfr' h.length (by simp), hpn]
          rfl
        · intro a ha
          rcases List.mem_cons.1 ha with rfl | ha
          · exact le_refl _
          · have := hge a ha
            omega

/-- One new empty line or the nodes the loop appended: the state `file_load`
returns on success satisfies the invariant. -/
theorem loaded_good {h : Heap} {b : Buffer} {l : List Nat} {a1 : Nat} {l1 : List Nat}
    (hs : Seg h none b.first_line l none) (hl : l = a1 :: l1)
    (hok : ∀ a ∈ l, line_ok_at h a = true) (hcnt : b.line_count = ↑l.length)
    (hx : b.cursor_x = 0) (hy : b.cursor_y = 0) :
    Good { heap := h, buf := { b with current_line := b.first_line, modified := false } } l := by
  have hfirst : b.first_line = some a1 := by
    have := seg_head hs
    rw [hl] at this
    exact this
  refine ⟨hs, hok, hcnt, ?_, ?_, ?_, ?_, ?_⟩
  · show 0 ≤ b.cursor_y
    omega
  · show b.first_line ≠ none
    rw [hfirst]; simp
  · show l[b.cursor_y.toNat]? = b.first_line
    rw [hy, hfirst, hl]
    simp
  · show 0 ≤ b.cursor_x
    omega
  · show b.cursor_x ≤ current_len _
    rw [hx]
    simp only [current_len, hfirst]
    obtain ⟨la, hra, h0, _⟩ := line_ok_at_iff.1 (hok a1 (by rw [hl]; simp))
    simp only [length_at, hra]
    exact h0

theorem buffer_eta_reset {t b' : Buffer}
    (hb' : b' = { ({ t with
        first_line := none, current_line := none, line_count := 0,
        cursor_x := 0, cursor_y := 0 } : Buffer) with
      first_line := b'.first_line, line_count := b'.line_count }) :
    b' = { t with first_line := b'.first_line, current_line := none,
                  line_count := b'.line_count, cursor_x := 0, cursor_y := 0 } := hb'

/-- The function `file_load` on an opened file, for any content and any
allocation outcomes, on a buffer whose lines form a non-empty list. -/
theorem file_load_any {t : State} {lt : List Nat}
    (hs : Seg t.heap none t.buf.first_line lt none) (hne : lt ≠ [])
    (f : List Nat) (alloc : Nat → Bool) :
    ∃ code t1, file_load t (some f) alloc = some (code, t1) ∧
      t.heap.length ≤ t1.heap.length ∧
      ((code = LITE_ERROR ∧ (∃ j, alloc j = false) ∧
          t1.buf = { t.buf with first_line := t1.buf.first_line, current_line := none,
                                line_count := t1.buf.line_count, cursor_x := 0,
                                cursor_y := 0 }) ∨
       (code = LITE_OK ∧ ∃ l1, Good t1 l1 ∧
          l1.map (payload t1.heap) = (loaded_lines f).map loaded ∧
          t1.buf = { t.buf with first_line := t1.buf.first_line,
                                current_line := t1.buf.first_line,
                                line_count := t1.buf.line_count, cursor_x := 0,
                                cursor_y := 0, modified := false } ∧
          (∀ a ∈ l1, t.heap.length ≤ a))) := by
  have hlen : lt.length ≤ t.heap.length + 1 := by
    have := nodup_lt_length (seg_nodup hs) (fun a ha => seg_mem_lt hs ha)
    omega
  obtain ⟨hc, hcl, hclen⟩ := clear_lines_spec hs hne _ hlen
  obtain ⟨c, h', b', hll, hb', hle, hcase⟩ :=
    load_loop_any f.length f alloc 0 hc
      { t.buf with first_line := none, current_line := none, line_count := 0,
                   cursor_x := 0, cursor_y := 0 } [] (seg_nil.2 rfl)
  simp only [last_or] at hll
  have hbr := buffer_eta_reset hb'
  rcases hcase with ⟨hc1, hj⟩ | ⟨hc1, l', hs', hcnt, _, hmap, hge⟩
  · subst hc1
    refine ⟨LITE_ERROR, { heap := h', buf := b' }, ?_, by show _ ≤ h'.length; omega,
      Or.inl ⟨rfl, hj, hbr⟩⟩
    unfold file_load
    simp only [hcl, hll]
  · subst hc1
    simp only [List.nil_append] at hs'
    cases hch : chunks f.length f with
    | nil =>
      rw [hch] at hcnt hmap
      have hl' : l' = [] := by simpa using hmap
      have hz : b'.line_count = 0 := by
        rw [hcnt]
        show (0 : Int) + _ = _
        simp
      by_cases h0 : alloc 0 = false
      · refine ⟨LITE_ERROR, { heap := h', buf := b' }, ?_, by show _ ≤ h'.length; omega,
          Or.inl ⟨rfl, ⟨0, h0⟩, hbr⟩⟩
        unfold file_load
        simp only [hcl, hll, hz, if_true, h0, Bool.not_false]
      by_cases h1 : alloc 1 = false
      · refine ⟨LITE_ERROR, { heap := h', buf := b' }, ?_, by show _ ≤ h'.length; omega,
          Or.inl ⟨rfl, ⟨1, h1⟩, hbr⟩⟩
        unfold file_load
        simp only [hcl, hll, hz, if_true, h1, Bool.not_false]
        split <;> rfl
      have h0' : alloc 0 = true := by simpa using h0
      have h1' : alloc 1 = true := by simpa using h1
      have hpay : payload (h' ++ [some ⟨[some 0], 0, none, none⟩]) h'.length
          = some ([some 0], 0) := by
        simp [payload, rd_append_new]
      have hseg : Seg (h' ++ [some ⟨[some 0], 0, none, none⟩]) none
          ({ b' with first_line := some h'.length, line_count := 1 } : Buffer).first_line
          [h'.length] none :=
        seg_cons.2 ⟨rfl, _, rd_append_new _, rfl, seg_nil.2 rfl⟩
      have hgood := loaded_good hseg rfl
        (by
          intro a ha
          rw [List.mem_singleton.1 ha]
          exact line_ok_at_payload hpay (by omega) (by simp) (by omega))
        (by simp) (by show b'.cursor_x = 0; rw [hbr]) (by show b'.cursor_y = 0; rw [hbr])
      refine ⟨LITE_OK, _, ?_, ?_, Or.inr ⟨rfl, [h'.length], hgood, ?_, ?_, ?_⟩⟩
      · unfold file_load
        simp only [hcl, hll, hz, if_true, h0', h1', Bool.not_true, Bool.false_eq_true, if_false]
      · show _ ≤ (h' ++ [_]).length
        simp
        omega
      · simp only [loaded_lines, hch, List.map_cons, List.map_nil]
        rw [hpay]
        rfl
      · show ({ b' with
          first_line := some h'.length, line_count := 1,
          current_line := some h'.length, modified := false } : Buffer) = _
        rw [hbr]
      · intro a ha
        rw [List.mem_singleton.1 ha]
        omega
    | cons c0 cs =>
      rw [hch] at hcnt hmap
      have hmap' : l'.map (payload h')
          = ((c0 :: cs).map (fun chunk => strip_eol (c_string chunk))).map loaded := by
        rw [hmap, List.map_map]
        rfl
      obtain ⟨hl'len, _, hok0⟩ := loaded_nodes hmap'
      have hok := hok0 (fun T hT => by
        obtain ⟨chunk, hmem, rfl⟩ := List.mem_map.1 hT
        have k1 := chunks_length f.length f chunk (by rw [hch]; exact hmem)
        have k2 := loaded_line_length chunk
        omega)
      obtain ⟨a1, l1', hl1⟩ : ∃ a1 l1', l' = a1 :: l1' := by
        cases l' with
        | nil => simp at hl'len
        | cons a1 l1' => exact ⟨a1, l1', rfl⟩
      have hcnt' : b'.line_count = ↑l'.length := by
        rw [hcnt, hl'len]
        show (0 : Int) + _ = _
        simp
      have hnz : ¬ b'.line_count = 0 := by
        rw [hcnt', hl1]
        simp
        omega
      have hgood := loaded_good hs' hl1 hok hcnt' (by rw [hbr]) (by rw [hbr])
      refine ⟨LITE_OK, _, ?_, by show _ ≤ h'.length; omega, Or.inr ⟨rfl, l', hgood, ?_, ?_, ?_⟩⟩
      · unfold file_load
        simp only [hcl, hll]
        rw [if_neg hnz]
      · simp only [loaded_lines, hch]
        exact hmap'
      · show ({ b' with current_line := b'.first_line, modified := false } : Buffer) = _
        rw [hbr]
      · intro a ha
        have := hge a ha
        omega

theorem chunks_nil (k : Nat) : chunks k [] = [] := by
  cases k with
  | zero => rfl
  | succ k => rfl

theorem fgets_chunk_tail (Y : List Nat) (hY : 10 ∉ Y) :
    ∀ n, Y.length ≤ n → fgets_chunk n Y = (Y, []) := by
  induction Y with
  | nil =>
    intro n _
    cases n with
    | zero => rfl
    | succ n => rfl
  | cons c Y ih =>
    intro n hn
    cases n with
    | zero => simp at hn
    | succ n =>
      have hc : c ≠ 10 := fun e => hY (e ▸ List.mem_cons_self _ _)
      have hY' : 10 ∉ Y := fun h => hY (List.mem_cons_of_mem _ h)
      have e := ih hY' n (by simpa using hn)
      show (if c = 10 then ([c], Y)
        else (c :: (fgets_chunk n Y).1, (fgets_chunk n Y).2)) = _
      rw [if_neg hc, e]

theorem fgets_tail (Y : List Nat) (hne : Y ≠ []) (hY : 10 ∉ Y)
    (hlen : Y.length + 1 ≤ LITE_MAX_LINE_LENGTH) : fgets Y = some (Y, []) := by
  have h := fgets_chunk_tail Y hY (LITE_MAX_LINE_LENGTH - 1) (by omega)
  cases Y with
  | nil => exact absurd rfl hne
  | cons c Y => simp only [fgets] at h ⊢; rw [h]

/-- The strings `fgets` reads from a file made of the `'\n'`-terminated
physical lines `Xs` and a final unterminated run `Y` (possibly empty), when
every physical line fits in `line_buf`: the physical lines themselves. -/
theorem chunks_phys : ∀ (Xs : List (List Nat)) (Y : List Nat) (k : Nat),
    (∀ X ∈ Xs, 10 ∉ X ∧ X.length + 2 ≤ LITE_MAX_LINE_LENGTH) → 10 ∉ Y →
    Y.length + 1 ≤ LITE_MAX_LINE_LENGTH → Xs.length + Y.length ≤ k →
    chunks k (file_of Xs ++ Y)
      = Xs.map (fun X => X ++ [10]) ++ (if Y = [] then [] else [Y]) := by
  intro Xs
  induction Xs with
  | nil =>
    intro Y k _ hY hlen hk
    by_cases hy : Y = []
    · subst hy
      simp [file_of, chunks_nil]
    · have hpos : 0 < Y.length := List.length_pos.2 hy
      cases k with
      | zero => simp at hk; exact absurd hk hy
      | succ k =>
        simp only [file_of, List.nil_append, List.map_nil, if_neg hy, chunks,
          fgets_tail Y hy hY hlen, chunks_nil]
  | cons X Xs ih =>
    intro Y k hX hY hlen hk
    cases k with
    | zero => simp at hk
    | succ k =>
      obtain ⟨h10, hxl⟩ := hX X (List.mem_cons_self X Xs)
      have hf : file_of (X :: Xs) ++ Y = X ++ 10 :: (file_of Xs ++ Y) := by simp [file_of]
      rw [hf]
      simp only [chunks, fgets_line X _ h10 hxl, List.map_cons, List.cons_append]
      rw [ih Y k (fun U hU => hX U (List.mem_cons_of_mem _ hU)) hY hlen
        (by simp at hk; omega)]

theorem phys_length (Xs : List (List Nat)) (Y : List Nat) :
    Xs.length + Y.length ≤ (file_of Xs ++ Y).length := by
  have := file_of_length Xs
  simp
  omega

theorem strip_eol_nl (X : List Nat) :
    strip_eol (X ++ [10]) = strip_last (fun c => c == 13) X := by
  have h1 : strip_last (fun c => c == 10 || c == 13) (X ++ [10]) = X := by
    simp [strip_last]
  unfold strip_eol
  rw [h1]

theorem strip_eol_tail (Y : List Nat) (hY : 10 ∉ Y) :
    strip_eol Y = strip_last (fun c => c == 13) (strip_last (fun c => c == 13) Y) := by
  have h1 : strip_last (fun c => c == 10 || c == 13) Y = strip_last (fun c => c == 13) Y := by
    unfold strip_last
    cases e : Y.getLast? with
    | none => rfl
    | some c =>
      have hc : c ≠ 10 := by
        intro hc
        have := List.mem_of_getLast?_eq_some e
        exact hY (hc ▸ this)
      simp [hc]
  unfold strip_eol
  rw [h1]

theorem c_string_nl (X : List Nat) (hX : ∀ v ∈ X, v ≠ 0) : c_string (X ++ [10]) = X ++ [10] :=
  c_string_id _ (by
    intro v hv
    rcases List.mem_append.1 hv with hv | hv
    · exact hX v hv
    · simp at hv; omega)

theorem loaded_lengths {h : Heap} : ∀ {l : List Nat} {Ts : List (List Nat)},
    l.map (payload h) = Ts.map loaded →
    l.map (length_at h) = Ts.map (fun T => (T.length : Int)) := by
  intro l
  induction l with
  | nil =>
    intro Ts hm
    cases Ts with
    | nil => rfl
    | cons T Ts => simp at hm
  | cons a l ih =>
    intro Ts hm
    cases Ts with
    | nil => simp at hm
    | cons T Ts =>
      simp only [List.map_cons, List.cons.injEq] at hm
      have hp : payload h a = some (cells T ++ [some 0], (T.length : Int)) := hm.1
      rw [List.map_cons, List.map_cons, ih hm.2, length_at_payload hp]

theorem linked_seg {t : State} (hl : Linked t) :
    Seg t.heap none t.buf.first_line (line_addrs t) none ∧ line_addrs t ≠ [] := by
  have hp := linked_pos hl
  obtain ⟨a, l', hl0, _⟩ := good_nonempty hp
  refine ⟨hp.1, ?_⟩
  rw [hl0]
  simp

/-- The function `file_load` on an opened file and a well-linked buffer, for
any content and any allocation outcomes, in terms of the observations. -/
theorem file_load_result {t : State} (hl : Linked t) (f : List Nat) (alloc : Nat → Bool) :
    ∃ code t1, file_load t (some f) alloc = some (code, t1) ∧
      ((code = LITE_ERROR ∧ (∃ j, alloc j = false) ∧
          t1.buf = { t.buf with first_line := t1.buf.first_line, current_line := none,
                                line_count := t1.buf.line_count, cursor_x := 0,
                                cursor_y := 0 }) ∨
       (code = LITE_OK ∧ Inv t1 ∧ lines t1 = (loaded_lines f).map cells ∧
          lengths t1 = (loaded_lines f).map (fun T => (T.length : Int)) ∧
          t1.buf.line_count = ↑(loaded_lines f).length ∧
          t1.buf = { t.buf with first_line := t1.buf.first_line,
                                current_line := t1.buf.first_line,
                                line_count := t1.buf.line_count, cursor_x := 0,
                                cursor_y := 0, modified := false } ∧
          (∀ a ∈ line_addrs t1, a ∉ line_addrs t))) := by
  obtain ⟨hs, hne⟩ := linked_seg hl
  obtain ⟨code, t1, hev, _, hcase⟩ := file_load_any hs hne f alloc
  refine ⟨code, t1, hev, ?_⟩
  rcases hcase with herr | ⟨hc, l1, hg, hmap, hb, hge⟩
  · exact Or.inl herr
  · obtain ⟨hlen, hcont, _⟩ := loaded_nodes hmap
    refine Or.inr ⟨hc, good_inv hg, ?_, ?_, ?_, hb, ?_⟩
    · rw [lines_of_good hg]
      exact hcont
    · rw [lengths_of_good hg]
      exact loaded_lengths hmap
    · rw [hg.2.2.1, hlen]
    · intro a ha hold
      rw [seg_line_addrs hg.1] at ha
      have h1 := hge a ha
      have h2 := seg_mem_lt hs hold
      omega

theorem loaded_lines_phys (Xs : List (List Nat)) (Y : List Nat)
    (hX : ∀ X ∈ Xs, 10 ∉ X ∧ X.length + 2 ≤ LITE_MAX_LINE_LENGTH) (hY : 10 ∉ Y)
    (hlen : Y.length + 1 ≤ LITE_MAX_LINE_LENGTH) (hne : file_of Xs ++ Y ≠ []) :
    loaded_lines (file_of Xs ++ Y)
      = (Xs.map (fun X => X ++ [10]) ++ (if Y = [] then [] else [Y])).map
          (fun chunk => strip_eol (c_string chunk)) := by
  have hch := chunks_phys Xs Y _ hX hY hlen (phys_length Xs Y)
  unfold loaded_lines
  rw [hch]
  cases Xs with
  | nil =>
    by_cases hy : Y = []
    · subst hy
      simp [file_of] at hne
    · simp [hy]
  | cons X Xs => simp

theorem strip_cr_none (T : List Nat) (h13 : 13 ∉ T) :
    strip_last (fun c => c == 13) T = T := by
  unfold strip_last
  cases e : T.getLast? with
  | none => rfl
  | some c =>
    have hc : c ≠ 13 := by
      intro hc
      exact h13 (hc ▸ List.mem_of_getLast?_eq_some e)
    simp [hc]

theorem strip_cr_snoc (T : List Nat) : strip_last (fun c => c == 13) (T ++ [13]) = T := by
  simp [strip_last]

/-- The physical line of a record, without its `'\n'`. -/
theorem records_phys (rs : List (List Nat × Bool)) :
    file_of_records rs
      = file_of (rs.map (fun r => r.1 ++ (if r.2 then [13] else []))) ++ [] := by
  induction rs with
  | nil => rfl
  | cons r rs ih =>
    obtain ⟨T, crlf⟩ := r
    simp only [file_of_records, record_bytes, List.map_cons, file_of, ih]
    cases crlf <;> simp

theorem record_line {T : List Nat} (hT : content_ok T) (crlf : Bool) :
    strip_eol (c_string ((T ++ (if crlf then [13] else [])) ++ [10])) = T := by
  obtain ⟨_, h13, h0, _⟩ := hT
  have hz : ∀ v ∈ T ++ (if crlf then [13] else []), v ≠ 0 := by
    intro v hv
    rcases List.mem_append.1 hv with hv | hv
    · intro e
      exact h0 (e ▸ hv)
    · cases crlf <;> simp at hv
      omega
  rw [c_string_nl _ hz, strip_eol_nl]
  cases crlf
  · simp only [Bool.false_eq_true, if_false, List.append_nil]
    exact strip_cr_none T h13
  · simp only [if_true]
    exact strip_cr_snoc T

/-- C12. For every file that is a non-empty concatenation of records, each a
content string (no `'\n'`, `'\r'` or NUL, at most 1021 bytes) followed by
`"\n"` or `"\r\n"`, `file_load` into a well-linked buffer (allocations
succeeding) returns `LITE_OK` and leaves exactly one line per record, in
file order, whose content is the content string of the record and whose
`length` is its length, with `line_count` the number of records,
`modified = false`, and the invariant holding. -/
theorem load_records (t : State) (rs : List (List Nat × Bool)) (hl : Linked t)
    (hne : rs ≠ []) (hrec : ∀ r ∈ rs, content_ok r.1) :
    ∃ t1, file_load t (some (file_of_records rs)) (fun _ => true) = some (LITE_OK, t1) ∧
      lines t1 = rs.map (fun r => cells r.1) ∧
      lengths t1 = rs.map (fun r => (r.1.length : Int)) ∧
      t1.buf.line_count = ↑rs.length ∧ t1.buf.modified = false ∧ Inv t1 := by
  have hX : ∀ X ∈ rs.map (fun r => r.1 ++ (if r.2 then [13] else [])),
      10 ∉ X ∧ X.length + 2 ≤ LITE_MAX_LINE_LENGTH := by
    intro X hXm
    obtain ⟨r, hr, rfl⟩ := List.mem_map.1 hXm
    obtain ⟨h10, _, _, hlen⟩ := hrec r hr
    constructor
    · intro hm
      rcases List.mem_append.1 hm with hm | hm
      · exact h10 hm
      · cases r.2 <;> simp at hm
    · cases r.2 <;> simp <;> omega
  have hfne : file_of (rs.map (fun r => r.1 ++ (if r.2 then [13] else []))) ++ [] ≠ [] := by
    cases rs with
    | nil => exact absurd rfl hne
    | cons r rs => simp [file_of]
  have hll := loaded_lines_phys _ [] hX (by simp) (by simp [LITE_MAX_LINE_LENGTH]) hfne
  rw [← records_phys] at hll
  have hlines : loaded_lines (file_of_records rs) = rs.map (fun r => r.1) := by
    rw [hll]
    simp only [if_true, List.append_nil, List.map_map]
    apply List.map_congr_left
    intro r hr
    exact record_line (hrec r hr) r.2
  obtain ⟨code, t1, hev, hcase⟩ := file_load_result hl (file_of_records rs) (fun _ => true)
  rcases hcase with ⟨_, ⟨j, hj⟩, _⟩ | ⟨hc, hinv, hl1, hlen1, hcnt, hb, _⟩
  · simp at hj
  · subst hc
    rw [hlines] at hl1 hlen1 hcnt
    refine ⟨t1, hev, ?_, ?_, ?_, ?_, hinv⟩
    · rw [hl1, List.map_map]
      rfl
    · rw [hlen1, List.map_map]
      rfl
    · rw [hcnt]
      simp
    · rw [hb]

theorem load_records_witness :
    Linked (buffer_of [[120], [121, 122]] 9 1) ∧
    file_of_records [([102, 111, 111], true), ([98, 97, 114], false)]
      = [102, 111, 111, 13, 10, 98, 97, 114, 10] ∧
    ∃ t1, file_load (buffer_of [[120], [121, 122]] 9 1)
        (some (file_of_records [([102, 111, 111], true), ([98, 97, 114], false)]))
        (fun _ => true) = some (LITE_OK, t1) ∧
      lines t1 = [([102, 111, 111], true), ([98, 97, 114], false)].map (fun r => cells r.1) ∧
      lengths t1
        = [([102, 111, 111], true), ([98, 97, 114], false)].map (fun r => (r.1.length : Int)) ∧
      t1.buf.line_count = ↑[([102, 111, 111], true), ([98, 97, 114], false)].length ∧
      t1.buf.modified = false ∧ Inv t1 :=
  ⟨by decide, by decide,
    load_records (buffer_of [[120], [121, 122]] 9 1)
      [([102, 111, 111], true), ([98, 97, 114], false)] (by decide) (by decide) (by decide)⟩

theorem strip_cr_eq (X : List Nat) : strip_last (fun c => c == 13) X = drop_cr X := by
  unfold strip_last drop_cr
  cases e : X.getLast? with
  | none => simp
  | some c =>
    by_cases hc : c = 13
    · simp [hc]
    · simp [hc]

/-- The function `file_load` on a file made of physical lines that fit in
`line_buf`, allocations succeeding. -/
theorem load_phys {t : State} (hl : Linked t) (Xs : List (List Nat)) (Y : List Nat)
    (hX : ∀ X ∈ Xs, 10 ∉ X ∧ X.length + 2 ≤ LITE_MAX_LINE_LENGTH) (hY : 10 ∉ Y)
    (hlen : Y.length + 1 ≤ LITE_MAX_LINE_LENGTH) (hne : file_of Xs ++ Y ≠ []) :
    ∃ t1, file_load t (some (file_of Xs ++ Y)) (fun _ => true) = some (LITE_OK, t1) ∧
      Inv t1 ∧
      lines t1 = (Xs.map (fun X => X ++ [10]) ++ (if Y = [] then [] else [Y])).map
          (fun chunk => cells (strip_eol (c_string chunk))) ∧
      t1.buf.line_count = ↑(Xs.length + (if Y = [] then 0 else 1)) := by
  have hll := loaded_lines_phys Xs Y hX hY hlen hne
  obtain ⟨code, t1, hev, hcase⟩ := file_load_result hl (file_of Xs ++ Y) (fun _ => true)
  rcases hcase with ⟨_, ⟨j, hj⟩, _⟩ | ⟨hc, hinv, hl1, _, hcnt, _, _⟩
  · simp at hj
  · subst hc
    rw [hll] at hl1 hcnt
    refine ⟨t1, hev, hinv, ?_, ?_⟩
    · rw [hl1, List.map_map]
      rfl
    · rw [hcnt]
      by_cases hy : Y = [] <;> simp [hy]

/-- C13 fails as stated. (a) The file `"a\r"` (no final newline) loads as the
line `"a"`: the final `'\r'`, which no `'\n'` follows, is removed. (b) The
file `"a\r\r"` loads as `"a"` too. (c) The file `"a\0b\n"` loads as the line
`"a"`: the bytes after the NUL are removed with the `'\n'`. (d) In a
physical line of 1022 characters `'a'`, a `'\r'`, `'b'` and `'\n'`, the
`'\r'` is the last of the 1023 bytes of the first `fgets` result and is
removed: the lines are 1022 `'a'` and `"b"`. -/
theorem load_cr_counterexample :
    (file_load (fresh_buffer 1) (some [97, 13]) (fun _ => true)).map (fun q => (q.1, lines q.2))
      = some (LITE_OK, [[some 97]]) ∧
    (file_load (fresh_buffer 1) (some [97, 13, 13]) (fun _ => true)).map
        (fun q => (q.1, lines q.2)) = some (LITE_OK, [[some 97]]) ∧
    (file_load (fresh_buffer 1) (some [97, 0, 98, 10]) (fun _ => true)).map
        (fun q => (q.1, lines q.2)) = some (LITE_OK, [[some 97]]) ∧
    (file_load (fresh_buffer 1) (some (List.replicate 1022 97 ++ [13, 98, 10]))
        (fun _ => true)).map (fun q => (q.1, lines q.2))
      = some (LITE_OK, [cells (List.replicate 1022 97), [some 98]]) := by
  refine ⟨by decide, by decide, by decide, ?_⟩
  set_option maxRecDepth 100000 in decide

/-- C13, amended. For every file without NUL bytes whose physical lines are
at most 1023 bytes long (terminator included), given as its
`'\n'`-terminated physical lines `Xs` and its final unterminated run `Y`
(possibly empty), `file_load` (into a well-linked buffer, allocations
succeeding) removes from each `'\n'`-terminated physical line only the
`'\n'` and at most one `'\r'` that immediately precedes it, and from the
final unterminated run up to two trailing `'\r'` bytes; every other byte is
kept, in order. -/
theorem load_strips_line_ending (t : State) (Xs : List (List Nat)) (Y : List Nat)
    (hl : Linked t)
    (hX : ∀ X ∈ Xs, 10 ∉ X ∧ 0 ∉ X ∧ X.length + 2 ≤ LITE_MAX_LINE_LENGTH)
    (hY : 10 ∉ Y ∧ 0 ∉ Y ∧ Y.length + 1 ≤ LITE_MAX_LINE_LENGTH)
    (hne : file_of Xs ++ Y ≠ []) :
    ∃ t1, file_load t (some (file_of Xs ++ Y)) (fun _ => true) = some (LITE_OK, t1) ∧
      lines t1 = Xs.map (fun X => cells (drop_cr X))
        ++ (if Y = [] then [] else [cells (drop_cr (drop_cr Y))]) := by
  obtain ⟨t1, hev, _, hl1, _⟩ := load_phys hl Xs Y (fun X hXm => ⟨(hX X hXm).1, (hX X hXm).2.2⟩)
    hY.1 hY.2.2 hne
  refine ⟨t1, hev, ?_⟩
  rw [hl1, List.map_append, List.map_map]
  congr 1
  · apply List.map_congr_left
    intro X hXm
    obtain ⟨_, h0, _⟩ := hX X hXm
    show cells (strip_eol (c_string (X ++ [10]))) = _
    rw [c_string_nl X (fun v hv e => h0 (e ▸ hv)), strip_eol_nl, strip_cr_eq]
  · by_cases hy : Y = []
    · simp [hy]
    · simp only [if_neg hy, List.map_cons, List.map_nil]
      rw [c_string_id Y (fun v hv e => hY.2.1 (e ▸ hv)), strip_eol_tail Y hY.1, strip_cr_eq,
        strip_cr_eq]

theorem load_strips_line_ending_witness :
    Linked (buffer_of [[120]] 3 4) ∧
    file_of [[97, 13, 13], [13, 98], []] ++ [99, 13, 13, 13]
      = [97, 13, 13, 10, 13, 98, 10, 10, 99, 13, 13, 13] ∧
    [[97, 13, 13], [13, 98], []].map (fun X => cells (drop_cr X))
        ++ (if [99, 13, 13, 13] = [] then [] else [cells (drop_cr (drop_cr [99, 13, 13, 13]))])
      = [[some 97, some 13], [some 13, some 98], [], [some 99, some 13]] ∧
    ∃ t1, file_load (buffer_of [[120]] 3 4)
        (some (file_of [[97, 13, 13], [13, 98], []] ++ [99, 13, 13, 13])) (fun _ => true)
        = some (LITE_OK, t1) ∧
      lines t1 = [[97, 13, 13], [13, 98], []].map (fun X => cells (drop_cr X))
        ++ (if [99, 13, 13, 13] = [] then [] else [cells (drop_cr (drop_cr [99, 13, 13, 13]))]) :=
  ⟨by decide, by decide, by decide,
    load_strips_line_ending (buffer_of [[120]] 3 4) [[97, 13, 13], [13, 98], []]
      [99, 13, 13, 13] (by decide) (by decide) (by decide) (by decide)⟩

/-- C14 fails as stated. The file of one physical line of 1023 characters
`'a'` and its `'\n'` loads as two `Line` nodes, the 1023 characters and an
empty line, with `line_count = 2`: `fgets` stores at most 1023 characters
per call. -/
theorem load_long_line_counterexample :
    (file_load (fresh_buffer 1) (some (List.replicate 1023 97 ++ [10])) (fun _ => true)).map
        (fun q => (q.1, lines q.2, node_count q.2, q.2.buf.line_count))
      = some (LITE_OK, [cells (List.replicate 1023 97), []], 2, 2) := by
  set_option maxRecDepth 100000 in decide

/-- C14, amended. For every non-empty file whose physical lines are at most
1023 bytes long (the `'\n'` included), given as its `'\n'`-terminated
physical lines `Xs` and its final unterminated run `Y` (possibly empty),
`file_load` (into a well-linked buffer, allocations succeeding) produces
exactly one `Line` per physical line, in file order: the number of nodes and
`line_count` are the number of physical lines, and the content of each node
is its physical line cut at the first NUL and stripped of its line ending. -/
theorem load_line_per_physical_line (t : State) (Xs : List (List Nat)) (Y : List Nat)
    (hl : Linked t)
    (hX : ∀ X ∈ Xs, 10 ∉ X ∧ X.length + 2 ≤ LITE_MAX_LINE_LENGTH)
    (hY : 10 ∉ Y ∧ Y.length + 1 ≤ LITE_MAX_LINE_LENGTH)
    (hne : file_of Xs ++ Y ≠ []) :
    ∃ t1, file_load t (some (file_of Xs ++ Y)) (fun _ => true) = some (LITE_OK, t1) ∧
      node_count t1 = Xs.length + (if Y = [] then 0 else 1) ∧
      t1.buf.line_count = ↑(Xs.length + (if Y = [] then 0 else 1)) ∧
      lines t1 = (Xs.map (fun X => X ++ [10]) ++ (if Y = [] then [] else [Y])).map
          (fun chunk => cells (strip_eol (c_string chunk))) := by
  obtain ⟨t1, hev, hinv, hl1, hcnt⟩ := load_phys hl Xs Y hX hY.1 hY.2 hne
  refine ⟨t1, hev, ?_, hcnt, hl1⟩
  have h := good_count (inv_good hinv)
  rw [hcnt] at h
  exact (Int.ofNat_inj.1 h).symm

theorem load_line_per_physical_line_witness :
    Linked (buffer_of [[120]] 3 4) ∧
    ∃ t1, file_load (buffer_of [[120]] 3 4)
        (some (file_of [List.replicate 1022 97, [], [98, 0, 99]] ++ [100])) (fun _ => true)
        = some (LITE_OK, t1) ∧
      node_count t1
        = [List.replicate 1022 97, [], [98, 0, 99]].length + (if [100] = [] then 0 else 1) ∧
      t1.buf.line_count
        = ↑([List.replicate 1022 97, [], [98, 0, 99]].length + (if [100] = [] then 0 else 1)) ∧
      lines t1 = ([List.replicate 1022 97, [], [98, 0, 99]].map (fun X => X ++ [10])
          ++ (if [100] = [] then [] else [[100]])).map
          (fun chunk => cells (strip_eol (c_string chunk))) :=
  ⟨by decide,
    load_line_per_physical_line (buffer_of [[120]] 3 4) [List.replicate 1022 97, [], [98, 0, 99]]
      [100] (by decide) (by set_option maxRecDepth 100000 in decide) (by decide) (by decide)⟩

/-- C15. Loading an empty file (zero bytes) into any well-linked buffer,
allocations succeeding, returns `LITE_OK` and leaves exactly one line, of
length 0 and empty content, with `line_count = 1` and `current_line` and
`first_line` equal to that line; the invariant holds. -/
theorem load_empty_file (t : State) (hl : Linked t) :
    ∃ t1 a, file_load t (some []) (fun _ => true) = some (LITE_OK, t1) ∧
      line_addrs t1 = [a] ∧ lines t1 = [[]] ∧ lengths t1 = [0] ∧
      t1.buf.line_count = 1 ∧ t1.buf.current_line = some a ∧
      t1.buf.first_line = some a ∧ Inv t1 := by
  obtain ⟨code, t1, hev, hcase⟩ := file_load_result hl [] (fun _ => true)
  rcases hcase with ⟨_, ⟨j, hj⟩, _⟩ | ⟨hc, hinv, hl1, hlen1, hcnt, hb, _⟩
  · simp at hj
  · subst hc
    have hll : loaded_lines [] = [[]] := rfl
    rw [hll] at hl1 hlen1 hcnt
    have hcount : (lines t1).length = 1 := by rw [hl1]; rfl
    unfold lines at hcount
    rw [List.length_map] at hcount
    obtain ⟨a, ha⟩ := List.length_eq_one.1 hcount
    have hfirst : t1.buf.first_line = some a := by
      have := seg_head (inv_good hinv).1
      rw [ha] at this
      exact this
    refine ⟨t1, a, hev, ha, hl1, hlen1, hcnt, ?_, hfirst, hinv⟩
    rw [hb]
    exact hfirst

theorem load_empty_file_witness :
    Linked (buffer_of [[120], [121, 122]] 9 1) ∧
    ∃ t1 a, file_load (buffer_of [[120], [121, 122]] 9 1) (some []) (fun _ => true)
        = some (LITE_OK, t1) ∧
      line_addrs t1 = [a] ∧ lines t1 = [[]] ∧ lengths t1 = [0] ∧
      t1.buf.line_count = 1 ∧ t1.buf.current_line = some a ∧
      t1.buf.first_line = some a ∧ Inv t1 :=
  ⟨by decide, load_empty_file (buffer_of [[120], [121, 122]] 9 1) (by decide)⟩

/-- The function `buffer_load_file` on an opened file and a well-linked
buffer, for any content and any allocation outcomes. -/
theorem buffer_load_file_result {t : State} (hl : Linked t) (name f : List Nat)
    (alloc : Nat → Bool) (ok_name : Bool) :
    ∃ code t1, buffer_load_file t name (some f) alloc ok_name = some (code, t1) ∧
      ((code = LITE_ERROR ∧ (∃ j, alloc j = false) ∧
          file_load t (some f) alloc = some (code, t1) ∧ t1.buf.current_line = none) ∨
       (code = LITE_OK ∧ Inv t1 ∧ lines t1 = (loaded_lines f).map cells ∧
          t1.buf.line_count = ↑(loaded_lines f).length ∧
          t1.buf = { t.buf with filename := if ok_name then some name else none,
                                first_line := t1.buf.first_line,
                                current_line := t1.buf.first_line,
                                line_count := t1.buf.line_count, cursor_x := 0,
                                cursor_y := 0, modified := false } ∧
          (∀ a ∈ line_addrs t1, a ∉ line_addrs t))) := by
  obtain ⟨code, t1, hev, hcase⟩ := file_load_result hl f alloc
  rcases hcase with ⟨hc, hj, hb⟩ | ⟨hc, hinv, hl1, _, hcnt, hb, hfresh⟩
  · subst hc
    refine ⟨LITE_ERROR, t1, ?_, Or.inl ⟨rfl, hj, hev, by rw [hb]⟩⟩
    unfold buffer_load_file
    rw [hev]
    show (if LITE_ERROR = LITE_OK then _ else _) = _
    rw [if_neg (by decide)]
  · subst hc
    refine ⟨LITE_OK, { t1 with buf := { t1.buf with
        filename := if ok_name then some name else none, modified := false } }, ?_,
      Or.inr ⟨rfl, hinv, hl1, hcnt, ?_, hfresh⟩⟩
    · unfold buffer_load_file
      rw [hev]
      show (if LITE_OK = LITE_OK then _ else _) = _
      rw [if_pos rfl]
    · show ({ t1.buf with
        filename := if ok_name then some name else none, modified := false } : Buffer) = _
      rw [hb]

/-- C16 fails. Under the comment `Store filename`, `buffer_load_file` assigns
`buffer->filename = strdup(filename)` and never tests the result, where
`file_load` tests each of its own allocations (its `strdup` included). When
that `strdup` fails the call still returns `LITE_OK` and the buffer has no
filename: loading the file `"a\n"` under the name `"f"` into a one-line
buffer gives the line `"a"`, `LITE_OK` and `filename = NULL`. -/
theorem load_file_name_counterexample :
    (buffer_load_file (buffer_of [[120]] 0 0) [102] (some [97, 10]) (fun _ => true) false).map
        (fun q => (q.1, lines q.2, q.2.buf.filename))
      = some (LITE_OK, [[some 97]], none) := by
  decide

/-- C16, what the code does. For every well-linked buffer (whatever its
lines, cursor, `modified` flag and filename), every file content and all
allocation outcomes, `buffer_load_file` on a file that can be opened returns;
it returns `LITE_OK` when every allocation succeeds; and whenever it returns
`LITE_OK`, no line of the previous list is in the new list, whose contents
depend on the file only, `current_line = first_line` (not `NULL`),
`cursor_x = cursor_y = 0`, `modified = false`, `line_count` is the number of
lines reachable from `first_line`, and the invariant holds. The field
`filename` is the loaded path exactly when `strdup` returned a copy
(`ok_name`); it is `NULL` under `LITE_OK` when it did not, which is the
defect. -/
theorem load_file_resets (t : State) (name f : List Nat) (alloc : Nat → Bool)
    (ok_name : Bool) (hl : Linked t) :
    ∃ code t1, buffer_load_file t name (some f) alloc ok_name = some (code, t1) ∧
      ((∀ j, alloc j = true) → code = LITE_OK) ∧
      (code = LITE_OK →
        (∀ a ∈ line_addrs t1, a ∉ line_addrs t) ∧
        lines t1 = (loaded_lines f).map cells ∧
        t1.buf.current_line = t1.buf.first_line ∧ t1.buf.current_line ≠ none ∧
        t1.buf.cursor_x = 0 ∧ t1.buf.cursor_y = 0 ∧ t1.buf.modified = false ∧
        t1.buf.filename = (if ok_name then some name else none) ∧
        t1.buf.line_count = ↑(node_count t1) ∧ Inv t1) := by
  obtain ⟨code, t1, hev, hcase⟩ := buffer_load_file_result hl name f alloc ok_name
  refine ⟨code, t1, hev, ?_, ?_⟩
  · intro hall
    rcases hcase with ⟨_, ⟨j, hj⟩, _⟩ | ⟨hc, _⟩
    · rw [hall j] at hj
      simp at hj
    · exact hc
  · intro hc
    rcases hcase with ⟨he, _⟩ | ⟨_, hinv, hl1, _, hb, hfresh⟩
    · rw [he] at hc
      exact absurd hc (by decide)
    · have hcur : t1.buf.current_line = t1.buf.first_line := by rw [hb]
      refine ⟨hfresh, hl1, hcur, hinv.2.2.2.2.1, by rw [hb], by rw [hb], by rw [hb], by rw [hb],
        good_count (inv_good hinv), hinv⟩

theorem load_file_resets_witness :
    Linked (set_filename (buffer_of [[120], [121, 122]] 9 1) [103]) ∧
    ∃ code t1, buffer_load_file (set_filename (buffer_of [[120], [121, 122]] 9 1) [103]) [102]
        (some [97, 13, 10, 98]) (fun _ => true) true = some (code, t1) ∧
      ((∀ j : Nat, (fun _ : Nat => true) j = true) → code = LITE_OK) ∧
      (code = LITE_OK →
        (∀ a ∈ line_addrs t1,
          a ∉ line_addrs (set_filename (buffer_of [[120], [121, 122]] 9 1) [103])) ∧
        lines t1 = (loaded_lines [97, 13, 10, 98]).map cells ∧
        t1.buf.current_line = t1.buf.first_line ∧ t1.buf.current_line ≠ none ∧
        t1.buf.cursor_x = 0 ∧ t1.buf.cursor_y = 0 ∧ t1.buf.modified = false ∧
        t1.buf.filename = (if true then some [102] else none) ∧
        t1.buf.line_count = ↑(node_count t1) ∧ Inv t1) :=
  ⟨by decide,
    load_file_resets (set_filename (buffer_of [[120], [121, 122]] 9 1) [103]) [102]
      [97, 13, 10, 98] (fun _ => true) true (by decide)⟩

/-- C17. For every buffer (no assumption on it), every path and all
allocation outcomes, `buffer_load_file` on a path that `fopen` cannot open
returns `LITE_ERROR_FILE_NOT_FOUND`, which differs from `LITE_OK` and from
`LITE_ERROR`, and the buffer and its lines are exactly as before the call;
so is the result of `file_load`. -/
theorem load_missing_file (s : State) (name : List Nat) (alloc : Nat → Bool)
    (ok_name : Bool) :
    buffer_load_file s name none alloc ok_name = some (LITE_ERROR_FILE_NOT_FOUND, s) ∧
    file_load s none alloc = some (LITE_ERROR_FILE_NOT_FOUND, s) ∧
    LITE_ERROR_FILE_NOT_FOUND ≠ LITE_OK ∧ LITE_ERROR_FILE_NOT_FOUND ≠ LITE_ERROR := by
  refine ⟨?_, rfl, by decide, by decide⟩
  unfold buffer_load_file
  show (if LITE_ERROR_FILE_NOT_FOUND = LITE_OK then _ else _) = _
  rw [if_neg (by decide)]

/-- C18 fails. `file_load` releases the lines of the buffer and resets
`first_line`, `current_line`, `line_count` and the cursor before it reads,
and returns on a failed allocation without restoring anything. (1) For every
well-linked buffer, every file content and all allocation outcomes, a return
other than `LITE_OK` after the file was opened is `LITE_ERROR`, leaves
`current_line = NULL` and an invariant that no longer holds; the same for
`buffer_load_file`. (2) On the one-line buffer `"x"` (invariant holding) and
the file `"a\nb\n"`: when the first allocation fails the buffer is left with
no line at all (`first_line = NULL`, `line_count = 0`); when the third
allocation fails it is left with the single new line `"a"`,
`line_count = 1` and `current_line = NULL`. -/
theorem load_failure_clears_buffer :
    (∀ (t : State) (f : List Nat) (alloc : Nat → Bool) (code : Int) (t1 : State),
      Linked t → file_load t (some f) alloc = some (code, t1) → code ≠ LITE_OK →
      code = LITE_ERROR ∧ t1.buf.current_line = none ∧ ¬ Inv t1) ∧
    (∀ (t : State) (name f : List Nat) (alloc : Nat → Bool) (ok_name : Bool) (code : Int)
      (t1 : State),
      Linked t → buffer_load_file t name (some f) alloc ok_name = some (code, t1) →
      code ≠ LITE_OK → code = LITE_ERROR ∧ t1.buf.current_line = none ∧ ¬ Inv t1) ∧
    (Inv (buffer_of [[120]] 0 0) ∧ lines (buffer_of [[120]] 0 0) = [[some 120]] ∧
      (buffer_of [[120]] 0 0).buf.current_line = some 0 ∧
      (file_load (buffer_of [[120]] 0 0) (some [97, 10, 98, 10]) (fun _ => false)).map
          (fun q => (q.1, lines q.2, q.2.buf.line_count)) = some (LITE_ERROR, [], 0) ∧
      (file_load (buffer_of [[120]] 0 0) (some [97, 10, 98, 10]) (fun _ => false)).map
          (fun q => (q.2.buf.first_line, q.2.buf.current_line)) = some (none, none) ∧
      (file_load (buffer_of [[120]] 0 0) (some [97, 10, 98, 10])
          (fun i => decide (i ≠ 2))).map
          (fun q => (q.1, lines q.2, q.2.buf.line_count))
        = some (LITE_ERROR, [[some 97]], 1) ∧
      (file_load (buffer_of [[120]] 0 0) (some [97, 10, 98, 10])
          (fun i => decide (i ≠ 2))).map
          (fun q => (q.2.buf.first_line, q.2.buf.current_line)) = some (some 1, none) ∧
      (buffer_load_file (buffer_of [[120]] 0 0) [102] (some [97, 10, 98, 10])
          (fun i => decide (i ≠ 2)) true).map
          (fun q => (q.1, lines q.2, q.2.buf.current_line))
        = some (LITE_ERROR, [[some 97]], none)) := by
  refine ⟨?_, ?_, by decide, by decide, by decide, by decide, by decide, by decide, by decide,
    by decide⟩
  · intro t f alloc code t1 hl hev hne
    obtain ⟨code', t1', hev', hcase⟩ := file_load_result hl f alloc
    rw [hev] at hev'
    cases hev'
    rcases hcase with ⟨hc, _, hb⟩ | ⟨hc, _⟩
    · have hcur : t1.buf.current_line = none := by rw [hb]
      exact ⟨hc, hcur, fun hi => hi.2.2.2.2.1 hcur⟩
    · exact absurd hc hne
  · intro t name f alloc ok_name code t1 hl hev hne
    obtain ⟨code', t1', hev', hcase⟩ := buffer_load_file_result hl name f alloc ok_name
    rw [hev] at hev'
    cases hev'
    rcases hcase with ⟨hc, _, _, hcur⟩ | ⟨hc, _⟩
    · exact ⟨hc, hcur, fun hi => hi.2.2.2.2.1 hcur⟩
    · exact absurd hc hne

/-- The function `file_save` on a buffer whose lines form a linked list of C
strings: the cursor plays no part. -/
theorem file_save_seg {s : State} {l : List Nat}
    (hs : Seg s.heap none s.buf.first_line l none)
    (hstr : ∀ a ∈ l, is_cstr_at s.heap a = true) (hname : s.buf.filename ≠ none) :
    file_save s true = some (LITE_OK, { s with buf := { s.buf with modified := false } },
      some (file_of (l.map (bytes_at s.heap)))) ∧
    lines s = (l.map (bytes_at s.heap)).map cells := by
  constructor
  · obtain ⟨name, hn⟩ := Option.ne_none_iff_exists'.1 hname
    have hlen : l.length < s.heap.length + 1 := by
      have := nodup_lt_length (seg_nodup hs) (fun a ha => seg_mem_lt hs ha)
      omega
    unfold file_save
    simp only [hn, Bool.not_true, Bool.false_eq_true, if_false,
      save_loop_spec hs hstr _ hlen]
  · unfold lines
    rw [seg_line_addrs hs, List.map_map]
    apply List.map_congr_left
    intro a ha
    obtain ⟨_, _, _, hc, _⟩ := str_bytes (hstr a ha)
    exact hc

/-- C19 fails as stated. The one-line buffer whose line is the three
characters `'a'`, NUL, `'b'` (`length = 3`; it has a filename and satisfies
the invariant) is written as the two bytes `"a\n"`: `fputs` stops at the
NUL. The full content followed by `'\n'` is the four bytes `"a\0b\n"`, and
no list of byte strings that are the lines of the buffer gives the written
bytes. -/
theorem save_nul_counterexample :
    Inv (set_filename nul_buffer [102]) ∧
    lines (set_filename nul_buffer [102]) = [cells [97, 0, 98]] ∧
    lengths (set_filename nul_buffer [102]) = [3] ∧
    (file_save (set_filename nul_buffer [102]) true).map (fun q => (q.1, q.2.2))
      = some (LITE_OK, some [97, 10]) ∧
    file_of [[97, 0, 98]] = [97, 0, 98, 10] ∧
    (∀ Ts, lines (set_filename nul_buffer [102]) = Ts.map cells → file_of Ts ≠ [97, 10]) := by
  refine ⟨by decide, by decide, by decide, by decide, by decide, ?_⟩
  intro Ts h
  have hinj : Function.Injective cells := by
    unfold cells
    exact List.map_injective_iff.2 (Option.some_injective _)
  have h1 : lines (set_filename nul_buffer [102]) = [[97, 0, 98]].map cells := by decide
  have h2 : Ts = [[97, 0, 98]] := List.map_injective_iff.2 hinj (h.symm.trans h1)
  rw [h2]
  decide

/-- C19, amended. For every well-linked buffer with a filename whose lines
are C strings of exactly `length` characters (no NUL among them), with `n`
lines, `file_save` (the file opening) returns `LITE_OK` and writes exactly
the concatenation, in list order from `first_line`, of each line's `length`
characters followed by one `'\n'`: `n` records. -/
theorem save_writes_lines (s : State) (hl : Linked s) (hname : s.buf.filename ≠ none)
    (hstr : AllStrings s) :
    ∃ s1 Ts, file_save s true = some (LITE_OK, s1, some (file_of Ts)) ∧
      lines s = Ts.map cells ∧ lengths s = Ts.map (fun T => (T.length : Int)) ∧
      Ts.length = node_count s := by
  obtain ⟨hs, _⟩ := linked_seg hl
  obtain ⟨hsave, hlines⟩ := file_save_seg hs hstr hname
  refine ⟨_, _, hsave, hlines, ?_, by simp [node_count]⟩
  unfold lengths
  rw [List.map_map]
  apply List.map_congr_left
  intro a ha
  obtain ⟨ln, hrd, _, hc, _⟩ := str_bytes (hstr a ha)
  have hok : line_ok_at s.heap a = true := (linked_pos hl).2.1 a ha
  obtain ⟨ln', hrd', h0, h1, _⟩ := line_ok_at_iff.1 hok
  rw [hrd] at hrd'
  cases hrd'
  have hlen := congrArg List.length hc
  simp only [content_at, hrd, content, List.length_take, cells_length] at hlen
  show length_at s.heap a = _
  simp only [length_at, hrd, Function.comp]
  omega

theorem save_writes_lines_witness :
    Linked (set_filename (buffer_of [[97, 98], [], [99]] 7 5) [102]) ∧
    ∃ s1 Ts, file_save (set_filename (buffer_of [[97, 98], [], [99]] 7 5) [102]) true
        = some (LITE_OK, s1, some (file_of Ts)) ∧
      lines (set_filename (buffer_of [[97, 98], [], [99]] 7 5) [102]) = Ts.map cells ∧
      lengths (set_filename (buffer_of [[97, 98], [], [99]] 7 5) [102])
        = Ts.map (fun T => (T.length : Int)) ∧
      Ts.length = node_count (set_filename (buffer_of [[97, 98], [], [99]] 7 5) [102]) :=
  ⟨by decide,
    save_writes_lines (set_filename (buffer_of [[97, 98], [], [99]] 7 5) [102]) (by decide)
      (by decide) (by decide)⟩

theorem file_save_cases (s : State) (fopen_ok : Bool) :
    file_save s fopen_ok = none ∨ file_save s fopen_ok = some (LITE_ERROR, s, none) ∨
      ∃ bytes, file_save s fopen_ok
        = some (LITE_OK, { s with buf := { s.buf with modified := false } }, some bytes) := by
  unfold file_save
  cases hn : s.buf.filename with
  | none => exact Or.inr (Or.inl rfl)
  | some name =>
    cases fopen_ok with
    | false => exact Or.inr (Or.inl rfl)
    | true =>
      cases hsl : save_loop (s.heap.length + 1) s.heap s.buf.first_line with
      | none =>
        refine Or.inl ?_
        simp only [Bool.not_true, Bool.false_eq_true, if_false, hsl]
      | some bytes =>
        refine Or.inr (Or.inr ⟨bytes, ?_⟩)
        simp only [Bool.not_true, Bool.false_eq_true, if_false, hsl]

/-- C20. Whenever `buffer_save_file` returns `LITE_OK`, the buffer after the
call is the buffer before it with `modified` set to `false`: the heap of
lines, hence the line sequence and the `length` fields, `first_line`,
`line_count`, `current_line`, `cursor_x`, `cursor_y`, the scroll offsets,
the filename and the id are unchanged. -/
theorem save_file_frame (s : State) (fopen_ok : Bool) (s1 : State)
    (out : Option (List Nat))
    (hok : buffer_save_file s fopen_ok = some (LITE_OK, s1, out)) :
    s1 = { s with buf := { s.buf with modified := false } } ∧
    s1.heap = s.heap ∧ lines s1 = lines s ∧ lengths s1 = lengths s ∧
    s1.buf.line_count = s.buf.line_count ∧ s1.buf.current_line = s.buf.current_line ∧
    s1.buf.cursor_x = s.buf.cursor_x ∧ s1.buf.cursor_y = s.buf.cursor_y ∧
    s1.buf.scroll_x = s.buf.scroll_x ∧ s1.buf.scroll_y = s.buf.scroll_y ∧
    s1.buf.filename = s.buf.filename ∧ s1.buf.modified = false := by
  have h1 : s1 = { s with buf := { s.buf with modified := false } } := by
    unfold buffer_save_file at hok
    cases hn : s.buf.filename with
    | none =>
      rw [hn] at hok
      have h : some LITE_ERROR = some LITE_OK :=
        congrArg (fun r => r.map (fun q => q.1)) hok
      exact absurd h (by decide)
    | some name =>
      rw [hn] at hok
      rcases file_save_cases s fopen_ok with hf | hf | ⟨bytes, hf⟩
      · rw [hf] at hok
        exact absurd hok (by simp)
      · rw [hf] at hok
        have h : (if LITE_ERROR = LITE_OK then _ else _) = some (LITE_OK, s1, out) := hok
        rw [if_neg (by decide)] at h
        have h' : some LITE_ERROR = some LITE_OK :=
          congrArg (fun r => r.map (fun q => q.1)) h
        exact absurd h' (by decide)
      · rw [hf] at hok
        have h : (if LITE_OK = LITE_OK then _ else _) = some (LITE_OK, s1, out) := hok
        rw [if_pos rfl] at h
        simp only [Option.some.injEq, Prod.mk.injEq, true_and] at h
        exact h.1.symm
  subst h1
  exact ⟨rfl, rfl, rfl, rfl, rfl, rfl, rfl, rfl, rfl, rfl, rfl, rfl⟩

theorem save_file_frame_witness :
    buffer_save_file (set_filename (buffer_of [[97, 98], [99]] 1 1) [102]) true
      = some (LITE_OK,
          { set_filename (buffer_of [[97, 98], [99]] 1 1) [102] with
            buf := { (set_filename (buffer_of [[97, 98], [99]] 1 1) [102]).buf with
              modified := false } },
          some [97, 98, 10, 99, 10]) ∧
    lines ({ set_filename (buffer_of [[97, 98], [99]] 1 1) [102] with
            buf := { (set_filename (buffer_of [[97, 98], [99]] 1 1) [102]).buf with
              modified := false } } : State)
      = lines (set_filename (buffer_of [[97, 98], [99]] 1 1) [102]) :=
  ⟨by decide,
    (save_file_frame (set_filename (buffer_of [[97, 98], [99]] 1 1) [102]) true _
      (some [97, 98, 10, 99, 10]) (by decide)).2.2.1⟩

/-- C21. For every buffer (no assumption on it) whose filename is absent and
either outcome of `fopen`, `buffer_save_file` returns `LITE_ERROR` (which is
not `LITE_OK`), writes no file, and leaves the buffer exactly as it was,
the `modified` flag included; so does `file_save` itself. -/
theorem save_without_filename (s : State) (fopen_ok : Bool) (hn : s.buf.filename = none) :
    buffer_save_file s fopen_ok = some (LITE_ERROR, s, none) ∧
    file_save s fopen_ok = some (LITE_ERROR, s, none) ∧ LITE_ERROR ≠ LITE_OK := by
  refine ⟨?_, ?_, by decide⟩
  · unfold buffer_save_file
    rw [hn]
  · unfold file_save
    rw [hn]

theorem save_without_filename_witness :
    nul_buffer.buf.filename = none ∧ nul_buffer.buf.modified = true ∧
    buffer_save_file nul_buffer true = some (LITE_ERROR, nul_buffer, none) ∧
    file_save nul_buffer true = some (LITE_ERROR, nul_buffer, none) ∧ LITE_ERROR ≠ LITE_OK :=
  ⟨rfl, rfl, save_without_filename nul_buffer true rfl⟩

/-- Under the invariant the `length` field of every line is the number of
characters of its content. -/
theorem lengths_eq_lines {s : State} {l : List Nat} (hg : Good s l) :
    lengths s = (lines s).map (fun X => (X.length : Int)) := by
  rw [lengths_of_good hg, lines_of_good hg, List.map_map]
  apply List.map_congr_left
  intro a ha
  obtain ⟨ln, hrd, h0, h1, _⟩ := line_ok_at_iff.1 (hg.2.1 a ha)
  simp only [length_at, hrd, Function.comp, content_at, content, List.length_take]
  omega

/-- The lines before and after `buffer_insert_char`, in terms of the cursor
decomposition. -/
theorem insert_lines {s : State} {l : List Nat} {a : Nat} {ln : Line} {l1 l2 : List Nat}
    {A B : List Cell} {t : Cell} {R : List Cell} (hg : Good s l)
    (hat : At s l a ln l1 l2 A B t R) (ch : Int) (hfit : ln.length < 2147483646) :
    ∃ s', buffer_insert_char s ch true = some (LITE_OK, s') ∧ Good s' l ∧
      s'.buf = { s.buf with cursor_x := s.buf.cursor_x + 1, modified := true } ∧
      lines s' = l1.map (content_at s.heap) ++ (A ++ some (to_char ch) :: B) ::
        l2.map (content_at s.heap) := by
  obtain ⟨h', hev, hg', hpa, hfr⟩ := insert_spec hg hat ch hfit
  have hlen := hat.2.2.2.2.2.2.1
  have e1 : (ln.length + 1).toNat = (A ++ some (to_char ch) :: B).length := by
    rw [hlen]; simp; omega
  have e2 : (A ++ some (to_char ch) :: (B ++ [t])).take (ln.length + 1).toNat
      = A ++ some (to_char ch) :: B := by
    rw [e1]
    have : A ++ some (to_char ch) :: (B ++ [t]) = (A ++ some (to_char ch) :: B) ++ [t] := by
      simp
    rw [this, List.take_left]
  refine ⟨_, hev, hg', rfl, ?_⟩
  rw [lines_after_payload hat.2.2.1 (good_nodup hg) hg' hpa hfr, e2]

/-- The lines after `buffer_delete_char` with the cursor inside a line. -/
theorem delete_inline_lines {s : State} {l : List Nat} {a : Nat} {ln : Line}
    {l1 l2 : List Nat} {A' : List Cell} {x : Cell} {B : List Cell} {t : Cell} {R : List Cell}
    (hg : Good s l) (hat : At s l a ln l1 l2 (A' ++ [x]) B t R) (ok : Bool) :
    ∃ s', buffer_delete_char s ok = some (LITE_OK, s') ∧ Good s' l ∧
      s'.buf = { s.buf with cursor_x := s.buf.cursor_x - 1, modified := true } ∧
      lines s' = l1.map (content_at s.heap) ++ (A' ++ B) :: l2.map (content_at s.heap) := by
  obtain ⟨h', hev, hg', hpa, hfr⟩ := delete_inline_spec hg hat ok
  have hlen := hat.2.2.2.2.2.2.1
  have e1 : (ln.length - 1).toNat = (A' ++ B).length := by
    rw [hlen]; simp; omega
  have e2 : (A' ++ (B ++ [t]) ++ t :: R).take (ln.length - 1).toNat = A' ++ B := by
    rw [e1]
    have : A' ++ (B ++ [t]) ++ t :: R = (A' ++ B) ++ ([t] ++ t :: R) := by simp
    rw [this, List.take_left]
  refine ⟨_, hev, hg', rfl, ?_⟩
  rw [lines_after_payload hat.2.2.1 (good_nodup hg) hg' hpa hfr, e2]

/-- The lines before and after `buffer_delete_char` at column 0 of a line
that has a predecessor. -/
theorem merge_lines {s : State} {l : List Nat} {a : Nat} {ln : Line} {l1 l2 : List Nat}
    {p : Nat} {B : List Cell} {t : Cell} {R : List Cell} (hg : Good s l)
    (hat : At s l a ln (l1 ++ [p]) l2 [] B t R)
    (hfit : length_at s.heap p + ln.length < 2147483647) :
    ∃ s' P, buffer_delete_char s true = some (LITE_OK, s') ∧ Good s' (l1 ++ p :: l2) ∧
      s'.buf = { s.buf with
        current_line := some p, cursor_x := ↑P.length, cursor_y := s.buf.cursor_y - 1,
        line_count := s.buf.line_count - 1, modified := true } ∧
      lines s = l1.map (content_at s.heap) ++ P :: B :: l2.map (content_at s.heap) ∧
      lines s' = l1.map (content_at s.heap) ++ (P ++ B) :: l2.map (content_at s.heap) := by
  obtain ⟨hlines, _, _⟩ := lines_at hg hat
  obtain ⟨pl, P, tp, Rp, h', hrdp, hpd, hpl, hev, hg', hpp, hfr⟩ := merge_spec hg hat hfit
  have hl : l = l1 ++ p :: a :: l2 := by rw [hat.2.2.1]; simp
  have hnd := good_nodup hg
  rw [hl] at hnd
  obtain ⟨hp1, hp2, _, hnd2, h12⟩ := nodup_mid hnd
  have ha2 : a ∉ l2 := (List.nodup_cons.1 hnd2).1
  have hcp : content_at s.heap p = P := by
    simp only [content_at, hrdp, content, hpd, hpl]
    have : ((P.length : Nat) : Int).toNat = P.length := by simp
    rw [this, List.take_left]
  have hlines' : lines s = l1.map (content_at s.heap) ++ P :: B ::
      l2.map (content_at s.heap) := by
    rw [hlines, List.map_append, List.map_cons, List.map_nil, hcp]
    simp
  have hlen := hat.2.2.2.2.2.2.1
  have e2 : (P ++ (B ++ [t])).take (pl.length + ln.length).toNat = P ++ B := by
    have e1 : (pl.length + ln.length).toNat = (P ++ B).length := by
      rw [hpl, hlen]; simp; omega
    rw [e1, ← List.append_assoc, List.take_left]
  refine ⟨_, P, hev, hg', ?_, hlines', ?_⟩
  · rw [hpl]
  · rw [lines_mid1 hg' hpp
      (fun b hb => hfr b (fun e => hp1 (e ▸ hb))
        (fun e => h12 b hb (e ▸ List.mem_cons_self _ _)))
      (fun b hb => hfr b (fun e => hp2 (e ▸ List.mem_cons_of_mem _ hb))
        (fun e => ha2 (e ▸ hb))), e2]

/-- The lines after `buffer_new_line` when the rest of the current line is a
C string. -/
theorem new_line_lines {s : State} {l : List Nat} {a : Nat} {ln : Line} {l1 l2 : List Nat}
    {A B : List Cell} {t : Cell} {R : List Cell} (hg : Good s l)
    (hat : At s l a ln l1 l2 A B t R) (hstr : tail_is_string s = true) :
    ∃ s', buffer_new_line s true true true = some (LITE_OK, s') ∧
      Good s' (l1 ++ a :: s.heap.length :: l2) ∧
      s'.buf = { s.buf with
        current_line := some s.heap.length, cursor_x := 0, cursor_y := s.buf.cursor_y + 1,
        line_count := s.buf.line_count + 1, modified := true } ∧
      lines s' = l1.map (content_at s.heap) ++ A :: B :: l2.map (content_at s.heap) := by
  have hx := hat.2.2.2.2.2.1
  have hts := (at_tail_is_string hat).1 hstr
  obtain ⟨c1, hsp, hc1d, hc1l⟩ := split_line_eval hat.2.2.2.2.1 hat.2.2.2.2.2.2.1 hts
  rw [← hx] at hsp
  obtain ⟨h', hev, hg', hpa, hpn, hfr⟩ := new_line_spec hg hat hsp
  have hl : l = l1 ++ a :: l2 := hat.2.2.1
  have hnd := good_nodup hg
  rw [hl] at hnd
  obtain ⟨ha1, ha2, _, _, _⟩ := nodup_mid hnd
  have hlt : ∀ b ∈ l, b ≠ s.heap.length := fun b hb => by
    obtain ⟨lb, hrb, _⟩ := good_mem_ok hg hb
    have := rd_some_lt hrb
    omega
  have e1 : c1.data.take c1.length.toNat = A := by
    rw [hc1d, hc1l]
    have : ((A.length : Nat) : Int).toNat = A.length := by simp
    rw [this, List.take_left]
  have e2 : (B ++ [some 0]).take ((B.length : Int)).toNat = B := by
    have : ((B.length : Nat) : Int).toNat = B.length := by simp
    rw [this, List.take_left]
  refine ⟨_, hev, hg', rfl, ?_⟩
  rw [lines_mid2 hg' hpa hpn
      (fun b hb => hfr b (fun e => ha1 (e ▸ hb)) (hlt b (by rw [hl]; simp [hb])))
      (fun b hb => hfr b (fun e => ha2 (e ▸ hb)) (hlt b (by rw [hl]; simp [hb]))),
      e1, e2]

theorem mid_ne {α : Type} (L1 L2 : List (List α)) {X Y : List α}
    (h : X.length ≠ Y.length) :
    L1 ++ X :: L2 ≠ L1 ++ Y :: L2 := by
  intro e
  have e1 := List.append_cancel_left e
  simp only [List.cons.injEq] at e1
  exact h (by rw [e1.1])

theorem tracks_changed {s s' : State} (hne : lines s' ≠ lines s)
    (hm : s'.buf.modified = true) : tracks_mutation s s' := by
  unfold tracks_mutation
  rw [hm]
  simp [hne]

theorem tracks_same {s s' : State} (he : lines s' = lines s)
    (hm : s'.buf.modified = s.buf.modified) : tracks_mutation s s' := by
  unfold tracks_mutation
  rw [hm]
  simp [he]

/-- A successful `buffer_insert_char` changes the line sequence and sets
`modified`. -/
theorem insert_changes {s : State} {l : List Nat} (hg : Good s l) {ch : Int} {ok : Bool}
    {s' : State} (hev : buffer_insert_char s ch ok = some (LITE_OK, s')) :
    lines s' ≠ lines s ∧ s'.buf.modified = true := by
  obtain ⟨a, ln, l1, l2, A, B, t, R, hat⟩ := good_at hg
  cases ok with
  | false =>
    rw [insert_fail hg ch] at hev
    have h : some LITE_ERROR = some LITE_OK := congrArg (fun r => r.map (fun q => q.1)) hev
    exact absurd h (by decide)
  | true =>
    by_cases hfit : ln.length < 2147483646
    swap
    · rw [insert_overflow hg hat ch hfit] at hev
      exact absurd hev (by simp)
    obtain ⟨s1, hev1, _, hb, hl1⟩ := insert_lines hg hat ch hfit
    rw [hev] at hev1
    simp only [Option.some.injEq, Prod.mk.injEq, true_and] at hev1
    subst hev1
    refine ⟨?_, by rw [hb]⟩
    rw [hl1, (lines_at hg hat).1]
    exact mid_ne _ _ (by simp)

/-- A successful `buffer_delete_char` is the identity at the start of the
buffer and otherwise changes the line sequence and sets `modified`. -/
theorem delete_changes {s : State} {l : List Nat} (hg : Good s l) {ok : Bool}
    {s' : State} (hev : buffer_delete_char s ok = some (LITE_OK, s')) :
    (s.buf.cursor_x = 0 ∧ s.buf.cursor_y = 0 ∧ s' = s) ∨
    ((s.buf.cursor_x ≠ 0 ∨ s.buf.cursor_y ≠ 0) ∧ lines s' ≠ lines s ∧
      s'.buf.modified = true) := by
  obtain ⟨a, ln, l1, l2, A, B, t, R, hat⟩ := good_at hg
  have hx := hat.2.2.2.2.2.1
  have hy := hat.2.2.2.1
  rcases list_nil_or_snoc A with rfl | ⟨A', x, rfl⟩
  · rcases list_nil_or_snoc l1 with rfl | ⟨l1', p, rfl⟩
    · rw [delete_first_noop hat ok] at hev
      simp only [Option.some.injEq, Prod.mk.injEq, true_and] at hev
      exact Or.inl ⟨by simpa using hx, by simpa using hy, hev.symm⟩
    · cases ok with
      | false =>
        rw [merge_fail hg hat] at hev
        have h : some LITE_ERROR = some LITE_OK :=
          congrArg (fun r => r.map (fun q => q.1)) hev
        exact absurd h (by decide)
      | true =>
        by_cases hfit : length_at s.heap p + ln.length < 2147483647
        swap
        · rw [merge_overflow hg hat hfit] at hev
          exact absurd hev (by simp)
        obtain ⟨s1, P, hev1, _, hb, hl0, hl1⟩ := merge_lines hg hat hfit
        rw [hev] at hev1
        simp only [Option.some.injEq, Prod.mk.injEq, true_and] at hev1
        subst hev1
        refine Or.inr ⟨Or.inr ?_, ?_, by rw [hb]⟩
        · rw [hy]
          simp
          omega
        · intro e
          have := congrArg List.length e
          rw [hl0, hl1] at this
          simp at this
  · obtain ⟨s1, hev1, _, hb, hl1⟩ := delete_inline_lines hg hat ok
    rw [hev] at hev1
    simp only [Option.some.injEq, Prod.mk.injEq, true_and] at hev1
    subst hev1
    refine Or.inr ⟨Or.inl ?_, ?_, by rw [hb]⟩
    · rw [hx]
      simp
      omega
    · rw [hl1, (lines_at hg hat).1]
      exact mid_ne _ _ (by simp)

/-- A successful `buffer_new_line` changes the line sequence (it adds a
line) and sets `modified`. -/
theorem new_line_changes {s : State} {l : List Nat} (hg : Good s l) {a b c : Bool}
    {s' : State} (hev : buffer_new_line s a b c = some (LITE_OK, s')) :
    lines s' ≠ lines s ∧ s'.buf.modified = true := by
  obtain ⟨a0, ln, l1, l2, A, B, t, R, hat⟩ := good_at hg
  by_cases hab : (a && b) = false
  · rw [new_line_alloc_fail hg a b c hab] at hev
    have h : some LITE_ERROR = some LITE_OK := congrArg (fun r => r.map (fun q => q.1)) hev
    exact absurd h (by decide)
  · have ha : a = true := by cases a <;> simp_all
    have hb : b = true := by cases b <;> simp_all
    subst ha hb
    rcases new_line_cases hat c with ⟨_, hn⟩ | ⟨_, he⟩ | ⟨nl, c1, hsp⟩
    · rw [hn] at hev
      exact absurd hev (by simp)
    · rw [he] at hev
      have h : some LITE_ERROR = some LITE_OK := congrArg (fun r => r.map (fun q => q.1)) hev
      exact absurd h (by decide)
    · obtain ⟨h', hev1, hg', _⟩ := new_line_spec hg hat hsp
      rw [hev] at hev1
      simp only [Option.some.injEq, Prod.mk.injEq, true_and] at hev1
      subst hev1
      refine ⟨?_, rfl⟩
      intro e
      have := congrArg List.length e
      rw [lines_of_good hg', lines_of_good hg, hat.2.2.1] at this
      simp at this

theorem lines_frame {s s' : State} (hh : s'.heap = s.heap)
    (hf : s'.buf.first_line = s.buf.first_line) :
    line_addrs s' = line_addrs s ∧ lines s' = lines s ∧ lengths s' = lengths s := by
  have h1 : line_addrs s' = line_addrs s := by
    unfold line_addrs
    rw [hh, hf]
  refine ⟨h1, ?_, ?_⟩
  · unfold lines
    rw [h1, hh]
  · unfold lengths
    rw [h1, hh]

/-- The cursor functions keep the heap and every field of the buffer but
`current_line`, `cursor_x` and `cursor_y`. -/
theorem cursor_frame {s : State} (hi : Inv s) :
    (∀ dx dy s', buffer_move_cursor s dx dy = some s' →
      s'.heap = s.heap ∧
      s'.buf = { s.buf with current_line := s'.buf.current_line,
                            cursor_x := s'.buf.cursor_x, cursor_y := s'.buf.cursor_y }) ∧
    (∀ x y s', buffer_set_cursor s x y = some s' →
      s'.heap = s.heap ∧
      s'.buf = { s.buf with current_line := s'.buf.current_line,
                            cursor_x := s'.buf.cursor_x, cursor_y := s'.buf.cursor_y }) := by
  constructor
  · intro dx dy s' hev
    obtain ⟨s1, _, hev1, _, _, _, _, hh, hb, _⟩ := move_cursor_full s dx dy hi
    rw [hev] at hev1
    cases hev1
    exact ⟨hh, hb⟩
  · intro x y s' hev
    obtain ⟨b, r, hev1, _⟩ := set_cursor_any (linked_pos (inv_linked hi)) x y
    rw [hev] at hev1
    cases hev1
    exact ⟨rfl, rfl⟩

/-- C22. On every buffer that satisfies the invariant, each of
`buffer_insert_char`, `buffer_delete_char`, `buffer_new_line` (whenever they
return `LITE_OK`, whatever the allocation outcomes), `buffer_move_cursor`
and `buffer_set_cursor` (whenever they return) leaves `modified` equal to
(`modified` before OR the line sequence changed). A successful insert and a
successful line break change the line sequence and leave `modified = true`;
a successful delete is the identity at row 0, column 0 and otherwise
changes the line sequence and leaves `modified = true`; the cursor
functions change neither the line sequence nor `modified`. -/
theorem modified_tracks_mutation (s : State) (hi : Inv s) :
    (∀ ch ok s', buffer_insert_char s ch ok = some (LITE_OK, s') →
      tracks_mutation s s' ∧ lines s' ≠ lines s ∧ s'.buf.modified = true) ∧
    (∀ ok s', buffer_delete_char s ok = some (LITE_OK, s') →
      tracks_mutation s s' ∧
      ((s.buf.cursor_x = 0 ∧ s.buf.cursor_y = 0 ∧ s' = s) ∨
       ((s.buf.cursor_x ≠ 0 ∨ s.buf.cursor_y ≠ 0) ∧ lines s' ≠ lines s ∧
         s'.buf.modified = true))) ∧
    (∀ a b c s', buffer_new_line s a b c = some (LITE_OK, s') →
      tracks_mutation s s' ∧ lines s' ≠ lines s ∧ s'.buf.modified = true) ∧
    (∀ dx dy s', buffer_move_cursor s dx dy = some s' →
      tracks_mutation s s' ∧ lines s' = lines s ∧ s'.buf.modified = s.buf.modified) ∧
    (∀ x y s', buffer_set_cursor s x y = some s' →
      tracks_mutation s s' ∧ lines s' = lines s ∧ s'.buf.modified = s.buf.modified) := by
  have hg := inv_good hi
  refine ⟨?_, ?_, ?_, ?_, ?_⟩
  · intro ch ok s' hev
    obtain ⟨h1, h2⟩ := insert_changes hg hev
    exact ⟨tracks_changed h1 h2, h1, h2⟩
  · intro ok s' hev
    have h := delete_changes hg hev
    refine ⟨?_, h⟩
    rcases h with ⟨_, _, he⟩ | ⟨_, h1, h2⟩
    · rw [he]
      exact tracks_same rfl rfl
    · exact tracks_changed h1 h2
  · intro a b c s' hev
    obtain ⟨h1, h2⟩ := new_line_changes hg hev
    exact ⟨tracks_changed h1 h2, h1, h2⟩
  · intro dx dy s' hev
    obtain ⟨hh, hb⟩ := (cursor_frame hi).1 dx dy s' hev
    have hl := (lines_frame hh (by rw [hb])).2.1
    have hm : s'.buf.modified = s.buf.modified := by rw [hb]
    exact ⟨tracks_same hl hm, hl, hm⟩
  · intro x y s' hev
    obtain ⟨hh, hb⟩ := (cursor_frame hi).2 x y s' hev
    have hl := (lines_frame hh (by rw [hb])).2.1
    have hm : s'.buf.modified = s.buf.modified := by rw [hb]
    exact ⟨tracks_same hl hm, hl, hm⟩

theorem modified_tracks_mutation_witness :
    Inv (buffer_of [[97, 98], [99]] 0 1) ∧
    (buffer_of [[97, 98], [99]] 0 1).buf.modified = false ∧
    (buffer_insert_char (buffer_of [[97, 98], [99]] 0 1) 120 true).map
        (fun q => (q.1, lines q.2, q.2.buf.modified))
      = some (LITE_OK, [[some 97, some 98], [some 120, some 99]], true) ∧
    (buffer_delete_char (buffer_of [[97, 98], [99]] 0 1) true).map
        (fun q => (q.1, lines q.2, q.2.buf.modified))
      = some (LITE_OK, [[some 97, some 98, some 99]], true) ∧
    (buffer_delete_char (buffer_of [[97, 98], [99]] 0 0) true).map
        (fun q => (q.1, lines q.2, q.2.buf.modified))
      = some (LITE_OK, [[some 97, some 98], [some 99]], false) ∧
    (buffer_move_cursor (buffer_of [[97, 98], [99]] 0 1) 1 (-1)).map
        (fun q => (lines q, q.buf.modified))
      = some ([[some 97, some 98], [some 99]], false) ∧
    (∀ ch ok s', buffer_insert_char (buffer_of [[97, 98], [99]] 0 1) ch ok = some (LITE_OK, s') →
      tracks_mutation (buffer_of [[97, 98], [99]] 0 1) s' ∧
      lines s' ≠ lines (buffer_of [[97, 98], [99]] 0 1) ∧ s'.buf.modified = true) :=
  ⟨by decide, by decide, by decide, by decide, by decide, by decide,
    (modified_tracks_mutation (buffer_of [[97, 98], [99]] 0 1) (by decide)).1⟩

theorem split_line_fail (ln : Line) (pos : Int) (h : pos < ln.length) :
    split_line ln pos false = some none := by
  unfold split_line
  simp only [if_pos h, Bool.not_false, if_true]
  rw [if_neg (by omega)]

/-- The state `buffer_new_line` leaves when its `realloc` fails: the node
that `create_line` made is released, the buffer and every live node are as
before. -/
theorem new_line_realloc_fail {s : State} {l : List Nat} (hg : Good s l)
    (hx : s.buf.cursor_x < current_len s) :
    ∃ s', buffer_new_line s true true false = some (LITE_ERROR, s') ∧ s'.buf = s.buf ∧
      (∀ a, rd s'.heap a = rd s.heap a) ∧ Good s' l := by
  obtain ⟨a, ln, l1, l2, A, B, t, R, hat⟩ := good_at hg
  have hcl : current_len s = ln.length := by
    simp [current_len, hat.1, length_at, hat.2.1]
  rw [hcl] at hx
  have hsp := split_line_fail ln s.buf.cursor_x hx
  have hrd : ∀ b, rd (free_line (s.heap ++
      [some { data := [some 0], length := 0, prev := none, next := none }]) s.heap.length) b
      = rd s.heap b := by
    intro b
    by_cases hb : b = s.heap.length
    · subst hb
      rw [rd_free_same]
      cases e : rd s.heap s.heap.length with
      | none => rfl
      | some x => exact absurd (rd_some_lt e) (lt_irrefl _)
    · rw [rd_free_ne (Ne.symm hb)]
      exact rd_append_ne _ hb
  rcases new_line_cases hat false with ⟨h1, _⟩ | ⟨_, he⟩ | ⟨nl, c1, h3⟩
  · rw [hsp] at h1
    exact absurd h1 (by simp)
  · exact ⟨_, he, rfl, hrd, good_heap_frame hg _ (fun b _ => hrd b)⟩
  · rw [hsp] at h3
    exact absurd h3 (by simp)

/-- C23. On every buffer that satisfies the invariant, a failed allocation
makes each editing function return `LITE_ERROR` with the buffer as before:
(1) `buffer_insert_char` whose `realloc` fails, and (2) `buffer_delete_char`
at column 0 of a line that is not the first, whose `realloc` fails, return
the identical state; (3) `buffer_new_line` whose `create_line` fails (either
`malloc`) returns the identical state; (4) `buffer_new_line` whose `realloc`
fails (the cursor is before the end of the line) leaves the `Buffer` struct
and every live `Line` node identical, hence the same lines, lengths, links,
`line_count`, cursor, `current_line` and `modified`, the node made by
`create_line` being released. -/
theorem edit_alloc_failure_atomic (s : State) (hi : Inv s) :
    (∀ ch, buffer_insert_char s ch false = some (LITE_ERROR, s)) ∧
    (s.buf.cursor_x = 0 → 0 < s.buf.cursor_y →
      buffer_delete_char s false = some (LITE_ERROR, s)) ∧
    (∀ a b c, (a && b) = false → buffer_new_line s a b c = some (LITE_ERROR, s)) ∧
    (s.buf.cursor_x < current_len s →
      ∃ s', buffer_new_line s true true false = some (LITE_ERROR, s') ∧ s'.buf = s.buf ∧
        (∀ a, rd s'.heap a = rd s.heap a) ∧ line_addrs s' = line_addrs s ∧
        lines s' = lines s ∧ lengths s' = lengths s ∧ Inv s') ∧
    LITE_ERROR ≠ LITE_OK := by
  have hg := inv_good hi
  refine ⟨fun ch => insert_fail hg ch, ?_, fun a b c h => new_line_alloc_fail hg a b c h, ?_,
    by decide⟩
  · intro hx hy
    obtain ⟨a, ln, l1, l2, A, B, t, R, hat⟩ := good_at hg
    have hA : A = [] := by
      apply List.length_eq_zero.1
      have := hat.2.2.2.2.2.1
      omega
    subst hA
    rcases list_nil_or_snoc l1 with rfl | ⟨l1', p, rfl⟩
    · have := hat.2.2.2.1
      simp at this
      omega
    · exact merge_fail hg hat
  · intro hx
    obtain ⟨s', hev, hb, hrd, hg'⟩ := new_line_realloc_fail hg hx
    have hla : line_addrs s' = line_addrs s := seg_line_addrs hg'.1
    refine ⟨s', hev, hb, hrd, hla, ?_, ?_, good_inv hg'⟩
    · unfold lines
      rw [hla]
      apply List.map_congr_left
      intro a _
      simp only [content_at, hrd a]
    · unfold lengths
      rw [hla]
      apply List.map_congr_left
      intro a _
      simp only [length_at, hrd a]

theorem edit_alloc_failure_atomic_witness :
    Inv (buffer_of [[97, 98], [99, 100]] 0 1) ∧
    (∀ ch, buffer_insert_char (buffer_of [[97, 98], [99, 100]] 0 1) ch false
      = some (LITE_ERROR, buffer_of [[97, 98], [99, 100]] 0 1)) ∧
    buffer_delete_char (buffer_of [[97, 98], [99, 100]] 0 1) false
      = some (LITE_ERROR, buffer_of [[97, 98], [99, 100]] 0 1) ∧
    (buffer_new_line (buffer_of [[97, 98], [99, 100]] 0 1) true true false).map
        (fun q => (q.1, lines q.2, q.2.buf))
      = some (LITE_ERROR, [[some 97, some 98], [some 99, some 100]],
          (buffer_of [[97, 98], [99, 100]] 0 1).buf) :=
  ⟨by decide,
    (edit_alloc_failure_atomic (buffer_of [[97, 98], [99, 100]] 0 1) (by decide)).1,
    by decide, by decide⟩

/-- C24. Every buffer returned by a successful `buffer_create` (whatever the
value of the static counter) has exactly one line, of length 0 and empty
content, `current_line = first_line` (not `NULL`), `line_count = 1`,
`cursor_x = cursor_y = 0`, `scroll_x = scroll_y = 0`, `modified = false` and
no filename; its id is the value of the counter, and it satisfies the
invariant. -/
theorem create_gives_empty_buffer (next_id : Int) (a b c : Bool) (s : State)
    (hc : (buffer_create next_id a b c).1 = some s) :
    node_count s = 1 ∧ lines s = [[]] ∧ lengths s = [0] ∧
    s.buf.current_line = s.buf.first_line ∧ s.buf.first_line ≠ none ∧
    s.buf.line_count = 1 ∧ s.buf.cursor_x = 0 ∧ s.buf.cursor_y = 0 ∧
    s.buf.scroll_x = 0 ∧ s.buf.scroll_y = 0 ∧ s.buf.modified = false ∧
    s.buf.filename = none ∧ s.buf.id = next_id ∧ Inv s ∧ AllStrings s := by
  have h := create_fresh hc
  subst h
  refine ⟨rfl, rfl, rfl, rfl, by simp [fresh_buffer], rfl, rfl, rfl, rfl, rfl, rfl, rfl, rfl,
    good_inv (good_fresh next_id), ?_⟩
  intro x hx
  exact str_fresh next_id x hx

theorem create_gives_empty_buffer_witness :
    (buffer_create 7 true true true).1 = some (fresh_buffer 7) ∧
    node_count (fresh_buffer 7) = 1 ∧ lines (fresh_buffer 7) = [[]] ∧
    lengths (fresh_buffer 7) = [0] ∧
    (fresh_buffer 7).buf.current_line = (fresh_buffer 7).buf.first_line ∧
    (fresh_buffer 7).buf.first_line ≠ none ∧
    (fresh_buffer 7).buf.line_count = 1 ∧ (fresh_buffer 7).buf.cursor_x = 0 ∧
    (fresh_buffer 7).buf.cursor_y = 0 ∧
    (fresh_buffer 7).buf.scroll_x = 0 ∧ (fresh_buffer 7).buf.scroll_y = 0 ∧
    (fresh_buffer 7).buf.modified = false ∧
    (fresh_buffer 7).buf.filename = none ∧ (fresh_buffer 7).buf.id = 7 ∧
    Inv (fresh_buffer 7) ∧ AllStrings (fresh_buffer 7) :=
  ⟨rfl, create_gives_empty_buffer 7 true true true (fresh_buffer 7) rfl⟩

theorem create_step (c : Int) (o : Bool × Bool × Bool) :
    (buffer_create c o.1 o.2.1 o.2.2).2 = (if o.1 then wrap32 (c + 1) else c) ∧
    (buffer_create c o.1 o.2.1 o.2.2).1.map (fun s => s.buf.id)
      = (if o.1 && o.2.1 && o.2.2 then some c else none) := by
  obtain ⟨a, b, d⟩ := o
  cases a <;> cases b <;> cases d <;> exact ⟨rfl, rfl⟩

theorem create_all_append (c : Int) (os1 os2 : List (Bool × Bool × Bool)) :
    create_all c (os1 ++ os2)
      = ((create_all c os1).1 ++ (create_all (create_all c os1).2 os2).1,
         (create_all (create_all c os1).2 os2).2) := by
  induction os1 generalizing c with
  | nil => rfl
  | cons o os ih =>
    show create_all c (o :: (os ++ os2)) = _
    simp only [create_all]
    rw [ih]
    rfl

theorem created_ids_append (c : Int) (os1 os2 : List (Bool × Bool × Bool)) :
    created_ids c (os1 ++ os2)
      = created_ids c os1 ++ created_ids (create_all c os1).2 os2 := by
  unfold created_ids
  rw [create_all_append, List.filterMap_append]

theorem created_ids_cons (c : Int) (o : Bool × Bool × Bool) (os : List (Bool × Bool × Bool)) :
    created_ids c (o :: os)
      = (if o.1 && o.2.1 && o.2.2 then [c] else [])
        ++ created_ids (if o.1 then wrap32 (c + 1) else c) os := by
  obtain ⟨a, b, d⟩ := o
  cases a <;> cases b <;> cases d <;> rfl

/-- A sequence of `buffer_create` calls that cannot exhaust the counter: the
counter advances by one per call whose `Buffer` was allocated, and the ids
of the buffers created increase strictly. -/
theorem create_all_spec : ∀ (os : List (Bool × Bool × Bool)) (c : Int),
    1 ≤ c → c + os.length ≤ 2147483647 →
    (create_all c os).2 = c + ↑(os.countP (fun o => o.1)) ∧
    (created_ids c os).Pairwise (fun i j => i < j) ∧
    ∀ i ∈ created_ids c os, c ≤ i ∧ i < c + ↑(os.countP (fun o => o.1)) := by
  intro os
  induction os with
  | nil =>
    intro c _ _
    exact ⟨by simp [create_all], List.Pairwise.nil, fun i hi => by simp [created_ids, create_all] at hi⟩
  | cons o os ih =>
    intro c h1 h2
    obtain ⟨a, b, d⟩ := o
    have hlen : (((a, b, d) :: os).length : Int) = os.length + 1 := by simp
    have hw : wrap32 (c + 1) = c + 1 := wrap32_id (by omega) (by omega)
    have hcle := List.countP_le_length (fun o : Bool × Bool × Bool => o.1) (l := os)
    rw [created_ids_cons]
    cases a with
    | true =>
      have hcnt : ((((true, b, d) :: os).countP (fun o => o.1) : Nat) : Int)
          = os.countP (fun o => o.1) + 1 := by
        rw [List.countP_cons]
        simp
      obtain ⟨k1, k2, k3⟩ := ih (c + 1) (by omega) (by omega)
      simp only [if_true, Bool.true_and, hw]
      refine ⟨?_, ?_, ?_⟩
      · show (create_all (buffer_create c true b d).2 os).2 = _
        rw [(create_step c (true, b, d)).1]
        simp only [if_true, hw]
        rw [k1, hcnt]
        omega
      · by_cases hb : (b && d) = true
        · simp only [hb, if_true, List.singleton_append]
          refine List.Pairwise.cons ?_ k2
          intro j hj
          have := (k3 j hj).1
          omega
        · simp only [hb, Bool.false_eq_true, if_false, List.nil_append]
          exact k2
      · intro i hi
        rw [hcnt]
        rcases List.mem_append.1 hi with hi | hi
        · have : i = c := by
            by_cases hb : (b && d) = true
            · simpa [hb] using hi
            · simp [hb] at hi
          omega
        · have := k3 i hi
          omega
    | false =>
      have hcnt : ((((false, b, d) :: os).countP (fun o => o.1) : Nat) : Int)
          = os.countP (fun o => o.1) := by
        rw [List.countP_cons]
        simp
      obtain ⟨k1, k2, k3⟩ := ih c h1 (by omega)
      simp only [Bool.false_eq_true, if_false, Bool.false_and, List.nil_append]
      refine ⟨?_, k2, ?_⟩
      · show (create_all (buffer_create c false b d).2 os).2 = _
        rw [(create_step c (false, b, d)).1]
        simp only [Bool.false_eq_true, if_false]
        rw [k1, hcnt]
      · intro i hi
        rw [hcnt]
        exact k3 i hi

theorem create_all_length (c : Int) (os : List (Bool × Bool × Bool)) :
    (create_all c os).1.length = os.length := by
  induction os generalizing c with
  | nil => rfl
  | cons o os ih => simp only [create_all, List.length_cons, ih]

theorem countP_replicate_ok (n : Nat) :
    (List.replicate n ((true, true, true) : Bool × Bool × Bool)).countP (fun o => o.1) = n := by
  induction n with
  | zero => rfl
  | succ n ih => rw [List.replicate_succ, List.countP_cons, ih]; simp

/-- C25 fails as stated. (a) A call whose `Buffer` is allocated and whose
`create_line` fails has used id 1 (`buffer->id = next_buffer_id++` comes
first), so the first buffer created successfully after it has id 2.
(b) After 2147483646 successful calls the counter is `INT_MAX`: the next
buffer gets id 2147483647, its increment overflows `int`, and with the
wrapped counter the buffer after it gets id -2147483648, smaller than every
id given before. -/
theorem buffer_id_counterexample :
    created_ids 1 [(true, false, true), (true, true, true)] = [2] ∧
    created_ids 1 (List.replicate 2147483646 (true, true, true)
        ++ [(true, true, true), (true, true, true)])
      = created_ids 1 (List.replicate 2147483646 (true, true, true))
        ++ [2147483647, -2147483648] ∧
    (∀ i ∈ created_ids 1 (List.replicate 2147483646 (true, true, true)), 1 ≤ i) := by
  have hspec := create_all_spec (List.replicate 2147483646 (true, true, true)) 1 (le_refl _)
    (by rw [List.length_replicate]; decide)
  rw [countP_replicate_ok] at hspec
  refine ⟨by decide, ?_, fun i hi => (hspec.2.2 i hi).1⟩
  rw [created_ids_append, hspec.1]
  have h2 : created_ids (1 + ((2147483646 : Nat) : Int))
      [(true, true, true), (true, true, true)] = [2147483647, -2147483648] := by decide
  rw [h2]

/-- C25, amended. In any sequence of at most 2147483646 `buffer_create`
calls (any allocation outcomes, the static counter starting at 1), the ids
of the buffers created successfully increase strictly in order of creation,
so no two of them share an id; every id is at least 1; and the buffer
created by a call has id 1 + the number of earlier calls whose `Buffer`
struct was allocated (an id is used even when `create_line` then fails), so
the first one has id 1 when no earlier call failed after that allocation. -/
theorem buffer_ids_increase (os : List (Bool × Bool × Bool))
    (hlen : os.length ≤ 2147483646) :
    (created_ids 1 os).Pairwise (fun i j => i < j) ∧ (created_ids 1 os).Nodup ∧
    (∀ i ∈ created_ids 1 os, 1 ≤ i ∧ i ≤ ↑(os.countP (fun o => o.1))) ∧
    (∀ os1 o os2 s, os = os1 ++ o :: os2 →
      (create_all 1 os).1[os1.length]? = some (some s) →
      s.buf.id = 1 + ↑(os1.countP (fun o => o.1))) := by
  obtain ⟨_, k2, k3⟩ := create_all_spec os 1 (le_refl _) (by omega)
  refine ⟨k2, ?_, ?_, ?_⟩
  · exact List.Pairwise.imp (fun h => ne_of_lt h) k2
  · intro i hi
    have := k3 i hi
    omega
  · intro os1 o os2 s hos hget
    have hl1 : os1.length ≤ 2147483646 := by
      rw [hos] at hlen
      simp at hlen
      omega
    obtain ⟨c1, _, _⟩ := create_all_spec os1 1 (le_refl _) (by omega)
    rw [hos, create_all_append] at hget
    simp only at hget
    rw [List.getElem?_append_right (by rw [create_all_length]), create_all_length,
      Nat.sub_self, c1] at hget
    simp only [create_all, List.getElem?_cons_zero, Option.some.injEq] at hget
    have := create_fresh hget
    rw [this]
    rfl

theorem buffer_ids_increase_witness :
    [(true, true, true), (true, false, false), (false, true, true),
      (true, true, true)].length ≤ 2147483646 ∧
    created_ids 1 [(true, true, true), (true, false, false), (false, true, true),
      (true, true, true)] = [1, 3] ∧
    (created_ids 1 [(true, true, true), (true, false, false), (false, true, true),
      (true, true, true)]).Pairwise (fun i j => i < j) :=
  ⟨by decide, by decide,
    (buffer_ids_increase [(true, true, true), (true, false, false), (false, true, true),
      (true, true, true)] (by decide)).1⟩

/-- What `buffer_move_cursor(dx, 0)` does on a buffer that satisfies the
invariant, in terms of the 32-bit sum `wrap32 (cursor_x + dx)`. -/
theorem move_horizontal {s : State} (hi : Inv s) (dx : Int) :
    ∃ s', buffer_move_cursor s dx 0 = some s' ∧
      s'.buf.cursor_x = min (max (wrap32 (s.buf.cursor_x + dx)) 0) (current_len s) ∧
      s'.buf.cursor_y = s.buf.cursor_y ∧ s'.buf.current_line = s.buf.current_line ∧
      s'.heap = s.heap ∧ Inv s' := by
  obtain ⟨s', len, hev, hy, hcur, hlen, hx, hh, _, hinv⟩ := move_cursor_full s dx 0 hi
  have hg := inv_good hi
  have hrow := pos_row (good_pos hg)
  have hn : ((line_addrs s).length : Int) = ↑(node_count s) := rfl
  have hy' : s'.buf.cursor_y = s.buf.cursor_y := by
    rw [hy]
    omega
  rw [hy'] at hcur hlen
  have hc : s'.buf.current_line = s.buf.current_line := by
    rw [hcur]
    exact hg.2.2.2.2.2.1
  obtain ⟨a, ln, ha, hrd, _, _, _, hidx⟩ := good_cursor hg
  have hl : len = current_len s := by
    unfold lengths at hlen
    rw [List.getElem?_map, hidx] at hlen
    simp only [Option.map_some', Option.some.injEq] at hlen
    rw [← hlen]
    simp [current_len, ha]
  rw [hl] at hx
  exact ⟨s', hev, hx, hy', hc, hh, hinv⟩

/-- C26. On every buffer that satisfies the invariant, `buffer_move_cursor(dx, 0)`
keeps the row and the current line and, for `dx ≥ 0` with `cursor_x + dx`
representable as a 32-bit `int`, ends with
`cursor_x = min(cursor_x + dx, length)`, so the column does not decrease;
for `INT_MIN ≤ dx ≤ 0` (and `cursor_x` an `int`) it ends with
`cursor_x = max(cursor_x + dx, 0)`. When `cursor_x + dx` overflows the claim
fails: on the one-line buffer `"ab"` with the cursor at column 2,
`buffer_move_cursor(2147483647, 0)` leaves the cursor at column 0, where the
claim gives `min(2 + 2147483647, 2) = 2`. -/
theorem move_right_clamps_unless_overflow :
    (∀ (s : State) (dx : Int), Inv s → 0 ≤ dx → s.buf.cursor_x + dx < 2147483648 →
      ∃ s', buffer_move_cursor s dx 0 = some s' ∧
        s'.buf.cursor_x = min (s.buf.cursor_x + dx) (current_len s) ∧
        s.buf.cursor_x ≤ s'.buf.cursor_x ∧
        s'.buf.cursor_y = s.buf.cursor_y ∧ s'.buf.current_line = s.buf.current_line) ∧
    (∀ (s : State) (dx : Int), Inv s → dx ≤ 0 → -2147483648 ≤ dx →
      s.buf.cursor_x < 2147483648 →
      ∃ s', buffer_move_cursor s dx 0 = some s' ∧
        s'.buf.cursor_x = max (s.buf.cursor_x + dx) 0 ∧
        s'.buf.cursor_y = s.buf.cursor_y ∧ s'.buf.current_line = s.buf.current_line) ∧
    (Inv (buffer_of [[97, 98]] 2 0) ∧ current_len (buffer_of [[97, 98]] 2 0) = 2 ∧
      (buffer_move_cursor (buffer_of [[97, 98]] 2 0) 2147483647 0).map
          (fun q => (q.buf.cursor_y, q.buf.cursor_x)) = some (0, 0) ∧
      min ((buffer_of [[97, 98]] 2 0).buf.cursor_x + 2147483647)
          (current_len (buffer_of [[97, 98]] 2 0)) = 2) := by
  refine ⟨?_, ?_, by decide, by decide, by decide, by decide⟩
  · intro s dx hi h0 h1
    obtain ⟨s', hev, hx, hy, hc, _, _⟩ := move_horizontal hi dx
    have hx0 := hi.2.2.2.2.2.2.1
    have hx1 := hi.2.2.2.2.2.2.2
    rw [wrap32_id (by omega) h1] at hx
    refine ⟨s', hev, ?_, ?_, hy, hc⟩
    · rw [hx]
      omega
    · rw [hx]
      omega
  · intro s dx hi h0 h1 h2
    obtain ⟨s', hev, hx, hy, hc, _, _⟩ := move_horizontal hi dx
    have hx0 := hi.2.2.2.2.2.2.1
    have hx1 := hi.2.2.2.2.2.2.2
    rw [wrap32_id (by omega) (by omega)] at hx
    refine ⟨s', hev, ?_, hy, hc⟩
    rw [hx]
    omega

theorem intercalate_head {α : Type} (sep X : List α) (L2 : List (List α)) :
    List.intercalate sep (X :: L2) = X ++ (L2.map (fun Y => sep ++ Y)).flatten := by
  induction L2 generalizing X with
  | nil => simp [List.intercalate]
  | cons Y L2 ih =>
    have h : List.intercalate sep (X :: Y :: L2) = X ++ sep ++ List.intercalate sep (Y :: L2) := by
      simp [List.intercalate, List.intersperse]
    rw [h, ih]
    simp

theorem intercalate_mid {α : Type} (sep : List α) (L1 : List (List α)) (X : List α)
    (L2 : List (List α)) :
    List.intercalate sep (L1 ++ X :: L2)
      = (L1.map (fun Y => Y ++ sep)).flatten ++ X ++ (L2.map (fun Y => sep ++ Y)).flatten := by
  induction L1 with
  | nil => simpa using intercalate_head sep X L2
  | cons Y L1 ih =>
    have h : List.intercalate sep (Y :: (L1 ++ X :: L2))
        = Y ++ sep ++ List.intercalate sep (L1 ++ X :: L2) := by
      cases L1 with
      | nil => simp [List.intercalate, List.intersperse]
      | cons Z L1 => simp [List.intercalate, List.intersperse]
    rw [List.cons_append, h, ih]
    simp

theorem sum_pre (L1 : List (List Cell)) :
    ((L1.map (fun X => (X.length : Int))).map (fun n : Int => n + 1)).sum
      = (((L1.map (fun Y => Y ++ [some 10])).flatten).length : Int) := by
  induction L1 with
  | nil => rfl
  | cons Y L1 ih =>
    simp only [List.map_cons, List.sum_cons, ih, List.flatten_cons, List.length_append,
      List.length_singleton]
    push_cast
    ring

/-- The flat text and the offset of a buffer whose cursor is on the line `X`
between the lines `L1` and `L2`. -/
theorem text_off {s : State} {l : List Nat} (hg : Good s l) {L1 L2 : List (List Cell)}
    {X : List Cell} (hl : lines s = L1 ++ X :: L2) (hy : s.buf.cursor_y = ↑L1.length) :
    text s = (L1.map (fun Y => Y ++ [some 10])).flatten ++ X
        ++ (L2.map (fun Y => [some 10] ++ Y)).flatten ∧
    off s = ↑((L1.map (fun Y => Y ++ [some 10])).flatten).length + s.buf.cursor_x := by
  constructor
  · unfold text
    rw [hl, intercalate_mid]
  · unfold off
    rw [lengths_eq_lines hg, hl, hy]
    have : ((L1.length : Nat) : Int).toNat = L1.length := by simp
    rw [this, List.map_append, List.take_left' (by simp), sum_pre]

theorem text_insert_at {U V : List Cell} {k : Int} (hk : k = ↑U.length) (c : Cell) :
    text_insert (U ++ V) k c = U ++ c :: V := by
  have : k.toNat = U.length := by omega
  unfold text_insert
  rw [this, List.take_left, List.drop_left]

theorem text_delete_at {U V : List Cell} {k : Int} (hk : k = ↑U.length) (x : Cell) :
    text_delete (U ++ x :: V) k = U ++ V := by
  have : k.toNat = U.length := by omega
  unfold text_delete
  rw [this, List.take_left]
  have e : U ++ x :: V = (U ++ [x]) ++ V := by simp
  have e2 : U.length + 1 = (U ++ [x]).length := by simp
  rw [e, e2, List.drop_left]

theorem pre_snoc (L : List (List Cell)) (P : List Cell) :
    ((L ++ [P]).map (fun Y => Y ++ [some 10])).flatten
      = (L.map (fun Y => Y ++ [some 10])).flatten ++ P ++ [some 10] := by
  simp

/-- The cursor decomposition in terms of the flat text. -/
theorem at_text {s : State} {l : List Nat} {a : Nat} {ln : Line} {l1 l2 : List Nat}
    {A B : List Cell} {t : Cell} {R : List Cell} (hg : Good s l)
    (hat : At s l a ln l1 l2 A B t R) :
    text s = ((l1.map (content_at s.heap)).map (fun Y => Y ++ [some 10])).flatten ++ (A ++ B)
        ++ ((l2.map (content_at s.heap)).map (fun Y => [some 10] ++ Y)).flatten ∧
    off s = ↑(((l1.map (content_at s.heap)).map (fun Y => Y ++ [some 10])).flatten).length
        + ↑A.length := by
  obtain ⟨hlines, _, _⟩ := lines_at hg hat
  have hy : s.buf.cursor_y = ↑(l1.map (content_at s.heap)).length := by
    rw [List.length_map]
    exact hat.2.2.2.1
  obtain ⟨h1, h2⟩ := text_off hg hlines hy
  rw [hat.2.2.2.2.2.1] at h2
  exact ⟨h1, h2⟩

theorem refine_insert {s : State} {l : List Nat} (hg : Good s l) (ch : Int)
    (hfit : current_len s < 2147483646) :
    ∃ s', buffer_insert_char s ch true = some (LITE_OK, s') ∧
      text s' = text_insert (text s) (off s) (some (to_char ch)) ∧ off s' = off s + 1 := by
  obtain ⟨a, ln, l1, l2, A, B, t, R, hat⟩ := good_at hg
  obtain ⟨ht, ho⟩ := at_text hg hat
  rw [current_len_of_at hat] at hfit
  obtain ⟨s', hev, hg', hb, hl'⟩ := insert_lines hg hat ch hfit
  have hy' : s'.buf.cursor_y = ↑(l1.map (content_at s.heap)).length := by
    rw [hb, List.length_map]
    exact hat.2.2.2.1
  obtain ⟨ht', ho'⟩ := text_off hg' hl' hy'
  have hx' : s'.buf.cursor_x = ↑A.length + 1 := by
    rw [hb]
    show s.buf.cursor_x + 1 = _
    rw [hat.2.2.2.2.2.1]
  refine ⟨s', hev, ?_, ?_⟩
  · rw [ht', ht]
    have e : ((l1.map (content_at s.heap)).map (fun Y => Y ++ [some 10])).flatten ++ (A ++ B)
        ++ ((l2.map (content_at s.heap)).map (fun Y => [some 10] ++ Y)).flatten
        = (((l1.map (content_at s.heap)).map (fun Y => Y ++ [some 10])).flatten ++ A)
          ++ (B ++ ((l2.map (content_at s.heap)).map (fun Y => [some 10] ++ Y)).flatten) := by
      simp
    rw [e, text_insert_at (by rw [ho]; simp)]
    simp
  · rw [ho', ho, hx']
    omega

theorem refine_new_line {s : State} {l : List Nat} (hg : Good s l)
    (hstr : tail_is_string s = true) :
    ∃ s', buffer_new_line s true true true = some (LITE_OK, s') ∧
      text s' = text_insert (text s) (off s) (some 10) ∧ off s' = off s + 1 := by
  obtain ⟨a, ln, l1, l2, A, B, t, R, hat⟩ := good_at hg
  obtain ⟨ht, ho⟩ := at_text hg hat
  obtain ⟨s', hev, hg', hb, hl'⟩ := new_line_lines hg hat hstr
  have hl2 : lines s' = (l1.map (content_at s.heap) ++ [A]) ++ B :: l2.map (content_at s.heap) := by
    rw [hl']
    simp
  have hy' : s'.buf.cursor_y = ↑(l1.map (content_at s.heap) ++ [A]).length := by
    rw [hb]
    show s.buf.cursor_y + 1 = _
    rw [hat.2.2.2.1]
    simp
  obtain ⟨ht', ho'⟩ := text_off hg' hl2 hy'
  have hx' : s'.buf.cursor_x = 0 := by rw [hb]
  refine ⟨s', hev, ?_, ?_⟩
  · rw [ht', ht]
    have e : ((l1.map (content_at s.heap)).map (fun Y => Y ++ [some 10])).flatten ++ (A ++ B)
        ++ ((l2.map (content_at s.heap)).map (fun Y => [some 10] ++ Y)).flatten
        = (((l1.map (content_at s.heap)).map (fun Y => Y ++ [some 10])).flatten ++ A)
          ++ (B ++ ((l2.map (content_at s.heap)).map (fun Y => [some 10] ++ Y)).flatten) := by
      simp
    rw [e, text_insert_at (by rw [ho]; simp)]
    simp
  · rw [ho', ho, hx']
    simp
    omega

theorem refine_delete {s : State} {l : List Nat} (hg : Good s l) :
    (0 < off s → (s.buf.cursor_x = 0 → prev_len s + current_len s < 2147483647) →
      ∃ s', buffer_delete_char s true = some (LITE_OK, s') ∧
        text s' = text_delete (text s) (off s - 1) ∧ off s' = off s - 1) ∧
    (off s = 0 → ∀ ok, buffer_delete_char s ok = some (LITE_OK, s)) := by
  obtain ⟨a, ln, l1, l2, A, B, t, R, hat⟩ := good_at hg
  obtain ⟨ht, ho⟩ := at_text hg hat
  rcases list_nil_or_snoc A with rfl | ⟨A', x, rfl⟩
  · rcases list_nil_or_snoc l1 with rfl | ⟨l1', p, rfl⟩
    · refine ⟨fun h _ => ?_, fun _ ok => delete_first_noop hat ok⟩
      rw [ho] at h
      simp at h
    · refine ⟨fun _ hfit => ?_, fun h => ?_⟩
      · have hfit' : length_at s.heap p + ln.length < 2147483647 := by
          have := hfit (by rw [hat.2.2.2.2.2.1]; rfl)
          rwa [prev_len_at hat, current_len_of_at hat] at this
        obtain ⟨s', P, hev, hg', hb, hl0, hl'⟩ := merge_lines hg hat hfit'
        have hy0 : s.buf.cursor_y = ↑(l1'.map (content_at s.heap) ++ [P]).length := by
          rw [hat.2.2.2.1]
          simp
        have hl0' : lines s = (l1'.map (content_at s.heap) ++ [P]) ++ B ::
            l2.map (content_at s.heap) := by
          rw [hl0]
          simp
        obtain ⟨ht0, ho0⟩ := text_off hg hl0' hy0
        rw [pre_snoc] at ht0 ho0
        have hy' : s'.buf.cursor_y = ↑(l1'.map (content_at s.heap)).length := by
          rw [hb]
          show s.buf.cursor_y - 1 = _
          rw [hat.2.2.2.1]
          simp
        obtain ⟨ht', ho'⟩ := text_off hg' hl' hy'
        have hx' : s'.buf.cursor_x = ↑P.length := by rw [hb]
        have hx0 : s.buf.cursor_x = 0 := by
          rw [hat.2.2.2.2.2.1]
          rfl
        rw [hx0] at ho0
        simp only [List.length_append, List.length_singleton, Nat.cast_add, Nat.cast_one]
          at ho0
        refine ⟨s', hev, ?_, ?_⟩
        · rw [ht', ht0]
          have e : ((l1'.map (content_at s.heap)).map (fun Y => Y ++ [some 10])).flatten
              ++ P ++ [some 10] ++ B
              ++ ((l2.map (content_at s.heap)).map (fun Y => [some 10] ++ Y)).flatten
              = (((l1'.map (content_at s.heap)).map (fun Y => Y ++ [some 10])).flatten ++ P)
                ++ some 10 :: (B ++
                  ((l2.map (content_at s.heap)).map (fun Y => [some 10] ++ Y)).flatten) := by
            simp
          rw [e, text_delete_at (by rw [ho0, List.length_append]; push_cast; omega)]
          simp
        · rw [ho', ho0, hx']
          omega
      · have hp : (l1' ++ [p]).map (content_at s.heap)
            = l1'.map (content_at s.heap) ++ [content_at s.heap p] := by simp
        rw [ho, hp, pre_snoc] at h
        simp only [List.length_append, List.length_singleton, List.length_nil, Nat.cast_add,
          Nat.cast_one, Nat.cast_zero] at h
        omega
  · refine ⟨fun _ _ => ?_, fun h => ?_⟩
    · obtain ⟨s', hev, hg', hb, hl'⟩ := delete_inline_lines hg hat true
      have hy' : s'.buf.cursor_y = ↑(l1.map (content_at s.heap)).length := by
        rw [hb, List.length_map]
        exact hat.2.2.2.1
      obtain ⟨ht', ho'⟩ := text_off hg' hl' hy'
      have hx' : s'.buf.cursor_x = ↑A'.length := by
        rw [hb]
        show s.buf.cursor_x - 1 = _
        rw [hat.2.2.2.2.2.1]
        simp
      refine ⟨s', hev, ?_, ?_⟩
      · rw [ht', ht]
        have e : ((l1.map (content_at s.heap)).map (fun Y => Y ++ [some 10])).flatten
            ++ (A' ++ [x] ++ B)
            ++ ((l2.map (content_at s.heap)).map (fun Y => [some 10] ++ Y)).flatten
            = (((l1.map (content_at s.heap)).map (fun Y => Y ++ [some 10])).flatten ++ A')
              ++ x :: (B ++
                ((l2.map (content_at s.heap)).map (fun Y => [some 10] ++ Y)).flatten) := by
          simp
        rw [e, text_delete_at (by
          rw [ho]
          simp only [List.length_append, List.length_singleton]
          push_cast
          omega)]
        simp
      · rw [ho', ho, hx']
        simp only [List.length_append, List.length_singleton]
        push_cast
        omega
    · rw [ho] at h
      simp only [List.length_append, List.length_singleton, Nat.cast_add, Nat.cast_one] at h
      omega

theorem off_bounds {s : State} {l : List Nat} (hg : Good s l) :
    0 ≤ off s ∧ off s ≤ ↑(text s).length := by
  obtain ⟨a, ln, l1, l2, A, B, t, R, hat⟩ := good_at hg
  obtain ⟨ht, ho⟩ := at_text hg hat
  rw [ht, ho]
  simp only [List.length_append]
  push_cast
  omega

/-- The lines `file_load` builds from a file of `'\n'`-terminated records of
safe byte strings are those strings. -/
theorem loaded_lines_safe (Ts : List (List Nat)) (hne : Ts ≠ [])
    (hsafe : ∀ T ∈ Ts, bytes_safe T) : loaded_lines (file_of Ts) = Ts := by
  have hX : ∀ X ∈ Ts, 10 ∉ X ∧ X.length + 2 ≤ LITE_MAX_LINE_LENGTH :=
    fun X hX => ⟨(hsafe X hX).1, (hsafe X hX).2.2.2⟩
  have hfne : file_of Ts ++ [] ≠ [] := by
    cases Ts with
    | nil => exact absurd rfl hne
    | cons T Ts => simp [file_of]
  have h := loaded_lines_phys Ts [] hX (by simp) (by simp [LITE_MAX_LINE_LENGTH]) hfne
  rw [List.append_nil] at h
  rw [h]
  simp only [if_true, List.append_nil, List.map_map]
  conv_rhs => rw [← List.map_id Ts]
  apply List.map_congr_left
  intro T hT
  exact (load_step (hsafe T hT) []).2

/-- C30. For every well-linked buffer with a filename whose lines are C
strings of exactly `length` characters (no NUL among them, terminator in
place) that contain no `'\n'`, do not end in `'\r'` and are at most 1022
characters long, `file_save` writes a file, and `file_load` of the written
bytes into any well-linked buffer (allocations succeeding) returns `LITE_OK`
with exactly the same sequence of line contents, the same `length` fields
and the same `line_count`. -/
theorem conditional_roundtrip (s t : State) (hl : Linked s) (hname : s.buf.filename ≠ none)
    (hstr : AllStrings s) (hsafe : ∀ S ∈ lines s, line_safe S = true) (ht : Linked t) :
    ∃ s1 bytes t1, file_save s true = some (LITE_OK, s1, some bytes) ∧
      file_load t (some bytes) (fun _ => true) = some (LITE_OK, t1) ∧
      lines t1 = lines s ∧ lengths t1 = lengths s ∧
      t1.buf.line_count = s.buf.line_count ∧ Inv t1 := by
  obtain ⟨hs, hne⟩ := linked_seg hl
  obtain ⟨hsave, hlines⟩ := file_save_seg hs hstr hname
  have hsafe' : ∀ T ∈ (line_addrs s).map (bytes_at s.heap), bytes_safe T := by
    intro T hT
    obtain ⟨a, ha, rfl⟩ := List.mem_map.1 hT
    refine safe_bytes (hstr a ha) (hsafe _ ?_)
    exact List.mem_map.2 ⟨a, ha, rfl⟩
  have hne' : (line_addrs s).map (bytes_at s.heap) ≠ [] := by
    intro h
    exact hne (List.map_eq_nil_iff.1 h)
  have hll := loaded_lines_safe _ hne' hsafe'
  obtain ⟨code, t1, hev, hcase⟩ :=
    file_load_result ht (file_of ((line_addrs s).map (bytes_at s.heap))) (fun _ => true)
  rcases hcase with ⟨_, ⟨j, hj⟩, _⟩ | ⟨hc, hinv, hl1, hlen1, hcnt, _, _⟩
  · simp at hj
  · subst hc
    rw [hll] at hl1 hlen1 hcnt
    have hpos := linked_pos hl
    have hlens : lengths s = (lines s).map (fun X => (X.length : Int)) := by
      unfold lengths lines
      rw [List.map_map]
      apply List.map_congr_left
      intro a ha
      obtain ⟨ln, hrd, h0, h1, _⟩ := line_ok_at_iff.1 (hpos.2.1 a ha)
      have hrd' : rd s.heap a = some ln := hrd
      simp only [length_at, hrd', Function.comp, content_at, content, List.length_take]
      omega
    refine ⟨_, _, t1, hsave, hev, ?_, ?_, ?_, hinv⟩
    · rw [hl1, hlines]
    · rw [hlen1, hlens, hlines]
      simp only [List.map_map]
      apply List.map_congr_left
      intro a _
      simp [cells]
    · rw [hcnt]
      have : s.buf.line_count = ↑(line_addrs s).length := hpos.2.2.1
      rw [this]
      simp

theorem conditional_roundtrip_witness :
    Linked (set_filename (buffer_of [[97, 32, 98], [], [13, 99]] 9 7) [102]) ∧
    AllStrings (set_filename (buffer_of [[97, 32, 98], [], [13, 99]] 9 7) [102]) ∧
    ∃ s1 bytes t1,
      file_save (set_filename (buffer_of [[97, 32, 98], [], [13, 99]] 9 7) [102]) true
        = some (LITE_OK, s1, some bytes) ∧
      file_load (buffer_of [[120]] 0 0) (some bytes) (fun _ => true) = some (LITE_OK, t1) ∧
      lines t1 = [[some 97, some 32, some 98], [], [some 13, some 99]] ∧
      t1.buf.line_count = 3 := by
  refine ⟨by decide, by decide, ?_⟩
  obtain ⟨s1, bytes, t1, k1, k2, k3, _, k5, _⟩ :=
    conditional_roundtrip (set_filename (buffer_of [[97, 32, 98], [], [13, 99]] 9 7) [102])
      (buffer_of [[120]] 0 0) (by decide) (by decide) (by decide) (by decide) (by decide)
  exact ⟨s1, bytes, t1, k1, k2, by rw [k3]; rfl, by rw [k5]; rfl⟩

theorem builtin_commands_eq :
    builtin_commands =
      [⟨[111, 112, 101, 110], .command_open⟩, ⟨[119, 114, 105, 116, 101], .command_write⟩,
       ⟨[113, 117, 105, 116], .command_quit⟩, ⟨[116, 97, 98], .command_tab⟩,
       ⟨[116, 104, 101, 109, 101], .command_theme⟩, ⟨[104, 101, 108, 112], .command_help⟩] := by
  decide

/-- C27 fails. After `command_init` the registry holds exactly the names
`"open"`, `"write"`, `"quit"`, `"tab"`, `"theme"`, `"help"`, and
`command_execute` looks a command up with `strcmp`, so (1) for every editor
state `command_execute(state, "q")` returns `LITE_ERROR` ("Unknown command")
and leaves the state, `running` included, as it was; (2) in an editor with
one unmodified buffer, in command mode and running, `"q"` gives `LITE_ERROR`
and `running` stays `true`; (3) it is the command line `"quit"` that, with
one buffer that is not modified, returns `LITE_OK` and sets `running` to
`false`. -/
theorem colon_q_is_unknown :
    (∀ (st : EditorState) (next_id : Int) (env : Env),
      command_execute ⟨st, next_id, builtin_commands⟩ env [113]
        = some (LITE_ERROR, ⟨st, next_id, builtin_commands⟩)) ∧
    ((editor_of [fresh_buffer 1] 0 [113]).running = true ∧
      buffer_at (editor_of [fresh_buffer 1] 0 [113]) 0 = some (some (fresh_buffer 1)) ∧
      (fresh_buffer 1).buf.modified = false ∧
      ∀ env : Env, (command_execute ⟨editor_of [fresh_buffer 1] 0 [113], 2, builtin_commands⟩
          env [113]).map (fun r => (r.1, r.2.st.running)) = some (LITE_ERROR, true)) ∧
    (∀ (st : EditorState) (next_id : Int) (env : Env) (b : Option State),
      st.buffer_count = 1 → buffer_at st st.current_buffer = some b →
      buffer_is_modified b = false →
      command_execute ⟨st, next_id, builtin_commands⟩ env [113, 117, 105, 116]
        = some (LITE_OK, ⟨{ st with running := false }, next_id, builtin_commands⟩)) := by
  have h1 : ∀ (st : EditorState) (next_id : Int) (env : Env),
      command_execute ⟨st, next_id, builtin_commands⟩ env [113]
        = some (LITE_ERROR, ⟨st, next_id, builtin_commands⟩) := by
    intro st next_id env
    have hp : parse_args ((c_string [113]).take (LITE_MAX_LINE_LENGTH - 1)) = [[113]] := by
      decide
    have hf : find_command builtin_commands [113] = none := by decide
    unfold command_execute
    rw [hp]
    simp only [hf]
  refine ⟨h1, ⟨by decide, by decide, by decide, fun env => ?_⟩, ?_⟩
  · rw [h1]
    rfl
  · intro st next_id env b hc hb hm
    have hp : parse_args ((c_string [113, 117, 105, 116]).take (LITE_MAX_LINE_LENGTH - 1))
        = [[113, 117, 105, 116]] := by decide
    have hf : find_command builtin_commands [113, 117, 105, 116] = some .command_quit := by
      decide
    have hq : command_quit st [[113, 117, 105, 116]] = some (LITE_OK, editor_quit st) := by
      unfold command_quit
      have hforce : (decide ([[113, 117, 105, 116]].length ≥ 2)
          && decide (([[113, 117, 105, 116]] : List (List Nat))[1]? = some [33])) = false := by
        decide
      simp only [hforce, Bool.not_false, Bool.true_and, hc, hb, hm]
      simp
    unfold command_execute
    rw [hp]
    simp only [hf, run_command, hq]
    rfl

/-- C28 fails. `command_quit` honours `"!"` in its own check only; with more
than one buffer it calls `editor_close_current_buffer`, which tests
`buffer_is_modified` again and has no force argument. (1) For every editor
state with more than one buffer whose current buffer is modified,
`command_quit` with the arguments `"quit"`, `"!"` returns `LITE_ERROR` and
leaves the state as it was: no buffer is removed and `running` is unchanged.
(2) With at most one buffer it returns `LITE_OK` and sets `running` to
`false`, whatever the `modified` flag. (3) In an editor with the two buffers
`nul_buffer` (modified, current) and an empty one, running, both
`command_quit` with `"!"` and the command line `"quit !"` return
`LITE_ERROR` with `buffer_count = 2` and `running = true`. -/
theorem force_quit_refused :
    (∀ (st : EditorState) (b : State),
      1 < st.buffer_count → buffer_at st st.current_buffer = some (some b) →
      b.buf.modified = true →
      command_quit st [[113, 117, 105, 116], [33]] = some (LITE_ERROR, st)) ∧
    (∀ st : EditorState, st.buffer_count ≤ 1 →
      command_quit st [[113, 117, 105, 116], [33]]
        = some (LITE_OK, { st with running := false })) ∧
    (nul_buffer.buf.modified = true ∧
      buffer_at (editor_of [nul_buffer, fresh_buffer 2] 0 []) 0 = some (some nul_buffer) ∧
      command_quit (editor_of [nul_buffer, fresh_buffer 2] 0 []) [[113, 117, 105, 116], [33]]
        = some (LITE_ERROR, editor_of [nul_buffer, fresh_buffer 2] 0 []) ∧
      (editor_of [nul_buffer, fresh_buffer 2] 0 []).buffer_count = 2 ∧
      (editor_of [nul_buffer, fresh_buffer 2] 0 []).running = true ∧
      ∀ env : Env,
        (command_execute ⟨editor_of [nul_buffer, fresh_buffer 2] 0 [], 3, builtin_commands⟩ env
          [113, 117, 105, 116, 32, 33]).map
            (fun r => (r.1, r.2.st.buffer_count, r.2.st.running))
          = some (LITE_ERROR, 2, true)) := by
  have hforce : (decide ([[113, 117, 105, 116], [33]].length ≥ 2)
      && decide (([[113, 117, 105, 116], [33]] : List (List Nat))[1]? = some [33])) = true := by
    decide
  have h1 : ∀ (st : EditorState) (b : State),
      1 < st.buffer_count → buffer_at st st.current_buffer = some (some b) →
      b.buf.modified = true →
      command_quit st [[113, 117, 105, 116], [33]] = some (LITE_ERROR, st) := by
    intro st b hc hb hm
    have hclose : editor_close_current_buffer st = some (LITE_ERROR, st) := by
      unfold editor_close_current_buffer
      rw [if_neg (by omega)]
      simp only [hb, hm, if_true]
    unfold command_quit
    simp only [hforce, Bool.not_true, Bool.false_and, Bool.false_eq_true, if_false, if_pos hc,
      hclose]
  refine ⟨h1, ?_, by decide, by decide, ?_, by decide, by decide, fun env => ?_⟩
  · intro st hc
    unfold command_quit
    simp only [hforce, Bool.not_true, Bool.false_and, Bool.false_eq_true, if_false]
    rw [if_neg (by omega)]
    rfl
  · exact h1 (editor_of [nul_buffer, fresh_buffer 2] 0 []) nul_buffer (by decide) (by decide)
      (by decide)
  · have hp : parse_args ((c_string [113, 117, 105, 116, 32, 33]).take
        (LITE_MAX_LINE_LENGTH - 1)) = [[113, 117, 105, 116], [33]] := by decide
    have hf : find_command builtin_commands [113, 117, 105, 116] = some .command_quit := by
      decide
    have hq := h1 (editor_of [nul_buffer, fresh_buffer 2] 0 []) nul_buffer (by decide)
      (by decide) (by decide)
    unfold command_execute
    rw [hp]
    simp only [hf, run_command, hq]
    decide

/-! ## Links -/

theorem seg_links {h : Heap} : ∀ {l2 l1 : List Nat} {pv p : Option Nat},
    Seg h pv p l2 none → (∀ x, pv = some x → x ∈ l1 ∧ ∃ lx, rd h x = some lx ∧ lx.next = p) →
    ∀ n ∈ l2, ∃ ln, rd h n = some ln ∧
      (∀ m, ln.next = some m → m ∈ l1 ++ l2 ∧ ∃ lm, rd h m = some lm ∧ lm.prev = some n) ∧
      (∀ q, ln.prev = some q → q ∈ l1 ++ l2 ∧ ∃ lq, rd h q = some lq ∧ lq.next = some n) := by
  intro l2
  induction l2 with
  | nil => intro l1 pv p _ _ n hn; simp at hn
  | cons a l ih =>
    intro l1 pv p hs hpv n hn
    obtain ⟨hp, ln, hrd, hprev, hrest⟩ := seg_cons.1 hs
    rcases List.mem_cons.1 hn with rfl | hn'
    · refine ⟨ln, hrd, ?_, ?_⟩
      · intro m hm
        rw [hm] at hrest
        cases l with
        | nil => exact absurd (seg_nil.1 hrest) (by simp)
        | cons b l' =>
          obtain ⟨hb, lb, hrb, hbp, _⟩ := seg_cons.1 hrest
          have : m = b := by simpa using hb
          subst this
          exact ⟨by simp, lb, hrb, hbp⟩
      · intro q hq
        rw [hprev] at hq
        obtain ⟨hx, lx, hrx, hnx⟩ := hpv q hq
        exact ⟨by simp [hx], lx, hrx, by rw [hnx, hp]⟩
    · have h1 := @ih (l1 ++ [a]) _ _ hrest
        (fun x hx => by
          have : a = x := by simpa using hx
          subst this
          exact ⟨by simp, ln, hrd, rfl⟩) n hn'
      simpa using h1

theorem links_of_seg {s : State} {l : List Nat}
    (hs : Seg s.heap none s.buf.first_line l none) : LinksOk s := by
  have hl := seg_line_addrs hs
  constructor
  · unfold head_ok
    cases hf : s.buf.first_line with
    | none => rfl
    | some a =>
      rw [hf] at hs
      cases l with
      | nil => exact absurd (seg_nil.1 hs) (by simp)
      | cons b l' =>
        obtain ⟨hb, lb, hrb, hbp, _⟩ := seg_cons.1 hs
        have : a = b := by simpa using hb
        subst this
        simp [hrb, hbp]
  · rw [hl]
    intro n hn
    obtain ⟨ln, hrd, hnx, hpv⟩ := @seg_links _ _ [] _ _ hs (by simp) n hn
    unfold link_ok
    rw [hrd]
    simp only [Bool.and_eq_true]
    constructor
    · cases hm : ln.next with
      | none => rfl
      | some m =>
        obtain ⟨h1, lm, h2, h3⟩ := hnx m hm
        simp at h1
        simp [h1, h2, h3]
    · cases hq : ln.prev with
      | none => rfl
      | some q =>
        obtain ⟨h1, lq, h2, h3⟩ := hpv q hq
        simp at h1
        simp [h1, h2, h3]

theorem links_of_good {s : State} {l : List Nat} (hg : Good s l) : LinksOk s :=
  links_of_seg hg.1

/-- With the rest of the current line a C string, `buffer_new_line` returns
whatever the allocator answers, and the invariant holds afterwards. -/
theorem new_line_defined {s : State} {l : List Nat} (hg : Good s l)
    (hstr : tail_is_string s = true) (ok_line ok_data ok_re : Bool) :
    ∃ r l', buffer_new_line s ok_line ok_data ok_re = some r ∧ Good r.2 l' := by
  obtain ⟨a, ln, l1, l2, A, B, t, R, hat⟩ := good_at hg
  by_cases hab : (ok_line && ok_data) = false
  · exact ⟨_, l, new_line_alloc_fail hg ok_line ok_data ok_re hab, hg⟩
  have ha : ok_line = true := by cases ok_line <;> simp_all
  have hb : ok_data = true := by cases ok_data <;> simp_all
  subst ha hb
  rcases new_line_cases hat ok_re with ⟨hsp, _⟩ | ⟨_, hev⟩ | ⟨nl, c1, hsp⟩
  · exfalso
    cases ok_re with
    | true =>
      obtain ⟨c1, he, _⟩ := split_line_eval hat.2.2.2.2.1 hat.2.2.2.2.2.2.1
        ((at_tail_is_string hat).1 hstr)
      rw [hat.2.2.2.2.2.1, he] at hsp
      simp at hsp
    | false =>
      unfold split_line at hsp
      simp only [Bool.not_false, if_true] at hsp
      split at hsp
      · split at hsp
        · have := hat.2.2.2.2.2.1
          have := hat.2.2.2.2.2.2.1
          omega
        · simp at hsp
      · simp at hsp
  · have hfrm : ∀ b ∈ l, rd (free_line (s.heap ++
        [some { data := [some 0], length := 0, prev := none, next := none }])
        s.heap.length) b = rd s.heap b := by
      intro b hb
      obtain ⟨lb, hrb, _⟩ := good_mem_ok hg hb
      have hlt := rd_some_lt hrb
      rw [rd_free_ne (by omega), rd_append_old _ hlt]
    exact ⟨_, l, hev, good_heap_frame hg _ hfrm⟩
  · obtain ⟨h', hev, hg', _⟩ := new_line_spec hg hat hsp
    exact ⟨_, _, hev, hg'⟩

/-- A call of `buffer_delete_char` that changes `cursor_y` has released the
node that was current. -/
theorem delete_frees {s s' : State} {ok : Bool} {code : Int} {a : Nat}
    (h : buffer_delete_char s ok = some (code, s')) (ha : s.buf.current_line = some a)
    (hc : s'.buf.cursor_y ≠ s.buf.cursor_y) : rd s'.heap a = none := by
  unfold buffer_delete_char at h
  rw [ha] at h
  simp only at h
  split at h
  · exact absurd h (by simp)
  · split at h
    · split at h
      · split at h
        · exact absurd h (by simp)
        · split at h
          · simp only [Option.some.injEq, Prod.mk.injEq] at h
            exact absurd (by rw [← h.2]) hc
          · split at h
            · exact absurd h (by simp)
            · split at h
              · exact absurd h (by simp)
              · split at h
                · exact absurd h (by simp)
                · simp only [Option.some.injEq, Prod.mk.injEq] at h
                  rw [← h.2]
                  exact rd_free_same
      · simp only [Option.some.injEq, Prod.mk.injEq] at h
        exact absurd (by rw [← h.2]) hc
    · split at h
      · exact absurd h (by simp)
      · simp only [Option.some.injEq, Prod.mk.injEq] at h
        exact absurd (by rw [← h.2]) hc


theorem at_col_row_twice (s : State) (b0 b : Option Nat) (r0 r c0 c : Int) :
    at_col (at_row (at_col (at_row s b0 r0) c0) b r) c = at_col (at_row s b r) c := rfl

theorem current_len_at (s : State) (b0 b : Option Nat) (r0 r c0 : Int) :
    current_len (at_row (at_col (at_row s b0 r0) c0) b r) = current_len (at_row s b r) := rfl

theorem at_self (s : State) :
    at_col (at_row s s.buf.current_line s.buf.cursor_y) s.buf.cursor_x = s := rfl

/-- C33. Absolute positioning is relative motion from the origin. In a
buffer whose lines are well linked, for all `int` arguments `x`, `y`, the call
`buffer_set_cursor(0, 0)` followed by `buffer_move_cursor(x, y)` ends in
exactly the state of `buffer_set_cursor(x, y)`; a second
`buffer_set_cursor(x, y)` changes nothing; and in a buffer that satisfies the
invariant `buffer_set_cursor(cursor_x, cursor_y)` changes nothing. -/
theorem set_cursor_is_move_from_origin (s : State) (x y : Int) (hl : Linked s)
    (hx0 : -2147483648 ≤ x) (hx1 : x < 2147483648) :
    (∃ s0 s1, buffer_set_cursor s 0 0 = some s0 ∧ buffer_move_cursor s0 x y = some s1 ∧
      buffer_set_cursor s x y = some s1) ∧
    (∃ s1, buffer_set_cursor s x y = some s1 ∧ buffer_set_cursor s1 x y = some s1) ∧
    (Inv s → buffer_set_cursor s s.buf.cursor_x s.buf.cursor_y = some s) := by
  have hp := linked_pos hl
  obtain ⟨b0, r0, he0, hg0, hr0, hb0⟩ := set_cursor_any hp 0 0
  obtain ⟨b1, r1, he1, hg1, hr1, hb1⟩ := set_cursor_any hp x y
  obtain ⟨a, l', hla, _⟩ := good_nonempty hp
  have hn : (1 : Int) ≤ ↑(line_addrs s).length := by rw [hla]; simp
  refine ⟨?_, ?_, ?_⟩
  · obtain ⟨b, r, hev, _, hr, hb⟩ := move_cursor_spec (good_pos hg0) x y
    refine ⟨_, _, he0, hev, ?_⟩
    have hc0 : (at_col (at_row s b0 r0)
        (min (max 0 0) (current_len (at_row s b0 r0)))).buf.cursor_x = 0 := by
      have := hg0.2.2.2.2.2.2.1
      have h2 := hg0.2.2.2.2.2.2.2
      simp only [at_col] at this h2 ⊢
      omega
    have hy0 : (at_col (at_row s b0 r0)
        (min (max 0 0) (current_len (at_row s b0 r0)))).buf.cursor_y = r0 := rfl
    rw [hy0] at hr
    rw [hc0, zero_add, wrap32_id hx0 hx1]
    have hrr : r = r1 := by rw [hr, hr1, hr0]; omega
    have hbb : b = b1 := by rw [← hb, ← hb1, hrr]
    rw [hrr, hbb, he1]
    rfl
  · refine ⟨_, he1, ?_⟩
    have hp1 : Pos (at_row (at_col (at_row s b1 r1)
        (min (max x 0) (current_len (at_row s b1 r1)))) s.buf.first_line 0) (line_addrs s) := hp
    obtain ⟨b2, r2, he2, _, hr2, hb2⟩ := set_cursor_any hp1 x y
    have hrr : r2 = r1 := by rw [hr2, hr1]
    have hbb : b2 = b1 := by rw [← hb2, ← hb1, hrr]
    rw [he2, hrr, hbb]
    rfl
  · intro hi
    obtain ⟨b, r, he, _, hr, hb⟩ := set_cursor_any hp s.buf.cursor_x s.buf.cursor_y
    obtain ⟨_, _, _, hy0, hcn, hcur, hc0, hc1⟩ := hi
    have hlt : s.buf.cursor_y.toNat < (line_addrs s).length := by
      by_contra hge
      rw [List.getElem?_eq_none (by omega)] at hcur
      exact hcn hcur.symm
    have hrr : r = s.buf.cursor_y := by rw [hr]; omega
    have hbb : b = s.buf.current_line := by rw [← hb, hrr, hcur]
    rw [he, hrr, hbb]
    have hcl : current_len (at_row s s.buf.current_line s.buf.cursor_y) = current_len s := rfl
    rw [hcl]
    have : min (max s.buf.cursor_x 0) (current_len s) = s.buf.cursor_x := by omega
    rw [this]
    rfl

theorem set_cursor_is_move_from_origin_witness :
    Linked (buffer_of [[97, 98], [99]] 7 5) ∧
    (buffer_of [[97, 98], [99]] 7 5).buf.cursor_x = 7 ∧
    ((buffer_set_cursor (buffer_of [[97, 98], [99]] 7 5) 0 0).bind
        (fun s0 => buffer_move_cursor s0 1 1)).map
        (fun q => (q.buf.cursor_x, q.buf.cursor_y, q.buf.current_line))
      = some (1, 1, some 1) ∧
    (∃ s0 s1, buffer_set_cursor (buffer_of [[97, 98], [99]] 7 5) 0 0 = some s0 ∧
      buffer_move_cursor s0 1 1 = some s1 ∧
      buffer_set_cursor (buffer_of [[97, 98], [99]] 7 5) 1 1 = some s1) :=
  ⟨by decide, by decide, by decide,
    (set_cursor_is_move_from_origin (buffer_of [[97, 98], [99]] 7 5) 1 1 (by decide)
      (by decide) (by decide)).1⟩

/-! ## Frame of the cursor operations -/

/-- C34. The cursor operations are read-only on content. In a buffer whose
lines are well linked, `buffer_set_cursor` returns for all arguments, and in
a buffer that satisfies the invariant so does `buffer_move_cursor`; the heap
of line nodes is unchanged (so are the line sequence, every content and every
length), and among the fields of the buffer only `current_line`, `cursor_x`
and `cursor_y` can differ: `first_line`, `line_count`, `modified`,
`filename`, `id`, `scroll_x` and `scroll_y` are unchanged. -/
theorem cursor_ops_frame (s : State) (hl : Linked s) :
    (∀ x y, ∃ s', buffer_set_cursor s x y = some s' ∧ s'.heap = s.heap ∧
      line_addrs s' = line_addrs s ∧ lines s' = lines s ∧ lengths s' = lengths s ∧
      s'.buf = { s.buf with current_line := s'.buf.current_line,
                            cursor_x := s'.buf.cursor_x, cursor_y := s'.buf.cursor_y } ∧
      s'.buf.first_line = s.buf.first_line ∧ s'.buf.line_count = s.buf.line_count ∧
      s'.buf.modified = s.buf.modified ∧ s'.buf.filename = s.buf.filename ∧
      s'.buf.id = s.buf.id ∧ s'.buf.scroll_x = s.buf.scroll_x ∧
      s'.buf.scroll_y = s.buf.scroll_y) ∧
    (Inv s → ∀ dx dy, ∃ s', buffer_move_cursor s dx dy = some s' ∧ s'.heap = s.heap ∧
      line_addrs s' = line_addrs s ∧ lines s' = lines s ∧ lengths s' = lengths s ∧
      s'.buf = { s.buf with current_line := s'.buf.current_line,
                            cursor_x := s'.buf.cursor_x, cursor_y := s'.buf.cursor_y } ∧
      s'.buf.first_line = s.buf.first_line ∧ s'.buf.line_count = s.buf.line_count ∧
      s'.buf.modified = s.buf.modified ∧ s'.buf.filename = s.buf.filename ∧
      s'.buf.id = s.buf.id ∧ s'.buf.scroll_x = s.buf.scroll_x ∧
      s'.buf.scroll_y = s.buf.scroll_y) := by
  constructor
  · intro x y
    obtain ⟨b, r, hev, _⟩ := set_cursor_any (linked_pos hl) x y
    obtain ⟨h1, h2, h3⟩ := @lines_frame s
      (at_col (at_row s b r) (min (max x 0) (current_len (at_row s b r)))) rfl rfl
    exact ⟨_, hev, rfl, h1, h2, h3, rfl, rfl, rfl, rfl, rfl, rfl, rfl, rfl⟩
  · intro hi dx dy
    obtain ⟨s', _, hev, _, _, _, _, hh, hb, _⟩ := move_cursor_full s dx dy hi
    have hf : s'.buf.first_line = s.buf.first_line := by rw [hb]
    obtain ⟨h1, h2, h3⟩ := lines_frame hh hf
    refine ⟨s', hev, hh, h1, h2, h3, hb, hf, ?_, ?_, ?_, ?_, ?_, ?_⟩ <;> rw [hb]

theorem cursor_ops_frame_witness :
    Linked (buffer_of [[97, 98], [99]] 7 5) ∧
    (buffer_set_cursor (buffer_of [[97, 98], [99]] 7 5) 1 9).map
        (fun q => (q.buf.cursor_x, q.buf.cursor_y, q.buf.current_line))
      = some (1, 1, some 1) ∧
    (∀ x y, ∃ s', buffer_set_cursor (buffer_of [[97, 98], [99]] 7 5) x y = some s' ∧
      s'.heap = (buffer_of [[97, 98], [99]] 7 5).heap ∧
      line_addrs s' = line_addrs (buffer_of [[97, 98], [99]] 7 5) ∧
      lines s' = lines (buffer_of [[97, 98], [99]] 7 5) ∧
      lengths s' = lengths (buffer_of [[97, 98], [99]] 7 5) ∧
      s'.buf = { (buffer_of [[97, 98], [99]] 7 5).buf with
        current_line := s'.buf.current_line,
        cursor_x := s'.buf.cursor_x, cursor_y := s'.buf.cursor_y } ∧
      s'.buf.first_line = (buffer_of [[97, 98], [99]] 7 5).buf.first_line ∧
      s'.buf.line_count = (buffer_of [[97, 98], [99]] 7 5).buf.line_count ∧
      s'.buf.modified = (buffer_of [[97, 98], [99]] 7 5).buf.modified ∧
      s'.buf.filename = (buffer_of [[97, 98], [99]] 7 5).buf.filename ∧
      s'.buf.id = (buffer_of [[97, 98], [99]] 7 5).buf.id ∧
      s'.buf.scroll_x = (buffer_of [[97, 98], [99]] 7 5).buf.scroll_x ∧
      s'.buf.scroll_y = (buffer_of [[97, 98], [99]] 7 5).buf.scroll_y) :=
  ⟨by decide, by decide, (cursor_ops_frame (buffer_of [[97, 98], [99]] 7 5) (by decide)).1⟩

/-! ## Command tokenisation -/

theorem runs_nil : runs [] = [] := by
  simp [runs]

theorem runs_space {c : Nat} (hc : isspace c = true) (p : List Nat) :
    runs (c :: p) = runs p := by
  simp [runs, List.splitOnP_cons, hc]

theorem runs_skip (p : List Nat) : runs (skip_spaces p) = runs p := by
  induction p with
  | nil => rfl
  | cons c p ih =>
    unfold skip_spaces
    by_cases hc : isspace c = true
    · rw [List.dropWhile_cons_of_pos hc, runs_space hc]
      exact ih
    · rw [List.dropWhile_cons_of_neg hc]

theorem runs_word {xs : List Nat} (hne : xs ≠ []) (hx : ∀ c ∈ xs, isspace c = false) :
    runs xs = [xs] := by
  unfold runs
  rw [List.splitOnP_eq_single isspace xs (fun c hc => by simp [hx c hc])]
  cases xs with
  | nil => exact absurd rfl hne
  | cons a t => simp

theorem runs_word_sep {xs : List Nat} (hne : xs ≠ []) (hx : ∀ c ∈ xs, isspace c = false)
    {sep : Nat} (hs : isspace sep = true) (rest : List Nat) :
    runs (xs ++ sep :: rest) = xs :: runs rest := by
  unfold runs
  rw [List.splitOnP_first isspace xs (fun c hc => by simp [hx c hc]) sep hs]
  cases xs with
  | nil => exact absurd rfl hne
  | cons a t => simp

theorem take_drop_nonspace (p : List Nat) :
    (∀ c ∈ p.takeWhile (fun x => !isspace x), isspace c = false) := by
  intro c hc
  have := List.mem_takeWhile_imp hc
  simpa using this

theorem parse_loop_runs : ∀ (n : Nat) (p : List Nat),
    (∀ c, p.head? = some c → isspace c = false) → parse_loop n p = (runs p).take n := by
  intro n
  induction n with
  | zero => intro p _; simp [parse_loop]
  | succ n ih =>
    intro p hp
    cases p with
    | nil => simp [parse_loop, runs_nil]
    | cons c p =>
      have hc : isspace c = false := hp c rfl
      have hsplit := List.takeWhile_append_dropWhile (fun x => !isspace x) (c :: p)
      have hne : (c :: p).takeWhile (fun x => !isspace x) ≠ [] := by
        rw [List.takeWhile_cons_of_pos (by simp [hc])]
        simp
      unfold parse_loop
      cases hd : (c :: p).dropWhile (fun x => !isspace x) with
      | nil =>
        simp only
        rw [hd, List.append_nil] at hsplit
        rw [hsplit, runs_word (by simp) (by rw [← hsplit]; exact take_drop_nonspace _)]
        simp
      | cons sep rest =>
        simp only
        have hsep : isspace sep = true := by
          have := List.head_dropWhile_not (fun x => !isspace x) (c :: p) (by rw [hd]; simp)
          simpa [hd] using this
        rw [hd] at hsplit
        have hr : runs (c :: p) = (c :: p).takeWhile (fun x => !isspace x) :: runs rest := by
          conv_lhs => rw [← hsplit]
          exact runs_word_sep hne (take_drop_nonspace _) hsep rest
        rw [hr, List.take_succ_cons, ← runs_skip rest]
        congr 1
        apply ih
        intro d hd'
        unfold skip_spaces at hd'
        cases hdw : rest.dropWhile isspace with
        | nil => rw [hdw] at hd'; simp at hd'
        | cons e u =>
          rw [hdw] at hd'
          have := List.head_dropWhile_not isspace rest (by rw [hdw]; simp)
          simp [hdw] at this hd'
          rw [← hd']; exact this


theorem runs_mem : ∀ (n : Nat) (p : List Nat), p.length ≤ n →
    ∀ r ∈ runs p, r ≠ [] ∧ ∀ c ∈ r, isspace c = false := by
  intro n
  induction n with
  | zero =>
    intro p hp r hr
    have : p = [] := List.length_eq_zero.1 (by omega)
    subst this
    simp [runs_nil] at hr
  | succ n ih =>
    intro p hp r hr
    cases p with
    | nil => simp [runs_nil] at hr
    | cons c p =>
      by_cases hc : isspace c = true
      · rw [runs_space hc] at hr
        exact ih p (by simpa using hp) r hr
      · have hc' : isspace c = false := by simpa using hc
        have hsplit := List.takeWhile_append_dropWhile (fun x => !isspace x) (c :: p)
        have hne : (c :: p).takeWhile (fun x => !isspace x) ≠ [] := by
          rw [List.takeWhile_cons_of_pos (by simp [hc'])]
          simp
        cases hd : (c :: p).dropWhile (fun x => !isspace x) with
        | nil =>
          rw [hd, List.append_nil] at hsplit
          rw [← hsplit, runs_word hne (take_drop_nonspace _)] at hr
          simp only [List.mem_singleton] at hr
          subst hr
          exact ⟨hne, take_drop_nonspace _⟩
        | cons sep rest =>
          have hsep : isspace sep = true := by
            have := List.head_dropWhile_not (fun x => !isspace x) (c :: p) (by rw [hd]; simp)
            simpa [hd] using this
          rw [hd] at hsplit
          have hlen : rest.length ≤ n := by
            have := congrArg List.length hsplit
            simp only [List.length_append, List.length_cons] at this hp
            omega
          rw [← hsplit, runs_word_sep hne (take_drop_nonspace _) hsep rest] at hr
          rcases List.mem_cons.1 hr with rfl | hr'
          · exact ⟨hne, take_drop_nonspace _⟩
          · exact ih rest hlen r hr'

theorem runs_all_space (p : List Nat) (h : ∀ c ∈ p, isspace c = true) : runs p = [] := by
  induction p with
  | nil => exact runs_nil
  | cons c p ih =>
    rw [runs_space (h c (by simp))]
    exact ih (fun d hd => h d (by simp [hd]))

theorem parse_args_eq (cmd : List Nat) : parse_args cmd = (runs cmd).take MAX_ARGS := by
  unfold parse_args
  rw [parse_loop_runs, runs_skip]
  intro c hc
  unfold skip_spaces at hc
  cases hdw : cmd.dropWhile isspace with
  | nil => rw [hdw] at hc; simp at hc
  | cons e u =>
    rw [hdw] at hc
    have := List.head_dropWhile_not isspace cmd (by rw [hdw]; simp)
    simp [hdw] at this hc
    rw [← hc]; exact this

/-- C38. Command tokenisation. For every command string, `parse_args` yields
the first `MAX_ARGS` (16) maximal runs of non-whitespace characters of the
string, in order: `argc` is the smaller of 16 and the number of runs, and
`argv[i]` is the `i`-th run; no run is empty or contains a whitespace
character; on an empty or all-whitespace string `argc` is 0, and
`command_execute` then returns `LITE_ERROR` and leaves the editor as it was. -/
theorem parse_args_runs (cmd : List Nat) :
    parse_args cmd = (runs cmd).take MAX_ARGS ∧
    (parse_args cmd).length = min (runs cmd).length 16 ∧
    (∀ i, i < (parse_args cmd).length → (parse_args cmd)[i]? = (runs cmd)[i]?) ∧
    (∀ r ∈ runs cmd, r ≠ [] ∧ ∀ c ∈ r, isspace c = false) ∧
    ((∀ c ∈ cmd, isspace c = true) → parse_args cmd = []) ∧
    ((∀ c ∈ c_string cmd, isspace c = true) →
      ∀ w env, command_execute w env cmd = some (LITE_ERROR, w)) := by
  have he := parse_args_eq cmd
  refine ⟨he, ?_, ?_, runs_mem cmd.length cmd (le_refl _), ?_, ?_⟩
  · rw [he, List.length_take]
    simp [MAX_ARGS, Nat.min_comm]
  · intro i hi
    rw [he] at hi ⊢
    rw [List.length_take] at hi
    rw [List.getElem?_take_of_lt (by omega)]
  · intro h
    rw [he, runs_all_space cmd h]
    rfl
  · intro h w env
    have h2 : ∀ c ∈ (c_string cmd).take (LITE_MAX_LINE_LENGTH - 1), isspace c = true :=
      fun c hc => h c (List.mem_of_mem_take hc)
    unfold command_execute
    rw [parse_args_eq, runs_all_space _ h2]
    rfl


/-- The runs of the string `" tab  new\t"`. -/
theorem runs_example :
    runs [32, 116, 97, 98, 32, 32, 110, 101, 119, 9] = [[116, 97, 98], [110, 101, 119]] ∧
    parse_args [32, 116, 97, 98, 32, 32, 110, 101, 119, 9] = [[116, 97, 98], [110, 101, 119]] ∧
    (parse_args (List.replicate 20 [120, 32]).flatten).length = 16 := by
  refine ⟨by decide, by decide, by decide⟩

/-! ## The buffer set -/

theorem free_lines_seg {l : List Nat} : ∀ {h : Heap} {pv p : Option Nat},
    Seg h pv p l none → ∀ k, l.length ≤ k → ∃ h', free_lines k h p = some h' := by
  induction l with
  | nil =>
    intro h pv p hs k _
    have hp : p = none := seg_nil.1 hs
    subst hp
    cases k <;> exact ⟨h, rfl⟩
  | cons a l ih =>
    intro h pv p hs k hk
    have hnd := seg_nodup hs
    obtain ⟨hp, ln, hrd, _, hrest⟩ := seg_cons.1 hs
    subst hp
    cases k with
    | zero => simp at hk
    | succ k =>
      have ha : a ∉ l := (List.nodup_cons.1 hnd).1
      have hrest' : Seg (free_line h a) (some a) ln.next l none :=
        seg_frame_eq (fun b hb => rd_free_ne (fun e : a = b => ha (e ▸ hb))) hrest
      obtain ⟨h', he⟩ := ih hrest' k (by simpa using hk)
      exact ⟨h', by simp only [free_lines, hrd]; exact he⟩

theorem buffer_free_seg {s : State} {l : List Nat}
    (hs : Seg s.heap none s.buf.first_line l none) : buffer_free s = some () := by
  have hlen : l.length ≤ s.heap.length + 1 := by
    have := nodup_lt_length (seg_nodup hs) (fun a ha => seg_mem_lt hs ha)
    omega
  obtain ⟨h', he⟩ := free_lines_seg hs _ hlen
  simp [buffer_free, he]

theorem buffer_free_linked {s : State} (hl : Linked s) : buffer_free s = some () :=
  buffer_free_seg (linked_seg hl).1

theorem buffer_at_slot {st : EditorState} {i : Int} (h0 : 0 ≤ i) (h1 : i < 10) :
    buffer_at st i = some (slot st i.toNat) := by
  simp [buffer_at, slot, LITE_MAX_BUFFERS, h0, h1]

theorem set_buffer_slot {st : EditorState} {i : Int} (h0 : 0 ≤ i) (h1 : i < 10)
    (b : Option State) :
    ∃ st1, set_buffer st i b = some st1 ∧
      st1 = { st with buffers := st1.buffers } ∧
      ∀ j, slot st1 j = if j = i.toNat then b else slot st j := by
  refine ⟨_, by simp [set_buffer, LITE_MAX_BUFFERS, h0, h1]; rfl, rfl, ?_⟩
  intro j
  simp only [slot]
  have hi : i.toNat < (st.buffers ++
      List.replicate (10 - st.buffers.length) (none : Option State)).length := by
    simp only [List.length_append, List.length_replicate]
    omega
  by_cases hj : j = i.toNat
  · subst hj
    simp only [if_true]
    rw [List.getElem?_set_self hi]
    rfl
  · simp only [hj, if_false]
    rw [List.getElem?_set_ne (fun e => hj e.symm)]
    by_cases hjl : j < st.buffers.length
    · rw [List.getElem?_append_left hjl]
    · rw [List.getElem?_append_right (by omega), List.getElem?_eq_none (l := st.buffers) (by omega)]
      by_cases hjr : j - st.buffers.length < 10 - st.buffers.length
      · rw [List.getElem?_replicate_of_lt hjr]
        rfl
      · rw [List.getElem?_eq_none (by simpa using hjr)]

theorem shift_spec : ∀ (k : Nat) (st : EditorState) (i : Int), 0 ≤ i →
    i + ↑k = st.buffer_count - 1 → st.buffer_count ≤ 10 →
    ∃ st', shift_buffers k st i = some st' ∧ st' = { st with buffers := st'.buffers } ∧
      ∀ j : Nat, slot st' j
        = if i ≤ ↑j ∧ (j : Int) < st.buffer_count - 1 then slot st (j + 1) else slot st j := by
  intro k
  induction k with
  | zero =>
    intro st i _ hk _
    refine ⟨st, rfl, rfl, fun j => ?_⟩
    have : ¬ (i ≤ ↑j ∧ (j : Int) < st.buffer_count - 1) := by
      simp only [Nat.cast_zero, add_zero] at hk
      omega
    simp only [this, if_false]
  | succ k ih =>
    intro st i h0 hk hc
    have hlt : i < st.buffer_count - 1 := by push_cast at hk; omega
    obtain ⟨st1, hset, hst1, hsl1⟩ := @set_buffer_slot st _ h0 (by omega : i < 10)
      (slot st (i + 1).toNat)
    have hc1 : st1.buffer_count = st.buffer_count := by rw [hst1]
    obtain ⟨st', hev, hst', hsl'⟩ := ih st1 (i + 1) (by omega)
      (by rw [hc1]; push_cast at hk; omega) (by rw [hc1]; exact hc)
    refine ⟨st', ?_, ?_, fun j => ?_⟩
    · simp only [shift_buffers, hlt, if_true,
        @buffer_at_slot st _ (by omega : 0 ≤ i + 1) (by omega : i + 1 < 10), hset]
      exact hev
    · rw [hst', hst1]
    · rw [hsl' j, hc1]
      by_cases hj1 : i + 1 ≤ ↑j ∧ (j : Int) < st.buffer_count - 1
      · have hj2 : i ≤ ↑j ∧ (j : Int) < st.buffer_count - 1 := ⟨by omega, hj1.2⟩
        simp only [hj1, hj2, and_self, if_true]
        rw [hsl1]
        have : j + 1 ≠ i.toNat := by omega
        simp only [this, if_false]
      · simp only [hj1, if_false]
        rw [hsl1]
        by_cases hji : j = i.toNat
        · have hj2 : i ≤ ↑j ∧ (j : Int) < st.buffer_count - 1 := by omega
          simp only [hji, if_true]
          have e : (i + 1).toNat = i.toNat + 1 := by omega
          rw [e]
          have hj3 : i ≤ ↑i.toNat ∧ (i.toNat : Int) < st.buffer_count - 1 := by omega
          simp only [hj3, and_self, if_true]
        · have hj2 : ¬ (i ≤ ↑j ∧ (j : Int) < st.buffer_count - 1) := by omega
          simp only [hji, hj2, if_false]


theorem editor_ok_slot {st : EditorState} (hok : EditorOk st) {j : Nat}
    (hj : (j : Int) < st.buffer_count) : ∃ b, slot st j = some b ∧ Linked b := by
  have h := hok.2.2.2 j (List.mem_range.2 (by omega))
  unfold slot_ok at h
  cases hs : slot st j with
  | none => rw [hs] at h; simp at h
  | some b =>
    rw [hs] at h
    exact ⟨b, rfl, by simpa using h⟩

theorem editor_ok_intro {st : EditorState} (h0 : 0 ≤ st.buffer_count)
    (h1 : st.buffer_count ≤ 10)
    (h2 : 0 < st.buffer_count → 0 ≤ st.current_buffer ∧ st.current_buffer < st.buffer_count)
    (h3 : ∀ j : Nat, (j : Int) < st.buffer_count → ∃ b, slot st j = some b ∧ Linked b) :
    EditorOk st := by
  refine ⟨h0, h1, h2, fun j hj => ?_⟩
  obtain ⟨b, hb, hl⟩ := h3 j (by have := List.mem_range.1 hj; omega)
  unfold slot_ok
  rw [hb]
  simpa using hl

theorem close_spec {st : EditorState} (hok : EditorOk st) (h1 : 1 ≤ st.buffer_count) :
    ∃ b, slot st st.current_buffer.toNat = some b ∧ Linked b ∧
      (b.buf.modified = true → editor_close_current_buffer st = some (LITE_ERROR, st)) ∧
      (b.buf.modified = false → ∃ bs,
        editor_close_current_buffer st = some (LITE_OK,
          { st with
            buffers := bs, buffer_count := st.buffer_count - 1,
            current_buffer :=
              if st.current_buffer ≥ st.buffer_count - 1 then st.buffer_count - 2
              else st.current_buffer,
            running := if st.buffer_count = 1 then false else st.running }) ∧
        ∀ j : Nat, (bs[j]?).getD none
          = if st.current_buffer ≤ ↑j ∧ (j : Int) < st.buffer_count - 1 then slot st (j + 1)
            else slot st j) := by
  have hc1' : st.buffer_count ≤ 10 := hok.2.1
  obtain ⟨hcur0, hcur1⟩ := hok.2.2.1 (by omega)
  obtain ⟨b, hb, hl⟩ := editor_ok_slot hok (j := st.current_buffer.toNat) (by omega)
  have hne : st.buffer_count ≠ 0 := by omega
  have hat := @buffer_at_slot st _ hcur0 (by omega : st.current_buffer < 10)
  rw [hb] at hat
  refine ⟨b, hb, hl, ?_, ?_⟩
  · intro hm
    simp [editor_close_current_buffer, hne, hat, hm]
  · intro hm
    obtain ⟨st', hev, hst', hsl⟩ := shift_spec (st.buffer_count - 1 - st.current_buffer).toNat
      st st.current_buffer hcur0 (by omega) hc1'
    refine ⟨st'.buffers, ?_, hsl⟩
    simp only [editor_close_current_buffer, hne, if_false, hat, hm, Bool.false_eq_true,
      buffer_free_linked hl, hev]
    rw [hst']
    simp only [ge_iff_le]
    by_cases h2 : st.buffer_count - 1 ≤ st.current_buffer
    · by_cases h3 : st.buffer_count = 1
      · have h4 : st.buffer_count - 1 = 0 := by omega
        simp only [h2, if_true]
        simp only [h4, if_true]
        simp [h3]
      · have h4 : st.buffer_count - 1 ≠ 0 := by omega
        simp only [h2, h3, if_true, if_false, h4]
        have : st.buffer_count - 1 - 1 = st.buffer_count - 2 := by omega
        rw [this]
    · have h3 : st.buffer_count ≠ 1 := by omega
      have h4 : st.buffer_count - 1 ≠ 0 := by omega
      simp only [h2, h3, if_false, h4]


theorem live_get (st : EditorState) (n : Nat) :
    (live_buffers st)[n]? = if (n : Int) < st.buffer_count then some (slot st n) else none := by
  unfold live_buffers
  rw [List.getElem?_map]
  by_cases h : (n : Int) < st.buffer_count
  · rw [List.getElem?_range (by omega)]
    simp [h]
  · rw [List.getElem?_eq_none (by simp; omega)]
    simp [h]

theorem live_after_close {st st' : EditorState} (h0 : 0 ≤ st.current_buffer)
    (h1 : st.current_buffer < st.buffer_count)
    (hc : st'.buffer_count = st.buffer_count - 1)
    (hs : ∀ j : Nat, slot st' j
      = if st.current_buffer ≤ ↑j ∧ (j : Int) < st.buffer_count - 1 then slot st (j + 1)
        else slot st j) :
    live_buffers st' = (live_buffers st).eraseIdx st.current_buffer.toNat := by
  apply List.ext_getElem?
  intro n
  rw [List.getElem?_eraseIdx, live_get, live_get, live_get, hc, hs n]
  by_cases hn : (n : Int) < st.buffer_count - 1
  · by_cases hc : n < st.current_buffer.toNat
    · have h2 : ¬ (st.current_buffer ≤ ↑n ∧ (n : Int) < st.buffer_count - 1) := by omega
      have h3 : (n : Int) < st.buffer_count := by omega
      rw [if_neg h2]
      simp only [hn, hc, h3, if_true]
    · have h2 : st.current_buffer ≤ ↑n ∧ (n : Int) < st.buffer_count - 1 := by omega
      have h3 : ((n + 1 : Nat) : Int) < st.buffer_count := by push_cast; omega
      rw [if_pos h2]
      simp only [hn, hc, h3, if_true, if_false]
  · have hc : ¬ n < st.current_buffer.toNat := by omega
    have h3 : ¬ ((n + 1 : Nat) : Int) < st.buffer_count := by push_cast; omega
    simp only [hn, hc, h3, if_false]

theorem ok_after_close {st st' : EditorState} (hok : EditorOk st) (h1 : 1 ≤ st.buffer_count)
    (hc : st'.buffer_count = st.buffer_count - 1)
    (hcur : st'.current_buffer
      = if st.current_buffer ≥ st.buffer_count - 1 then st.buffer_count - 2
        else st.current_buffer)
    (hs : ∀ j : Nat, slot st' j
      = if st.current_buffer ≤ ↑j ∧ (j : Int) < st.buffer_count - 1 then slot st (j + 1)
        else slot st j) : EditorOk st' := by
  have hc1 : st.buffer_count ≤ 10 := hok.2.1
  obtain ⟨hcur0, hcur1⟩ := hok.2.2.1 (by omega)
  apply editor_ok_intro
  · omega
  · omega
  · intro hpos
    rw [hcur, hc]
    split <;> omega
  · intro j hj
    rw [hs j]
    split
    · exact editor_ok_slot hok (by push_cast; omega)
    · exact editor_ok_slot hok (by omega)

/-- C39. Closing removes exactly the current buffer. In a well-formed editor
state with at least one buffer the current slot holds a buffer. If that
buffer is unmodified, `editor_close_current_buffer` returns `LITE_OK`; the
buffers of the set are afterwards the previous ones with the entry at
`current_buffer` removed, in the same order; `buffer_count` is one less;
`running` is false when no buffer is left and unchanged otherwise; the
selector stays where it was unless it pointed to the last slot, in which case
it moves one down; the state is well formed again. If the buffer is modified
the function returns `LITE_ERROR` and the whole editor state is unchanged. -/
theorem close_removes_current (st : EditorState) (hok : EditorOk st)
    (h1 : 1 ≤ st.buffer_count) :
    ∃ b, buffer_at st st.current_buffer = some (some b) ∧
      (b.buf.modified = false →
        ∃ st', editor_close_current_buffer st = some (LITE_OK, st') ∧
          live_buffers st' = (live_buffers st).eraseIdx st.current_buffer.toNat ∧
          st'.buffer_count = st.buffer_count - 1 ∧
          st'.running = (if st.buffer_count = 1 then false else st.running) ∧
          st'.current_buffer
            = (if st.current_buffer ≥ st.buffer_count - 1 then st.buffer_count - 2
               else st.current_buffer) ∧
          st'.mode = st.mode ∧ st'.command_buffer = st.command_buffer ∧
          st'.command_pos = st.command_pos ∧ EditorOk st') ∧
      (b.buf.modified = true → editor_close_current_buffer st = some (LITE_ERROR, st)) := by
  have hc1 : st.buffer_count ≤ 10 := hok.2.1
  obtain ⟨hcur0, hcur1⟩ := hok.2.2.1 (by omega)
  obtain ⟨b, hb, _, hmod, hclose⟩ := close_spec hok h1
  refine ⟨b, ?_, ?_, hmod⟩
  · rw [buffer_at_slot hcur0 (by omega), hb]
  · intro hm
    obtain ⟨bs, hev, hsl⟩ := hclose hm
    exact ⟨_, hev, live_after_close hcur0 hcur1 rfl hsl, rfl, rfl, rfl, rfl, rfl, rfl,
      ok_after_close hok h1 rfl rfl hsl⟩

theorem close_removes_current_witness :
    EditorOk (editor_of [fresh_buffer 1, fresh_buffer 2, fresh_buffer 3] 1 []) ∧
    (editor_close_current_buffer
        (editor_of [fresh_buffer 1, fresh_buffer 2, fresh_buffer 3] 1 [])).map
        (fun r => (r.1, live_buffers r.2, r.2.current_buffer))
      = some (LITE_OK, [some (fresh_buffer 1), some (fresh_buffer 3)], 1) ∧
    (editor_close_current_buffer (editor_of [nul_buffer] 0 [])).map (fun r => r.1)
      = some LITE_ERROR ∧
    ∃ b, buffer_at (editor_of [fresh_buffer 1, fresh_buffer 2, fresh_buffer 3] 1 []) 1
        = some (some b) ∧
      (b.buf.modified = false →
        ∃ st', editor_close_current_buffer
            (editor_of [fresh_buffer 1, fresh_buffer 2, fresh_buffer 3] 1 [])
            = some (LITE_OK, st') ∧
          live_buffers st'
            = (live_buffers (editor_of [fresh_buffer 1, fresh_buffer 2, fresh_buffer 3]
                1 [])).eraseIdx 1 ∧
          st'.buffer_count = 3 - 1 ∧
          st'.running = true ∧ st'.current_buffer = 1 ∧
          st'.mode = .MODE_COMMAND ∧
          st'.command_buffer = List.replicate 1024 0 ∧
          st'.command_pos = 0 ∧ EditorOk st') ∧
      (b.buf.modified = true →
        editor_close_current_buffer
            (editor_of [fresh_buffer 1, fresh_buffer 2, fresh_buffer 3] 1 [])
          = some (LITE_ERROR, editor_of [fresh_buffer 1, fresh_buffer 2, fresh_buffer 3] 1 [])) :=
  ⟨by decide, by decide, by decide,
    close_removes_current (editor_of [fresh_buffer 1, fresh_buffer 2, fresh_buffer 3] 1 [])
      (by decide) (by decide)⟩

/-! ## Opening files and the invariant of the buffer set -/

theorem load_loop_seg : ∀ (k : Nat) (f : List Nat) (alloc : Nat → Bool) (i : Nat) (h : Heap)
    (b : Buffer) (l : List Nat), Seg h none b.first_line l none →
    ∀ c h' b', load_loop k f alloc i h b (last_or none l) = some (c, h', b') →
      ∃ l', Seg h' none b'.first_line l' none := by
  intro k
  induction k with
  | zero =>
    intro f alloc i h b l hs c h' b' he
    simp only [load_loop, Option.some.injEq, Prod.mk.injEq] at he
    obtain ⟨_, rfl, rfl⟩ := he
    exact ⟨l, hs⟩
  | succ k ih =>
    intro f alloc i h b l hs c h' b' he
    cases hfg : fgets f with
    | none =>
      simp only [load_loop, hfg, Option.some.injEq, Prod.mk.injEq] at he
      obtain ⟨_, rfl, rfl⟩ := he
      exact ⟨l, hs⟩
    | some cr =>
      obtain ⟨chunk, rest⟩ := cr
      by_cases h1 : alloc i = false
      · simp only [load_loop, hfg, h1, Bool.not_false, if_true, Option.some.injEq,
          Prod.mk.injEq] at he
        obtain ⟨_, rfl, rfl⟩ := he
        exact ⟨l, hs⟩
      by_cases h2 : alloc (i + 1) = false
      · have h1' : alloc i = true := by simpa using h1
        simp only [load_loop, hfg, h1', h2, Bool.not_false, Bool.not_true, Bool.false_eq_true,
          if_true, if_false, Option.some.injEq, Prod.mk.injEq] at he
        obtain ⟨_, rfl, rfl⟩ := he
        exact ⟨l, hs⟩
      have h1' : alloc i = true := by simpa using h1
      have h2' : alloc (i + 1) = true := by simpa using h2
      obtain ⟨hp2, b2, hap, hs2, _, _, _, _⟩ := append_spec hs
        { data := cells (strip_eol (c_string chunk)) ++ [some 0],
          length := ((strip_eol (c_string chunk)).length : Int),
          prev := last_or none l, next := none } rfl rfl
      have hs2' : Seg hp2 none
          ({ b2 with line_count := b2.line_count + 1 } : Buffer).first_line
          (l ++ [h.length]) none := hs2
      simp only [load_loop, hfg, h1', h2', Bool.not_true, Bool.false_eq_true, if_false, hap]
        at he
      have he' : load_loop k rest alloc (i + 2) hp2 { b2 with line_count := b2.line_count + 1 }
          (last_or none (l ++ [h.length])) = some (c, h', b') := by
        rw [last_or_append]
        exact he
      exact ih rest alloc (i + 2) hp2 _ (l ++ [h.length]) hs2' c h' b' he'

/-- After a failed `file_load` the nodes reachable from `first_line` still form
a list, so `buffer_free` can release the buffer. -/
theorem file_load_error_free {t : State} (hl : Linked t) {f : List Nat} {alloc : Nat → Bool}
    {t1 : State} (he : file_load t (some f) alloc = some (LITE_ERROR, t1)) :
    buffer_free t1 = some () := by
  obtain ⟨hs, hne⟩ := linked_seg hl
  have hlen : (line_addrs t).length ≤ t.heap.length + 1 := by
    have := nodup_lt_length (seg_nodup hs) (fun a ha => seg_mem_lt hs ha)
    omega
  obtain ⟨hc, hcl, _⟩ := clear_lines_spec hs hne _ hlen
  unfold file_load at he
  simp only [hcl] at he
  cases hll : load_loop f.length f alloc 0 hc
      { t.buf with first_line := none, current_line := none, line_count := 0,
                   cursor_x := 0, cursor_y := 0 } none with
  | none => rw [hll] at he; simp at he
  | some r =>
    obtain ⟨c, h1, b1⟩ := r
    obtain ⟨l', hseg⟩ := load_loop_seg f.length f alloc 0 hc _ [] (seg_nil.2 rfl) c h1 b1 hll
    rw [hll] at he
    have key : buffer_free { heap := h1, buf := b1 } = some () := buffer_free_seg hseg
    cases c with
    | some code =>
      simp only [Option.some.injEq, Prod.mk.injEq] at he
      rw [← he.2]
      exact key
    | none =>
      simp only at he
      split at he
      · split at he
        · simp only [Option.some.injEq, Prod.mk.injEq] at he
          rw [← he.2]; exact key
        · split at he
          · simp only [Option.some.injEq, Prod.mk.injEq] at he
            rw [← he.2]; exact key
          · simp only [Option.some.injEq, Prod.mk.injEq] at he
            exact absurd he.1 (by decide)
      · simp only [Option.some.injEq, Prod.mk.injEq] at he
        exact absurd he.1 (by decide)


theorem linked_congr {s s' : State} (hh : s'.heap = s.heap)
    (hf : s'.buf.first_line = s.buf.first_line) (hc : s'.buf.line_count = s.buf.line_count)
    (hl : Linked s) : Linked s' := by
  obtain ⟨h1, _, _⟩ := lines_frame hh hf
  unfold Linked Inv at hl ⊢
  have e1 : line_addrs (at_col (at_row s' s'.buf.first_line 0) 0) = line_addrs s' := rfl
  have e2 : line_addrs (at_col (at_row s s.buf.first_line 0) 0) = line_addrs s := rfl
  have e3 : node_count (at_col (at_row s' s'.buf.first_line 0) 0)
      = node_count (at_col (at_row s s.buf.first_line 0) 0) := by
    simp only [node_count, e1, e2, h1]
  have e4 : current_len (at_col (at_row s' s'.buf.first_line 0) 0)
      = current_len (at_col (at_row s s.buf.first_line 0) 0) := by
    simp only [current_len, at_col, at_row, hf, hh]
  rw [e1, e3, e4]
  rw [e2] at hl
  rw [h1]
  simp only [at_col, at_row, hh, hf, hc] at hl ⊢
  exact hl

theorem linked_fresh (next_id : Int) : Linked (fresh_buffer next_id) :=
  inv_linked (good_inv (good_fresh next_id))

theorem buffer_create_cases (next_id : Int) (a b c : Bool) :
    ((a && b && c) = true ∧
      buffer_create next_id a b c = (some (fresh_buffer next_id), wrap32 (next_id + 1))) ∨
    ((a && b && c) = false ∧ ∃ nid, buffer_create next_id a b c = (none, nid)) := by
  cases a <;> cases b <;> cases c <;>
    simp [buffer_create, create_line, fresh_buffer]

theorem add_buffer_spec {st : EditorState} (h0 : 0 ≤ st.buffer_count)
    (h1 : st.buffer_count < 10) (b : State) :
    ∃ bs, add_buffer st b = some { st with
        buffers := bs, current_buffer := st.buffer_count,
        buffer_count := st.buffer_count + 1 } ∧
      ∀ j, (bs[j]?).getD none = if j = st.buffer_count.toNat then some b else slot st j := by
  obtain ⟨st1, hset, hst1, hsl⟩ := @set_buffer_slot st _ h0 h1 (some b)
  refine ⟨st1.buffers, ?_, hsl⟩
  simp only [add_buffer, hset]
  rw [hst1]

theorem ok_after_add {st st' : EditorState} {b : State} (hok : EditorOk st)
    (h1 : st.buffer_count < 10) (hl : Linked b)
    (hc : st'.buffer_count = st.buffer_count + 1)
    (hcur : st'.current_buffer = st.buffer_count)
    (hs : ∀ j, slot st' j = if j = st.buffer_count.toNat then some b else slot st j) :
    EditorOk st' := by
  have h0 : 0 ≤ st.buffer_count := hok.1
  apply editor_ok_intro
  · omega
  · omega
  · intro _
    rw [hcur, hc]
    omega
  · intro j hj
    rw [hs j]
    split
    · exact ⟨b, rfl, hl⟩
    · exact editor_ok_slot hok (by omega)

theorem open_full (w : World) (env : Env) (filename : List Nat)
    (h : w.st.buffer_count ≥ 10) :
    editor_open_file w env filename = some (LITE_ERROR_BUFFER_FULL, w) := by
  have : w.st.buffer_count ≥ ↑LITE_MAX_BUFFERS := h
  simp only [editor_open_file, this, if_true]

theorem open_create_fail (w : World) (env : Env) (filename : List Nat)
    (h1 : w.st.buffer_count < 10)
    (hf : (env.ok_buffer && env.ok_line && env.ok_data) = false) :
    ∃ nid, editor_open_file w env filename
      = some (LITE_ERROR, { w with next_buffer_id := nid }) := by
  have hn : ¬ w.st.buffer_count ≥ ↑LITE_MAX_BUFFERS := by
    simp only [LITE_MAX_BUFFERS]; push_cast; omega
  rcases buffer_create_cases w.next_buffer_id env.ok_buffer env.ok_line env.ok_data with
    ⟨ht, _⟩ | ⟨_, nid, he⟩
  · rw [ht] at hf; exact absurd hf (by decide)
  · exact ⟨nid, by simp only [editor_open_file, hn, if_false, he]⟩

theorem open_missing (w : World) (env : Env) (filename : List Nat)
    (h0 : 0 ≤ w.st.buffer_count) (h1 : w.st.buffer_count < 10)
    (hc : (env.ok_buffer && env.ok_line && env.ok_data) = true)
    (hfs : env.fs filename = none) :
    ∃ bs, editor_open_file w env filename = some (LITE_OK,
        { w with
          st := { w.st with
            buffers := bs, current_buffer := w.st.buffer_count,
            buffer_count := w.st.buffer_count + 1 },
          next_buffer_id := wrap32 (w.next_buffer_id + 1) }) ∧
      ∀ j, (bs[j]?).getD none
        = if j = w.st.buffer_count.toNat then
            some { fresh_buffer w.next_buffer_id with
              buf := { (fresh_buffer w.next_buffer_id).buf with
                filename := if env.ok_name then some filename else none } }
          else slot w.st j := by
  have hn : ¬ w.st.buffer_count ≥ ↑LITE_MAX_BUFFERS := by
    simp only [LITE_MAX_BUFFERS]; push_cast; omega
  rcases buffer_create_cases w.next_buffer_id env.ok_buffer env.ok_line env.ok_data with
    ⟨_, he⟩ | ⟨hf, _⟩
  · obtain ⟨bs, hadd, hsl⟩ := add_buffer_spec h0 h1
      { fresh_buffer w.next_buffer_id with
        buf := { (fresh_buffer w.next_buffer_id).buf with
          filename := if env.ok_name then some filename else none } }
    refine ⟨bs, ?_, hsl⟩
    have hne : LITE_ERROR_FILE_NOT_FOUND ≠ LITE_OK := by decide
    simp only [editor_open_file, hn, if_false, he, hfs, buffer_load_file, file_load, hne,
      ne_eq, not_false_eq_true, if_true, hadd]
  · rw [hf] at hc; exact absurd hc (by decide)

theorem open_present (w : World) (env : Env) (filename f : List Nat)
    (h0 : 0 ≤ w.st.buffer_count) (h1 : w.st.buffer_count < 10)
    (hc : (env.ok_buffer && env.ok_line && env.ok_data) = true)
    (hfs : env.fs filename = some f) :
    ∃ code t1, buffer_load_file (fresh_buffer w.next_buffer_id) filename (some f) env.alloc
        env.ok_name = some (code, t1) ∧
      ((code = LITE_ERROR ∧ editor_open_file w env filename
          = some (LITE_ERROR, { w with next_buffer_id := wrap32 (w.next_buffer_id + 1) })) ∨
       (code = LITE_OK ∧ Inv t1 ∧
        ∃ bs, editor_open_file w env filename = some (LITE_OK,
            { w with
              st := { w.st with
                buffers := bs, current_buffer := w.st.buffer_count,
                buffer_count := w.st.buffer_count + 1 },
              next_buffer_id := wrap32 (w.next_buffer_id + 1) }) ∧
          ∀ j, (bs[j]?).getD none
            = if j = w.st.buffer_count.toNat then some t1 else slot w.st j)) := by
  have hn : ¬ w.st.buffer_count ≥ ↑LITE_MAX_BUFFERS := by
    simp only [LITE_MAX_BUFFERS]; push_cast; omega
  rcases buffer_create_cases w.next_buffer_id env.ok_buffer env.ok_line env.ok_data with
    ⟨_, he⟩ | ⟨hf, _⟩
  · obtain ⟨code, t1, hev, hcase⟩ := buffer_load_file_result
      (linked_fresh w.next_buffer_id) filename f env.alloc env.ok_name
    refine ⟨code, t1, hev, ?_⟩
    rcases hcase with ⟨hcode, _, hfl, _⟩ | ⟨hcode, hi, _⟩
    · left
      subst hcode
      refine ⟨rfl, ?_⟩
      have hfree := file_load_error_free (linked_fresh w.next_buffer_id) hfl
      have h1 : LITE_ERROR ≠ LITE_OK := by decide
      have h2 : LITE_ERROR ≠ LITE_ERROR_FILE_NOT_FOUND := by decide
      simp only [editor_open_file, hn, if_false, he, hfs, hev, h1, h2, ne_eq,
        not_false_eq_true, if_true, hfree]
    · right
      subst hcode
      obtain ⟨bs, hadd, hsl⟩ := add_buffer_spec h0 h1 t1
      refine ⟨rfl, hi, bs, ?_, hsl⟩
      simp only [editor_open_file, hn, if_false, he, hfs, hev, ne_eq, not_true_eq_false,
        hadd]
  · rw [hf] at hc; exact absurd hc (by decide)


theorem live_after_add {st st' : EditorState} {b : State} (h0 : 0 ≤ st.buffer_count)
    (hc : st'.buffer_count = st.buffer_count + 1)
    (hs : ∀ j, slot st' j = if j = st.buffer_count.toNat then some b else slot st j) :
    live_buffers st' = live_buffers st ++ [some b] := by
  have hlen : (live_buffers st).length = st.buffer_count.toNat := by
    simp [live_buffers]
  apply List.ext_getElem?
  intro n
  rw [live_get, hc, hs n]
  by_cases h1 : (n : Int) < st.buffer_count
  · have h2 : (n : Int) < st.buffer_count + 1 := by omega
    have h3 : n ≠ st.buffer_count.toNat := by omega
    rw [List.getElem?_append_left (by omega), live_get]
    simp only [h1, h2, h3, if_true, if_false]
  · rw [List.getElem?_append_right (by omega), hlen]
    by_cases h3 : n = st.buffer_count.toNat
    · have h2 : (n : Int) < st.buffer_count + 1 := by omega
      rw [if_pos h2, if_pos h3, h3]
      simp
    · have h2 : ¬ (n : Int) < st.buffer_count + 1 := by omega
      have h4 : n - st.buffer_count.toNat ≠ 0 := by omega
      simp only [h2, if_false]
      cases hk : n - st.buffer_count.toNat with
      | zero => exact absurd hk h4
      | succ k => rfl

/-- C36 fails. Under the comment `keep empty buffer but set filename`,
`editor_open_file` assigns `buffer->filename = strdup(filename)` and never
tests the result, where it tests `buffer_create` and the result of
`buffer_load_file`. When that `strdup` fails, opening the missing file `"a"`
in the editor after `editor_init` still returns `LITE_OK` and adds the new
empty buffer, whose filename is `NULL`. -/
theorem open_missing_name_counterexample :
    (editor_open_file (init_world 1)
        { ok_buffer := true, ok_line := true, ok_data := true, fs := fun _ => none,
          alloc := fun _ => true, ok_name := false, fopen_ok := true } [97]).map
        (fun r => (r.1, r.2.st.buffer_count, (slot r.2.st 0).map (fun b => b.buf.filename)))
      = some (LITE_OK, 1, some none) := by
  decide

/-- C36, what the code does. In an editor whose buffer set is not full, the
new buffer being created, `buffer_load_file` on it returns. When it reports
`LITE_ERROR_FILE_NOT_FOUND`, `editor_open_file` returns `LITE_OK`, the set is
the previous one followed by the new buffer, which is current; that buffer
has exactly one empty line, cursor (0,0), `modified = false` and the next
buffer id. Its filename is the requested path exactly when `strdup` returned
a copy (`ok_name`); it is `NULL` under `LITE_OK` when it did not, which is
the defect. When the load reports any other failure, `editor_open_file`
returns that error and the editor state is unchanged. -/
theorem open_missing_file (w : World) (env : Env) (filename : List Nat)
    (h0 : 0 ≤ w.st.buffer_count) (h1 : w.st.buffer_count < ↑LITE_MAX_BUFFERS)
    (hc : (env.ok_buffer && env.ok_line && env.ok_data) = true) :
    ∃ code t1, buffer_load_file (fresh_buffer w.next_buffer_id) filename (env.fs filename)
        env.alloc env.ok_name = some (code, t1) ∧
      (code = LITE_ERROR_FILE_NOT_FOUND →
        ∃ w' b, editor_open_file w env filename = some (LITE_OK, w') ∧
          w'.st.buffer_count = w.st.buffer_count + 1 ∧
          w'.st.current_buffer = w.st.buffer_count ∧
          buffer_at w'.st w'.st.current_buffer = some (some b) ∧
          live_buffers w'.st = live_buffers w.st ++ [some b] ∧
          lines b = [[]] ∧ b.buf.line_count = 1 ∧ b.buf.cursor_x = 0 ∧ b.buf.cursor_y = 0 ∧
          b.buf.modified = false ∧ b.buf.id = w.next_buffer_id ∧ Inv b ∧
          b.buf.filename = (if env.ok_name then some filename else none)) ∧
      (code ≠ LITE_OK → code ≠ LITE_ERROR_FILE_NOT_FOUND →
        ∃ w', editor_open_file w env filename = some (code, w') ∧ w'.st = w.st) := by
  have h1' : w.st.buffer_count < 10 := h1
  cases hfs : env.fs filename with
  | none =>
    refine ⟨LITE_ERROR_FILE_NOT_FOUND, fresh_buffer w.next_buffer_id, ?_, ?_, ?_⟩
    · have hne : LITE_ERROR_FILE_NOT_FOUND ≠ LITE_OK := by decide
      simp only [buffer_load_file, file_load, hne, if_false]
    · intro _
      obtain ⟨bs, hev, hsl⟩ := open_missing w env filename h0 h1' hc hfs
      refine ⟨_, _, hev, rfl, rfl, ?_, live_after_add h0 rfl hsl, rfl, rfl, rfl, rfl, rfl, rfl,
        ?_, rfl⟩
      · rw [buffer_at_slot h0 h1']
        have := hsl w.st.buffer_count.toNat
        simp only [if_true] at this
        exact congrArg some this
      · exact good_inv (good_fresh w.next_buffer_id)
    · intro _ h
      exact absurd rfl h
  | some f =>
    obtain ⟨code, t1, hev, hcase⟩ := open_present w env filename f h0 h1' hc hfs
    refine ⟨code, t1, hev, ?_, ?_⟩
    · intro hcode
      rcases hcase with ⟨he, _⟩ | ⟨he, _⟩ <;> rw [he] at hcode <;>
        exact absurd hcode (by decide)
    · intro hno _
      rcases hcase with ⟨he, hopen⟩ | ⟨he, _⟩
      · rw [he]
        exact ⟨_, hopen, rfl⟩
      · exact absurd he hno

theorem open_missing_file_witness :
    (0 : Int) ≤ (init_world 1).st.buffer_count ∧
    (editor_open_file (init_world 1)
        { ok_buffer := true, ok_line := true, ok_data := true, fs := fun _ => none,
          alloc := fun _ => true, ok_name := true, fopen_ok := true } [97]).map
        (fun r => (r.1, r.2.st.buffer_count, (slot r.2.st 0).map (fun b => b.buf.filename)))
      = some (LITE_OK, 1, some (some [97])) ∧
    ∃ code t1, buffer_load_file (fresh_buffer 1) [97] none (fun _ => true) true
        = some (code, t1) ∧
      (code = LITE_ERROR_FILE_NOT_FOUND →
        ∃ w' b, editor_open_file (init_world 1)
            { ok_buffer := true, ok_line := true, ok_data := true, fs := fun _ => none,
              alloc := fun _ => true, ok_name := true, fopen_ok := true } [97]
            = some (LITE_OK, w') ∧
          w'.st.buffer_count = 0 + 1 ∧
          w'.st.current_buffer = 0 ∧
          buffer_at w'.st w'.st.current_buffer = some (some b) ∧
          live_buffers w'.st = live_buffers (init_world 1).st ++ [some b] ∧
          lines b = [[]] ∧ b.buf.line_count = 1 ∧ b.buf.cursor_x = 0 ∧ b.buf.cursor_y = 0 ∧
          b.buf.modified = false ∧ b.buf.id = 1 ∧ Inv b ∧
          b.buf.filename = some [97]) ∧
      (code ≠ LITE_OK → code ≠ LITE_ERROR_FILE_NOT_FOUND →
        ∃ w', editor_open_file (init_world 1)
            { ok_buffer := true, ok_line := true, ok_data := true, fs := fun _ => none,
              alloc := fun _ => true, ok_name := true, fopen_ok := true } [97]
            = some (code, w') ∧ w'.st = (init_world 1).st) :=
  ⟨by decide, by decide,
    open_missing_file (init_world 1)
      { ok_buffer := true, ok_line := true, ok_data := true, fs := fun _ => none,
        alloc := fun _ => true, ok_name := true, fopen_ok := true } [97]
      (by decide) (by decide) (by decide)⟩


theorem switch_spec : ∀ (k : Nat) (st : EditorState) (i buffer_id : Int), 0 ≤ i →
    st.buffer_count ≤ 10 →
    ∃ code st', switch_loop k st i buffer_id = some (code, st') ∧
      ((code = LITE_ERROR ∧ st' = st) ∨
       (code = LITE_OK ∧ ∃ j : Int, i ≤ j ∧ j < st.buffer_count ∧
          st' = { st with current_buffer := j })) := by
  intro k
  induction k with
  | zero => intro st i _ _ _; exact ⟨LITE_ERROR, st, rfl, Or.inl ⟨rfl, rfl⟩⟩
  | succ k ih =>
    intro st i buffer_id h0 hc
    by_cases hi : i < st.buffer_count
    · have hat := @buffer_at_slot st _ h0 (by omega : i < 10)
      obtain ⟨code, st', hev, hcase⟩ := ih st (i + 1) buffer_id (by omega) hc
      have hcase' : (code = LITE_ERROR ∧ st' = st) ∨
          (code = LITE_OK ∧ ∃ j : Int, i ≤ j ∧ j < st.buffer_count ∧
            st' = { st with current_buffer := j }) := by
        rcases hcase with h | ⟨h, j, hj1, hj2, hj3⟩
        · exact Or.inl h
        · exact Or.inr ⟨h, j, by omega, hj2, hj3⟩
      cases hs : slot st i.toNat with
      | none =>
        refine ⟨code, st', ?_, hcase'⟩
        simp only [switch_loop, hi, if_true, hat, hs]
        exact hev
      | some b =>
        by_cases hb : b.buf.id = buffer_id
        · refine ⟨LITE_OK, { st with current_buffer := i }, ?_,
            Or.inr ⟨rfl, i, le_refl _, hi, rfl⟩⟩
          simp only [switch_loop, hi, if_true, hat, hs, hb]
        · refine ⟨code, st', ?_, hcase'⟩
          simp only [switch_loop, hi, if_true, hat, hs, hb, if_false]
          exact hev
    · exact ⟨LITE_ERROR, st, by simp only [switch_loop, hi, if_false], Or.inl ⟨rfl, rfl⟩⟩

theorem ok_after_switch {st : EditorState} (hok : EditorOk st) {j : Int} (h0 : 0 ≤ j)
    (h1 : j < st.buffer_count) : EditorOk { st with current_buffer := j } :=
  ⟨hok.1, hok.2.1, fun _ => ⟨h0, h1⟩, hok.2.2.2⟩

theorem tab_new_spec (w : World) (env : Env) (hcmd : w.commands = builtin_commands)
    (h0 : 0 ≤ w.st.buffer_count) :
    (∃ nid, command_execute w env [116, 97, 98, 32, 110, 101, 119]
        = some (LITE_ERROR, { w with next_buffer_id := nid })) ∨
    (w.st.buffer_count < 10 ∧
      ∃ bs, command_execute w env [116, 97, 98, 32, 110, 101, 119] = some (LITE_OK,
          { w with
            st := { w.st with
              buffers := bs, current_buffer := w.st.buffer_count,
              buffer_count := w.st.buffer_count + 1 },
            next_buffer_id := wrap32 (w.next_buffer_id + 1) }) ∧
        ∀ j, (bs[j]?).getD none
          = if j = w.st.buffer_count.toNat then some (fresh_buffer w.next_buffer_id)
            else slot w.st j) := by
  have hp : parse_args ((c_string [116, 97, 98, 32, 110, 101, 119]).take
      (LITE_MAX_LINE_LENGTH - 1)) = [[116, 97, 98], [110, 101, 119]] := by decide
  have hf : find_command builtin_commands [116, 97, 98] = some .command_tab := by decide
  have hx : command_execute w env [116, 97, 98, 32, 110, 101, 119]
      = command_tab w env [[116, 97, 98], [110, 101, 119]] := by
    simp only [command_execute, hp, hcmd, hf, run_command]
  rw [hx]
  rcases buffer_create_cases w.next_buffer_id env.ok_buffer env.ok_line env.ok_data with
    ⟨_, he⟩ | ⟨_, nid, he⟩
  · by_cases hfull : w.st.buffer_count ≥ ↑LITE_MAX_BUFFERS
    · left
      refine ⟨wrap32 (w.next_buffer_id + 1), ?_⟩
      simp only [command_tab, if_true, he, hfull, buffer_free_linked (linked_fresh _)]
    · right
      have h1 : w.st.buffer_count < 10 := by
        simp only [LITE_MAX_BUFFERS] at hfull; push_cast at hfull; omega
      obtain ⟨bs, hadd, hsl⟩ := add_buffer_spec h0 h1 (fresh_buffer w.next_buffer_id)
      refine ⟨h1, bs, ?_, hsl⟩
      simp only [command_tab, if_true, he, hfull, if_false, hadd]
  · left
    exact ⟨nid, by simp only [command_tab, if_true, he]⟩

theorem step_open {w : World} {env : Env} {filename : List Nat} {code : Int} {w' : World}
    (h : editor_open_file w env filename = some (code, w')) :
    ed_step w (.open_file filename env) = some w' := by
  simp only [ed_step, h, Option.map_some']

theorem step_tab {w : World} {env : Env} {code : Int} {w' : World}
    (h : command_execute w env [116, 97, 98, 32, 110, 101, 119] = some (code, w')) :
    ed_step w (.tab_new env) = some w' := by
  simp only [ed_step, h, Option.map_some']

theorem step_close {w : World} {code : Int} {st' : EditorState}
    (h : editor_close_current_buffer w.st = some (code, st')) :
    ed_step w .close_current = some { w with st := st' } := by
  simp only [ed_step, h, Option.map_some']

/-- One operation on the buffer set, from a well-formed state with the
built-in commands: it returns, and the state is well formed again. -/
theorem ed_step_ok {w : World} (hok : EditorOk w.st) (hcmd : w.commands = builtin_commands)
    (op : EdOp) :
    ∃ w', ed_step w op = some w' ∧ EditorOk w'.st ∧ w'.commands = builtin_commands := by
  have h0 : 0 ≤ w.st.buffer_count := hok.1
  have h10 : w.st.buffer_count ≤ 10 := hok.2.1
  cases op with
  | open_file filename env =>
    by_cases hfull : w.st.buffer_count ≥ 10
    · exact ⟨w, step_open (open_full w env filename hfull),
        hok, hcmd⟩
    · have h1 : w.st.buffer_count < 10 := by omega
      by_cases hc : (env.ok_buffer && env.ok_line && env.ok_data) = true
      · cases hfs : env.fs filename with
        | none =>
          obtain ⟨bs, hev, hsl⟩ := open_missing w env filename h0 h1 hc hfs
          have hlb : Linked ({ fresh_buffer w.next_buffer_id with
              buf := { (fresh_buffer w.next_buffer_id).buf with
                filename := if env.ok_name then some filename else none } } : State) :=
            linked_congr rfl rfl rfl (linked_fresh w.next_buffer_id)
          refine ⟨_, step_open hev, ?_, hcmd⟩
          exact ok_after_add hok h1 hlb rfl rfl hsl
        | some f =>
          obtain ⟨code, t1, _, hcase⟩ := open_present w env filename f h0 h1 hc hfs
          rcases hcase with ⟨_, hev⟩ | ⟨_, hi, bs, hev, hsl⟩
          · exact ⟨_, step_open hev, hok, hcmd⟩
          · refine ⟨_, step_open hev, ?_, hcmd⟩
            exact ok_after_add hok h1 (inv_linked hi) rfl rfl hsl
      · obtain ⟨nid, hev⟩ := open_create_fail w env filename h1 (by simpa using hc)
        exact ⟨_, step_open hev, hok, hcmd⟩
  | tab_new env =>
    rcases tab_new_spec w env hcmd h0 with ⟨nid, hev⟩ | ⟨h1, bs, hev, hsl⟩
    · exact ⟨_, step_tab hev, hok, hcmd⟩
    · refine ⟨_, step_tab hev, ?_, hcmd⟩
      exact ok_after_add hok h1 (linked_fresh w.next_buffer_id) rfl rfl hsl
  | switch_buffer buffer_id =>
    obtain ⟨code, st', hev, hcase⟩ :=
      switch_spec w.st.buffer_count.toNat w.st 0 buffer_id (le_refl _) h10
    refine ⟨{ w with st := st' }, ?_, ?_, hcmd⟩
    · simp only [ed_step, editor_switch_buffer, hev, Option.map_some']
    · rcases hcase with ⟨_, h⟩ | ⟨_, j, hj0, hj1, h⟩
      · rw [h]; exact hok
      · rw [h]; exact ok_after_switch hok hj0 hj1
  | close_current =>
    by_cases hz : w.st.buffer_count = 0
    · have hev : editor_close_current_buffer w.st = some (LITE_ERROR, w.st) := by
        simp [editor_close_current_buffer, hz]
      exact ⟨_, step_close hev, hok, hcmd⟩
    · have h1 : 1 ≤ w.st.buffer_count := by omega
      obtain ⟨b, _, _, hmod, hclose⟩ := close_spec hok h1
      cases hm : b.buf.modified with
      | true =>
        exact ⟨w, step_close (hmod hm), hok, hcmd⟩
      | false =>
        obtain ⟨bs, hev, hsl⟩ := hclose hm
        refine ⟨_, step_close hev, ?_, hcmd⟩
        exact ok_after_close hok h1 rfl rfl hsl

theorem editor_init_ok : EditorOk editor_init := by decide

theorem ed_run_ok : ∀ (ops : List EdOp) {w : World}, EditorOk w.st →
    w.commands = builtin_commands →
    ∃ w', ed_run ops w = some w' ∧ EditorOk w'.st ∧ w'.commands = builtin_commands := by
  intro ops
  induction ops with
  | nil => intro w hok hcmd; exact ⟨w, rfl, hok, hcmd⟩
  | cons op ops ih =>
    intro w hok hcmd
    obtain ⟨w1, hs, hok1, hcmd1⟩ := ed_step_ok hok hcmd op
    obtain ⟨w', hr, hok', hcmd'⟩ := ih hok1 hcmd1
    exact ⟨w', by simp only [ed_run, hs]; exact hr, hok', hcmd'⟩

/-- C35. Buffer-set well-formedness is an invariant of the editor operations.
From the state `editor_init` builds, every sequence of `editor_open_file`,
`"tab new"`, `editor_switch_buffer` and `editor_close_current_buffer` calls
(any file names, file contents and allocation outcomes) runs to an end, and
then `0 ≤ buffer_count ≤ LITE_MAX_BUFFERS` and, when `buffer_count > 0`,
`0 ≤ current_buffer < buffer_count`; every slot below `buffer_count` holds a
buffer. On any editor whose set is full `editor_open_file` returns
`LITE_ERROR_BUFFER_FULL` and changes nothing. -/
theorem buffer_set_wellformed (next_id : Int) (ops : List EdOp) :
    (∃ w, ed_run ops (init_world next_id) = some w ∧
      0 ≤ w.st.buffer_count ∧ w.st.buffer_count ≤ ↑LITE_MAX_BUFFERS ∧
      (w.st.buffer_count > 0 →
        0 ≤ w.st.current_buffer ∧ w.st.current_buffer < w.st.buffer_count) ∧
      EditorOk w.st) ∧
    (∀ (w : World) (env : Env) (filename : List Nat),
      w.st.buffer_count ≥ ↑LITE_MAX_BUFFERS →
        editor_open_file w env filename = some (LITE_ERROR_BUFFER_FULL, w)) := by
  constructor
  · obtain ⟨w, hr, hok, _⟩ := ed_run_ok ops (w := init_world next_id) editor_init_ok rfl
    exact ⟨w, hr, hok.1, hok.2.1, hok.2.2.1, hok⟩
  · intro w env filename h
    exact open_full w env filename h


/-- Eleven `"tab new"` commands after `editor_init` leave ten buffers, the
last one current; opening, switching and closing move the selector inside
the set. -/
theorem ed_run_example :
    (ed_run (List.replicate 11 (.tab_new plain_env)) (init_world 1)).map
        (fun w => (w.st.buffer_count, w.st.current_buffer, w.next_buffer_id))
      = some (10, 9, 12) ∧
    (ed_run [.open_file [97] plain_env, .tab_new plain_env, .switch_buffer 1, .close_current]
        (init_world 1)).map
        (fun w => (w.st.buffer_count, w.st.current_buffer,
          (live_buffers w.st).map (fun b => b.map (fun s => s.buf.id))))
      = some (1, 0, [some 2]) ∧
    (ed_run [.tab_new plain_env, .close_current] (init_world 1)).map
        (fun w => (w.st.buffer_count, w.st.current_buffer, w.st.running))
      = some (0, -1, false) := by
  refine ⟨by decide, by decide, by decide⟩

/-! ## The command line -/

theorem strlen_iff : ∀ (cb : List Nat) (n : Nat),
    strlen cb = some (n : Int) ↔ cb[n]? = some 0 ∧ ∀ i, i < n → cb[i]? ≠ some 0 := by
  intro cb
  induction cb with
  | nil => intro n; simp [strlen]
  | cons c t ih =>
    intro n
    by_cases hc : c = 0
    · subst hc
      have h0 : strlen (0 :: t) = some 0 := by simp [strlen, c_string]
      rw [h0]
      cases n with
      | zero => simp
      | succ m =>
        constructor
        · intro h
          simp only [Option.some.injEq] at h
          omega
        · intro ⟨_, h⟩
          exact absurd (by simp) (h 0 (by omega))
    · have hs : strlen (c :: t) = (strlen t).map (fun k => k + 1) := by
        have hc' : ¬ (0 = c) := fun e => hc e.symm
        by_cases hm : 0 ∈ t
        · simp [strlen, c_string, hc, hc', hm, List.takeWhile_cons]
        · simp [strlen, c_string, hc, hc', hm]
      rw [hs]
      cases n with
      | zero =>
        constructor
        · intro h
          cases hst : strlen t with
          | none => rw [hst] at h; simp at h
          | some k =>
            rw [hst] at h
            have hk : 0 ≤ k := by
              unfold strlen at hst
              split at hst
              · simp only [Option.some.injEq] at hst
                rw [← hst]; exact Int.natCast_nonneg _
              · simp at hst
            simp only [Option.map_some', Option.some.injEq] at h
            simp only [Nat.cast_zero] at h
            omega
        · intro ⟨h, _⟩
          simp at h
          exact absurd h hc
      | succ m =>
        have e1 : (strlen t).map (fun k => k + 1) = some ((m + 1 : Nat) : Int)
            ↔ strlen t = some (m : Int) := by
          cases hst : strlen t with
          | none => simp
          | some k =>
            simp only [Option.map_some', Option.some.injEq]
            push_cast
            omega
        rw [e1, ih m]
        constructor
        · intro ⟨h1, h2⟩
          refine ⟨by simpa using h1, fun i hi => ?_⟩
          cases i with
          | zero => simpa using hc
          | succ j => simpa using h2 j (by omega)
        · intro ⟨h1, h2⟩
          refine ⟨by simpa using h1, fun i hi => ?_⟩
          simpa using h2 (i + 1) (by omega)

theorem strlen_replicate (n : Nat) : strlen (List.replicate (n + 1) 0) = some 0 := by
  have h := (strlen_iff (List.replicate (n + 1) 0) 0).2
    ⟨by rw [List.replicate_succ]; simp, fun i hi => absurd hi (by omega)⟩
  rw [h]
  rfl

theorem strlen_zeros : strlen (List.replicate LITE_MAX_LINE_LENGTH 0) = some 0 :=
  strlen_replicate 1023

theorem strlen_nonneg {cb : List Nat} {n : Int} (h : strlen cb = some n) : 0 ≤ n := by
  unfold strlen at h
  split at h
  · simp only [Option.some.injEq] at h
    rw [← h]; exact Int.natCast_nonneg _
  · simp at h

/-- Erasing the last character: `command_buffer[command_pos - 1] = 0`. -/
theorem strlen_erase {cb : List Nat} {n : Nat} (h : strlen cb = some ((n + 1 : Nat) : Int)) :
    strlen (cb.set n 0) = some (n : Int) := by
  obtain ⟨h1, h2⟩ := (strlen_iff cb (n + 1)).1 h
  have hlen : n + 1 < cb.length := by
    by_contra hge
    rw [List.getElem?_eq_none (by omega)] at h1
    simp at h1
  refine (strlen_iff _ n).2 ⟨?_, fun i hi => ?_⟩
  · rw [List.getElem?_set_self (by omega)]
  · rw [List.getElem?_set_ne (by omega)]
    exact h2 i (by omega)

/-- Appending a character: `command_buffer[command_pos] = v` followed by
`command_buffer[command_pos + 1] = 0`. -/
theorem strlen_append {cb : List Nat} {n v : Nat} (h : strlen cb = some (n : Int))
    (hlen : n + 1 < cb.length) (hv : v ≠ 0) :
    strlen ((cb.set n v).set (n + 1) 0) = some ((n + 1 : Nat) : Int) := by
  obtain ⟨_, h2⟩ := (strlen_iff cb n).1 h
  refine (strlen_iff _ (n + 1)).2 ⟨?_, fun i hi => ?_⟩
  · rw [List.getElem?_set_self (by simp; omega)]
  · rw [List.getElem?_set_ne (by omega)]
    by_cases hin : i = n
    · subst hin
      rw [List.getElem?_set_self (by omega)]
      simpa using hv
    · rw [List.getElem?_set_ne (fun e => hin e.symm)]
      exact h2 i (by omega)

theorem cmd_ok_clear (st : EditorState) (m : EditorMode) (hm : m ≠ .MODE_COMMAND) :
    CmdOk (editor_set_mode st m) ∧ CmdClear (editor_set_mode st m) := by
  unfold editor_set_mode
  rw [if_pos hm]
  refine ⟨⟨by simp, strlen_zeros, by simp [LITE_MAX_LINE_LENGTH]⟩, fun _ => ⟨strlen_zeros, rfl⟩⟩

theorem cmd_frame {st st' : EditorState} (h1 : st'.mode = st.mode)
    (h2 : st'.command_buffer = st.command_buffer) (h3 : st'.command_pos = st.command_pos) :
    (CmdOk st → CmdOk st') ∧ (CmdClear st → CmdClear st') := by
  unfold CmdOk CmdClear
  rw [h1, h2, h3]
  exact ⟨id, id⟩

theorem on_buffer_frame {w w' : World} {buffer : Option State} {f : State → Option State}
    (h : on_buffer w buffer f = some w') :
    w'.st.mode = w.st.mode ∧ w'.st.command_buffer = w.st.command_buffer ∧
      w'.st.command_pos = w.st.command_pos := by
  unfold on_buffer at h
  split at h
  · simp only [Option.some.injEq] at h
    rw [← h]
    exact ⟨rfl, rfl, rfl⟩
  · split at h
    · simp at h
    · unfold set_buffer at h
      split at h
      · simp only [Option.map_some', Option.some.injEq] at h
        rw [← h]
        exact ⟨rfl, rfl, rfl⟩
      · simp at h


theorem key_keep {w w' : World} (hp : CmdOk w.st)
    (hf : w'.st.mode = w.st.mode ∧ w'.st.command_buffer = w.st.command_buffer ∧
      w'.st.command_pos = w.st.command_pos) :
    CmdOk w'.st ∧ (CmdClear w.st → CmdClear w'.st) ∧
      (w'.st.mode ≠ w.st.mode → CmdClear w'.st) :=
  ⟨(cmd_frame hf.1 hf.2.1 hf.2.2).1 hp, (cmd_frame hf.1 hf.2.1 hf.2.2).2,
    fun h => absurd hf.1 h⟩

theorem key_reset (w : World) {w' : World} {t : EditorState} {m : EditorMode}
    (hm : m ≠ .MODE_COMMAND) (h : w'.st = editor_set_mode t m) :
    CmdOk w'.st ∧ (CmdClear w.st → CmdClear w'.st) ∧
      (w'.st.mode ≠ w.st.mode → CmdClear w'.st) := by
  rw [h]
  exact ⟨(cmd_ok_clear t m hm).1, fun _ => (cmd_ok_clear t m hm).2,
    fun _ => (cmd_ok_clear t m hm).2⟩

theorem key_colon {w w' : World} (hp : CmdOk w.st)
    (h : (poke_command (editor_set_mode w.st .MODE_COMMAND) 0 0).map
      (fun st1 => ({ w with st := { st1 with command_pos := 0 } } : World)) = some w') :
    CmdOk w'.st ∧ (CmdClear w.st → CmdClear w'.st) ∧
      (w'.st.mode ≠ w.st.mode → CmdClear w'.st) := by
  simp only [poke_command, editor_set_mode, LITE_MAX_LINE_LENGTH] at h
  simp at h
  subst h
  have hlen : w.st.command_buffer.length = 1024 := hp.1
  have hc : CmdOk ({ w with st := { w.st with
      mode := .MODE_COMMAND, command_buffer := w.st.command_buffer.set 0 0,
      command_pos := 0 } } : World).st := by
    refine ⟨by simp [hlen, LITE_MAX_LINE_LENGTH], ?_, by simp [LITE_MAX_LINE_LENGTH]⟩
    have := (strlen_iff (w.st.command_buffer.set 0 0) 0).2
      ⟨by rw [List.getElem?_set_self (by omega)], fun i hi => absurd hi (by omega)⟩
    simpa using this
  exact ⟨hc, fun _ hne => absurd rfl hne, fun _ hne => absurd rfl hne⟩

theorem key_backspace {w w' : World} (hp : CmdOk w.st) (hm : w.st.mode = .MODE_COMMAND)
    (hpos : w.st.command_pos > 0)
    (h : (poke_command { w.st with command_pos := w.st.command_pos - 1 }
      (w.st.command_pos - 1) 0).map (fun st1 => ({ w with st := st1 } : World)) = some w') :
    CmdOk w'.st ∧ (CmdClear w.st → CmdClear w'.st) ∧
      (w'.st.mode ≠ w.st.mode → CmdClear w'.st) := by
  obtain ⟨hlen, hstr, hle⟩ := hp
  have h0 : 0 ≤ w.st.command_pos - 1 ∧ w.st.command_pos - 1 < ↑LITE_MAX_LINE_LENGTH := by
    simp only [LITE_MAX_LINE_LENGTH] at hle ⊢
    push_cast at hle ⊢
    omega
  simp only [poke_command, h0, and_self, if_true, Option.map_some', Option.some.injEq] at h
  subst h
  have hn : w.st.command_pos = (((w.st.command_pos - 1).toNat + 1 : Nat) : Int) := by
    push_cast; omega
  rw [hn] at hstr
  have hs := strlen_erase hstr
  have hc : CmdOk ({ w with st := { w.st with
      command_buffer := w.st.command_buffer.set (w.st.command_pos - 1).toNat 0,
      command_pos := w.st.command_pos - 1 } } : World).st := by
    refine ⟨by simp [hlen], ?_, ?_⟩
    · show strlen (w.st.command_buffer.set (w.st.command_pos - 1).toNat 0)
        = some (w.st.command_pos - 1)
      rw [hs]
      congr 1
      omega
    · show w.st.command_pos - 1 ≤ _
      omega
  exact ⟨hc, fun _ hne => absurd hm hne, fun hne => absurd rfl hne⟩

theorem key_char {w w' : World} {key : Int} (hp : CmdOk w.st)
    (hk : key ≥ 32 ∧ key < 127 ∧ w.st.command_pos < ↑LITE_MAX_LINE_LENGTH - 1)
    (h : (match poke_command w.st w.st.command_pos key.toNat with
      | none => none
      | some st1 =>
        (poke_command { st1 with command_pos := st1.command_pos + 1 }
          (st1.command_pos + 1) 0).map (fun st2 => ({ w with st := st2 } : World)))
      = some w') :
    CmdOk w'.st ∧ w'.st.mode = w.st.mode := by
  obtain ⟨hlen, hstr, hle⟩ := hp
  have hp0 := strlen_nonneg hstr
  have hmax : (LITE_MAX_LINE_LENGTH : Int) = 1024 := rfl
  have h0 : 0 ≤ w.st.command_pos ∧ w.st.command_pos < ↑LITE_MAX_LINE_LENGTH := by omega
  have h1 : 0 ≤ w.st.command_pos + 1 ∧ w.st.command_pos + 1 < ↑LITE_MAX_LINE_LENGTH := by
    omega
  simp only [poke_command, h0, h1, and_self, if_true, Option.map_some',
    Option.some.injEq] at h
  subst h
  have hn : w.st.command_pos = ((w.st.command_pos.toNat : Nat) : Int) := by omega
  rw [hn] at hstr
  have hl2 : w.st.command_pos.toNat + 1 < w.st.command_buffer.length := by
    rw [hlen]; simp only [LITE_MAX_LINE_LENGTH]; omega
  have hs := strlen_append (v := key.toNat) hstr hl2 (by omega)
  refine ⟨⟨by simp [hlen], ?_, ?_⟩, rfl⟩
  · show strlen ((w.st.command_buffer.set w.st.command_pos.toNat key.toNat).set
        (w.st.command_pos + 1).toNat 0) = some (w.st.command_pos + 1)
    have e : (w.st.command_pos + 1).toNat = w.st.command_pos.toNat + 1 := by omega
    rw [e, hs]
    congr 1
    push_cast
    omega
  · show w.st.command_pos + 1 ≤ _
    omega


theorem process_key_post {w w' : World} {env : Env} {ok_re : Bool} {key : Int}
    (hp : CmdOk w.st) (h : editor_process_key w env ok_re key = some w') :
    CmdOk w'.st ∧ (CmdClear w.st → CmdClear w'.st) ∧
      (w'.st.mode ≠ w.st.mode → CmdClear w'.st) := by
  unfold editor_process_key at h
  split at h
  · simp at h
  · rename_i buffer _
    generalize hm : w.st.mode = m at h
    cases m with
    | MODE_NORMAL =>
      rw [← hm]
      simp only at h
      split_ifs at h
      · exact key_keep hp (on_buffer_frame h)
      · exact key_keep hp (on_buffer_frame h)
      · exact key_keep hp (on_buffer_frame h)
      · exact key_keep hp (on_buffer_frame h)
      · cases h
        exact key_reset w (t := _) (m := .MODE_INSERT) (by decide) rfl
      · exact key_colon hp h
      · cases h
        exact key_keep hp ⟨rfl, rfl, rfl⟩
      · cases h
        exact key_keep hp ⟨rfl, rfl, rfl⟩
      · cases h
        exact key_keep hp ⟨rfl, rfl, rfl⟩
    | MODE_INSERT =>
      rw [← hm]
      simp only at h
      split_ifs at h
      · cases h
        exact key_reset w (t := _) (m := .MODE_NORMAL) (by decide) rfl
      · exact key_keep hp (on_buffer_frame h)
      · exact key_keep hp (on_buffer_frame h)
      · exact key_keep hp (on_buffer_frame h)
      · cases h
        exact key_keep hp ⟨rfl, rfl, rfl⟩
    | MODE_COMMAND =>
      rw [← hm]
      simp only at h
      split_ifs at h with h1 h2 h3 h4 h5
      · cases h
        exact key_reset w (t := _) (m := .MODE_NORMAL) (by decide) rfl
      · exact key_backspace hp hm h3 h
      · cases h
        exact key_keep hp ⟨rfl, rfl, rfl⟩
      · split at h
        · simp at h
        · split_ifs at h
          · split at h
            · simp at h
            · cases h
              exact key_reset w (t := _) (m := .MODE_NORMAL) (by decide) rfl
          · cases h
            exact key_reset w (t := _) (m := .MODE_NORMAL) (by decide) rfl
      · obtain ⟨hc, hmode⟩ := key_char hp h5 h
        exact ⟨hc, fun _ hne => absurd (hmode.trans hm) hne,
          fun hne => absurd hmode hne⟩
      · cases h
        exact key_keep hp ⟨rfl, rfl, rfl⟩
    | MODE_VISUAL =>
      rw [← hm]
      simp only [Option.some.injEq] at h
      subst h
      exact key_reset w (t := _) (m := .MODE_NORMAL) (by decide) rfl


theorem command_key_defined {w : World} (env : Env) (ok_re : Bool) (key : Int)
    (hp : CmdOk w.st) (hm : w.st.mode = .MODE_COMMAND)
    (hcur : w.st.buffer_count > 0 →
      0 ≤ w.st.current_buffer ∧ w.st.current_buffer < ↑LITE_MAX_BUFFERS) :
    editor_process_key w env ok_re key = none ↔
      (key = KEY_ENTER ∨ key = 13 ∨ key = 10) ∧ 0 < w.st.command_pos ∧
        command_execute w env w.st.command_buffer = none := by
  obtain ⟨hlen, hstr, hle⟩ := hp
  have hp0 := strlen_nonneg hstr
  have hmax : (LITE_MAX_LINE_LENGTH : Int) = 1024 := rfl
  have hbuf : ∃ b, (if w.st.buffer_count > 0 then buffer_at w.st w.st.current_buffer
      else some none) = some b := by
    split
    · rename_i hc
      obtain ⟨h0, h1⟩ := hcur hc
      exact ⟨_, buffer_at_slot h0 h1⟩
    · exact ⟨none, rfl⟩
  obtain ⟨b, hb⟩ := hbuf
  unfold editor_process_key
  rw [hb]
  simp only [hm]
  by_cases k1 : key = 27
  · subst k1
    simp [KEY_ENTER]
  rw [if_neg k1]
  by_cases k2 : key = KEY_BACKSPACE ∨ key = 127
  · rw [if_pos k2]
    have hne : ¬ (key = KEY_ENTER ∨ key = 13 ∨ key = 10) := by
      simp only [KEY_BACKSPACE, KEY_ENTER] at k2 ⊢
      omega
    by_cases hpos : w.st.command_pos > 0
    · have h0 : 0 ≤ w.st.command_pos - 1 ∧ w.st.command_pos - 1 < ↑LITE_MAX_LINE_LENGTH := by
        omega
      simp [hpos, poke_command, h0, hne]
    · simp [hpos, hne]
  rw [if_neg k2]
  by_cases k3 : key = KEY_ENTER ∨ key = 13 ∨ key = 10
  · rw [if_pos k3, hstr]
    simp only
    by_cases hpos : w.st.command_pos > 0
    · rw [if_pos hpos]
      cases hce : command_execute w env w.st.command_buffer with
      | none => simp [k3, hpos]
      | some r => simp [k3]
    · rw [if_neg hpos]
      simp [k3, hpos]
  rw [if_neg k3]
  by_cases k4 : key ≥ 32 ∧ key < 127 ∧ w.st.command_pos < ↑LITE_MAX_LINE_LENGTH - 1
  · rw [if_pos k4]
    have h0 : 0 ≤ w.st.command_pos ∧ w.st.command_pos < ↑LITE_MAX_LINE_LENGTH := by omega
    have h1 : 0 ≤ w.st.command_pos + 1 ∧ w.st.command_pos + 1 < ↑LITE_MAX_LINE_LENGTH := by
      omega
    simp [poke_command, h0, h1, k3]
  · rw [if_neg k4]
    simp [k3]


theorem same_refl (st : EditorState) : CmdSame st st := ⟨rfl, rfl, rfl⟩

theorem same_trans {a b c : EditorState} (h1 : CmdSame a b) (h2 : CmdSame b c) : CmdSame a c :=
  ⟨h1.1.trans h2.1, h1.2.1.trans h2.2.1, h1.2.2.trans h2.2.2⟩

theorem set_buffer_same {st st' : EditorState} {i : Int} {b : Option State}
    (h : set_buffer st i b = some st') : CmdSame st' st := by
  unfold set_buffer at h
  split at h
  · cases h
    exact ⟨rfl, rfl, rfl⟩
  · simp at h

theorem add_buffer_same {st st' : EditorState} {b : State}
    (h : add_buffer st b = some st') : CmdSame st' st := by
  unfold add_buffer at h
  split at h
  · simp at h
  · rename_i st1 h1
    cases h
    exact same_trans (b := st1) ⟨rfl, rfl, rfl⟩ (set_buffer_same h1)

theorem shift_buffers_same : ∀ (k : Nat) {st st' : EditorState} {i : Int},
    shift_buffers k st i = some st' → CmdSame st' st := by
  intro k
  induction k with
  | zero =>
    intro st st' i h
    cases h
    exact same_refl _
  | succ k ih =>
    intro st st' i h
    simp only [shift_buffers] at h
    split at h
    · split at h
      · simp at h
      · split at h
        · simp at h
        · rename_i st1 h1
          exact same_trans (ih h) (set_buffer_same h1)
    · cases h
      exact same_refl _

theorem close_same {st st' : EditorState} {code : Int}
    (h : editor_close_current_buffer st = some (code, st')) : CmdSame st' st := by
  unfold editor_close_current_buffer at h
  split at h
  · cases h; exact same_refl _
  · split at h
    · simp at h
    · cases h; exact same_refl _
    · split at h
      · cases h; exact same_refl _
      · split at h
        · simp at h
        · split at h
          · simp at h
          · rename_i st1 h1
            have hs := shift_buffers_same _ h1
            simp only at h
            split at h <;> split at h <;> cases h <;> exact same_trans ⟨rfl, rfl, rfl⟩ hs

theorem switch_loop_same : ∀ (k : Nat) {st st' : EditorState} {i id code : Int},
    switch_loop k st i id = some (code, st') → CmdSame st' st := by
  intro k
  induction k with
  | zero =>
    intro st st' i id code h
    cases h
    exact same_refl _
  | succ k ih =>
    intro st st' i id code h
    simp only [switch_loop] at h
    split at h
    · split at h
      · simp at h
      · exact ih h
      · split at h
        · cases h; exact ⟨rfl, rfl, rfl⟩
        · exact ih h
    · cases h
      exact same_refl _

theorem switch_same {st st' : EditorState} {id code : Int}
    (h : editor_switch_buffer st id = some (code, st')) : CmdSame st' st :=
  switch_loop_same _ h

theorem open_same {w w' : World} {env : Env} {filename : List Nat} {code : Int}
    (h : editor_open_file w env filename = some (code, w')) : CmdSame w'.st w.st := by
  unfold editor_open_file at h
  split at h
  · cases h; exact same_refl _
  · split at h
    · cases h; exact same_refl _
    · split at h
      · simp at h
      · split at h
        · split at h
          · split at h
            · simp at h
            · rename_i st1 h1
              cases h
              exact add_buffer_same h1
          · split at h
            · simp at h
            · cases h; exact same_refl _
        · split at h
          · simp at h
          · rename_i st1 h1
            cases h
            exact add_buffer_same h1

theorem save_same {st st' : EditorState} {env : Env} {code : Int}
    (h : editor_save_current_buffer st env = some (code, st')) : CmdSame st' st := by
  unfold editor_save_current_buffer at h
  split at h
  · cases h; exact same_refl _
  · split at h
    · simp at h
    · cases h; exact same_refl _
    · split at h
      · cases h; exact same_refl _
      · split at h
        · simp at h
        · split at h
          · simp at h
          · rename_i st1 h1
            cases h
            exact set_buffer_same h1

theorem write_same {st st' : EditorState} {env : Env} {argv : List (List Nat)} {code : Int}
    (h : command_write st env argv = some (code, st')) : CmdSame st' st := by
  unfold command_write at h
  split at h
  · split at h
    · split at h
      · simp at h
      · exact save_same h
      · split at h
        · simp at h
        · rename_i st1 h1
          exact same_trans (save_same h) (set_buffer_same h1)
    · exact save_same h
  · exact save_same h

theorem quit_same {st st' : EditorState} {argv : List (List Nat)} {code : Int}
    (h : command_quit st argv = some (code, st')) : CmdSame st' st := by
  have hclose : ∀ {c s1}, (if st.buffer_count > 1 then editor_close_current_buffer st
      else some (LITE_OK, editor_quit st)) = some (c, s1) → CmdSame s1 st := by
    intro c s1 hc
    split at hc
    · exact close_same hc
    · cases hc; exact ⟨rfl, rfl, rfl⟩
  unfold command_quit at h
  simp only at h
  split at h
  · split at h
    · simp at h
    · split at h
      · cases h; exact same_refl _
      · exact hclose h
  · exact hclose h

theorem tab_same {w w' : World} {env : Env} {argv : List (List Nat)} {code : Int}
    (h : command_tab w env argv = some (code, w')) : CmdSame w'.st w.st := by
  unfold command_tab at h
  split at h
  · split at h
    · split at h
      · cases h; exact same_refl _
      · split at h
        · split at h
          · simp at h
          · cases h; exact same_refl _
        · split at h
          · simp at h
          · rename_i st1 h1
            cases h
            exact add_buffer_same h1
    · split at h
      · cases h; exact same_refl _
      · split at h
        · simp at h
        · rename_i id _
          cases hs : editor_switch_buffer w.st id with
          | none => simp [hs] at h
          | some r =>
            simp only [hs, Option.map_some', Option.some.injEq, Prod.mk.injEq] at h
            rw [← h.2]
            exact switch_same (show editor_switch_buffer w.st _ = some (r.1, r.2) from hs)
  · cases h; exact same_refl _

theorem run_command_same {f : CommandFunc} {w w' : World} {env : Env}
    {argv : List (List Nat)} {code : Int}
    (h : run_command f w env argv = some (code, w')) : CmdSame w'.st w.st := by
  cases f with
  | command_open =>
    simp only [run_command, command_open] at h
    split at h
    · exact open_same h
    · cases h; exact same_refl _
  | command_write =>
    simp only [run_command] at h
    cases hs : command_write w.st env argv with
    | none => simp [hs] at h
    | some r =>
      simp only [hs, Option.map_some', Option.some.injEq, Prod.mk.injEq] at h
      rw [← h.2]
      exact write_same (show command_write w.st env argv = some (r.1, r.2) from hs)
  | command_quit =>
    simp only [run_command] at h
    cases hs : command_quit w.st argv with
    | none => simp [hs] at h
    | some r =>
      simp only [hs, Option.map_some', Option.some.injEq, Prod.mk.injEq] at h
      rw [← h.2]
      exact quit_same (show command_quit w.st argv = some (r.1, r.2) from hs)
  | command_tab => exact tab_same h
  | command_theme =>
    simp only [run_command, Option.some.injEq, Prod.mk.injEq] at h
    rw [← h.2]; exact same_refl _
  | command_help =>
    simp only [run_command, Option.some.injEq, Prod.mk.injEq] at h
    rw [← h.2]; exact same_refl _

theorem execute_same {w w' : World} {env : Env} {line : List Nat} {code : Int}
    (h : command_execute w env line = some (code, w')) : CmdSame w'.st w.st := by
  unfold command_execute at h
  split at h
  · cases h; exact same_refl _
  · split at h
    · exact run_command_same h
    · cases h; exact same_refl _

theorem ed_step_same {w w' : World} {op : EdOp} (h : ed_step w op = some w') :
    CmdSame w'.st w.st := by
  cases op with
  | open_file filename env =>
    simp only [ed_step] at h
    cases hs : editor_open_file w env filename with
    | none => simp [hs] at h
    | some r =>
      simp only [hs, Option.map_some', Option.some.injEq] at h
      rw [← h]
      exact open_same (show editor_open_file w env filename = some (r.1, r.2) from hs)
  | tab_new env =>
    simp only [ed_step] at h
    cases hs : command_execute w env [116, 97, 98, 32, 110, 101, 119] with
    | none => simp [hs] at h
    | some r =>
      simp only [hs, Option.map_some', Option.some.injEq] at h
      rw [← h]
      exact execute_same (show command_execute w env _ = some (r.1, r.2) from hs)
  | switch_buffer id =>
    simp only [ed_step] at h
    cases hs : editor_switch_buffer w.st id with
    | none => simp [hs] at h
    | some r =>
      simp only [hs, Option.map_some', Option.some.injEq] at h
      rw [← h]
      exact switch_same (show editor_switch_buffer w.st _ = some (r.1, r.2) from hs)
  | close_current =>
    simp only [ed_step] at h
    cases hs : editor_close_current_buffer w.st with
    | none => simp [hs] at h
    | some r =>
      simp only [hs, Option.map_some', Option.some.injEq] at h
      rw [← h]
      exact close_same (show editor_close_current_buffer w.st = some (r.1, r.2) from hs)

theorem play_ok : ∀ (events : List Event) {w w0 : World}, CmdOk w.st → CmdClear w.st →
    play events w = some w0 → CmdOk w0.st ∧ CmdClear w0.st := by
  intro events
  induction events with
  | nil =>
    intro w w0 h1 h2 h
    cases h
    exact ⟨h1, h2⟩
  | cons e es ih =>
    intro w w0 h1 h2 h
    simp only [play] at h
    split at h
    · simp at h
    · rename_i w1 hs
      cases e with
      | key env ok_re code =>
        obtain ⟨k1, k2, _⟩ := process_key_post h1 (show editor_process_key w env ok_re code = some w1 from hs)
        exact ih k1 (k2 h2) h
      | op e =>
        obtain ⟨m1, m2, m3⟩ := ed_step_same (show ed_step w e = some w1 from hs)
        obtain ⟨k1, k2⟩ := cmd_frame m1 m2 m3
        exact ih (k1 h1) (k2 h2) h

theorem init_cmd (next_id : Int) :
    CmdOk (init_world next_id).st ∧ CmdClear (init_world next_id).st :=
  ⟨⟨List.length_replicate _ _, strlen_zeros,
    (by decide : (0 : Int) ≤ ↑LITE_MAX_LINE_LENGTH - 1)⟩, fun _ => ⟨strlen_zeros, rfl⟩⟩

/-- C37. When `command_pos` is the length of the C string in
`command_buffer` and at most `LITE_MAX_LINE_LENGTH - 1`, this holds again
after `editor_process_key` for every key in every mode. In command mode, the
read of `buffers[current_buffer]` being inside the array, the only call
without a defined result is an Enter key on a command whose execution has
none: every store into `command_buffer` is inside the array. If the command
line was empty with `command_pos = 0` outside command mode before the key, or
if the key changes the mode, it is so afterwards. Every state the editor
reaches from `editor_init` through keys and operations on the buffer set has
both properties: outside command mode its command line is empty and
`command_pos` is 0. -/
theorem command_buffer_safe (w : World) (env : Env) (ok_re : Bool) (key : Int)
    (hp : CmdOk w.st) :
    (∀ w', editor_process_key w env ok_re key = some w' →
      CmdOk w'.st ∧ (CmdClear w.st → CmdClear w'.st) ∧
        (w'.st.mode ≠ w.st.mode → CmdClear w'.st)) ∧
    (w.st.mode = .MODE_COMMAND →
      (w.st.buffer_count > 0 →
        0 ≤ w.st.current_buffer ∧ w.st.current_buffer < ↑LITE_MAX_BUFFERS) →
      (editor_process_key w env ok_re key = none ↔
        (key = KEY_ENTER ∨ key = 13 ∨ key = 10) ∧ 0 < w.st.command_pos ∧
          command_execute w env w.st.command_buffer = none)) ∧
    (∀ next_id events w0, play events (init_world next_id) = some w0 →
      CmdOk w0.st ∧ CmdClear w0.st) :=
  ⟨fun _ h => process_key_post hp h, fun hm hcur => command_key_defined env ok_re key hp hm hcur,
    fun next_id events _ h => play_ok events (init_cmd next_id).1 (init_cmd next_id).2 h⟩

theorem command_buffer_safe_witness :
    CmdOk (command_world [116, 97]).st ∧
    (editor_process_key (command_world [116, 97]) plain_env true 98).map
        (fun w => (w.st.mode, w.st.command_pos, w.st.command_buffer.take 4))
      = some (.MODE_COMMAND, 3, [116, 97, 98, 0]) ∧
    (editor_process_key (command_world [116, 97]) plain_env true 27).map
        (fun w => (w.st.mode, w.st.command_pos, w.st.command_buffer.take 4))
      = some (.MODE_NORMAL, 0, [0, 0, 0, 0]) ∧
    (play [.key plain_env true 58, .key plain_env true 120, .key plain_env true 27,
           .op (.tab_new plain_env), .key plain_env true 105, .key plain_env true 120]
        (init_world 1)).map
        (fun w => (w.st.mode, w.st.command_pos, w.st.command_buffer.take 2))
      = some (.MODE_INSERT, 0, [0, 0]) ∧
    ∀ w', editor_process_key (command_world [116, 97]) plain_env true 98 = some w' →
      CmdOk w'.st ∧
        (CmdClear (command_world [116, 97]).st → CmdClear w'.st) ∧
        (w'.st.mode ≠ .MODE_COMMAND → CmdClear w'.st) :=
  ⟨by set_option maxRecDepth 100000 in decide, by set_option maxRecDepth 100000 in decide,
    by set_option maxRecDepth 100000 in decide, by set_option maxRecDepth 100000 in decide,
    (command_buffer_safe (command_world [116, 97]) plain_env true 98
      (by set_option maxRecDepth 100000 in decide)).1⟩

end Lite
